import Mathlib

/-! FileZilla engine core: control socket, cache-lock arbiter, operation stack, writer ring.

A shallow embedding of `src/engine/ControlSocket.cpp` and `src/engine/writer.cpp`.

Conventions of the embedding:

* a control socket is identified by a natural number (the C++ object address `this`);
  the process-wide state is a `World` (the static `m_lockInfoList`, every socket's fields,
  and ghost logs of posted events, emitted messages and destroyed frames);
* the linked list `m_pCurOpData -> pNextOpData -> ...` is a `List COpData` whose head is the
  current operation; the empty list is the null pointer;
* C++ `int` values are `Int` (reply codes, which are bit sets, are `Nat`), `size_t` values
  are `Nat` with explicit wrap-around at `2^64` where the source decrements or subtracts;
* virtual methods implemented by protocol drivers (`Send`, `SubcommandResult`,
  `CanSendNextCommand`) and engine services are parameters (`Hooks`);
* functions that may recurse without bound take a fuel argument and return `none` when the
  fuel runs out.
-/

namespace FZ

/-! ## Reply codes -/

/-- Modelled from the spec: the reply-code bitset of the missing header (`OK`, `ERROR`,
`CRITICALERROR = ERROR|CRITICAL`, `CANCELED`, `DISCONNECTED`, ... each its own bit, the error
kinds carrying the `ERROR` bit). -/
def FZ_REPLY_OK : Nat := 0x0000
/-- Modelled from the spec: flow signal `WOULDBLOCK`. -/
def FZ_REPLY_WOULDBLOCK : Nat := 0x0001
/-- Modelled from the spec: the `ERROR` bit. -/
def FZ_REPLY_ERROR : Nat := 0x0002
/-- Modelled from the spec: `CRITICALERROR = ERROR|CRITICAL`. -/
def FZ_REPLY_CRITICALERROR : Nat := 0x0004 ||| FZ_REPLY_ERROR
/-- Modelled from the spec: `CANCELED`, an error kind. -/
def FZ_REPLY_CANCELED : Nat := 0x0008 ||| FZ_REPLY_ERROR
/-- Modelled from the spec: the `DISCONNECTED` bit. -/
def FZ_REPLY_DISCONNECTED : Nat := 0x0040
/-- Modelled from the spec: `INTERNALERROR`, an error kind. -/
def FZ_REPLY_INTERNALERROR : Nat := 0x0080 ||| FZ_REPLY_ERROR
/-- Modelled from the spec: `TIMEOUT`, an error kind. -/
def FZ_REPLY_TIMEOUT : Nat := 0x0800 ||| FZ_REPLY_ERROR
/-- Modelled from the spec: `NOTSUPPORTED`, an error kind. -/
def FZ_REPLY_NOTSUPPORTED : Nat := 0x1000 ||| FZ_REPLY_ERROR
/-- Modelled from the spec: flow signal `CONTINUE`. -/
def FZ_REPLY_CONTINUE : Nat := 0x8000

/-- Modelled from the spec: the errno value `EAGAIN` of the platform headers. -/
def EAGAIN : Int := 11

/-! ## Data model -/

/-- Address of a control socket object (`this`). -/
abbrev SocketId := Nat

/-- Bytes of a `char` buffer. -/
abbrev Byte := Nat

/-- Modelled from the spec: the command identifiers of the missing `commands.h`; the source
distinguishes `none`, `connect`, `list`, `transfer` and treats every other id alike. -/
inductive Command where
  | none
  | connect
  | list
  | transfer
  | other (n : Nat)
deriving DecidableEq, Repr

/-- Modelled from the spec: `locking_reason` of the missing `ControlSocket.h`
(`lock_unknown` is what `ObtainLockFromEvent` returns when no lock was obtained). -/
inductive locking_reason where
  | lock_unknown
  | lock_list
  | lock_mkdir
deriving DecidableEq, Repr

/-- Modelled from the spec: a server path; `none` is the empty path, `some segs` an
absolute path with the given segments. Only equality and emptiness are used here. -/
abbrev CServerPath := Option (List String)

/-- Modelled from the spec: a server identity; `none` is the empty (cleared) server, for
which `operator bool` is false. -/
abbrev CServer := Option Nat

/-- Message classes of `LogMessage` that reach the user (debug classes are not recorded). -/
inductive MessageType where
  | Status
  | Error
deriving DecidableEq, Repr

/-- Modelled from the spec: a point in time (`fz::datetime`), in milliseconds; `none` is the
empty time. -/
abbrev datetime := Option Int

/-- Modelled from the spec: `datetime::earlier_than`, the strict order of two times. -/
def earlier_than (a b : datetime) : Bool :=
  match a, b with
  | some x, some y => decide (x < y)
  | _, _ => false

/-- Modelled from the spec: `datetime::later_than`. -/
def later_than (a b : datetime) : Bool :=
  match a, b with
  | some x, some y => decide (x > y)
  | _, _ => false

/-- Modelled from the spec: the values of `CFileExistsNotification::OverwriteAction` of the
missing `notification.h`; `unknown` and `ask` are the values that `SetFileExistsAction` does
not handle. -/
inductive OverwriteAction where
  | unknown
  | ask
  | overwrite
  | overwriteNewer
  | overwriteSize
  | overwriteSizeOrNewer
  | resume
  | rename
  | skip
deriving DecidableEq, Repr

/-- Modelled from the spec: the class `CFileExistsNotification` of the missing
`notification.h` (an async request), with the fields that `CheckOverwriteFile` fills in and
the reply fields `overwriteAction` and `newName`. -/
structure CFileExistsNotification where
  requestNumber : Nat := 0
  download : Bool := false
  localFile : String := ""
  localSize : Int := -1
  localTime : datetime := none
  remoteFile : String := ""
  remotePath : CServerPath := none
  remoteSize : Int := -1
  remoteTime : datetime := none
  ascii : Bool := false
  canResume : Bool := false
  overwriteAction : OverwriteAction := OverwriteAction.unknown
  newName : String := ""
deriving DecidableEq, Repr

/-- Modelled from the spec: a directory-cache entry, as far as `CheckOverwriteFile` and
`SetFileExistsAction` read it; `has_date()` is `time.isSome`. -/
structure CDirentry where
  size : Int := -1
  time : datetime := none
deriving DecidableEq, Repr

/-- Notifications handed to `engine_.AddNotification`. -/
inductive Notification where
  | directory_listing (path : CServerPath) (modified : Bool) (failed : Bool)
  | file_exists (n : CFileExistsNotification)
deriving DecidableEq, Repr

/-- The class `COpData` with the members of `CFileTransferOpData` that `ResetOperation`,
`CheckOverwriteFile` and `SetFileExistsAction` read or write (`binary` is
`transferSettings_.binary`). `addr` is the address of the heap object, used only to tell
frames apart. -/
structure COpData where
  addr : Nat
  opId : Command
  holdsLock_ : Bool := false
  waitForAsyncRequest : Bool := false
  download_ : Bool := false
  transferInitiated_ : Bool := false
  remotePath_ : CServerPath := none
  remoteFile_ : String := ""
  localFileSize_ : Int := -1
  localFile_ : String := ""
  remoteFileSize_ : Int := -1
  fileTime_ : datetime := none
  resume_ : Bool := false
  tryAbsolutePath_ : Bool := false
  binary : Bool := true
deriving DecidableEq, Repr

/-- The struct `t_lockInfo`: one record of the global lock list. -/
structure t_lockInfo where
  pControlSocket : SocketId
  directory : CServerPath
  reason : locking_reason
  waiting : Bool
  lockcount : Int
deriving DecidableEq, Repr

/-- Fields of `CControlSocket` and of its subclass `CRealControlSocket`.
`m_pCurOpData` is the operation stack (head = current operation); `m_timer` is the armed
one-shot timer with its interval in milliseconds (`none` is timer id 0);
`m_pSendBuffer` is the spill buffer (`none` is the null pointer) and `m_nSendBufferLen` its
length; `m_pBackend` tells whether a backend exists. The remaining fields are ghost logs:
`sent` collects the bytes the backend accepted, `destroyed` the addresses of the frames
deleted so far (oldest first), `messages` the user-visible log lines,
`subcommandResults` the number of `SubcommandResult` invocations. -/
structure CControlSocket where
  m_pCurOpData : List COpData := []
  currentServer_ : CServer := none
  m_CurrentPath : CServerPath := none
  m_closed : Bool := false
  m_invalidateCurrentPath : Bool := false
  m_lastActivity : Nat := 0
  m_timer : Option Int := none
  isReal : Bool := true
  m_pBackend : Bool := true
  m_pProxyBackend : Bool := false
  m_pSendBuffer : Option (List Byte) := none
  m_nSendBufferLen : Int := 0
  sent : List Byte := []
  destroyed : List Nat := []
  messages : List (MessageType × String) := []
  subcommandResults : Nat := 0

/-- The process: the static lock list, all control sockets, the option `OPTION_TIMEOUT`
(seconds), the monotonic clock (milliseconds), the engine's counter of async request
numbers, and ghost logs of the `CObtainLockEvent`s posted (receiver socket, in posting
order) and of the notifications queued on the engine. -/
structure World where
  m_lockInfoList : List t_lockInfo := []
  sockets : SocketId → CControlSocket := fun _ => {}
  timeout : Int := 0
  now : Nat := 0
  obtainLockEvents : List SocketId := []
  notifications : List Notification := []
  nextAsyncRequestNumber : Nat := 0

/-- Replace the state of one socket. -/
def World.setSocket (w : World) (self : SocketId) (s : CControlSocket) : World :=
  { w with sockets := fun i => if i = self then s else w.sockets i }

/-- Server of a socket (`pControlSocket->currentServer_`). -/
def World.serverOf (w : World) (s : SocketId) : CServer := (w.sockets s).currentServer_

/-- Services outside `ControlSocket.cpp`: the virtual methods of the protocol-specific
operations and of the socket (`Send`, `SubcommandResult`, `CanSendNextCommand`), the engine's
own `ResetOperation` and `GetCurrentCommandId`, the directory cache's `UpdateFile`, and the
two facts that `LogTransferResultMessage` reads from the engine's transfer status.
For the overwrite check: `localIsFile name` tells whether `get_file_type` finds a regular
file, `localModificationTime` and `localFileSize` are `get_modification_time` and the size
that `get_file_info` reports for a regular file (`none` otherwise), `LookupFile` is the
directory cache's lookup (found, matched case, entry), and `renameLocalFile file newName` is
the `CLocalPath` computation of the renamed download target (`none` when one of its steps
fails). They are parameters of the model. -/
structure Hooks where
  Send : SocketId → World → Nat × World
  SubcommandResult : SocketId → Nat → COpData → World → Nat × World
  CanSendNextCommand : SocketId → World → Bool
  engineResetOperation : Nat → Nat
  engineGetCurrentCommandId : Command
  UpdateFile : SocketId → COpData → Int → Bool
  transferStatusEmpty : Bool
  transferStatusMadeProgress : Bool
  localIsFile : String → Bool := fun _ => false
  localModificationTime : String → datetime := fun _ => none
  localFileSize : String → Option Int := fun _ => none
  LookupFile : CServer → CServerPath → String → Bool × Bool × CDirentry :=
    fun _ _ _ => (false, false, {})
  renameLocalFile : String → String → Option String := fun _ _ => none

/-! ## Cache lock arbiter -/

/-- The function `CControlSocket::GetLockStatus`: position of the first record owned by `self`,
as the records before it, the record itself and the records after it; `none` is `end()`. -/
def GetLockStatus (self : SocketId) :
    List t_lockInfo → Option (List t_lockInfo × t_lockInfo × List t_lockInfo)
  | [] => none
  | r :: rs =>
    if r.pControlSocket = self then some ([], r, rs)
    else
      match GetLockStatus self rs with
      | none => none
      | some (pre, own, post) => some (r :: pre, own, post)

/-- The three `continue` tests of the scan loops in `TryLockCache` and `ObtainLockFromEvent`:
the record `r` is on the same server and has the given directory and reason. -/
def lockMatches (w : World) (server : CServer) (directory : CServerPath)
    (reason : locking_reason) (r : t_lockInfo) : Bool :=
  decide (server = w.serverOf r.pControlSocket) && decide (directory = r.directory)
    && decide (reason = r.reason)

/-- Set `holdsLock_` of the current operation of `self`. -/
def World.setHoldsLock (w : World) (self : SocketId) (b : Bool) : World :=
  match (w.sockets self).m_pCurOpData with
  | [] => w
  | cur :: rest =>
    w.setSocket self { w.sockets self with m_pCurOpData := { cur with holdsLock_ := b } :: rest }

/-- The function `CControlSocket::TryLockCache`. `none` is the null dereference when there is
no current operation; the other assertions are not checked (release build). -/
def TryLockCache (self : SocketId) (reason : locking_reason) (directory : CServerPath)
    (w : World) : Option (Bool × World) :=
  match (w.sockets self).m_pCurOpData with
  | [] => none
  | cur :: _ =>
    match GetLockStatus self w.m_lockInfoList with
    | none =>
      let info : t_lockInfo :=
        { pControlSocket := self, directory := directory, reason := reason,
          waiting := true, lockcount := 0 }
      let w1 := w.setHoldsLock self true
      if w.m_lockInfoList.any (lockMatches w (w.serverOf self) directory reason) then
        some (false, { w1 with m_lockInfoList := w.m_lockInfoList ++ [info] })
      else
        some (true, { w1 with m_lockInfoList := w.m_lockInfoList ++
          [{ info with lockcount := info.lockcount + 1, waiting := false }] })
    | some (pre, own, post) =>
      if own.lockcount ≠ 0 then
        if !cur.holdsLock_ then
          some (true, { w.setHoldsLock self true with
            m_lockInfoList := pre ++ { own with lockcount := own.lockcount + 1 } :: post })
        else some (true, w)
      else
        let w1 := w.setHoldsLock self true
        if pre.any (lockMatches w (w.serverOf self) directory reason) then
          some (false, w1)
        else
          some (true, { w1 with m_lockInfoList :=
            pre ++ { own with lockcount := own.lockcount + 1, waiting := false } :: post })

/-- The notification loop at the end of `CControlSocket::UnlockCache`: the first record whose
socket has a non-empty server equal to the unlocking socket's, and the erased record's
directory and reason. -/
def unlockWakeTest (w : World) (server : CServer) (directory : CServerPath)
    (reason : locking_reason) (r : t_lockInfo) : Bool :=
  (w.serverOf r.pControlSocket).isSome && decide (server = w.serverOf r.pControlSocket)
    && decide (r.directory = directory) && decide (r.reason = reason)

/-- Erase the record `own` (the list becomes `pre ++ post`) and post the `CObtainLockEvent`:
the tail of `CControlSocket::UnlockCache` from `m_lockInfoList.erase(iter)` on. -/
def eraseAndNotify (self : SocketId) (pre : List t_lockInfo) (own : t_lockInfo)
    (post : List t_lockInfo) (w : World) : World :=
  let w1 := { w with m_lockInfoList := pre ++ post }
  if (w.serverOf self).isNone then w1
  else
    match (pre ++ post).find? (unlockWakeTest w (w.serverOf self) own.directory own.reason) with
    | none => w1
    | some r => { w1 with obtainLockEvents := w1.obtainLockEvents ++ [r.pControlSocket] }

/-- The function `CControlSocket::UnlockCache`. -/
def UnlockCache (self : SocketId) (w : World) : World :=
  match (w.sockets self).m_pCurOpData with
  | [] => w
  | cur :: _ =>
    if !cur.holdsLock_ then w
    else
      let w1 := w.setHoldsLock self false
      match GetLockStatus self w1.m_lockInfoList with
      | none => w1
      | some (pre, own, post) =>
        if !own.waiting then
          if own.lockcount - 1 ≠ 0 then
            { w1 with m_lockInfoList := pre ++ { own with lockcount := own.lockcount - 1 } :: post }
          else
            eraseAndNotify self pre { own with lockcount := own.lockcount - 1 } post w1
        else
          eraseAndNotify self pre own post w1

/-- The function `CControlSocket::ObtainLockFromEvent`. -/
def ObtainLockFromEvent (self : SocketId) (w : World) : locking_reason × World :=
  match (w.sockets self).m_pCurOpData with
  | [] => (locking_reason.lock_unknown, w)
  | _ :: _ =>
    match GetLockStatus self w.m_lockInfoList with
    | none => (locking_reason.lock_unknown, w)
    | some (pre, own, post) =>
      if !own.waiting then (locking_reason.lock_unknown, w)
      else if pre.any (lockMatches w (w.serverOf self) own.directory own.reason) then
        (locking_reason.lock_unknown, w)
      else
        (own.reason, { w with m_lockInfoList :=
          pre ++ { own with waiting := false, lockcount := own.lockcount + 1 } :: post })

/-- The function `CControlSocket::IsWaitingForLock`. -/
def IsWaitingForLock (self : SocketId) (w : World) : Bool :=
  match GetLockStatus self w.m_lockInfoList with
  | none => false
  | some (_, own, _) => own.waiting

/-! ## Operation stack -/

/-- The function `CControlSocket::GetCurrentCommandId`. -/
def GetCurrentCommandId (h : Hooks) (self : SocketId) (w : World) : Command :=
  match (w.sockets self).m_pCurOpData with
  | cur :: _ => cur.opId
  | [] => h.engineGetCurrentCommandId

/-- The function `CControlSocket::Push`: the new frame is linked in front of the current one. -/
def Push (self : SocketId) (pNewOpData : COpData) (w : World) : World :=
  w.setSocket self
    { w.sockets self with m_pCurOpData := pNewOpData :: (w.sockets self).m_pCurOpData }

/-- A `LogMessage` call with a user-visible message class. -/
def LogMessage (self : SocketId) (t : MessageType) (msg : String) (w : World) : World :=
  w.setSocket self { w.sockets self with messages := (w.sockets self).messages ++ [(t, msg)] }

/-- The effect of `delete` on a frame: its address is appended to the destruction log. -/
def deleteOpData (self : SocketId) (op : COpData) (w : World) : World :=
  w.setSocket self { w.sockets self with destroyed := (w.sockets self).destroyed ++ [op.addr] }

/-- The function `CControlSocket::SetWait`. -/
def SetWait (self : SocketId) (wait : Bool) (w : World) : World :=
  let s := w.sockets self
  if wait then
    if s.m_timer.isSome then w
    else
      let s1 := { s with m_lastActivity := w.now }
      if w.timeout = 0 then w.setSocket self s1
      else w.setSocket self { s1 with m_timer := some (w.timeout * 1000 + 100) }
  else w.setSocket self { s with m_timer := none }

/-- The function `CControlSocket::SendDirectoryListingNotification`. -/
def SendDirectoryListingNotification (self : SocketId) (path : CServerPath) (onList : Bool)
    (failed : Bool) (w : World) : World :=
  if (w.serverOf self).isNone then w
  else { w with notifications :=
    w.notifications ++ [Notification.directory_listing path (!onList) failed] }

/-- The function `CControlSocket::LogTransferResultMessage` (the formatted size and time are
not part of the recorded text). -/
def LogTransferResultMessage (h : Hooks) (self : SocketId) (nErrorCode : Nat) (pData : COpData)
    (w : World) : World :=
  if !h.transferStatusEmpty && (nErrorCode = FZ_REPLY_OK || h.transferStatusMadeProgress) then
    if nErrorCode = FZ_REPLY_OK then
      LogMessage self MessageType.Status "File transfer successful, transferred %s in %s" w
    else if nErrorCode &&& FZ_REPLY_CANCELED = FZ_REPLY_CANCELED then
      LogMessage self MessageType.Error
        "File transfer aborted by user after transferring %s in %s" w
    else if nErrorCode &&& FZ_REPLY_CRITICALERROR = FZ_REPLY_CRITICALERROR then
      LogMessage self MessageType.Error
        "Critical file transfer error after transferring %s in %s" w
    else
      LogMessage self MessageType.Error "File transfer failed after transferring %s in %s" w
  else
    if nErrorCode &&& FZ_REPLY_CANCELED = FZ_REPLY_CANCELED then
      LogMessage self MessageType.Error "File transfer aborted by user" w
    else if nErrorCode = FZ_REPLY_OK then
      if pData.transferInitiated_ then
        LogMessage self MessageType.Status "File transfer successful" w
      else
        LogMessage self MessageType.Status "File transfer skipped" w
    else if nErrorCode &&& FZ_REPLY_CRITICALERROR = FZ_REPLY_CRITICALERROR then
      LogMessage self MessageType.Error "Critical file transfer error" w
    else
      LogMessage self MessageType.Error "File transfer failed" w

/-- The `switch (commandId)` of `CControlSocket::ResetOperation`: the user-facing message of
the root frame `cur`, and for an initiated upload the directory-cache update. -/
def resetRootMessages (h : Hooks) (self : SocketId) (nErrorCode : Nat) (pfx : String)
    (cur : COpData) (w : World) : World :=
  match cur.opId with
  | Command.none =>
    if pfx ≠ "" then LogMessage self MessageType.Error "Critical error" w else w
  | Command.connect =>
    if nErrorCode &&& FZ_REPLY_CANCELED = FZ_REPLY_CANCELED then
      LogMessage self MessageType.Error (pfx ++ "Connection attempt interrupted by user") w
    else if nErrorCode ≠ FZ_REPLY_OK then
      LogMessage self MessageType.Error (pfx ++ "Could not connect to server") w
    else w
  | Command.list =>
    if nErrorCode &&& FZ_REPLY_CANCELED = FZ_REPLY_CANCELED then
      LogMessage self MessageType.Error (pfx ++ "Directory listing aborted by user") w
    else if nErrorCode ≠ FZ_REPLY_OK then
      LogMessage self MessageType.Error (pfx ++ "Failed to retrieve directory listing") w
    else if (w.sockets self).m_CurrentPath.isNone then
      LogMessage self MessageType.Status "Directory listing successful" w
    else
      LogMessage self MessageType.Status "Directory listing of \"%s\" successful" w
  | Command.transfer =>
    let w1 :=
      if !cur.download_ && cur.transferInitiated_ then
        if (w.serverOf self).isNone then w
        else if h.UpdateFile self cur
            (if nErrorCode = FZ_REPLY_OK then cur.localFileSize_ else -1) then
          SendDirectoryListingNotification self cur.remotePath_ false false w
        else w
      else w
    LogTransferResultMessage h self nErrorCode cur w1
  | Command.other _ =>
    if nErrorCode &&& FZ_REPLY_CANCELED = FZ_REPLY_CANCELED then
      LogMessage self MessageType.Error (pfx ++ "Interrupted by user") w
    else w

/-- The part of `CControlSocket::ResetOperation` after the parent test (source lines 169 to
246): the frame that is left, if any, is the root; it is reported, deleted and unlinked, the
timer is disarmed, the deferred path invalidation is applied, and the engine's reset value
is returned. -/
def resetRoot (h : Hooks) (self : SocketId) (nErrorCode : Nat) (w : World) : Nat × World :=
  let pfx : String :=
    if decide (nErrorCode &&& FZ_REPLY_CRITICALERROR = FZ_REPLY_CRITICALERROR) &&
        (match (w.sockets self).m_pCurOpData with
          | [] => true
          | cur :: _ => decide (cur.opId ≠ Command.transfer))
    then "Critical error: " else ""
  let w1 :=
    match (w.sockets self).m_pCurOpData with
    | [] => w
    | cur :: _ =>
      let wm := resetRootMessages h self nErrorCode pfx cur w
      let wd := deleteOpData self cur wm
      wd.setSocket self { wd.sockets self with m_pCurOpData := [] }
  let w2 := SetWait self false w1
  let w3 :=
    if (w2.sockets self).m_invalidateCurrentPath then
      w2.setSocket self
        { w2.sockets self with m_CurrentPath := none, m_invalidateCurrentPath := false }
    else w2
  (h.engineResetOperation nErrorCode, w3)

/-- The function `CRealControlSocket::ResetSocket`. -/
def ResetSocket (self : SocketId) (w : World) : World :=
  let s := w.sockets self
  let s1 := if s.m_pSendBuffer.isSome then
      { s with m_pSendBuffer := none, m_nSendBufferLen := 0 } else s
  w.setSocket self { s1 with m_pProxyBackend := false, m_pBackend := false }

/-- Ghost step: one more invocation of a frame's `SubcommandResult` is recorded. -/
def countSubcommandResult (self : SocketId) (w : World) : World :=
  w.setSocket self
    { w.sockets self with subcommandResults := (w.sockets self).subcommandResults + 1 }

/-- The first statement of `CControlSocket::ResetOperation`:
`if (m_pCurOpData && m_pCurOpData->holdsLock_) UnlockCache();`. -/
def unlockIfHolds (self : SocketId) (w : World) : World :=
  match (w.sockets self).m_pCurOpData with
  | cur :: _ => if cur.holdsLock_ then UnlockCache self w else w
  | [] => w

/-- Entry points of the mutually recursive functions of the operation stack. -/
inductive Call where
  | ResetOperation (nErrorCode : Nat)
  | ParseSubcommandResult (prevResult : Nat) (opData : COpData)
  | SendNextCommand
  | SendNextCommandLoop
  | DoClose (nErrorCode : Nat)

/-- The mutually recursive functions `CControlSocket::ResetOperation`,
`ParseSubcommandResult`, `SendNextCommand` (its entry check and its `while` loop) and
`DoClose` (for a `CRealControlSocket` preceded by `ResetSocket`), with a fuel bound on the
nesting depth. -/
def exec (h : Hooks) (self : SocketId) : Nat → Call → World → Option (Nat × World)
  | 0, _, _ => none
  | fuel + 1, Call.ResetOperation nErrorCode, w =>
    let w1 := unlockIfHolds self w
    match (w1.sockets self).m_pCurOpData with
    | oldOpData :: parent :: rest =>
      let w2 := w1.setSocket self { w1.sockets self with m_pCurOpData := parent :: rest }
      let r :=
        if nErrorCode = FZ_REPLY_OK ∨ nErrorCode = FZ_REPLY_ERROR ∨
            nErrorCode = FZ_REPLY_CRITICALERROR then
          exec h self fuel (Call.ParseSubcommandResult nErrorCode oldOpData) w2
        else
          exec h self fuel (Call.ResetOperation nErrorCode) w2
      match r with
      | none => none
      | some (ret, w3) => some (ret, deleteOpData self oldOpData w3)
    | _ => some (resetRoot h self nErrorCode w1)
  | fuel + 1, Call.ParseSubcommandResult prevResult opData, w =>
    match (w.sockets self).m_pCurOpData with
    | [] =>
      match exec h self fuel (Call.ResetOperation FZ_REPLY_ERROR) w with
      | none => none
      | some (_, w1) => some (FZ_REPLY_ERROR, w1)
    | _ :: _ =>
      let res := h.SubcommandResult self prevResult opData (countSubcommandResult self w)
      if res.1 = FZ_REPLY_WOULDBLOCK then some (FZ_REPLY_WOULDBLOCK, res.2)
      else if res.1 = FZ_REPLY_CONTINUE then exec h self fuel Call.SendNextCommand res.2
      else exec h self fuel (Call.ResetOperation res.1) res.2
  | fuel + 1, Call.SendNextCommand, w =>
    match (w.sockets self).m_pCurOpData with
    | [] =>
      match exec h self fuel (Call.ResetOperation FZ_REPLY_ERROR) w with
      | none => none
      | some (_, w1) => some (FZ_REPLY_ERROR, w1)
    | _ :: _ => exec h self fuel Call.SendNextCommandLoop w
  | fuel + 1, Call.SendNextCommandLoop, w =>
    match (w.sockets self).m_pCurOpData with
    | [] => some (FZ_REPLY_OK, w)
    | cur :: _ =>
      if cur.waitForAsyncRequest then some (FZ_REPLY_WOULDBLOCK, w)
      else if !h.CanSendNextCommand self w then some (FZ_REPLY_WOULDBLOCK, SetWait self true w)
      else
        let res := h.Send self w
        if res.1 ≠ FZ_REPLY_CONTINUE then
          if res.1 = FZ_REPLY_OK then exec h self fuel (Call.ResetOperation res.1) res.2
          else if res.1 &&& FZ_REPLY_DISCONNECTED = FZ_REPLY_DISCONNECTED then
            exec h self fuel (Call.DoClose res.1) res.2
          else if res.1 &&& FZ_REPLY_ERROR ≠ 0 then
            exec h self fuel (Call.ResetOperation res.1) res.2
          else if res.1 = FZ_REPLY_WOULDBLOCK then some (FZ_REPLY_WOULDBLOCK, res.2)
          else exec h self fuel (Call.ResetOperation FZ_REPLY_INTERNALERROR) res.2
        else exec h self fuel Call.SendNextCommandLoop res.2
  | fuel + 1, Call.DoClose nErrorCode, w =>
    let w0 := if (w.sockets self).isReal then ResetSocket self w else w
    if (w0.sockets self).m_closed then some (nErrorCode, w0)
    else
      let w1 := w0.setSocket self { w0.sockets self with m_closed := true }
      match exec h self fuel
          (Call.ResetOperation (FZ_REPLY_ERROR ||| FZ_REPLY_DISCONNECTED ||| nErrorCode)) w1 with
      | none => none
      | some (ret, w2) =>
        some (ret, w2.setSocket self { w2.sockets self with currentServer_ := none })

/-- The function `CControlSocket::ResetOperation`. -/
def ResetOperation (h : Hooks) (self : SocketId) (fuel : Nat) (nErrorCode : Nat) (w : World) :
    Option (Nat × World) :=
  exec h self fuel (Call.ResetOperation nErrorCode) w

/-- The function `CControlSocket::ParseSubcommandResult`. -/
def ParseSubcommandResult (h : Hooks) (self : SocketId) (fuel : Nat) (prevResult : Nat)
    (opData : COpData) (w : World) : Option (Nat × World) :=
  exec h self fuel (Call.ParseSubcommandResult prevResult opData) w

/-- The function `CControlSocket::SendNextCommand`. -/
def SendNextCommand (h : Hooks) (self : SocketId) (fuel : Nat) (w : World) :
    Option (Nat × World) :=
  exec h self fuel Call.SendNextCommand w

/-- The function `DoClose` (`CRealControlSocket::DoClose` when the socket is one). -/
def DoClose (h : Hooks) (self : SocketId) (fuel : Nat) (nErrorCode : Nat) (w : World) :
    Option (Nat × World) :=
  exec h self fuel (Call.DoClose nErrorCode) w

/-- The function `CControlSocket::Cancel`. -/
def Cancel (h : Hooks) (self : SocketId) (fuel : Nat) (w : World) : Option World :=
  if GetCurrentCommandId h self w ≠ Command.none then
    if GetCurrentCommandId h self w = Command.connect then
      (DoClose h self fuel FZ_REPLY_CANCELED w).map Prod.snd
    else
      (ResetOperation h self fuel FZ_REPLY_CANCELED w).map Prod.snd
  else some w

/-- The function `CControlSocket::OnObtainLock`. -/
def OnObtainLock (h : Hooks) (self : SocketId) (fuel : Nat) (w : World) : Option World :=
  let r := ObtainLockFromEvent self w
  if r.1 = locking_reason.lock_unknown then some w
  else
    match SendNextCommand h self fuel r.2 with
    | none => none
    | some (_, w1) => some (UnlockCache self w1)

/-! ## Transport: outbound path of `CRealControlSocket` -/

/-- The function `CControlSocket::SetActive` (the engine's activity indicator is outside the
model): it stamps the last activity. -/
def SetActive (self : SocketId) (w : World) : World :=
  w.setSocket self { w.sockets self with m_lastActivity := w.now }

/-- The function `CRealControlSocket::Send` for a buffer of `len = buffer.length` bytes.
`written` and `error` are what `m_pBackend->Write(buffer, len, error)` answers when it is
called; the bytes it accepted, `buffer[0 .. written)`, are appended to the ghost log `sent`.
`none` is the null dereference of a missing backend. -/
def CRealControlSocket.Send (self : SocketId) (buffer : List Byte) (written : Int) (error : Int)
    (w : World) : Option (Nat × World) :=
  let len : Int := buffer.length
  let w0 := SetWait self true w
  let s := w0.sockets self
  match s.m_pSendBuffer with
  | some tmp =>
    some (FZ_REPLY_WOULDBLOCK, w0.setSocket self
      { s with
        m_pSendBuffer := some (tmp.take s.m_nSendBufferLen.toNat ++ buffer.take len.toNat),
        m_nSendBufferLen := s.m_nSendBufferLen + len })
  | none =>
    if !s.m_pBackend then none
    else
      let w1 := w0.setSocket self { s with sent := s.sent ++ buffer.take written.toNat }
      if written < 0 ∧ error ≠ EAGAIN then
        some (FZ_REPLY_DISCONNECTED,
          LogMessage self MessageType.Error "Disconnected from server"
            (LogMessage self MessageType.Error "Could not write to socket: %s" w1))
      else
        let written1 : Int := if written < 0 then 0 else written
        let w2 := if written1 ≠ 0 then SetActive self w1 else w1
        if written1 < len then
          some (FZ_REPLY_WOULDBLOCK, w2.setSocket self
            { w2.sockets self with
              m_nSendBufferLen := len - written1,
              m_pSendBuffer := some (buffer.take (len - written1).toNat) })
        else some (FZ_REPLY_WOULDBLOCK, w2)

/-- The function `CRealControlSocket::OnSend`, the handler of the write-ready event.
`written` and `error` are what `m_pBackend->Write(m_pSendBuffer, m_nSendBufferLen, error)`
answers when it is called. -/
def CRealControlSocket.OnSend (h : Hooks) (self : SocketId) (fuel : Nat) (written : Int)
    (error : Int) (w : World) : Option World :=
  let s := w.sockets self
  match s.m_pSendBuffer with
  | none => some w
  | some buf =>
    if s.m_nSendBufferLen = 0 then some (w.setSocket self { s with m_pSendBuffer := none })
    else if !s.m_pBackend then none
    else
      let w1 := w.setSocket self { s with sent := s.sent ++ buf.take written.toNat }
      if written < 0 then
        if error ≠ EAGAIN then
          let w2 := LogMessage self MessageType.Error "Could not write to socket: %s" w1
          let w3 := if GetCurrentCommandId h self w2 ≠ Command.connect then
              LogMessage self MessageType.Error "Disconnected from server" w2 else w2
          (DoClose h self fuel (FZ_REPLY_DISCONNECTED ||| FZ_REPLY_ERROR) w3).map Prod.snd
        else some w1
      else
        let w2 := if written ≠ 0 then SetActive self w1 else w1
        if written = s.m_nSendBufferLen then
          some (w2.setSocket self
            { w2.sockets self with m_nSendBufferLen := 0, m_pSendBuffer := none })
        else
          some (w2.setSocket self
            { w2.sockets self with
              m_pSendBuffer :=
                some ((buf.drop written.toNat).take (s.m_nSendBufferLen - written).toNat),
              m_nSendBufferLen := s.m_nSendBufferLen - written })

/-! ## Writer ring (`writer.cpp`) -/

/-- Result codes of the asynchronous I/O primitives. -/
inductive aio_result where
  | ok
  | wait
  | error
deriving DecidableEq, Repr

/-- The two concrete writers of `writer.cpp`. -/
inductive writer_kind where
  | file_writer
  | memory_writer
deriving DecidableEq, Repr

/-- Width of `size_t`. -/
def SIZE_MOD : Nat := 2 ^ 64

/-- Pre-decrement of a `size_t` (wraps at zero). -/
def sizeDec (x : Nat) : Nat := (x + SIZE_MOD - 1) % SIZE_MOD

/-- Pre-increment of a `size_t`. -/
def sizeInc (x : Nat) : Nat := (x + 1) % SIZE_MOD

/-- Subtraction of two `size_t` values. -/
def sizeSub (x y : Nat) : Nat := (x + SIZE_MOD - y % SIZE_MOD) % SIZE_MOD

/-- Fields of `aio_base`, `writer_base`, `file_writer` and `memory_writer`.
`buffers_` holds the contents of the `N = buffers_.length` slots; `file_` is the sequence of
bytes written to the file so far; `result_buffer_` is the buffer of the memory writer.
Ghost fields: `condSignals` counts `cond_.signal`, `readyEvents` counts the
`write_ready_event`s sent to the handler, `threadDone` tells that the worker has left
`entry`. -/
structure writer_base where
  kind : writer_kind
  buffers_ : List (List Byte)
  buffer_size_ : Nat
  ready_pos_ : Nat := 0
  ready_count_ : Nat := 0
  processing_ : Bool := false
  handler_waiting_ : Bool := false
  error_ : Bool := false
  finalized_ : Bool := false
  quit_ : Bool := false
  fsync_ : Bool := false
  file_ : List Byte := []
  result_buffer_ : List Byte := []
  sizeLimit_ : Nat := 0
  condSignals : Nat := 0
  readyEvents : Nat := 0
  threadDone : Bool := false
deriving DecidableEq, Repr

/-- The virtual function `signal_capacity`: `file_writer::signal_capacity` signals the
condition; `memory_writer::signal_capacity` consumes the slot at `ready_pos_` on the spot. -/
def signal_capacity (w : writer_base) : writer_base :=
  match w.kind with
  | writer_kind.file_writer => { w with condSignals := w.condSignals + 1 }
  | writer_kind.memory_writer =>
    let w1 := { w with ready_count_ := sizeDec w.ready_count_ }
    let b := w1.buffers_.getD w1.ready_pos_ []
    if w1.sizeLimit_ ≠ 0 ∧ b.length > sizeSub w1.sizeLimit_ w1.result_buffer_.length then
      { w1 with error_ := true }
    else
      { w1 with result_buffer_ := w1.result_buffer_ ++ b }

/-- The commit sequence shared by `get_write_buffer`, `retire` and `finalize`:
the buffer is stored in slot `(ready_pos_ + ready_count_) % N`, `ready_count_` is
incremented, and the consumer is signalled if the count was zero. -/
def commit (last_written : List Byte) (w : writer_base) : writer_base :=
  let i := (w.ready_pos_ + w.ready_count_) % w.buffers_.length
  let w1 := { w with buffers_ := w.buffers_.set i last_written }
  let signal := decide (w1.ready_count_ = 0)
  let w2 := { w1 with ready_count_ := sizeInc w1.ready_count_ }
  if signal then signal_capacity w2 else w2

/-- The function `writer_base::get_write_buffer`; the returned pair is the result code and the
buffer handed out (the slot resized to zero). -/
def get_write_buffer (last_written : List Byte) (w : writer_base) :
    (aio_result × List Byte) × writer_base :=
  if w.error_ then ((aio_result.error, []), w)
  else
    let w1 := if w.processing_ && !last_written.isEmpty then commit last_written w else w
    if w1.ready_count_ ≥ w1.buffers_.length then
      ((aio_result.wait, []), { w1 with handler_waiting_ := true, processing_ := false })
    else
      let b := w1.buffers_.getD ((w1.ready_pos_ + w1.ready_count_) % w1.buffers_.length) []
      ((aio_result.ok, b.take 0), { w1 with processing_ := true })

/-- The function `writer_base::retire`. -/
def retire (last_written : List Byte) (w : writer_base) : aio_result × writer_base :=
  if w.error_ then (aio_result.error, w)
  else if !w.processing_ then (aio_result.error, w)
  else
    let w1 := { w with processing_ := false }
    let w2 := if !last_written.isEmpty then commit last_written w1 else w1
    (aio_result.ok, w2)

/-- The function `writer_base::write`: `data` with `len = data.length`. -/
def write (data : List Byte) (w : writer_base) : aio_result × writer_base :=
  if w.error_ || w.processing_ then (aio_result.error, w)
  else if data.length = 0 then (aio_result.ok, w)
  else if w.ready_count_ ≥ w.buffers_.length then
    (aio_result.wait, { w with handler_waiting_ := true })
  else
    let i := (w.ready_pos_ + w.ready_count_) % w.buffers_.length
    let len := min data.length w.buffer_size_
    let w1 := { w with buffers_ := w.buffers_.set i (w.buffers_.getD i [] ++ data.take len) }
    let signal := decide (w1.ready_count_ = 0)
    let w2 := { w1 with ready_count_ := sizeInc w1.ready_count_ }
    (aio_result.ok, if signal then signal_capacity w2 else w2)

/-- The virtual function `continue_finalize`: `file_writer::continue_finalize` with the answer
`fsync_ok` of `file_.fsync()`; the memory writer keeps the default of the base class. -/
def continue_finalize (fsync_ok : Bool) (w : writer_base) : aio_result × writer_base :=
  match w.kind with
  | writer_kind.file_writer =>
    if w.fsync_ then
      if !fsync_ok then (aio_result.error, { w with error_ := true })
      else (aio_result.ok, w)
    else (aio_result.ok, w)
  | writer_kind.memory_writer => (aio_result.ok, w)

/-- The function `writer_base::finalize`. -/
def finalize (fsync_ok : Bool) (last_written : List Byte) (w : writer_base) :
    aio_result × writer_base :=
  if w.error_ then (aio_result.error, w)
  else
    let w1 :=
      if w.processing_ && !last_written.isEmpty then
        commit last_written { w with processing_ := false }
      else w
    if w1.ready_count_ ≠ 0 then (aio_result.wait, { w1 with handler_waiting_ := true })
    else
      let res := continue_finalize fsync_ok w1
      if res.1 = aio_result.ok then (res.1, { res.2 with finalized_ := true })
      else res

/-- One pass through the body of the `while` loop of `file_writer::entry`, the worker thread.
`failAfter = none` means every `file_.write` succeeds; `failAfter = some k` means the writes
succeed for the first `k` bytes of the slot and the next one fails. The pass is taken as one
atomic step at the point where the worker holds the mutex again. -/
def entry_step (failAfter : Option Nat) (w : writer_base) : writer_base :=
  if w.threadDone then w
  else if w.quit_ || w.error_ then { w with threadDone := true }
  else if w.ready_count_ = 0 then
    if w.handler_waiting_ then
      { w with handler_waiting_ := false, readyEvents := w.readyEvents + 1, threadDone := true }
    else w
  else
    let b := w.buffers_.getD w.ready_pos_ []
    let w1 :=
      match failAfter with
      | none =>
        { w with file_ := w.file_ ++ b, buffers_ := w.buffers_.set w.ready_pos_ [] }
      | some k =>
        if k < b.length then
          { w with file_ := w.file_ ++ b.take k,
                   buffers_ := w.buffers_.set w.ready_pos_ (b.drop k), error_ := true }
        else
          { w with file_ := w.file_ ++ b, buffers_ := w.buffers_.set w.ready_pos_ [] }
    let w2 := { w1 with ready_pos_ := (w1.ready_pos_ + 1) % w1.buffers_.length,
                        ready_count_ := sizeDec w1.ready_count_ }
    if w2.handler_waiting_ then
      { w2 with handler_waiting_ := false, readyEvents := w2.readyEvents + 1 }
    else w2

/-- A writer as `file_writer::open` or `memory_writer::open` leaves it: `n` empty buffers of
capacity `size` (allocated by `allocate_memory`), all counters zero, all flags clear. -/
def openWriter (kind : writer_kind) (n : Nat) (size : Nat) (sizeLimit : Nat) (fsync : Bool) :
    writer_base :=
  { kind := kind, buffers_ := List.replicate n [], buffer_size_ := size,
    sizeLimit_ := sizeLimit, fsync_ := fsync }

/-! ## Traces of the writer -/

/-- One step of a writer's life: a call of the producer or one pass of the worker loop. -/
inductive WriterOp where
  | get_write_buffer (last_written : List Byte)
  | retire (last_written : List Byte)
  | write (data : List Byte)
  | finalize (fsync_ok : Bool) (last_written : List Byte)
  | entry_step (failAfter : Option Nat)

/-- State after one step. -/
def WriterOp.apply : WriterOp → writer_base → writer_base
  | WriterOp.get_write_buffer l, w => (FZ.get_write_buffer l w).2
  | WriterOp.retire l, w => (FZ.retire l w).2
  | WriterOp.write d, w => (FZ.write d w).2
  | WriterOp.finalize f l, w => (FZ.finalize f l w).2
  | WriterOp.entry_step k, w => FZ.entry_step k w

/-- State after a sequence of steps. -/
def runWriter (ops : List WriterOp) (w : writer_base) : writer_base :=
  ops.foldl (fun w op => op.apply w) w

/-- The condition under which a step executes `++ready_count_` in state `w`, read off the
guards of the source. -/
def WriterOp.commits : WriterOp → writer_base → Bool
  | WriterOp.get_write_buffer l, w => !w.error_ && (w.processing_ && !l.isEmpty)
  | WriterOp.retire l, w => !w.error_ && w.processing_ && !l.isEmpty
  | WriterOp.write d, w =>
    !(w.error_ || w.processing_) && decide (d.length ≠ 0) &&
      !decide (w.ready_count_ ≥ w.buffers_.length)
  | WriterOp.finalize _ l, w => !w.error_ && (w.processing_ && !l.isEmpty)
  | WriterOp.entry_step _, _ => false

/-- The ring invariant: `N` slots, `ready_count_ ≤ N`, and a buffer is handed out
(`processing_`) only while a slot is free. -/
def RingInv (n : Nat) (w : writer_base) : Prop :=
  w.buffers_.length = n ∧ w.ready_count_ ≤ n ∧ (w.processing_ = true → w.ready_count_ < n)

/-- Successive `get_write_buffer` calls, one per listed buffer, each passing that buffer as
`last_written`; the results are collected in call order. -/
def feed : List (List Byte) → writer_base → List (aio_result × List Byte) × writer_base
  | [], w => ([], w)
  | d :: ds, w =>
    ((get_write_buffer d w).1 :: (feed ds (get_write_buffer d w).2).1,
      (feed ds (get_write_buffer d w).2).2)

/-! ## Traces of the lock arbiter -/

/-- A step that touches the lock list, or a change of a socket's operation stack made by the
rest of the program between two such steps. -/
inductive LockCall where
  | TryLockCache (self : SocketId) (reason : locking_reason) (directory : CServerPath)
  | UnlockCache (self : SocketId)
  | ObtainLockFromEvent (self : SocketId)
  | setOps (self : SocketId) (ops : List COpData)

/-- State after one step; `none` when `TryLockCache` is called without a current operation. -/
def LockCall.apply : LockCall → World → Option World
  | LockCall.TryLockCache s r d, w => (FZ.TryLockCache s r d w).map Prod.snd
  | LockCall.UnlockCache s, w => some (FZ.UnlockCache s w)
  | LockCall.ObtainLockFromEvent s, w => some (FZ.ObtainLockFromEvent s w).2
  | LockCall.setOps s ops, w => some (w.setSocket s { w.sockets s with m_pCurOpData := ops })

/-- State after a sequence of steps. -/
def runLock : List LockCall → World → Option World
  | [], w => some w
  | c :: cs, w =>
    match c.apply w with
    | none => none
    | some w1 => runLock cs w1

/-- The caller contract of `TryLockCache` for a socket that is already waiting: it asks again
for the directory and reason of its own record. Every other step is unconstrained. -/
def LockCall.keepsKey : LockCall → World → Bool
  | LockCall.TryLockCache s r d, w =>
    match GetLockStatus s w.m_lockInfoList with
    | none => true
    | some (_, own, _) => !own.waiting || (decide (d = own.directory) && decide (r = own.reason))
  | _, _ => true

/-- Every step of the sequence, taken in the state it is applied to, keeps the contract. -/
def keepsKeys : List LockCall → World → Bool
  | [], _ => true
  | c :: cs, w =>
    c.keepsKey w &&
      match c.apply w with
      | none => true
      | some w1 => keepsKeys cs w1

/-- The invariant (iv) of the lock list: a record that is not waiting has no strictly earlier
record on the same server with the same directory and reason. -/
def HoldersExclusive (w : World) : Prop :=
  w.m_lockInfoList.Pairwise (fun e r =>
    r.waiting = false →
      lockMatches w (w.serverOf r.pControlSocket) r.directory r.reason e = false)

instance (w : World) : Decidable (HoldersExclusive w) := by
  unfold HoldersExclusive
  infer_instance

/-- A world in which every socket is connected to server `7` and runs one `list` operation
whose address is the socket's own number; the lock list is empty. -/
def demoWorld : World :=
  { sockets := fun i => { currentServer_ := some 7, m_pCurOpData := [{ addr := i, opId := Command.list }] } }

/-- The sockets of the list call `TryLockCache reason directory` one after the other; the
results are collected in call order. -/
def tryLockAll (reason : locking_reason) (directory : CServerPath) :
    List SocketId → World → Option (List Bool × World)
  | [], w => some ([], w)
  | s :: ss, w =>
    match TryLockCache s reason directory w with
    | none => none
    | some (b, w1) =>
      match tryLockAll reason directory ss w1 with
      | none => none
      | some (bs, w2) => some (b :: bs, w2)

/-- The state of `demoWorld` after sockets 1, 2 and 3 have called
`TryLockCache lock_list /x` in this order: socket 1 holds the lock, 2 and 3 wait. -/
def demoLocked : World :=
  { sockets := fun i =>
      { currentServer_ := some 7,
        m_pCurOpData := [{ addr := i, opId := Command.list, holdsLock_ := true }] },
    m_lockInfoList :=
      [t_lockInfo.mk 1 (some ["x"]) locking_reason.lock_list false 1,
       t_lockInfo.mk 2 (some ["x"]) locking_reason.lock_list true 0,
       t_lockInfo.mk 3 (some ["x"]) locking_reason.lock_list true 0] }

/-- The state of `demoWorld` after socket 1 has taken the lock on `/x`, socket 2 has asked for
`/x` and then again for `/y`, and socket 3 has asked for `/x`: the second call of socket 2
has turned its queued record for `/x` into a holder, socket 3 waits. -/
def demoPromoted : World :=
  (runLock [LockCall.TryLockCache 1 locking_reason.lock_list (some ["x"]),
    LockCall.TryLockCache 2 locking_reason.lock_list (some ["x"]),
    LockCall.TryLockCache 2 locking_reason.lock_list (some ["y"]),
    LockCall.TryLockCache 3 locking_reason.lock_list (some ["x"])] demoWorld).getD demoWorld

/-- The invariant (ii) of the lock list: a waiting record has `lockcount = 0`, a record that
is not waiting has `lockcount ≥ 1`. -/
def CountsOK (l : List t_lockInfo) : Prop :=
  ∀ r ∈ l, (r.waiting = true → r.lockcount = 0) ∧ (r.waiting = false → 1 ≤ r.lockcount)

/-- Invariant (iv) in terms of the server assignment only. -/
def exclusiveOn (srv : SocketId → CServer) (l : List t_lockInfo) : Prop :=
  l.Pairwise (fun e r => r.waiting = false →
    ¬ (srv r.pControlSocket = srv e.pControlSocket ∧ r.directory = e.directory ∧
        r.reason = e.reason))

/-- The list-level invariant carried along a trace. -/
def LockListInv (srv : SocketId → CServer) (l : List t_lockInfo) : Prop :=
  exclusiveOn srv l ∧ CountsOK l

/-! ## Traces of the operation stack -/

/-- The operation stack of a socket. -/
def opsOf (w : World) (s : SocketId) : List COpData := (w.sockets s).m_pCurOpData

/-- Addresses of the frames on the operation stack of a socket, top first. -/
def addrsOf (w : World) (s : SocketId) : List Nat := (opsOf w s).map (fun op => op.addr)

/-- Number of frames of a stack whose `holdsLock_` flag is set. -/
def holdCount (ops : List COpData) : Nat := ops.countP (fun op => op.holdsLock_)

/-- The reply codes that `ResetOperation` hands to the parent's `SubcommandResult`; every
other code is propagated through the whole stack. -/
def isSubcommandCode (code : Nat) : Bool :=
  decide (code = FZ_REPLY_OK) || decide (code = FZ_REPLY_ERROR) ||
    decide (code = FZ_REPLY_CRITICALERROR)

/-- Hooks that do nothing: `Send` parks the operation, `SubcommandResult` passes the child's
result on, the engine returns the code it is given. -/
def idleHooks : Hooks :=
  { Send := fun _ w => (FZ_REPLY_WOULDBLOCK, w)
    SubcommandResult := fun _ prev _ w => (prev, w)
    CanSendNextCommand := fun _ _ => true
    engineResetOperation := fun c => c
    engineGetCurrentCommandId := Command.none
    UpdateFile := fun _ _ _ => false
    transferStatusEmpty := true
    transferStatusMadeProgress := false }

/-- The bookkeeping invariant tying the lock list to the operation stacks: every socket owns
at most one record, the records satisfy invariant (ii), and the owner of a record has at
least one frame with `holdsLock_` set and at least as many such frames as the record's
`lockcount`. -/
def LockBooks (w : World) : Prop :=
  (w.m_lockInfoList.map (fun r => r.pControlSocket)).Nodup ∧ CountsOK w.m_lockInfoList ∧
  ∀ r ∈ w.m_lockInfoList, 1 ≤ holdCount (opsOf w r.pControlSocket) ∧
    r.lockcount ≤ holdCount (opsOf w r.pControlSocket)

/-- What is assumed of the protocol-specific callbacks in statements about the lock
bookkeeping: they keep `LockBooks` (as they do when they touch locks and the operation stack
only through `Push`, `TryLockCache`, `UnlockCache` and `ResetOperation`). -/
def HooksKeepBooks (h : Hooks) : Prop :=
  (∀ s w, LockBooks w → LockBooks (h.Send s w).2) ∧
  (∀ s prev op w, LockBooks w → LockBooks (h.SubcommandResult s prev op w).2)

/-- A step of the system as seen from the control-socket layer. -/
inductive SocketCall where
  | Push (self : SocketId) (op : COpData)
  | TryLockCache (self : SocketId) (reason : locking_reason) (directory : CServerPath)
  | UnlockCache (self : SocketId)
  | ObtainLockFromEvent (self : SocketId)
  | exec (self : SocketId) (fuel : Nat) (c : Call)
  | setServer (self : SocketId) (server : CServer)

/-- State after one step; `none` when the step does not return (null dereference or fuel
exhausted). -/
def SocketCall.apply (h : Hooks) : SocketCall → World → Option World
  | SocketCall.Push s op, w => some (FZ.Push s op w)
  | SocketCall.TryLockCache s r d, w => (FZ.TryLockCache s r d w).map Prod.snd
  | SocketCall.UnlockCache s, w => some (FZ.UnlockCache s w)
  | SocketCall.ObtainLockFromEvent s, w => some (FZ.ObtainLockFromEvent s w).2
  | SocketCall.exec s fuel c, w => (FZ.exec h s fuel c w).map Prod.snd
  | SocketCall.setServer s srv, w =>
    some (w.setSocket s { w.sockets s with currentServer_ := srv })

/-- State after a sequence of steps. -/
def runSocket (h : Hooks) : List SocketCall → World → Option World
  | [], w => some w
  | c :: cs, w =>
    match c.apply h w with
    | none => none
    | some w1 => runSocket h cs w1

/-- The fields of a socket that the statements about the operation stack and the lock
bookkeeping depend on. -/
def coreOf (x : CControlSocket) : List COpData × List Nat × Nat × Bool × CServer :=
  (x.m_pCurOpData, x.destroyed, x.subcommandResults, x.m_closed, x.currentServer_)

/-- Two worlds agree on the lock list, the posted events and the core fields of all sockets. -/
def SameCore (w w1 : World) : Prop :=
  w1.m_lockInfoList = w.m_lockInfoList ∧ w1.obtainLockEvents = w.obtainLockEvents ∧
    ∀ u, coreOf (w1.sockets u) = coreOf (w.sockets u)

/-- The stack after `UnlockCache` has cleared the `holdsLock_` flag of its top frame. -/
def clearTop : List COpData → List COpData
  | [] => []
  | cur :: rest => { cur with holdsLock_ := false } :: rest

/-- A socket with a three-deep operation stack whose current operation has the id `none`. -/
def demoStackNone : World :=
  { sockets := fun _ =>
      { m_pCurOpData := [{ addr := 1, opId := Command.none }, { addr := 2, opId := Command.list },
          { addr := 3, opId := Command.transfer }] } }

/-- A socket with a three-deep operation stack: frame 1 on top of frame 2 on top of the root
frame 3. -/
def demoStack : World :=
  { sockets := fun _ =>
      { m_pCurOpData := [{ addr := 1, opId := Command.other 0 },
          { addr := 2, opId := Command.list }, { addr := 3, opId := Command.transfer }] } }

/-- What is assumed of the protocol-specific callbacks in statements about the order of
destruction on socket `s`: they neither link nor unlink frames of `s` and delete none
(frames are pushed by explicit `Push` steps). -/
def HooksKeepFrames (h : Hooks) (s : SocketId) : Prop :=
  (∀ w, addrsOf (h.Send s w).2 s = addrsOf w s ∧
    ((h.Send s w).2.sockets s).destroyed = (w.sockets s).destroyed) ∧
  (∀ prev op w, addrsOf (h.SubcommandResult s prev op w).2 s = addrsOf w s ∧
    ((h.SubcommandResult s prev op w).2.sockets s).destroyed = (w.sockets s).destroyed)

/-- A step on the operation stack of one socket. -/
inductive StackCall where
  | Push (op : COpData)
  | ResetOperation (fuel : Nat) (nErrorCode : Nat)

/-- State after one step; `none` when `ResetOperation` runs out of fuel. -/
def StackCall.apply (h : Hooks) (s : SocketId) : StackCall → World → Option World
  | StackCall.Push op, w => some (FZ.Push s op w)
  | StackCall.ResetOperation fuel code, w => (FZ.ResetOperation h s fuel code w).map Prod.snd

/-- State after a sequence of steps. -/
def runStack (h : Hooks) (s : SocketId) : List StackCall → World → Option World
  | [], w => some w
  | c :: cs, w =>
    match c.apply h s w with
    | none => none
    | some w1 => runStack h s cs w1

/-- Addresses of the frames pushed by a sequence of steps, in push order. -/
def pushedAddrs : List StackCall → List Nat
  | [] => []
  | StackCall.Push op :: cs => op.addr :: pushedAddrs cs
  | StackCall.ResetOperation _ _ :: cs => pushedAddrs cs

/-- The state of `demoWorld` after socket 1 has taken the lock on `/x`, pushed a
sub-operation that takes it again, and socket 2 has queued for it. -/
def demoBusy : World :=
  (runSocket idleHooks
    [SocketCall.TryLockCache 1 locking_reason.lock_list (some ["x"]),
      SocketCall.Push 1 { addr := 9, opId := Command.other 0 },
      SocketCall.TryLockCache 1 locking_reason.lock_list (some ["x"]),
      SocketCall.TryLockCache 2 locking_reason.lock_list (some ["x"])] demoWorld).getD demoWorld

/-- The state of `demoStack` after a fourth frame has been pushed and
`ResetOperation(OK)` has run with callbacks that pass the result on. -/
def demoRun : World :=
  (runStack idleHooks 0
    [StackCall.Push { addr := 4, opId := Command.other 1 },
      StackCall.ResetOperation 9 FZ_REPLY_OK,
      StackCall.Push { addr := 5, opId := Command.list },
      StackCall.Push { addr := 6, opId := Command.other 2 }] demoStack).getD demoStack

/-! ## Timeout (`OnTimer`) -/

/-- The function `CControlSocket::OnTimer`. Durations are in milliseconds; the elapsed time
is `now - m_lastActivity`, the timeout option is in seconds, and the product
`timeout * 1000` is taken in `Int` (the option's range keeps it within `int`). -/
def OnTimer (h : Hooks) (self : SocketId) (fuel : Nat) (w : World) : Option World :=
  let w0 := w.setSocket self { w.sockets self with m_timer := none }
  if w0.timeout > 0 then
    let elapsed : Int := (w0.now : Int) - ((w0.sockets self).m_lastActivity : Int)
    if (match (w0.sockets self).m_pCurOpData with
        | [] => true
        | cur :: _ => !cur.waitForAsyncRequest) && !IsWaitingForLock self w0 then
      if elapsed > w0.timeout * 1000 then
        (DoClose h self fuel FZ_REPLY_TIMEOUT
          (LogMessage self MessageType.Error
            "Connection timed out after %d seconds of inactivity" w0)).map Prod.snd
      else
        some (w0.setSocket self
          { w0.sockets self with m_timer := some (w0.timeout * 1000 - elapsed) })
    else
      some (w0.setSocket self
        { w0.sockets self with m_timer := some (w0.timeout * 1000 - 0) })
  else some w0

/-! ## Overwrite decision (`CheckOverwriteFile`, `SetFileExistsAction`) -/

/-- The function `CControlSocket::SendAsyncRequest` for a file-exists request. Modelled from
the spec: `engine_.GetNextAsyncRequestNumber()` issues the next integer of an increasing
counter. -/
def SendAsyncRequest (self : SocketId) (pNotification : CFileExistsNotification) (w : World) :
    World :=
  let number := w.nextAsyncRequestNumber + 1
  let w1 := { w with nextAsyncRequestNumber := number }
  let w2 :=
    match (w1.sockets self).m_pCurOpData with
    | [] => w1
    | cur :: rest =>
      w1.setSocket self
        { w1.sockets self with m_pCurOpData := { cur with waitForAsyncRequest := true } :: rest }
  { w2 with notifications :=
      w2.notifications ++ [Notification.file_exists { pNotification with requestNumber := number }] }

/-- The function `CControlSocket::CheckOverwriteFile`; the current operation is read as a
`CFileTransferOpData`. -/
def CheckOverwriteFile (h : Hooks) (self : SocketId) (w : World) : Nat × World :=
  match (w.sockets self).m_pCurOpData with
  | [] => (FZ_REPLY_INTERNALERROR, w)
  | pData :: rest =>
    if pData.download_ && !h.localIsFile pData.localFile_ then (FZ_REPLY_OK, w)
    else
      let remotePath : CServerPath :=
        if pData.tryAbsolutePath_ || (w.sockets self).m_CurrentPath.isNone then pData.remotePath_
        else (w.sockets self).m_CurrentPath
      let lookup := h.LookupFile (w.sockets self).currentServer_ remotePath pData.remoteFile_
      let found : Bool := lookup.1 && lookup.2.1
      let entry : CDirentry := lookup.2.2
      if !pData.download_ && (!found && decide (pData.remoteFileSize_ < 0) &&
          pData.fileTime_.isNone) then (FZ_REPLY_OK, w)
      else
        let n0 : CFileExistsNotification :=
          { download := pData.download_
            localFile := pData.localFile_
            remoteFile := pData.remoteFile_
            remotePath := pData.remotePath_
            localSize := pData.localFileSize_
            remoteSize := pData.remoteFileSize_
            remoteTime := pData.fileTime_
            ascii := !pData.binary
            canResume :=
              (pData.download_ && decide (pData.localFileSize_ ≥ 0)) ||
                (!pData.download_ && decide (pData.remoteFileSize_ ≥ 0))
            localTime := h.localModificationTime pData.localFile_ }
        let adopt : Bool := found && n0.remoteTime.isNone && entry.time.isSome
        let n1 : CFileExistsNotification :=
          if adopt then { n0 with remoteTime := entry.time } else n0
        let pData1 : COpData := if adopt then { pData with fileTime_ := entry.time } else pData
        let w1 := w.setSocket self { w.sockets self with m_pCurOpData := pData1 :: rest }
        (FZ_REPLY_WOULDBLOCK, SendAsyncRequest self n1 w1)

/-- The "skip" branch shared by several actions of `SetFileExistsAction`: the status line and
`ResetOperation(FZ_REPLY_OK)`. -/
def skipTransfer (h : Hooks) (self : SocketId) (fuel : Nat) (pData : COpData) (w : World) :
    Option (Bool × World) :=
  let w1 :=
    if pData.download_ then LogMessage self MessageType.Status "Skipping download of %s" w
    else LogMessage self MessageType.Status "Skipping upload of %s" w
  (ResetOperation h self fuel FZ_REPLY_OK w1).map (fun r => (true, r.2))

/-- The "proceed" branch of `SetFileExistsAction`: `SendNextCommand()`, its result ignored. -/
def proceedTransfer (h : Hooks) (self : SocketId) (fuel : Nat) (w : World) :
    Option (Bool × World) :=
  (SendNextCommand h self fuel w).map (fun r => (true, r.2))

/-- The function `CControlSocket::SetFileExistsAction`. -/
def SetFileExistsAction (h : Hooks) (self : SocketId) (fuel : Nat)
    (n : CFileExistsNotification) (w : World) : Option (Bool × World) :=
  match (w.sockets self).m_pCurOpData with
  | [] => some (false, w)
  | pData :: rest =>
    if pData.opId ≠ Command.transfer then some (false, w)
    else
      match n.overwriteAction with
      | OverwriteAction.overwrite => proceedTransfer h self fuel w
      | OverwriteAction.overwriteNewer =>
        if n.localTime.isNone || n.remoteTime.isNone then proceedTransfer h self fuel w
        else if n.download && earlier_than n.localTime n.remoteTime then
          proceedTransfer h self fuel w
        else if !n.download && later_than n.localTime n.remoteTime then
          proceedTransfer h self fuel w
        else skipTransfer h self fuel pData w
      | OverwriteAction.overwriteSize =>
        if decide (n.localSize ≠ n.remoteSize) || decide (n.localSize < 0) then
          proceedTransfer h self fuel w
        else skipTransfer h self fuel pData w
      | OverwriteAction.overwriteSizeOrNewer =>
        if n.localTime.isNone || n.remoteTime.isNone then proceedTransfer h self fuel w
        else if decide (n.localSize ≠ n.remoteSize) || decide (n.localSize < 0) then
          proceedTransfer h self fuel w
        else if n.download && earlier_than n.localTime n.remoteTime then
          proceedTransfer h self fuel w
        else if !n.download && later_than n.localTime n.remoteTime then
          proceedTransfer h self fuel w
        else skipTransfer h self fuel pData w
      | OverwriteAction.resume =>
        let pData1 : COpData :=
          if pData.download_ && decide (pData.localFileSize_ ≥ 0) then
            { pData with resume_ := true }
          else if !pData.download_ && decide (pData.remoteFileSize_ ≥ 0) then
            { pData with resume_ := true }
          else pData
        proceedTransfer h self fuel
          (w.setSocket self { w.sockets self with m_pCurOpData := pData1 :: rest })
      | OverwriteAction.rename =>
        if pData.download_ then
          match h.renameLocalFile pData.localFile_ n.newName with
          | none =>
            (ResetOperation h self fuel FZ_REPLY_INTERNALERROR w).map (fun r => (false, r.2))
          | some file =>
            let pData1 : COpData :=
              { pData with localFile_ := file, localFileSize_ := (h.localFileSize file).getD (-1) }
            let w1 := w.setSocket self { w.sockets self with m_pCurOpData := pData1 :: rest }
            let chk := CheckOverwriteFile h self w1
            if chk.1 = FZ_REPLY_OK then proceedTransfer h self fuel chk.2
            else some (true, chk.2)
        else
          let pData1 : COpData :=
            { pData with remoteFile_ := n.newName, fileTime_ := none, remoteFileSize_ := -1 }
          let lookup := h.LookupFile (w.sockets self).currentServer_
            (if pData1.tryAbsolutePath_ then pData1.remotePath_ else (w.sockets self).m_CurrentPath)
            pData1.remoteFile_
          if lookup.1 && lookup.2.1 then
            let pData2 : COpData :=
              { pData1 with
                remoteFileSize_ := lookup.2.2.size
                fileTime_ := if lookup.2.2.time.isSome then lookup.2.2.time else pData1.fileTime_ }
            let w1 := w.setSocket self { w.sockets self with m_pCurOpData := pData2 :: rest }
            let chk := CheckOverwriteFile h self w1
            if chk.1 ≠ FZ_REPLY_OK then some (true, chk.2)
            else proceedTransfer h self fuel chk.2
          else
            proceedTransfer h self fuel
              (w.setSocket self { w.sockets self with m_pCurOpData := pData1 :: rest })
      | OverwriteAction.skip => skipTransfer h self fuel pData w
      | OverwriteAction.unknown =>
        (ResetOperation h self fuel FZ_REPLY_INTERNALERROR w).map (fun r => (false, r.2))
      | OverwriteAction.ask =>
        (ResetOperation h self fuel FZ_REPLY_INTERNALERROR w).map (fun r => (false, r.2))

/-! ## Closing a writer -/

/-- The function `writer_base::close` (the purge of queued `write_ready_event`s concerns the
event loop, which is outside the model). -/
def writer_base.close (w : writer_base) : writer_base :=
  { w with ready_count_ := 0 }

/-- The function `file_writer::close`: the worker is told to quit and joined, then the base
class is closed. -/
def file_writer.close (w : writer_base) : writer_base :=
  writer_base.close { w with quit_ := true, condSignals := w.condSignals + 1, threadDone := true }

/-- The function `memory_writer::close`. -/
def memory_writer.close (w : writer_base) : writer_base :=
  if !w.finalized_ then { w with result_buffer_ := [] } else w

/-! ## Traces of the synchronous `write` -/

/-- One step of a trace of the synchronous variant: a `write` call of the producer, or one
pass of the worker loop of the file writer. -/
inductive WriteStep where
  | write (data : List Byte)
  | worker (failAfter : Option Nat)

/-- Runs a trace: the log of the `write` calls (result and data passed, in call order) and the
state reached. -/
def runWrites : List WriteStep → writer_base → List (aio_result × List Byte) × writer_base
  | [], w => ([], w)
  | WriteStep.write d :: rest, w =>
    (((write d w).1, d) :: (runWrites rest (write d w).2).1, (runWrites rest (write d w).2).2)
  | WriteStep.worker k :: rest, w => runWrites rest (entry_step k w)

/-- The bytes that the `write` calls of a log which returned `ok` copied into the ring: of
each one the first `min len buffer_size_` bytes. -/
def copiedBytes (size : Nat) (log : List (aio_result × List Byte)) : List Byte :=
  ((log.filter (fun r => decide (r.1 = aio_result.ok))).map
    (fun r => r.2.take (min r.2.length size))).flatten

/-- Content of the committed slots of the ring, oldest first. -/
def pendingBytes (w : writer_base) : List Byte :=
  ((List.range w.ready_count_).map
    (fun i => w.buffers_.getD ((w.ready_pos_ + i) % w.buffers_.length) [])).flatten

/-- The ring of a file writer that is fed by `write` only: the file followed by the committed
slots is `acc`, and the slots that are not committed are empty. -/
def FileRing (n size : Nat) (acc : List Byte) (w : writer_base) : Prop :=
  w.kind = writer_kind.file_writer ∧ w.processing_ = false ∧ w.buffers_.length = n ∧
    w.buffer_size_ = size ∧ w.ready_count_ ≤ n ∧ (0 < n → w.ready_pos_ < n) ∧
    w.file_ ++ pendingBytes w = acc ∧
    ∀ i, w.ready_count_ ≤ i → i < n → w.buffers_.getD ((w.ready_pos_ + i) % n) [] = []

/-! ## Auxiliary projections and the spec's wording of the overwrite decisions -/

/-- The fields of a socket that belong to the transport (`CRealControlSocket`). -/
def transportOf (x : CControlSocket) : Bool × Bool × Bool × Option (List Byte) × Int :=
  (x.isReal, x.m_pBackend, x.m_pProxyBackend, x.m_pSendBuffer, x.m_nSendBufferLen)

/-- The spec's wording of the `overwrite_newer` rule: with a timestamp missing the transfer
proceeds; otherwise it proceeds iff the side being written is strictly older (download: local
earlier than remote; upload: local later than remote). -/
def spec_overwrite_newer_proceeds (n : CFileExistsNotification) : Bool :=
  match n.localTime, n.remoteTime with
  | some l, some r => if n.download then decide (l < r) else decide (l > r)
  | _, _ => true

/-- The spec's wording of the `overwrite_size` rule: the transfer proceeds iff the sizes
differ or at least one side's size is unknown (negative). -/
def spec_overwrite_size_proceeds (n : CFileExistsNotification) : Bool :=
  decide (n.localSize ≠ n.remoteSize) || decide (n.localSize < 0) || decide (n.remoteSize < 0)

/-- A socket with a transfer on top of the stack of `demoStack`, the timeout option set to 20
seconds, last activity at 1000 ms and the clock at 5000 ms. -/
def demoTimer : World :=
  { sockets := fun _ =>
      { m_pCurOpData := [{ addr := 1, opId := Command.transfer, download_ := true },
          { addr := 2, opId := Command.list }]
        m_lastActivity := 1000
        m_timer := some 20100 }
    timeout := 20
    now := 5000 }

/-- Two worlds agree on the transport fields of all sockets. -/
def SameTransport (w w1 : World) : Prop :=
  ∀ u, transportOf (w1.sockets u) = transportOf (w.sockets u)

/-- The world `demoTimer` long after the timeout has elapsed, with the current operation
waiting for the reply to an async request. -/
def demoTimerWaiting : World :=
  { sockets := fun _ =>
      { m_pCurOpData :=
          [{ addr := 1, opId := Command.transfer, download_ := true,
             waitForAsyncRequest := true },
            { addr := 2, opId := Command.list }]
        m_lastActivity := 1000
        m_timer := some 20100 }
    timeout := 20
    now := 900000 }

/-- The world `demoTimer` with the clock at 21000 ms: exactly 20 s after the last activity. -/
def demoTimerEdge : World := { demoTimer with now := 21000 }

/-- The world `demoTimer` with the clock at 30000 ms: 29 s after the last activity. -/
def demoTimerLate : World := { demoTimer with now := 30000 }

/-- The world `demoStack` after `ResetOperation` has unlinked the top frame. -/
def demoStackPopped : World :=
  (unlockIfHolds 0 demoStack).setSocket 0
    { (unlockIfHolds 0 demoStack).sockets 0 with
      m_pCurOpData := [{ addr := 2, opId := Command.list },
        { addr := 3, opId := Command.transfer }] }

/-- Scenario S1: the reply `overwriteNewer` for a download whose local file is dated
2024-01-02T00:00:00Z and whose remote file is dated 2024-01-01T00:00:00Z (milliseconds since
the epoch). -/
def demoS1 : CFileExistsNotification :=
  { download := true
    localTime := some 1704153600000
    remoteTime := some 1704067200000
    overwriteAction := OverwriteAction.overwriteNewer }

/-- The reply `overwriteSize` for a download with both sizes known and equal. -/
def demoSameSize : CFileExistsNotification :=
  { download := true
    localSize := 10
    remoteSize := 10
    overwriteAction := OverwriteAction.overwriteSize }

/-! ## Further definitions: replies to a file-exists request, lock queries -/

/-- The function `CControlSocket::IsLocked`. -/
def IsLocked (self : SocketId) (reason : locking_reason) (directory : CServerPath)
    (w : World) : Bool :=
  match GetLockStatus self w.m_lockInfoList with
  | some _ => true
  | none => w.m_lockInfoList.any (lockMatches w (w.serverOf self) directory reason)

/-- The spec's wording of the `resume` rule: the relevant side's size is known (download: the
local size, upload: the remote size). -/
def spec_resume_size_known (pData : COpData) : Bool :=
  if pData.download_ then decide (pData.localFileSize_ ≥ 0)
  else decide (pData.remoteFileSize_ ≥ 0)

/-- What a notification tells about a file-exists request: direction, remote file, remote
size and request number; `none` for any other notification. -/
def fileExistsSummary : Notification → Option (Bool × String × Int × Nat)
  | Notification.file_exists m => some (m.download, m.remoteFile, m.remoteSize, m.requestNumber)
  | _ => none

/-- Scenario S2: a download with a local file of 1024 bytes and a remote file of 4096 bytes
waits for the reply to its file-exists request; the reply is `resume`. -/
def demoS2World : World :=
  { sockets := fun _ =>
      { m_pCurOpData :=
          [{ addr := 1, opId := Command.transfer, download_ := true, localFileSize_ := 1024,
             remoteFileSize_ := 4096 }] } }

/-- The reply `resume` of scenario S2. -/
def demoS2 : CFileExistsNotification :=
  { download := true
    localSize := 1024
    remoteSize := 4096
    overwriteAction := OverwriteAction.resume }

/-- The frame of scenario S3: an upload of `local.txt` as `old.txt` into `/x`. -/
def demoS3Frame : COpData :=
  { addr := 1, opId := Command.transfer, download_ := false, remotePath_ := some ["x"],
    remoteFile_ := "old.txt", remoteFileSize_ := 5, localFile_ := "local.txt",
    localFileSize_ := 7 }

/-- The frame of scenario S3 after the rename to `new.txt`: remote size and time unknown. -/
def demoS3Renamed : COpData :=
  { demoS3Frame with remoteFile_ := "new.txt", fileTime_ := none, remoteFileSize_ := -1 }

/-- The frame of scenario S3 after the size and date of the cached entry have been adopted. -/
def demoS3Adopted : COpData :=
  { demoS3Renamed with remoteFileSize_ := 10, fileTime_ := some 1704067200000 }

/-- Scenario S3: the upload runs on server 7 with current path `/x`; one file-exists request
has been issued. -/
def demoS3World : World :=
  { sockets := fun _ =>
      { m_pCurOpData := [demoS3Frame]
        currentServer_ := some 7
        m_CurrentPath := some ["x"] }
    notifications :=
      [Notification.file_exists
        { requestNumber := 1, download := false, localFile := "local.txt", localSize := 7,
          remoteFile := "old.txt", remotePath := some ["x"], remoteSize := 5,
          canResume := true }]
    nextAsyncRequestNumber := 1 }

/-- A directory cache that knows one file, `new.txt` with 10 bytes and a date, in every
directory; the other services as in `idleHooks`. -/
def cacheHooks : Hooks :=
  { idleHooks with
    LookupFile := fun _ _ file =>
      if file = "new.txt" then (true, true, { size := 10, time := some 1704067200000 })
      else (false, false, {}) }

/-- The reply `rename` to `new.txt` of scenario S3. -/
def demoS3 : CFileExistsNotification :=
  { download := false
    overwriteAction := OverwriteAction.rename
    newName := "new.txt" }

/-- The reply `skip` for a download. -/
def demoSkip : CFileExistsNotification :=
  { download := true
    overwriteAction := OverwriteAction.skip }

/-- A download that waits for the reply to its file-exists request. -/
def demoAwaiting : World :=
  { sockets := fun _ =>
      { m_pCurOpData :=
          [{ addr := 1, opId := Command.transfer, download_ := true,
             waitForAsyncRequest := true }] } }

/-- A reply for a download whose local file is newer than the remote one and differs from it
in size. -/
def demoMixed : CFileExistsNotification :=
  { download := true
    localSize := 10
    localTime := some 2000
    remoteSize := 20
    remoteTime := some 1000 }

/-- Scenario S5 up to the wake-up: sockets 1 and 2 of `demoWorld` call
`TryLockCache(lock_list, /x)` in this order, then socket 1 unlocks. -/
def demoS5 : World :=
  (runLock [LockCall.TryLockCache 1 locking_reason.lock_list (some ["x"]),
    LockCall.TryLockCache 2 locking_reason.lock_list (some ["x"]),
    LockCall.UnlockCache 1] demoWorld).getD demoWorld

/-! ## Invariants (i), (ii) and (iii) of the lock list -/

/-- Invariants (i) and (ii) of the lock list: no two records have the same owner, and the
counts agree with the waiting flags. -/
def LockOwners (l : List t_lockInfo) : Prop :=
  (l.map (fun r => r.pControlSocket)).Nodup ∧ CountsOK l

/-- The lock list against a count `hc u` of lock-holding frames per socket `u`: invariants
(i) and (ii), the count of a record that is not waiting is `hc` of its owner, the owner of a
waiting record has exactly one lock-holding frame, and a socket without record has none. -/
def CountsMatch (l : List t_lockInfo) (hc : SocketId → Nat) : Prop :=
  LockOwners l ∧
    (∀ r ∈ l, (r.waiting = false → r.lockcount = hc r.pControlSocket) ∧
      (r.waiting = true → hc r.pControlSocket = 1)) ∧
    ∀ u, (∀ r ∈ l, r.pControlSocket ≠ u) → hc u = 0

/-- Invariant (iii) in its inductive form: `CountsMatch` for the stacks of the world. -/
def LockCounts (w : World) : Prop :=
  CountsMatch w.m_lockInfoList (fun u => holdCount (opsOf w u))

/-- What is assumed of the protocol-specific callbacks in statements about invariant (iii):
they keep `LockCounts`. -/
def HooksKeepCounts (h : Hooks) : Prop :=
  (∀ s w, LockCounts w → LockCounts (h.Send s w).2) ∧
  (∀ s prev op w, LockCounts w → LockCounts (h.SubcommandResult s prev op w).2)

/-- The caller contract under which invariant (iii) holds: a pushed frame is fresh
(`holdsLock_` clear), and a socket whose record is waiting calls `TryLockCache` again only
from the operation that is waiting (its `holdsLock_` is set). Every other step is
unconstrained. -/
def SocketCall.nested : SocketCall → World → Bool
  | SocketCall.Push _ op, _ => !op.holdsLock_
  | SocketCall.TryLockCache s _ _, w =>
    match GetLockStatus s w.m_lockInfoList, (w.sockets s).m_pCurOpData with
    | some (_, own, _), cur :: _ => !own.waiting || cur.holdsLock_
    | _, _ => true
  | _, _ => true

/-- Every step of the sequence, taken in the state it is applied to, keeps the contract. -/
def nestedCalls (h : Hooks) : List SocketCall → World → Bool
  | [], _ => true
  | c :: cs, w =>
    c.nested w &&
      match c.apply h w with
      | none => true
      | some w1 => nestedCalls h cs w1

/-! ## Further definitions: size limit, wake-up of the producer, working directory, PWD reply,
factory holders -/

/-- The size-limit invariant of a memory writer with limit `L`: the limit is stored and the
result buffer holds at most `L` bytes. -/
def WithinLimit (L : Nat) (w : writer_base) : Prop :=
  w.kind = writer_kind.memory_writer ∧ w.sizeLimit_ = L ∧ w.result_buffer_.length ≤ L

/-- The result code of a producer call made in state `w`; `none` for a pass of the worker. -/
def WriterOp.result : WriterOp → writer_base → Option aio_result
  | WriterOp.get_write_buffer l, w => some (FZ.get_write_buffer l w).1.1
  | WriterOp.retire l, w => some (FZ.retire l w).1
  | WriterOp.write d, w => some (FZ.write d w).1
  | WriterOp.finalize f l, w => some (FZ.finalize f l w).1
  | WriterOp.entry_step _, _ => none

/-- No call of the trace, run from state `w`, returns `wait`. -/
def waitFree : List WriterOp → writer_base → Bool
  | [], _ => true
  | op :: rest, w => decide (op.result w ≠ some aio_result.wait) && waitFree rest (op.apply w)

/-- A file writer with two slots, both committed, whose worker is running. -/
def demoFullRing : writer_base :=
  { kind := writer_kind.file_writer, buffers_ := [[1], [2]], buffer_size_ := 8,
    ready_count_ := 2 }

/-- What a notification tells about the resumability of a file-exists request. -/
def fileExistsCanResume : Notification → Option Bool
  | Notification.file_exists m => some m.canResume
  | _ => none

/-- Modelled from the spec: `CServerPath::IsParentOf(path, false)` of the missing
`serverpath.cpp`: `self` is a proper ancestor of `path`, that is, the segments of `self` are a
strict initial part of those of `path`; an empty path is neither ancestor nor descendant. -/
def IsParentOf (self path : CServerPath) : Bool :=
  match self, path with
  | some p, some c => p.isPrefixOf c && decide (p.length < c.length)
  | _, _ => false

/-- The function `CControlSocket::InvalidateCurrentWorkingDir` (the assertion on `path` is
not checked). -/
def InvalidateCurrentWorkingDir (self : SocketId) (path : CServerPath) (w : World) : World :=
  if (w.sockets self).m_CurrentPath.isNone then w
  else if decide ((w.sockets self).m_CurrentPath = path) ||
      IsParentOf path (w.sockets self).m_CurrentPath then
    match (w.sockets self).m_pCurOpData with
    | _ :: _ => w.setSocket self { w.sockets self with m_invalidateCurrentPath := true }
    | [] => w.setSocket self { w.sockets self with m_CurrentPath := none }
  else w

/-- The working directory of a socket and its deferred-invalidation flag. -/
def pathOf (x : CControlSocket) : CServerPath × Bool :=
  (x.m_CurrentPath, x.m_invalidateCurrentPath)

/-- What is assumed of the parent's `SubcommandResult` in statements about the working
directory of socket `s`: the callback leaves the directory and the flag alone. -/
def HooksKeepPath (h : Hooks) (s : SocketId) : Prop :=
  ∀ (prev : Nat) (op : COpData) (w : World),
    pathOf ((h.SubcommandResult s prev op w).2.sockets s) = pathOf (w.sockets s)

/-- Hooks whose `SubcommandResult` keeps the parent operation going. -/
def parkingHooks : Hooks :=
  { idleHooks with SubcommandResult := fun _ _ _ w => (FZ_REPLY_WOULDBLOCK, w) }

/-- A socket in `/home/user` that runs a transfer with a sub-operation on top. -/
def demoCwd : World :=
  { sockets := fun _ =>
      { currentServer_ := some 7, m_CurrentPath := some ["home", "user"],
        m_pCurOpData := [{ addr := 1, opId := Command.other 0 },
          { addr := 2, opId := Command.transfer }] } }

/-- A socket in `/home/user` with no operation in flight. -/
def demoCwdIdle : World :=
  { sockets := fun _ => { currentServer_ := some 7, m_CurrentPath := some ["home", "user"] } }

/-- The double quote. -/
def DQUOTE : Char := Char.ofNat 34

/-- The single quote. -/
def SQUOTE : Char := Char.ofNat 39

/-- The space. -/
def SPACE : Char := Char.ofNat 32

/-- The call `std::wstring::find(c)`: position of the first `c`; `none` stands for `npos`. -/
def wstring.find (c : Char) : List Char → Option Nat
  | [] => none
  | x :: xs => if x = c then some 0 else (wstring.find c xs).map (fun i => i + 1)

/-- The call `std::wstring::rfind(c)`: position of the last `c`; `none` stands for `npos`. -/
def wstring.rfind (c : Char) : List Char → Option Nat
  | [] => none
  | x :: xs =>
    match wstring.rfind c xs with
    | some i => some (i + 1)
    | none => if x = c then some 0 else none

/-- The call `std::wstring::substr(pos, len)`. -/
def wstring.substr (s : List Char) (pos len : Nat) : List Char := (s.drop pos).take len

/-- The test `pos1 == npos || pos1 >= pos2` on two positions (`npos` is the largest value of
`size_t`). -/
def noQuotePair : Option Nat → Option Nat → Bool
  | none, _ => true
  | some _, none => false
  | some i, some j => decide (i ≥ j)

/-- Modelled from the spec: `fz::replace_substrings(in, find, replacement)` of libfilezilla:
the occurrences of `find` are replaced from left to right, the search resuming behind each
replacement. The first argument counts the characters of a replaced occurrence that are
still to be skipped. -/
def replace_substrings.go (find replacement : List Char) : Nat → List Char → List Char
  | _, [] => []
  | skip + 1, _ :: xs => replace_substrings.go find replacement skip xs
  | 0, x :: xs =>
    if find ≠ [] ∧ find.isPrefixOf (x :: xs) then
      replacement ++ replace_substrings.go find replacement (find.length - 1) xs
    else x :: replace_substrings.go find replacement 0 xs

/-- Modelled from the spec: `fz::replace_substrings` of libfilezilla, see
`replace_substrings.go`. -/
def replace_substrings (s find replacement : List Char) : List Char :=
  replace_substrings.go find replacement 0 s

/-- The branch `!unquoted` of `CControlSocket::ParsePwdReply`: the text taken from the
reply. -/
def ParsePwdReply.extract (reply : List Char) : List Char :=
  let p : Option Nat × Option Nat :=
    if noQuotePair (wstring.find DQUOTE reply) (wstring.rfind DQUOTE reply) then
      (wstring.find SQUOTE reply, wstring.rfind SQUOTE reply)
    else (wstring.find DQUOTE reply, wstring.rfind DQUOTE reply)
  if noQuotePair p.1 p.2 then
    match wstring.find SPACE reply with
    | some pos1 =>
      let reply1 := reply.drop (pos1 + 1)
      match wstring.find SPACE reply1 with
      | some pos2 => wstring.substr reply1 0 pos2
      | none => reply1
    | none => []
  else
    replace_substrings (wstring.substr reply (p.1.getD 0 + 1) (p.2.getD 0 - p.1.getD 0 - 1))
      [DQUOTE, DQUOTE] [DQUOTE]

/-- The function `CControlSocket::ParsePwdReply`. `SetPath server text` is
`CServerPath::SetPath` of the missing `serverpath.cpp` on a path of the server's type, a
parameter: whether `text` parses, and the value the path object has afterwards. -/
def ParsePwdReply (SetPath : CServer → List Char → Bool × CServerPath) (self : SocketId)
    (reply : List Char) (unquoted : Bool) (defaultPath : CServerPath) (w : World) :
    Bool × World :=
  let reply1 := if !unquoted then ParsePwdReply.extract reply else reply
  let parsed : Bool × World :=
    if reply1.isEmpty then (false, w)
    else
      ((SetPath (w.sockets self).currentServer_ reply1).1,
        w.setSocket self { w.sockets self with
          m_CurrentPath := (SetPath (w.sockets self).currentServer_ reply1).2 })
  if !parsed.1 then
    let w1 :=
      if reply1.isEmpty then
        LogMessage self MessageType.Error "Server returned empty path." parsed.2
      else LogMessage self MessageType.Error "Failed to parse returned path." parsed.2
    if defaultPath.isSome then
      (true, w1.setSocket self { w1.sockets self with m_CurrentPath := defaultPath })
    else (false, w1)
  else (true, parsed.2)

/-- The text after the first `c` of `l` (empty when `l` has no `c`). -/
def spec_after_first (c : Char) (l : List Char) : List Char :=
  (l.dropWhile (fun x => x != c)).drop 1

/-- The text before the last `c` of `l` (empty when `l` has no `c`). -/
def spec_before_last (c : Char) (l : List Char) : List Char :=
  ((l.reverse.dropWhile (fun x => x != c)).drop 1).reverse

/-- The text strictly between the first and the last `c` of `l`. -/
def spec_between (c : Char) (l : List Char) : List Char :=
  spec_before_last c (spec_after_first c l)

/-- The spec's wording of the path taken from a PWD reply: between the first and the last
double quote when there are two of them, doubled quotes collapsed; else between the first
and the last single quote when there are two of them; else from behind the first space up to
the second space (up to the end when there is no second space). -/
def spec_pwd_path (reply : List Char) : List Char :=
  if 2 ≤ reply.count DQUOTE then
    replace_substrings (spec_between DQUOTE reply) [DQUOTE, DQUOTE] [DQUOTE]
  else if 2 ≤ reply.count SQUOTE then spec_between SQUOTE reply
  else (spec_after_first SPACE reply).takeWhile (fun x => x != SPACE)

/-- A path parser for the examples: a text that starts with a slash parses, to the path with
the text behind the slash as its only segment. -/
def demoSetPath : CServer → List Char → Bool × CServerPath :=
  fun _ t =>
    match t with
    | '/' :: rest => (true, some [String.mk rest])
    | _ => (false, none)

/-- The factory classes of `writer.cpp` (`file_writer_factory`, `memory_writer_factory`) with
the data their constructors store. `addr` is the address of the heap object, used only to
tell a clone from its original. -/
structure writer_factory where
  addr : Nat
  kind : writer_kind
  name_ : String
  fsync_ : Bool := false
  sizeLimit_ : Nat := 0
deriving DecidableEq, Repr

/-- The memory of the holder operations: `impl_ a` is the member `impl_` of the
`writer_factory_holder` at address `a` (`none` is the null pointer), `nextAddr` the address
that the next allocation returns, `freed` the addresses of the factories destroyed so far. -/
structure HolderHeap where
  impl_ : Nat → Option writer_factory := fun _ => none
  nextAddr : Nat := 0
  freed : List Nat := []

/-- The functions `file_writer_factory::clone` and `memory_writer_factory::clone`: a copy of
the factory in a new heap object. -/
def writer_factory.clone (f : writer_factory) (m : HolderHeap) : writer_factory × HolderHeap :=
  ({ f with addr := m.nextAddr }, { m with nextAddr := m.nextAddr + 1 })

/-- Assignment to the `unique_ptr` member `impl_` of the holder at `this`: the factory owned
before is destroyed. -/
def HolderHeap.setImpl (m : HolderHeap) (this : Nat) (v : Option writer_factory) : HolderHeap :=
  { m with
    impl_ := fun a => if a = this then v else m.impl_ a
    freed := m.freed ++ ((m.impl_ this).map (fun f => f.addr)).toList }

/-- The copy assignment `writer_factory_holder::operator=(writer_factory_holder const& op)`
on the holders at the addresses `this` and `op`. -/
def writer_factory_holder.copyAssign (this op : Nat) (m : HolderHeap) : HolderHeap :=
  match m.impl_ op with
  | some f =>
    if this ≠ op then
      (f.clone m).2.setImpl this (some (f.clone m).1)
    else m
  | none => m

/-- The move assignment `writer_factory_holder::operator=(writer_factory_holder && op)`. -/
def writer_factory_holder.moveAssign (this op : Nat) (m : HolderHeap) : HolderHeap :=
  if this ≠ op then
    let m1 := { m with impl_ := fun a => if a = op then none else m.impl_ a }
    let m2 := m1.setImpl this (m.impl_ op)
    m2.setImpl op none
  else m

/-- The copy constructor `writer_factory_holder(writer_factory_holder const& op)` building
the holder at the fresh address `this`. -/
def writer_factory_holder.copyConstruct (this op : Nat) (m : HolderHeap) : HolderHeap :=
  let m0 := { m with impl_ := fun a => if a = this then none else m.impl_ a }
  match m0.impl_ op with
  | some f => (f.clone m0).2.setImpl this (some (f.clone m0).1)
  | none => m0

/-- Two holders: the one at address 1 owns a file-writer factory for `a.txt` (heap object
10), the one at address 2 is empty. -/
def demoHolders : HolderHeap :=
  { impl_ := fun a =>
      if a = 1 then
        some { addr := 10, kind := writer_kind.file_writer, name_ := "a.txt", fsync_ := true }
      else none
    nextAddr := 11 }

/-- A PWD reply with a quoted path. -/
def demoPwdReply : List Char := "257 \"/home/user\" is current directory".toList

/-- A PWD reply without quotes and without a space. -/
def demoPwdBare : List Char := "257".toList

/-- A directory cache that knows one file, `new.txt` with 10 bytes and a date, in the
directory `/x` and nowhere else; the other services as in `idleHooks`. -/
def dirCacheHooks : Hooks :=
  { idleHooks with
    LookupFile := fun _ path file =>
      if path = some ["x"] ∧ file = "new.txt" then
        (true, true, { size := 10, time := some 1704067200000 })
      else (false, false, {}) }

/-- Scenario S3 with the working directory unknown: the upload of `local.txt` as `old.txt`
into `/x` runs on server 7 while `m_CurrentPath` is empty and the absolute path has not been
tried; one file-exists request has been issued. -/
def demoS3NoCwd : World :=
  { sockets := fun _ =>
      { m_pCurOpData := [demoS3Frame]
        currentServer_ := some 7 }
    notifications :=
      [Notification.file_exists
        { requestNumber := 1, download := false, localFile := "local.txt", localSize := 7,
          remoteFile := "old.txt", remotePath := some ["x"], remoteSize := 5,
          canResume := true }]
    nextAsyncRequestNumber := 1 }

/-! # Theorems -/

/-! ## Transport: the spill buffer after a partial write (C1) -/

/-- Claim C1, evaluation at the scenario S6. `Send` of the 100 bytes `0, 1, ..., 99` with no
spill, of which the backend accepts 40: the backend has taken bytes `0..39`, and the spill
buffer holds the 60 bytes `0..59` (the source copies from the start of the buffer), which is
not the unsent remainder `40..99`; the bytes accepted followed by the spill are not the bytes
passed to `Send`. -/
theorem c1_send_partial_write_spills_wrong_bytes :
    (CRealControlSocket.Send 0 (List.range 100) 40 0 {}).map
        (fun r => (r.1, (r.2.sockets 0).sent, (r.2.sockets 0).m_pSendBuffer,
          (r.2.sockets 0).m_nSendBufferLen)) =
      some (FZ_REPLY_WOULDBLOCK, (List.range 100).take 40, some ((List.range 100).take 60), 60) ∧
    (List.range 100).take 60 ≠ (List.range 100).drop 40 ∧
    (List.range 100).take 40 ++ (List.range 100).take 60 ≠ List.range 100 := by
  decide

/-! ## Basic facts about worlds and the lock list -/

@[simp] theorem setSocket_sockets_self (w : World) (s : SocketId) (x : CControlSocket) :
    (w.setSocket s x).sockets s = x := by
  simp [World.setSocket]

@[simp] theorem setSocket_sockets_ne (w : World) (s t : SocketId) (x : CControlSocket)
    (h : t ≠ s) : (w.setSocket s x).sockets t = w.sockets t := by
  simp [World.setSocket, h]

@[simp] theorem setSocket_lockInfoList (w : World) (s : SocketId) (x : CControlSocket) :
    (w.setSocket s x).m_lockInfoList = w.m_lockInfoList := rfl

@[simp] theorem setSocket_obtainLockEvents (w : World) (s : SocketId) (x : CControlSocket) :
    (w.setSocket s x).obtainLockEvents = w.obtainLockEvents := rfl

theorem setSocket_serverOf (w : World) (s t : SocketId) (x : CControlSocket)
    (hx : x.currentServer_ = (w.sockets s).currentServer_) :
    (w.setSocket s x).serverOf t = w.serverOf t := by
  unfold World.serverOf
  by_cases h : t = s
  · subst h; simp [hx]
  · simp [h]

@[simp] theorem setHoldsLock_lockInfoList (w : World) (s : SocketId) (b : Bool) :
    (w.setHoldsLock s b).m_lockInfoList = w.m_lockInfoList := by
  unfold World.setHoldsLock
  split <;> rfl

@[simp] theorem setHoldsLock_obtainLockEvents (w : World) (s : SocketId) (b : Bool) :
    (w.setHoldsLock s b).obtainLockEvents = w.obtainLockEvents := by
  unfold World.setHoldsLock
  split <;> rfl

@[simp] theorem setHoldsLock_serverOf (w : World) (s t : SocketId) (b : Bool) :
    (w.setHoldsLock s b).serverOf t = w.serverOf t := by
  unfold World.setHoldsLock
  split
  · rfl
  · exact setSocket_serverOf _ _ _ _ rfl

theorem setHoldsLock_ops_ne (w : World) (s t : SocketId) (b : Bool) (h : t ≠ s) :
    ((w.setHoldsLock s b).sockets t).m_pCurOpData = (w.sockets t).m_pCurOpData := by
  unfold World.setHoldsLock
  split
  · rfl
  · simp [h]

theorem setHoldsLock_ops_self (w : World) (s : SocketId) (b : Bool) :
    ((w.setHoldsLock s b).sockets s).m_pCurOpData =
      match (w.sockets s).m_pCurOpData with
      | [] => []
      | cur :: rest => { cur with holdsLock_ := b } :: rest := by
  unfold World.setHoldsLock
  split <;> simp [*]

theorem lockMatches_congr (w w1 : World) (h : ∀ t, w1.serverOf t = w.serverOf t)
    (server : CServer) (d : CServerPath) (r : locking_reason) (e : t_lockInfo) :
    lockMatches w1 server d r e = lockMatches w server d r e := by
  unfold lockMatches
  rw [h]

theorem GetLockStatus_some {s : SocketId} {l pre post : List t_lockInfo} {own : t_lockInfo}
    (h : GetLockStatus s l = some (pre, own, post)) :
    l = pre ++ own :: post ∧ own.pControlSocket = s ∧ ∀ r ∈ pre, r.pControlSocket ≠ s := by
  induction l generalizing pre with
  | nil => simp [GetLockStatus] at h
  | cons r rs ih =>
    unfold GetLockStatus at h
    split_ifs at h with hr
    · simp only [Option.some.injEq, Prod.mk.injEq] at h
      obtain ⟨h1, h2, h3⟩ := h
      subst h1 h2 h3
      simp [hr]
    · cases hg : GetLockStatus s rs with
      | none => simp [hg] at h
      | some v =>
        obtain ⟨p1, o1, q1⟩ := v
        simp only [hg, Option.some.injEq, Prod.mk.injEq] at h
        obtain ⟨h1, h2, h3⟩ := h
        subst h1 h2 h3
        obtain ⟨i1, i2, i3⟩ := ih hg
        refine ⟨by rw [i1]; rfl, i2, ?_⟩
        intro x hx
        rcases List.mem_cons.mp hx with hx | hx
        · rw [hx]; exact hr
        · exact i3 x hx

theorem GetLockStatus_none {s : SocketId} {l : List t_lockInfo}
    (h : GetLockStatus s l = none) : ∀ r ∈ l, r.pControlSocket ≠ s := by
  induction l with
  | nil => simp
  | cons r rs ih =>
    unfold GetLockStatus at h
    split_ifs at h with hr
    cases hg : GetLockStatus s rs with
    | none =>
      intro x hx
      rcases List.mem_cons.mp hx with hx | hx
      · rw [hx]; exact hr
      · exact ih hg x hx
    | some v => simp [hg] at h

theorem GetLockStatus_eq_none {s : SocketId} {l : List t_lockInfo}
    (h : ∀ r ∈ l, r.pControlSocket ≠ s) : GetLockStatus s l = none := by
  induction l with
  | nil => rfl
  | cons r rs ih =>
    unfold GetLockStatus
    rw [if_neg (h r (List.mem_cons_self _ _)), ih (fun x hx => h x (List.mem_cons_of_mem _ hx))]

theorem GetLockStatus_eq_some {s : SocketId} (pre post : List t_lockInfo) (own : t_lockInfo)
    (hown : own.pControlSocket = s) (hpre : ∀ r ∈ pre, r.pControlSocket ≠ s) :
    GetLockStatus s (pre ++ own :: post) = some (pre, own, post) := by
  induction pre with
  | nil => simp [GetLockStatus, hown]
  | cons r rs ih =>
    simp only [List.cons_append]
    unfold GetLockStatus
    rw [if_neg (hpre r (List.mem_cons_self _ _)),
      ih (fun x hx => hpre x (List.mem_cons_of_mem _ hx))]

/-! ## Lock fairness: acquisition in order (C3) -/

theorem tryLockAll_waiters (reason : locking_reason) (directory : CServerPath) (srv : CServer)
    (ts : List SocketId) :
    ∀ (w : World) (hd : t_lockInfo) (L : List t_lockInfo),
      w.m_lockInfoList = hd :: L →
      lockMatches w srv directory reason hd = true →
      ts.Nodup → (∀ t ∈ ts, ∀ r ∈ hd :: L, r.pControlSocket ≠ t) →
      (∀ t ∈ ts, (w.sockets t).m_pCurOpData ≠ [] ∧ w.serverOf t = srv) →
      ∃ w1, tryLockAll reason directory ts w = some (List.replicate ts.length false, w1) ∧
        w1.m_lockInfoList = (hd :: L) ++ ts.map (fun t =>
          (t_lockInfo.mk t directory reason true 0)) := by
  induction ts with
  | nil => intro w hd L hl _ _ _ _; exact ⟨w, rfl, by simp [hl]⟩
  | cons t ts ih =>
    intro w hd L hl hm hnd hfresh hs
    obtain ⟨hops, hsrv⟩ := hs t (List.mem_cons_self _ _)
    obtain ⟨cur, rest, hcur⟩ := List.exists_cons_of_ne_nil hops
    have hnone : GetLockStatus t w.m_lockInfoList = none := by
      apply GetLockStatus_eq_none
      rw [hl]
      exact hfresh t (List.mem_cons_self _ _)
    have hany : w.m_lockInfoList.any (lockMatches w (w.serverOf t) directory reason) = true := by
      rw [hl, hsrv]
      simp [hm]
    have htry : TryLockCache t reason directory w = some (false,
        { w.setHoldsLock t true with m_lockInfoList := w.m_lockInfoList ++
          [(t_lockInfo.mk t directory reason true 0)] }) := by
      unfold TryLockCache
      simp only [hcur, hnone, hany, if_true]
    have hnd2 : ts.Nodup := (List.nodup_cons.mp hnd).2
    have htn : t ∉ ts := (List.nodup_cons.mp hnd).1
    obtain ⟨w1, h1, h2⟩ := ih
      { w.setHoldsLock t true with m_lockInfoList := w.m_lockInfoList ++
          [(t_lockInfo.mk t directory reason true 0)] }
      hd (L ++ [(t_lockInfo.mk t directory reason true 0)])
      (by simp [hl])
      (by
        rw [lockMatches_congr w _ (fun x => by
          show (w.setHoldsLock t true).serverOf x = _
          exact setHoldsLock_serverOf w t x true)]
        exact hm)
      hnd2
      (by
        intro x hx r hr
        rw [← List.cons_append] at hr
        rcases List.mem_append.mp hr with hr | hr
        · exact hfresh x (List.mem_cons_of_mem _ hx) r hr
        · simp only [List.mem_singleton] at hr
          rw [hr]
          intro hxt
          exact htn (by rw [show t = x from hxt]; exact hx))
      (by
        intro x hx
        have hxt : x ≠ t := fun h => htn (h ▸ hx)
        obtain ⟨a, b⟩ := hs x (List.mem_cons_of_mem _ hx)
        refine ⟨?_, ?_⟩
        · show ((w.setHoldsLock t true).sockets x).m_pCurOpData ≠ []
          rw [setHoldsLock_ops_ne w t x true hxt]; exact a
        · show (w.setHoldsLock t true).serverOf x = srv
          rw [setHoldsLock_serverOf]; exact b)
    refine ⟨w1, ?_, ?_⟩
    · simp only [tryLockAll, htry, h1, List.length_cons, List.replicate_succ]
    · rw [h2]; simp

theorem tryLockAll_first (reason : locking_reason) (directory : CServerPath)
    (srv : CServer) (s : SocketId) (ts : List SocketId) (w : World)
    (hempty : w.m_lockInfoList = []) (hnd : (s :: ts).Nodup)
    (hs : ∀ t ∈ s :: ts, (w.sockets t).m_pCurOpData ≠ [] ∧ w.serverOf t = srv) :
    ∃ w1, tryLockAll reason directory (s :: ts) w =
        some (true :: List.replicate ts.length false, w1) ∧
      w1.m_lockInfoList =
        (t_lockInfo.mk s directory reason false 1) ::
        ts.map (fun t => (t_lockInfo.mk t directory reason true 0)) := by
  obtain ⟨hops, hsrv⟩ := hs s (List.mem_cons_self _ _)
  obtain ⟨cur, rest, hcur⟩ := List.exists_cons_of_ne_nil hops
  have hsn : s ∉ ts := (List.nodup_cons.mp hnd).1
  have htry : TryLockCache s reason directory w = some (true,
      { w.setHoldsLock s true with m_lockInfoList :=
        [(t_lockInfo.mk s directory reason false 1)] }) := by
    unfold TryLockCache
    simp [hcur, hempty, GetLockStatus]
  obtain ⟨w1, h1, h2⟩ := tryLockAll_waiters reason directory srv ts
    { w.setHoldsLock s true with m_lockInfoList :=
        [(t_lockInfo.mk s directory reason false 1)] }
    (t_lockInfo.mk s directory reason false 1) [] rfl
    (by
      unfold lockMatches
      have : (w.setHoldsLock s true).serverOf s = srv := by
        rw [setHoldsLock_serverOf]; exact hsrv
      simp [World.serverOf] at this ⊢
      exact this.symm)
    (List.nodup_cons.mp hnd).2
    (by
      intro x hx r hr
      simp only [List.mem_singleton] at hr
      rw [hr]
      intro hxs
      exact hsn (by rw [show s = x from hxs]; exact hx))
    (by
      intro x hx
      have hxs : x ≠ s := fun h => hsn (h ▸ hx)
      obtain ⟨a, b⟩ := hs x (List.mem_cons_of_mem _ hx)
      refine ⟨?_, ?_⟩
      · show ((w.setHoldsLock s true).sockets x).m_pCurOpData ≠ []
        rw [setHoldsLock_ops_ne w s x true hxs]; exact a
      · show (w.setHoldsLock s true).serverOf x = srv
        rw [setHoldsLock_serverOf]; exact b)
  refine ⟨w1, ?_, ?_⟩
  · simp only [tryLockAll, htry, h1]
  · rw [h2]; simp

/-- Claim C3. From an empty lock list, when the distinct sockets `s :: ts`, all with a current
operation and all connected to the same server, call `TryLockCache reason directory` in this
order, the first call returns `true` and every later call returns `false`; afterwards the list
holds the first socket's record with `waiting = false`, `lockcount = 1`, followed in call
order by one record per later socket with `waiting = true`, `lockcount = 0`. -/
theorem c3_first_caller_obtains_lock (reason : locking_reason) (directory : CServerPath)
    (srv : CServer) (s : SocketId) (ts : List SocketId) (w : World)
    (hempty : w.m_lockInfoList = []) (hnd : (s :: ts).Nodup)
    (hs : ∀ t ∈ s :: ts, (w.sockets t).m_pCurOpData ≠ [] ∧ w.serverOf t = srv) :
    (tryLockAll reason directory (s :: ts) w).map (fun p => (p.1, p.2.m_lockInfoList)) =
      some (true :: List.replicate ts.length false,
        t_lockInfo.mk s directory reason false 1 ::
          ts.map (fun t => t_lockInfo.mk t directory reason true 0)) := by
  obtain ⟨w1, h1, h2⟩ := tryLockAll_first reason directory srv s ts w hempty hnd hs
  rw [h1]
  simp [h2]

theorem c3_first_caller_obtains_lock_witness :
    (tryLockAll locking_reason.lock_list (some ["x"]) [1, 2, 3] demoWorld).map
        (fun p => (p.1, p.2.m_lockInfoList)) =
      some (true :: List.replicate [2, 3].length false,
        t_lockInfo.mk 1 (some ["x"]) locking_reason.lock_list false 1 ::
          [2, 3].map (fun t => t_lockInfo.mk t (some ["x"]) locking_reason.lock_list true 0)) :=
  c3_first_caller_obtains_lock locking_reason.lock_list (some ["x"]) (some 7) 1 [2, 3]
    demoWorld rfl (by decide) (fun t _ => ⟨by simp [demoWorld], rfl⟩)

/-! ## Lock fairness: release and wake-up (C4) -/

theorem find?_congr_on {α : Type} (p q : α → Bool) (l : List α)
    (h : ∀ x ∈ l, p x = q x) : l.find? p = l.find? q := by
  induction l with
  | nil => rfl
  | cons a t ih =>
    simp only [List.find?_cons, h a (List.mem_cons_self _ _)]
    rw [ih (fun x hx => h x (List.mem_cons_of_mem _ hx))]

theorem unlockWakeTest_eq_lockMatches (w w1 : World) (server : CServer)
    (directory : CServerPath) (reason : locking_reason) (r : t_lockInfo)
    (hs : ∀ t, w1.serverOf t = w.serverOf t) (hsrv : server.isSome = true) :
    unlockWakeTest w1 server directory reason r = lockMatches w server directory reason r := by
  unfold unlockWakeTest lockMatches
  rw [hs]
  cases hv : server with
  | none => rw [hv] at hsrv; simp at hsrv
  | some v =>
    by_cases h1 : some v = w.serverOf r.pControlSocket
    · by_cases h2 : directory = r.directory
      · by_cases h3 : reason = r.reason
        · simp [← h1, h2, h3]
        · have h3b : ¬ r.reason = reason := fun h => h3 h.symm
          simp [h3, h3b]
      · have h2b : ¬ r.directory = directory := fun h => h2 h.symm
        simp [h2, h2b]
    · simp [h1]

/-- Under invariant (iv) every record that matches the key of a holder, other than the
holder itself, is waiting. -/
theorem matches_of_holder_wait (w : World) (pre post : List t_lockInfo) (own : t_lockInfo)
    (hl : w.m_lockInfoList = pre ++ own :: post) (hw : own.waiting = false)
    (hinv : HoldersExclusive w) :
    ∀ r ∈ pre ++ post,
      lockMatches w (w.serverOf own.pControlSocket) own.directory own.reason r = true →
      r.waiting = true := by
  intro r hr hm
  unfold HoldersExclusive at hinv
  rw [hl, List.pairwise_append] at hinv
  obtain ⟨_, hpost, hcross⟩ := hinv
  rcases List.mem_append.mp hr with hr | hr
  · have := hcross r hr own (List.mem_cons_self _ _) hw
    rw [hm] at this
    exact absurd this (by simp)
  · cases hrw : r.waiting with
    | true => rfl
    | false =>
      have := (List.pairwise_cons.mp hpost).1 r hr hrw
      unfold lockMatches at this hm
      simp only [Bool.and_eq_true, decide_eq_true_eq] at hm
      obtain ⟨⟨m1, m2⟩, m3⟩ := hm
      simp [m1, m2, m3] at this

/-- Claim C4 (amended). Let socket `self` own the record `own` of the list
`pre ++ own :: post`, a holder with `lockcount = 1`, and let its current operation hold the
lock. Then `UnlockCache` erases the record (the list becomes `pre ++ post`). A socket without
a server posts no event. A socket connected to a server posts at most one
`CObtainLockEvent`: to the owner of the first remaining record that matches `own` in server,
directory and reason, and none when no record matches. When the list satisfies
invariant (iv), that record is the earliest remaining waiting record that matches, so that
exactly one event goes to the earliest matching waiter. -/
theorem c4_unlock_wakes_earliest_waiter (self : SocketId) (w : World) (cur : COpData)
    (rest : List COpData) (pre post : List t_lockInfo) (own : t_lockInfo)
    (hcur : (w.sockets self).m_pCurOpData = cur :: rest) (hholds : cur.holdsLock_ = true)
    (hown : GetLockStatus self w.m_lockInfoList = some (pre, own, post))
    (hw : own.waiting = false) (hc : own.lockcount = 1) :
    (UnlockCache self w).m_lockInfoList = pre ++ post ∧
    ((w.serverOf self).isSome = false →
      (UnlockCache self w).obtainLockEvents = w.obtainLockEvents) ∧
    ((w.serverOf self).isSome = true →
      (UnlockCache self w).obtainLockEvents = w.obtainLockEvents ++
        (match (pre ++ post).find?
            (lockMatches w (w.serverOf self) own.directory own.reason) with
          | some r => [r.pControlSocket]
          | none => [])) ∧
    ((w.serverOf self).isSome = true → HoldersExclusive w →
      (UnlockCache self w).obtainLockEvents = w.obtainLockEvents ++
        (match (pre ++ post).find? (fun r =>
            r.waiting && lockMatches w (w.serverOf self) own.directory own.reason r) with
          | some r => [r.pControlSocket]
          | none => [])) := by
  obtain ⟨hl, hself, _⟩ := GetLockStatus_some hown
  have hU : UnlockCache self w =
      eraseAndNotify self pre { own with lockcount := own.lockcount - 1 } post
        (w.setHoldsLock self false) := by
    unfold UnlockCache
    simp [hcur, hholds, hown, hw, hc]
  have hgen : (w.serverOf self).isSome = true →
      (UnlockCache self w).obtainLockEvents = w.obtainLockEvents ++
        (match (pre ++ post).find?
            (lockMatches w (w.serverOf self) own.directory own.reason) with
          | some r => [r.pControlSocket]
          | none => []) := by
    intro hsrv
    have hsrv2 : ((w.setHoldsLock self false).serverOf self).isNone = false := by
      rw [setHoldsLock_serverOf]
      cases hs : w.serverOf self with
      | none => simp [hs] at hsrv
      | some v => rfl
    have hfind : (pre ++ post).find?
        (unlockWakeTest (w.setHoldsLock self false)
          ((w.setHoldsLock self false).serverOf self) own.directory own.reason) =
        (pre ++ post).find? (lockMatches w (w.serverOf self) own.directory own.reason) := by
      apply find?_congr_on
      intro r _
      rw [setHoldsLock_serverOf]
      exact unlockWakeTest_eq_lockMatches w _ _ _ _ r
        (fun t => setHoldsLock_serverOf w self t false) hsrv
    rw [hU]
    unfold eraseAndNotify
    simp only [hsrv2, Bool.false_eq_true, if_false, hfind]
    generalize (pre ++ post).find?
      (lockMatches w (w.serverOf self) own.directory own.reason) = o
    cases o <;> simp
  refine ⟨?_, ?_, hgen, ?_⟩
  · rw [hU]
    unfold eraseAndNotify
    dsimp only
    split_ifs
    · simp
    · split <;> simp
  · intro hno
    have hsrv2 : ((w.setHoldsLock self false).serverOf self).isNone = true := by
      rw [setHoldsLock_serverOf]
      cases hs : w.serverOf self with
      | none => rfl
      | some v => simp [hs] at hno
    rw [hU]
    unfold eraseAndNotify
    simp only [hsrv2, if_true]
    simp
  · intro hsrv hinv
    rw [hgen hsrv]
    have hwait := matches_of_holder_wait w pre post own hl hw hinv
    rw [hself] at hwait
    have hfind : (pre ++ post).find?
          (lockMatches w (w.serverOf self) own.directory own.reason) =
        (pre ++ post).find? (fun r =>
          r.waiting && lockMatches w (w.serverOf self) own.directory own.reason r) := by
      apply find?_congr_on
      intro r hr
      cases hm : lockMatches w (w.serverOf self) own.directory own.reason r with
      | false => simp
      | true => simp [hwait r hr hm]
    rw [hfind]

theorem c4_unlock_wakes_earliest_waiter_witness :
    (UnlockCache 1 demoLocked).m_lockInfoList =
      ([] : List t_lockInfo) ++ [t_lockInfo.mk 2 (some ["x"]) locking_reason.lock_list true 0,
        t_lockInfo.mk 3 (some ["x"]) locking_reason.lock_list true 0] ∧
    (UnlockCache 1 demoLocked).obtainLockEvents = demoLocked.obtainLockEvents ++
      (match (([] : List t_lockInfo) ++ [t_lockInfo.mk 2 (some ["x"]) locking_reason.lock_list true 0,
          t_lockInfo.mk 3 (some ["x"]) locking_reason.lock_list true 0]).find? (fun r : t_lockInfo =>
          r.waiting && lockMatches demoLocked (demoLocked.serverOf 1)
            (t_lockInfo.mk 1 (some ["x"]) locking_reason.lock_list false 1).directory
            (t_lockInfo.mk 1 (some ["x"]) locking_reason.lock_list false 1).reason r) with
        | some r => [r.pControlSocket]
        | none => []) ∧
    (UnlockCache 1 demoLocked).obtainLockEvents = [2] :=
  ⟨(c4_unlock_wakes_earliest_waiter 1 demoLocked
      { addr := 1, opId := Command.list, holdsLock_ := true } [] []
      [t_lockInfo.mk 2 (some ["x"]) locking_reason.lock_list true 0,
        t_lockInfo.mk 3 (some ["x"]) locking_reason.lock_list true 0]
      (t_lockInfo.mk 1 (some ["x"]) locking_reason.lock_list false 1)
      rfl rfl rfl rfl rfl).1,
    (c4_unlock_wakes_earliest_waiter 1 demoLocked
      { addr := 1, opId := Command.list, holdsLock_ := true } [] []
      [t_lockInfo.mk 2 (some ["x"]) locking_reason.lock_list true 0,
        t_lockInfo.mk 3 (some ["x"]) locking_reason.lock_list true 0]
      (t_lockInfo.mk 1 (some ["x"]) locking_reason.lock_list false 1)
      rfl rfl rfl rfl rfl).2.2.2 rfl (by decide),
    by decide⟩

/-- Claim C4, counterexample. In `demoPromoted` the records of sockets 1 and 2 for `/x` are
both holders and socket 3 waits for `/x` (its record is the earliest remaining waiting
record that matches). Socket 1, a holder with count 1 whose operation holds the lock,
unlocks: its record is erased and the one event goes to socket 2, which is not waiting;
socket 3 is not woken. -/
theorem c4_counterexample :
    demoPromoted.m_lockInfoList =
      [t_lockInfo.mk 1 (some ["x"]) locking_reason.lock_list false 1,
        t_lockInfo.mk 2 (some ["x"]) locking_reason.lock_list false 1,
        t_lockInfo.mk 3 (some ["x"]) locking_reason.lock_list true 0] ∧
    (opsOf demoPromoted 1).map (fun op => op.holdsLock_) = [true] ∧
    (UnlockCache 1 demoPromoted).m_lockInfoList =
      [t_lockInfo.mk 2 (some ["x"]) locking_reason.lock_list false 1,
        t_lockInfo.mk 3 (some ["x"]) locking_reason.lock_list true 0] ∧
    ((UnlockCache 1 demoPromoted).m_lockInfoList.find? (fun r =>
        r.waiting && lockMatches demoPromoted (demoPromoted.serverOf 1) (some ["x"])
          locking_reason.lock_list r)).map (fun r => r.pControlSocket) = some 3 ∧
    demoPromoted.obtainLockEvents = [] ∧
    (UnlockCache 1 demoPromoted).obtainLockEvents = [2] ∧
    IsWaitingForLock 2 (UnlockCache 1 demoPromoted) = false := by
  refine ⟨by decide, by decide, by decide, by decide, by decide, by decide, by decide⟩

/-! ## The lock-list invariants (C2) -/

theorem lockMatches_iff (w : World) (server : CServer) (d : CServerPath) (r : locking_reason)
    (e : t_lockInfo) :
    lockMatches w server d r e = true ↔
      server = w.serverOf e.pControlSocket ∧ d = e.directory ∧ r = e.reason := by
  unfold lockMatches
  simp [and_assoc]

theorem lockMatches_false_iff (w : World) (server : CServer) (d : CServerPath)
    (r : locking_reason) (e : t_lockInfo) :
    lockMatches w server d r e = false ↔
      ¬ (server = w.serverOf e.pControlSocket ∧ d = e.directory ∧ r = e.reason) := by
  rw [← lockMatches_iff]
  simp

theorem HoldersExclusive_iff (w : World) :
    HoldersExclusive w ↔ exclusiveOn w.serverOf w.m_lockInfoList := by
  unfold HoldersExclusive exclusiveOn
  constructor
  · intro h
    refine h.imp ?_
    intro e r hr hw
    exact (lockMatches_false_iff _ _ _ _ _).mp (hr hw)
  · intro h
    refine h.imp ?_
    intro e r hr hw
    exact (lockMatches_false_iff _ _ _ _ _).mpr (hr hw)

theorem exclusiveOn_append_waiting (srv : SocketId → CServer) (l : List t_lockInfo)
    (x : t_lockInfo) (h : exclusiveOn srv l) (hx : x.waiting = true) :
    exclusiveOn srv (l ++ [x]) := by
  unfold exclusiveOn at *
  rw [List.pairwise_append]
  refine ⟨h, List.pairwise_singleton _ _, ?_⟩
  intro e _ r hr hw
  simp only [List.mem_singleton] at hr
  rw [hr, hx] at hw
  exact absurd hw (by simp)

theorem exclusiveOn_append_holder (srv : SocketId → CServer) (l : List t_lockInfo)
    (x : t_lockInfo) (h : exclusiveOn srv l)
    (hx : ∀ e ∈ l, ¬ (srv x.pControlSocket = srv e.pControlSocket ∧
      x.directory = e.directory ∧ x.reason = e.reason)) :
    exclusiveOn srv (l ++ [x]) := by
  unfold exclusiveOn at *
  rw [List.pairwise_append]
  refine ⟨h, List.pairwise_singleton _ _, ?_⟩
  intro e he r hr _
  simp only [List.mem_singleton] at hr
  rw [hr]
  exact hx e he

theorem exclusiveOn_erase (srv : SocketId → CServer) (pre post : List t_lockInfo)
    (own : t_lockInfo) (h : exclusiveOn srv (pre ++ own :: post)) :
    exclusiveOn srv (pre ++ post) := by
  unfold exclusiveOn at *
  exact h.sublist (List.Sublist.append_left (List.sublist_cons_self _ _) _)

/-- Replacing a record by one with the same owner, directory and reason keeps (iv), provided
the new record, if it is a holder, has no earlier match. -/
theorem exclusiveOn_update (srv : SocketId → CServer) (pre post : List t_lockInfo)
    (own own1 : t_lockInfo) (h : exclusiveOn srv (pre ++ own :: post))
    (h1 : own1.pControlSocket = own.pControlSocket) (h2 : own1.directory = own.directory)
    (h3 : own1.reason = own.reason)
    (h4 : own1.waiting = false → own.waiting = false ∨
      ∀ e ∈ pre, ¬ (srv own.pControlSocket = srv e.pControlSocket ∧
        own.directory = e.directory ∧ own.reason = e.reason)) :
    exclusiveOn srv (pre ++ own1 :: post) := by
  unfold exclusiveOn at *
  rw [List.pairwise_append] at h ⊢
  obtain ⟨hp, hq, hc⟩ := h
  rw [List.pairwise_cons] at hq ⊢
  refine ⟨hp, ⟨?_, hq.2⟩, ?_⟩
  · intro r hr hw
    rw [h1, h2, h3]
    exact hq.1 r hr hw
  · intro e he r hr hw
    rcases List.mem_cons.mp hr with hr | hr
    · subst hr
      rw [h1, h2, h3]
      rcases h4 hw with h5 | h5
      · exact hc e he own (List.mem_cons_self _ _) h5
      · exact h5 e he
    · exact hc e he r (List.mem_cons_of_mem _ hr) hw

theorem not_any_lockMatches (w : World) (server : CServer) (d : CServerPath)
    (r : locking_reason) (l : List t_lockInfo)
    (h : ¬ l.any (lockMatches w server d r) = true) :
    ∀ e ∈ l, ¬ (server = w.serverOf e.pControlSocket ∧ d = e.directory ∧ r = e.reason) := by
  intro e he hm
  apply h
  rw [List.any_eq_true]
  exact ⟨e, he, (lockMatches_iff _ _ _ _ _).mpr hm⟩

theorem CountsOK_update (pre post : List t_lockInfo) (own own1 : t_lockInfo)
    (h : CountsOK (pre ++ own :: post))
    (h1 : (own1.waiting = true → own1.lockcount = 0) ∧
      (own1.waiting = false → 1 ≤ own1.lockcount)) :
    CountsOK (pre ++ own1 :: post) := by
  intro r hr
  rcases List.mem_append.mp hr with hr | hr
  · exact h r (List.mem_append_left _ hr)
  · rcases List.mem_cons.mp hr with hr | hr
    · rw [hr]; exact h1
    · exact h r (List.mem_append_right _ (List.mem_cons_of_mem _ hr))

theorem CountsOK_erase (pre post : List t_lockInfo) (own : t_lockInfo)
    (h : CountsOK (pre ++ own :: post)) : CountsOK (pre ++ post) := by
  intro r hr
  rcases List.mem_append.mp hr with hr | hr
  · exact h r (List.mem_append_left _ hr)
  · exact h r (List.mem_append_right _ (List.mem_cons_of_mem _ hr))

theorem CountsOK_append (l : List t_lockInfo) (x : t_lockInfo) (h : CountsOK l)
    (h1 : (x.waiting = true → x.lockcount = 0) ∧ (x.waiting = false → 1 ≤ x.lockcount)) :
    CountsOK (l ++ [x]) := by
  intro r hr
  rcases List.mem_append.mp hr with hr | hr
  · exact h r hr
  · simp only [List.mem_singleton] at hr
    rw [hr]; exact h1

theorem TryLockCache_inv (s : SocketId) (r : locking_reason) (d : CServerPath) (w w1 : World)
    (b : Bool) (hinv : LockListInv w.serverOf w.m_lockInfoList)
    (hkey : (LockCall.TryLockCache s r d).keepsKey w = true)
    (h : TryLockCache s r d w = some (b, w1)) :
    LockListInv w1.serverOf w1.m_lockInfoList ∧ w1.serverOf = w.serverOf := by
  obtain ⟨hex, hco⟩ := hinv
  unfold TryLockCache at h
  cases hops : (w.sockets s).m_pCurOpData with
  | nil => simp [hops] at h
  | cons cur rest =>
    simp only [hops] at h
    have hsrvH : (w.setHoldsLock s true).serverOf = w.serverOf :=
      funext (fun t => setHoldsLock_serverOf w s t true)
    cases hg : GetLockStatus s w.m_lockInfoList with
    | none =>
      simp only [hg] at h
      split_ifs at h with hany
      · simp only [Option.some.injEq, Prod.mk.injEq] at h
        obtain ⟨_, h⟩ := h
        subst h
        refine ⟨⟨?_, ?_⟩, hsrvH⟩
        · show exclusiveOn (w.setHoldsLock s true).serverOf _
          rw [hsrvH]
          exact exclusiveOn_append_waiting _ _ _ hex rfl
        · exact CountsOK_append _ _ hco ⟨fun _ => rfl, fun h => by simp at h⟩
      · simp only [Option.some.injEq, Prod.mk.injEq] at h
        obtain ⟨_, h⟩ := h
        subst h
        refine ⟨⟨?_, ?_⟩, hsrvH⟩
        · show exclusiveOn (w.setHoldsLock s true).serverOf _
          rw [hsrvH]
          exact exclusiveOn_append_holder _ _ _ hex (not_any_lockMatches _ _ _ _ _ hany)
        · exact CountsOK_append _ _ hco ⟨fun h => by simp at h, fun _ => by simp⟩
    | some v =>
      obtain ⟨pre, own, post⟩ := v
      obtain ⟨hl, hself, _⟩ := GetLockStatus_some hg
      simp only [hg] at h
      have hown := hco own (by rw [hl]; simp)
      split_ifs at h with hcnt hh hany
      · simp only [Option.some.injEq, Prod.mk.injEq] at h
        obtain ⟨_, h⟩ := h
        subst h
        refine ⟨⟨?_, ?_⟩, hsrvH⟩
        · show exclusiveOn (w.setHoldsLock s true).serverOf _
          rw [hsrvH]
          rw [hl] at hex
          exact exclusiveOn_update _ _ _ own _ hex rfl rfl rfl (fun h => Or.inl h)
        · rw [hl] at hco
          refine CountsOK_update _ _ own _ hco ⟨?_, ?_⟩
          · intro hw
            exact absurd (hown.1 hw) hcnt
          · intro hw
            have := hown.2 hw
            show 1 ≤ own.lockcount + 1
            omega
      · simp only [Option.some.injEq, Prod.mk.injEq] at h
        obtain ⟨_, h⟩ := h
        subst h
        exact ⟨⟨hex, hco⟩, rfl⟩
      · simp only [Option.some.injEq, Prod.mk.injEq] at h
        obtain ⟨_, h⟩ := h
        subst h
        refine ⟨⟨?_, ?_⟩, hsrvH⟩
        · rw [hsrvH, setHoldsLock_lockInfoList]; exact hex
        · rw [setHoldsLock_lockInfoList]; exact hco
      · simp only [Option.some.injEq, Prod.mk.injEq] at h
        obtain ⟨_, h⟩ := h
        subst h
        have hc0 : own.lockcount = 0 := by simpa using hcnt
        have hwt : own.waiting = true := by
          cases hw : own.waiting with
          | true => rfl
          | false => have := hown.2 hw; omega
        have hk : d = own.directory ∧ r = own.reason := by
          simp only [LockCall.keepsKey, hg, hwt, Bool.not_true, Bool.false_or,
            Bool.and_eq_true, decide_eq_true_eq] at hkey
          exact hkey
        refine ⟨⟨?_, ?_⟩, hsrvH⟩
        · show exclusiveOn (w.setHoldsLock s true).serverOf _
          rw [hsrvH]
          rw [hl] at hex
          refine exclusiveOn_update _ _ _ own _ hex rfl rfl rfl (fun _ => Or.inr ?_)
          have := not_any_lockMatches _ _ _ _ _ hany
          rw [hk.1, hk.2, ← hself] at this
          exact this
        · rw [hl] at hco
          refine CountsOK_update _ _ own _ hco ⟨fun h => by simp at h, fun _ => ?_⟩
          show 1 ≤ own.lockcount + 1
          omega

theorem eraseAndNotify_lockInfoList (s : SocketId) (pre post : List t_lockInfo)
    (own : t_lockInfo) (w : World) :
    (eraseAndNotify s pre own post w).m_lockInfoList = pre ++ post := by
  unfold eraseAndNotify
  dsimp only
  split_ifs
  · rfl
  · split <;> rfl

theorem eraseAndNotify_sockets (s : SocketId) (pre post : List t_lockInfo)
    (own : t_lockInfo) (w : World) :
    (eraseAndNotify s pre own post w).sockets = w.sockets := by
  unfold eraseAndNotify
  dsimp only
  split_ifs
  · rfl
  · split <;> rfl

theorem eraseAndNotify_serverOf (s : SocketId) (pre post : List t_lockInfo)
    (own : t_lockInfo) (w : World) :
    (eraseAndNotify s pre own post w).serverOf = w.serverOf := by
  funext t
  unfold World.serverOf
  rw [eraseAndNotify_sockets]

theorem UnlockCache_inv (s : SocketId) (w : World)
    (hinv : LockListInv w.serverOf w.m_lockInfoList) :
    LockListInv (UnlockCache s w).serverOf (UnlockCache s w).m_lockInfoList ∧
      (UnlockCache s w).serverOf = w.serverOf := by
  obtain ⟨hex, hco⟩ := hinv
  have hsrvH : (w.setHoldsLock s false).serverOf = w.serverOf :=
    funext (fun t => setHoldsLock_serverOf w s t false)
  unfold UnlockCache
  cases hops : (w.sockets s).m_pCurOpData with
  | nil => exact ⟨⟨hex, hco⟩, rfl⟩
  | cons cur rest =>
    dsimp only
    split_ifs with hh
    · exact ⟨⟨hex, hco⟩, rfl⟩
    · rw [setHoldsLock_lockInfoList]
      cases hg : GetLockStatus s w.m_lockInfoList with
      | none =>
        dsimp only
        rw [hsrvH, setHoldsLock_lockInfoList]
        exact ⟨⟨hex, hco⟩, rfl⟩
      | some v =>
        obtain ⟨pre, own, post⟩ := v
        obtain ⟨hl, hself, _⟩ := GetLockStatus_some hg
        have hown := hco own (by rw [hl]; simp)
        rw [hl] at hex hco
        dsimp only
        split_ifs with hw hc
        · refine ⟨⟨?_, ?_⟩, hsrvH⟩
          · show exclusiveOn (w.setHoldsLock s false).serverOf _
            rw [hsrvH]
            exact exclusiveOn_update _ _ _ own _ hex rfl rfl rfl (fun h => Or.inl h)
          · refine CountsOK_update _ _ own _ hco ⟨?_, ?_⟩
            · intro h1
              have : own.waiting = false := by simpa using hw
              rw [this] at h1
              exact absurd h1 (by simp)
            · intro h1
              have := hown.2 h1
              show 1 ≤ own.lockcount - 1
              omega
        · rw [eraseAndNotify_lockInfoList, eraseAndNotify_serverOf, hsrvH]
          exact ⟨⟨exclusiveOn_erase _ _ _ _ hex, CountsOK_erase _ _ _ hco⟩, rfl⟩
        · rw [eraseAndNotify_lockInfoList, eraseAndNotify_serverOf, hsrvH]
          exact ⟨⟨exclusiveOn_erase _ _ _ _ hex, CountsOK_erase _ _ _ hco⟩, rfl⟩

theorem ObtainLockFromEvent_inv (s : SocketId) (w : World)
    (hinv : LockListInv w.serverOf w.m_lockInfoList) :
    LockListInv (ObtainLockFromEvent s w).2.serverOf (ObtainLockFromEvent s w).2.m_lockInfoList ∧
      (ObtainLockFromEvent s w).2.serverOf = w.serverOf := by
  obtain ⟨hex, hco⟩ := hinv
  unfold ObtainLockFromEvent
  cases hops : (w.sockets s).m_pCurOpData with
  | nil => exact ⟨⟨hex, hco⟩, rfl⟩
  | cons cur rest =>
    dsimp only
    cases hg : GetLockStatus s w.m_lockInfoList with
    | none => exact ⟨⟨hex, hco⟩, rfl⟩
    | some v =>
      obtain ⟨pre, own, post⟩ := v
      obtain ⟨hl, hself, _⟩ := GetLockStatus_some hg
      have hown := hco own (by rw [hl]; simp)
      dsimp only
      split_ifs with hw hany
      · exact ⟨⟨hex, hco⟩, rfl⟩
      · exact ⟨⟨hex, hco⟩, rfl⟩
      · have hwt : own.waiting = true := by simpa using hw
        rw [hl] at hex hco
        refine ⟨⟨?_, ?_⟩, rfl⟩
        · refine exclusiveOn_update _ _ _ own _ hex rfl rfl rfl (fun _ => Or.inr ?_)
          have := not_any_lockMatches _ _ _ _ _ hany
          rw [← hself] at this
          exact this
        · refine CountsOK_update _ _ own _ hco ⟨fun h => by simp at h, fun _ => ?_⟩
          have := hown.1 hwt
          show 1 ≤ own.lockcount + 1
          omega

theorem runLock_inv (calls : List LockCall) :
    ∀ (w w1 : World), LockListInv w.serverOf w.m_lockInfoList → keepsKeys calls w = true →
      runLock calls w = some w1 → LockListInv w1.serverOf w1.m_lockInfoList := by
  induction calls with
  | nil =>
    intro w w1 hinv _ h
    simp only [runLock, Option.some.injEq] at h
    rw [← h]; exact hinv
  | cons c cs ih =>
    intro w w1 hinv hk h
    simp only [keepsKeys, Bool.and_eq_true] at hk
    obtain ⟨hk1, hk2⟩ := hk
    simp only [runLock] at h
    cases hc : c.apply w with
    | none => simp [hc] at h
    | some w2 =>
      simp only [hc] at h hk2
      refine ih w2 w1 ?_ hk2 h
      cases c with
      | TryLockCache s r d =>
        simp only [LockCall.apply, Option.map_eq_some', Prod.exists, exists_eq_right] at hc
        obtain ⟨b, hb⟩ := hc
        exact (TryLockCache_inv s r d w w2 b hinv hk1 hb).1
      | UnlockCache s =>
        simp only [LockCall.apply, Option.some.injEq] at hc
        rw [← hc]
        exact (UnlockCache_inv s w hinv).1
      | ObtainLockFromEvent s =>
        simp only [LockCall.apply, Option.some.injEq] at hc
        rw [← hc]
        exact (ObtainLockFromEvent_inv s w hinv).1
      | setOps s ops =>
        simp only [LockCall.apply, Option.some.injEq] at hc
        rw [← hc]
        have : (w.setSocket s { w.sockets s with m_pCurOpData := ops }).serverOf = w.serverOf :=
          funext (fun t => setSocket_serverOf _ _ _ _ rfl)
        rw [this]
        exact hinv

/-- Claim C2 (as amended). From any world with an empty lock list, after any sequence of
`TryLockCache`, `UnlockCache` and `ObtainLockFromEvent` calls of any sockets (interleaved
with arbitrary changes of their operation stacks, the servers staying fixed) in which a
socket that owns a waiting record calls `TryLockCache` only with that record's directory
and reason, every record with `waiting = false` has no strictly earlier record with the
same server, directory and reason. -/
theorem c2_holders_exclusive (calls : List LockCall) (w0 w : World)
    (hempty : w0.m_lockInfoList = []) (hkeys : keepsKeys calls w0 = true)
    (hrun : runLock calls w0 = some w) : HoldersExclusive w := by
  rw [HoldersExclusive_iff]
  have h0 : LockListInv w0.serverOf w0.m_lockInfoList := by
    rw [hempty]
    exact ⟨List.Pairwise.nil, fun r hr => by simp at hr⟩
  exact (runLock_inv calls w0 w h0 hkeys hrun).1

theorem c2_holders_exclusive_witness :
    HoldersExclusive
      ((runLock [LockCall.TryLockCache 1 locking_reason.lock_list (some ["x"]),
          LockCall.TryLockCache 2 locking_reason.lock_list (some ["x"]),
          LockCall.TryLockCache 2 locking_reason.lock_list (some ["x"]),
          LockCall.UnlockCache 1, LockCall.ObtainLockFromEvent 2] demoWorld).getD demoWorld) :=
  c2_holders_exclusive
    [LockCall.TryLockCache 1 locking_reason.lock_list (some ["x"]),
      LockCall.TryLockCache 2 locking_reason.lock_list (some ["x"]),
      LockCall.TryLockCache 2 locking_reason.lock_list (some ["x"]),
      LockCall.UnlockCache 1, LockCall.ObtainLockFromEvent 2] demoWorld _ rfl (by decide) rfl

/-- Counterexample to claim C2 as stated. Sockets 1 and 2 are on the same server. Socket 1
obtains the lock on directory `/x`; socket 2 asks for `/x` and is queued; socket 2 then calls
`TryLockCache` again, for `/y`: the scan compares the earlier records with `/y`, finds none,
and turns the queued record for `/x` into a holder. Both records for `/x` are then holders. -/
theorem c2_counterexample :
    (runLock [LockCall.TryLockCache 1 locking_reason.lock_list (some ["x"]),
        LockCall.TryLockCache 2 locking_reason.lock_list (some ["x"]),
        LockCall.TryLockCache 2 locking_reason.lock_list (some ["y"])] demoWorld).map
      (fun w => (w.m_lockInfoList, decide (HoldersExclusive w))) =
    some ([t_lockInfo.mk 1 (some ["x"]) locking_reason.lock_list false 1,
        t_lockInfo.mk 2 (some ["x"]) locking_reason.lock_list false 1], false) := by
  decide

/-! ## Operation stack: helpers that leave the core fields alone -/

theorem SameCore.refl (w : World) : SameCore w w := ⟨rfl, rfl, fun _ => rfl⟩

theorem SameCore.trans {w w1 w2 : World} (h1 : SameCore w w1) (h2 : SameCore w1 w2) :
    SameCore w w2 :=
  ⟨h2.1.trans h1.1, h2.2.1.trans h1.2.1, fun u => (h2.2.2 u).trans (h1.2.2 u)⟩

theorem SameCore.ops {w w1 : World} (h : SameCore w w1) (u : SocketId) :
    opsOf w1 u = opsOf w u := by
  have := h.2.2 u
  simp only [coreOf, Prod.mk.injEq] at this
  exact this.1

theorem SameCore.destroyed {w w1 : World} (h : SameCore w w1) (u : SocketId) :
    (w1.sockets u).destroyed = (w.sockets u).destroyed := by
  have := h.2.2 u
  simp only [coreOf, Prod.mk.injEq] at this
  exact this.2.1

theorem SameCore.subcommandResults {w w1 : World} (h : SameCore w w1) (u : SocketId) :
    (w1.sockets u).subcommandResults = (w.sockets u).subcommandResults := by
  have := h.2.2 u
  simp only [coreOf, Prod.mk.injEq] at this
  exact this.2.2.1

theorem SameCore.closed {w w1 : World} (h : SameCore w w1) (u : SocketId) :
    (w1.sockets u).m_closed = (w.sockets u).m_closed := by
  have := h.2.2 u
  simp only [coreOf, Prod.mk.injEq] at this
  exact this.2.2.2.1

theorem SameCore.server {w w1 : World} (h : SameCore w w1) (u : SocketId) :
    (w1.sockets u).currentServer_ = (w.sockets u).currentServer_ := by
  have := h.2.2 u
  simp only [coreOf, Prod.mk.injEq] at this
  exact this.2.2.2.2

theorem setSocket_sameCore (w : World) (s : SocketId) (x : CControlSocket)
    (hx : coreOf x = coreOf (w.sockets s)) : SameCore w (w.setSocket s x) := by
  refine ⟨rfl, rfl, fun u => ?_⟩
  by_cases hu : u = s
  · subst hu; simp [hx]
  · simp [hu]

theorem LogMessage_sameCore (s : SocketId) (t : MessageType) (m : String) (w : World) :
    SameCore w (LogMessage s t m w) :=
  setSocket_sameCore _ _ _ rfl

theorem SetWait_sameCore (s : SocketId) (b : Bool) (w : World) :
    SameCore w (SetWait s b w) := by
  unfold SetWait
  dsimp only
  split_ifs
  · exact SameCore.refl w
  · exact setSocket_sameCore _ _ _ rfl
  · exact setSocket_sameCore _ _ _ rfl
  · exact setSocket_sameCore _ _ _ rfl

theorem SetActive_sameCore (s : SocketId) (w : World) : SameCore w (SetActive s w) :=
  setSocket_sameCore _ _ _ rfl

theorem SendDirectoryListingNotification_sameCore (s : SocketId) (p : CServerPath)
    (a b : Bool) (w : World) : SameCore w (SendDirectoryListingNotification s p a b w) := by
  unfold SendDirectoryListingNotification
  split_ifs
  · exact SameCore.refl w
  · exact ⟨rfl, rfl, fun _ => rfl⟩

theorem LogTransferResultMessage_sameCore (h : Hooks) (s : SocketId) (code : Nat)
    (op : COpData) (w : World) : SameCore w (LogTransferResultMessage h s code op w) := by
  unfold LogTransferResultMessage
  split_ifs <;> exact LogMessage_sameCore _ _ _ _

theorem resetRootMessages_sameCore (h : Hooks) (s : SocketId) (code : Nat) (pfx : String)
    (cur : COpData) (w : World) : SameCore w (resetRootMessages h s code pfx cur w) := by
  unfold resetRootMessages
  cases cur.opId with
  | none => dsimp only; split_ifs <;> first | exact LogMessage_sameCore _ _ _ _ | exact SameCore.refl w
  | connect =>
    dsimp only; split_ifs <;> first | exact LogMessage_sameCore _ _ _ _ | exact SameCore.refl w
  | list =>
    dsimp only; split_ifs <;> exact LogMessage_sameCore _ _ _ _
  | transfer =>
    dsimp only
    refine SameCore.trans ?_ (LogTransferResultMessage_sameCore _ _ _ _ _)
    split_ifs <;>
      first
        | exact SameCore.refl w
        | exact SendDirectoryListingNotification_sameCore _ _ _ _ _
  | other n =>
    dsimp only; split_ifs <;> first | exact LogMessage_sameCore _ _ _ _ | exact SameCore.refl w

/-- What `resetRoot` does to the core fields: the root frame, if any, is deleted and the stack
is empty afterwards; nothing else changes. -/
theorem resetRoot_spec (h : Hooks) (s : SocketId) (code : Nat) (w : World) :
    (resetRoot h s code w).1 = h.engineResetOperation code ∧
    (resetRoot h s code w).2.m_lockInfoList = w.m_lockInfoList ∧
    (resetRoot h s code w).2.obtainLockEvents = w.obtainLockEvents ∧
    (∀ u, u ≠ s → coreOf ((resetRoot h s code w).2.sockets u) = coreOf (w.sockets u)) ∧
    coreOf ((resetRoot h s code w).2.sockets s) =
      ([], (w.sockets s).destroyed ++ ((w.sockets s).m_pCurOpData.take 1).map (fun op => op.addr),
        (w.sockets s).subcommandResults, (w.sockets s).m_closed,
        (w.sockets s).currentServer_) := by
  -- the world after the `switch` and the deletion of the root frame
  have key : ∀ w1 : World, w1.m_lockInfoList = w.m_lockInfoList →
      w1.obtainLockEvents = w.obtainLockEvents →
      (∀ u, u ≠ s → coreOf (w1.sockets u) = coreOf (w.sockets u)) →
      coreOf (w1.sockets s) =
        ([], (w.sockets s).destroyed ++
          ((w.sockets s).m_pCurOpData.take 1).map (fun op => op.addr),
          (w.sockets s).subcommandResults, (w.sockets s).m_closed,
          (w.sockets s).currentServer_) →
      (let w2 := SetWait s false w1
       let w3 := if (w2.sockets s).m_invalidateCurrentPath then
          w2.setSocket s
            { w2.sockets s with m_CurrentPath := none, m_invalidateCurrentPath := false }
          else w2
       w3.m_lockInfoList = w.m_lockInfoList ∧ w3.obtainLockEvents = w.obtainLockEvents ∧
       (∀ u, u ≠ s → coreOf (w3.sockets u) = coreOf (w.sockets u)) ∧
       coreOf (w3.sockets s) =
        ([], (w.sockets s).destroyed ++
          ((w.sockets s).m_pCurOpData.take 1).map (fun op => op.addr),
          (w.sockets s).subcommandResults, (w.sockets s).m_closed,
          (w.sockets s).currentServer_)) := by
    intro w1 h1 h2 h3 h4
    have hs := SetWait_sameCore s false w1
    dsimp only
    split_ifs
    · have hs2 := setSocket_sameCore (SetWait s false w1) s
        { (SetWait s false w1).sockets s with
          m_CurrentPath := none, m_invalidateCurrentPath := false } rfl
      have hh := SameCore.trans hs hs2
      exact ⟨hh.1.trans h1, hh.2.1.trans h2, fun u hu => (hh.2.2 u).trans (h3 u hu),
        (hh.2.2 s).trans h4⟩
    · exact ⟨hs.1.trans h1, hs.2.1.trans h2, fun u hu => (hs.2.2 u).trans (h3 u hu),
        (hs.2.2 s).trans h4⟩
  unfold resetRoot
  refine ⟨rfl, ?_⟩
  dsimp only
  cases hops : (w.sockets s).m_pCurOpData with
  | nil =>
    dsimp only
    have := key w rfl rfl (fun _ _ => rfl) (by simp [coreOf, hops])
    simpa [hops] using this
  | cons cur rest =>
    dsimp only
    generalize hpfx : (if (decide (code &&& FZ_REPLY_CRITICALERROR = FZ_REPLY_CRITICALERROR) &&
      decide (cur.opId ≠ Command.transfer)) = true then "Critical error: " else "") = pfx
    have hm := resetRootMessages_sameCore h s code pfx cur w
    generalize resetRootMessages h s code pfx cur w = wm at hm
    have := key ((deleteOpData s cur wm).setSocket s
        { (deleteOpData s cur wm).sockets s with m_pCurOpData := [] })
      (by simpa [deleteOpData] using hm.1) (by simpa [deleteOpData] using hm.2.1)
      (fun u hu => by simpa [deleteOpData, hu] using hm.2.2 u)
      (by
        have h5 := hm.2.2 s
        simp only [coreOf, Prod.mk.injEq] at h5
        simp [coreOf, deleteOpData, h5, hops])
    simpa [hops] using this

/-! ## Operation stack: unfolding `ResetOperation` -/

theorem UnlockCache_sockets_of_holds (s : SocketId) (w : World) (cur : COpData)
    (rest : List COpData) (hops : (w.sockets s).m_pCurOpData = cur :: rest)
    (hh : cur.holdsLock_ = true) :
    (UnlockCache s w).sockets = (w.setHoldsLock s false).sockets := by
  unfold UnlockCache
  simp only [hops, hh, Bool.not_true, Bool.false_eq_true, if_false]
  cases hg : GetLockStatus s (w.setHoldsLock s false).m_lockInfoList with
  | none => rfl
  | some v =>
    obtain ⟨pre, own, post⟩ := v
    dsimp only
    split_ifs
    · rfl
    · rw [eraseAndNotify_sockets]
    · rw [eraseAndNotify_sockets]

theorem clearTop_of_not_holds (cur : COpData) (rest : List COpData)
    (hh : cur.holdsLock_ = false) : clearTop (cur :: rest) = cur :: rest := by
  cases cur
  simp only [clearTop] at *
  simp_all

theorem unlockIfHolds_sockets_ne (s u : SocketId) (w : World) (hu : u ≠ s) :
    (unlockIfHolds s w).sockets u = w.sockets u := by
  unfold unlockIfHolds
  cases hops : (w.sockets s).m_pCurOpData with
  | nil => rfl
  | cons cur rest =>
    dsimp only
    split_ifs with hh
    · rw [UnlockCache_sockets_of_holds s w cur rest hops hh]
      unfold World.setHoldsLock
      simp [hops, hu]
    · rfl

theorem unlockIfHolds_core (s : SocketId) (w : World) :
    coreOf ((unlockIfHolds s w).sockets s) =
      (clearTop (w.sockets s).m_pCurOpData, (w.sockets s).destroyed,
        (w.sockets s).subcommandResults, (w.sockets s).m_closed,
        (w.sockets s).currentServer_) := by
  unfold unlockIfHolds
  cases hops : (w.sockets s).m_pCurOpData with
  | nil => simp [coreOf, hops, clearTop]
  | cons cur rest =>
    dsimp only
    split_ifs with hh
    · rw [UnlockCache_sockets_of_holds s w cur rest hops hh]
      unfold World.setHoldsLock
      simp [hops, coreOf, clearTop]
    · have hf : cur.holdsLock_ = false := by simpa using hh
      rw [clearTop_of_not_holds cur rest hf]
      simp [coreOf, hops]

theorem unlockIfHolds_ops (s : SocketId) (w : World) :
    opsOf (unlockIfHolds s w) s = clearTop (opsOf w s) := by
  have := unlockIfHolds_core s w
  simp only [coreOf, Prod.mk.injEq] at this
  exact this.1

theorem clearTop_addrs (ops : List COpData) :
    (clearTop ops).map (fun op => op.addr) = ops.map (fun op => op.addr) := by
  cases ops <;> simp [clearTop]

theorem clearTop_length (ops : List COpData) : (clearTop ops).length = ops.length := by
  cases ops <;> simp [clearTop]

theorem exec_reset_root (h : Hooks) (s : SocketId) (fuel code : Nat) (w : World)
    (hops : (opsOf (unlockIfHolds s w) s).length ≤ 1) :
    exec h s (fuel + 1) (Call.ResetOperation code) w =
      some (resetRoot h s code (unlockIfHolds s w)) := by
  unfold opsOf at hops
  rw [exec]
  dsimp only
  split
  · rename_i heq
    rw [heq] at hops
    simp at hops
  · rfl

theorem exec_reset_pop (h : Hooks) (s : SocketId) (fuel code : Nat) (w : World)
    (old parent : COpData) (rest : List COpData)
    (hops : opsOf (unlockIfHolds s w) s = old :: parent :: rest) :
    exec h s (fuel + 1) (Call.ResetOperation code) w =
      match (if isSubcommandCode code = true then
          exec h s fuel (Call.ParseSubcommandResult code old)
            ((unlockIfHolds s w).setSocket s
              { (unlockIfHolds s w).sockets s with m_pCurOpData := parent :: rest })
        else
          exec h s fuel (Call.ResetOperation code)
            ((unlockIfHolds s w).setSocket s
              { (unlockIfHolds s w).sockets s with m_pCurOpData := parent :: rest })) with
      | none => none
      | some (ret, w3) => some (ret, deleteOpData s old w3) := by
  unfold opsOf at hops
  rw [exec]
  dsimp only
  rw [hops]
  dsimp only
  have : (code = FZ_REPLY_OK ∨ code = FZ_REPLY_ERROR ∨ code = FZ_REPLY_CRITICALERROR) ↔
      isSubcommandCode code = true := by
    unfold isSubcommandCode
    simp [or_assoc]
  by_cases hc : isSubcommandCode code = true
  · rw [if_pos hc, if_pos (this.mpr hc)]
  · rw [if_neg hc, if_neg (fun x => hc (this.mp x))]

/-- A reset with a code that is propagated tears the whole stack down: given more fuel than
frames it returns the engine's value, leaves no frame, deletes the frames bottom-up, calls
no `SubcommandResult`, and touches no other socket. -/
theorem exec_reset_propagating (h : Hooks) (s : SocketId) (code : Nat)
    (hcode : isSubcommandCode code = false) :
    ∀ (n : Nat) (w : World) (fuel : Nat), (opsOf w s).length = n → n < fuel →
      ∃ w1, exec h s fuel (Call.ResetOperation code) w =
          some (h.engineResetOperation code, w1) ∧
        (∀ u, u ≠ s → coreOf (w1.sockets u) = coreOf (w.sockets u)) ∧
        coreOf (w1.sockets s) =
          ([], (w.sockets s).destroyed ++ (addrsOf w s).reverse,
            (w.sockets s).subcommandResults, (w.sockets s).m_closed,
            (w.sockets s).currentServer_) := by
  intro n
  induction n with
  | zero =>
    intro w fuel hlen hf
    obtain ⟨f, rfl⟩ : ∃ f, fuel = f + 1 := ⟨fuel - 1, by omega⟩
    have hops : opsOf w s = [] := List.eq_nil_of_length_eq_zero hlen
    have hu : (opsOf (unlockIfHolds s w) s).length ≤ 1 := by
      rw [unlockIfHolds_ops, clearTop_length, hlen]; omega
    refine ⟨_, by rw [exec_reset_root h s f code w hu, ← (resetRoot_spec h s code _).1], ?_, ?_⟩
    · intro u hu2
      rw [(resetRoot_spec h s code _).2.2.2.1 u hu2, unlockIfHolds_sockets_ne s u w hu2]
    · rw [(resetRoot_spec h s code _).2.2.2.2]
      have hc := unlockIfHolds_core s w
      simp only [coreOf, Prod.mk.injEq] at hc
      obtain ⟨c1, c2, c3, c4, c5⟩ := hc
      unfold opsOf at hops
      simp [c1, c2, c3, c4, c5, hops, clearTop, addrsOf, opsOf]
  | succ n ih =>
    intro w fuel hlen hf
    obtain ⟨f, rfl⟩ : ∃ f, fuel = f + 1 := ⟨fuel - 1, by omega⟩
    have hc := unlockIfHolds_core s w
    simp only [coreOf, Prod.mk.injEq] at hc
    obtain ⟨c1, c2, c3, c4, c5⟩ := hc
    cases hops : opsOf w s with
    | nil => rw [hops] at hlen; simp at hlen
    | cons old rest =>
      cases rest with
      | nil =>
        have hu : (opsOf (unlockIfHolds s w) s).length ≤ 1 := by
          rw [unlockIfHolds_ops, clearTop_length, hops]; simp
        refine ⟨_, by
          rw [exec_reset_root h s f code w hu, ← (resetRoot_spec h s code _).1], ?_, ?_⟩
        · intro u hu2
          rw [(resetRoot_spec h s code _).2.2.2.1 u hu2, unlockIfHolds_sockets_ne s u w hu2]
        · rw [(resetRoot_spec h s code _).2.2.2.2]
          unfold opsOf at hops
          simp [c1, c2, c3, c4, c5, hops, clearTop, addrsOf, opsOf]
      | cons parent rest =>
        have hu : opsOf (unlockIfHolds s w) s =
            { old with holdsLock_ := false } :: parent :: rest := by
          rw [unlockIfHolds_ops, hops]; rfl
        rw [exec_reset_pop h s f code w _ parent rest hu, if_neg (by simp [hcode])]
        have hlen2 : (opsOf ((unlockIfHolds s w).setSocket s
            { (unlockIfHolds s w).sockets s with m_pCurOpData := parent :: rest }) s).length
            = n := by
          rw [hops] at hlen
          simp only [opsOf, setSocket_sockets_self, List.length_cons] at hlen ⊢
          omega
        obtain ⟨w3, e3, o3, k3⟩ := ih _ f hlen2 (by omega)
        rw [e3]
        refine ⟨deleteOpData s { old with holdsLock_ := false } w3, rfl, ?_, ?_⟩
        · intro u hu2
          simp only [deleteOpData, setSocket_sockets_ne _ _ _ _ hu2]
          rw [o3 u hu2, setSocket_sockets_ne _ _ _ _ hu2, unlockIfHolds_sockets_ne s u w hu2]
        · simp only [coreOf, Prod.mk.injEq] at k3
          obtain ⟨k1, k2, k4, k5, k6⟩ := k3
          unfold opsOf at hops
          simp only [coreOf, deleteOpData, setSocket_sockets_self, k1, k2, k4, k5, k6, c2, c3,
            c4, c5, addrsOf, opsOf, hops]
          simp

/-! ## Cancellation (C6) -/

theorem ResetSocket_sameCore (s : SocketId) (w : World) : SameCore w (ResetSocket s w) := by
  unfold ResetSocket
  dsimp only
  split_ifs <;> exact setSocket_sameCore _ _ _ rfl

theorem isSubcommandCode_canceled : isSubcommandCode FZ_REPLY_CANCELED = false := by decide

theorem isSubcommandCode_close_canceled :
    isSubcommandCode (FZ_REPLY_ERROR ||| FZ_REPLY_DISCONNECTED ||| FZ_REPLY_CANCELED) = false := by
  decide

/-- Claim C6 (as amended). For every non-empty operation stack whose current operation has an
id other than `none` (and, when that id is `connect`, on a socket that is not yet closed),
`Cancel` with more fuel than frames plus two returns, and afterwards no frame remains on the
stack, every frame has been deleted (bottom-up), and no `SubcommandResult` has been invoked;
for `connect` the socket is closed and its server cleared. -/
theorem c6_cancel_clears_stack (h : Hooks) (s : SocketId) (w : World) (cur : COpData)
    (rest : List COpData) (fuel : Nat) (hops : opsOf w s = cur :: rest)
    (hid : cur.opId ≠ Command.none)
    (hopen : cur.opId = Command.connect → (w.sockets s).m_closed = false)
    (hfuel : rest.length + 2 < fuel) :
    match Cancel h s fuel w with
    | none => False
    | some w1 =>
      opsOf w1 s = [] ∧
      (w1.sockets s).destroyed = (w.sockets s).destroyed ++ (addrsOf w s).reverse ∧
      (w1.sockets s).subcommandResults = (w.sockets s).subcommandResults ∧
      (cur.opId = Command.connect →
        (w1.sockets s).m_closed = true ∧ (w1.sockets s).currentServer_ = none) := by
  have hcmd : GetCurrentCommandId h s w = cur.opId := by
    unfold GetCurrentCommandId
    unfold opsOf at hops
    rw [hops]
  unfold Cancel
  rw [hcmd, if_pos hid]
  by_cases hconn : cur.opId = Command.connect
  · rw [if_pos hconn]
    obtain ⟨f, rfl⟩ : ∃ f, fuel = f + 1 := ⟨fuel - 1, by omega⟩
    unfold DoClose
    rw [exec]
    dsimp only
    have hsame : SameCore w (if (w.sockets s).isReal = true then ResetSocket s w else w) := by
      split_ifs
      · exact ResetSocket_sameCore s w
      · exact SameCore.refl w
    generalize (if (w.sockets s).isReal = true then ResetSocket s w else w) = w0 at hsame
    have hcl : (w0.sockets s).m_closed = false := by
      rw [hsame.closed s]; exact hopen hconn
    rw [if_neg (by simp [hcl])]
    have hlen : (opsOf (w0.setSocket s { w0.sockets s with m_closed := true }) s).length
        = rest.length + 1 := by
      have := hsame.ops s
      simp only [opsOf, setSocket_sockets_self] at this ⊢
      rw [this]
      unfold opsOf at hops
      rw [hops]; rfl
    obtain ⟨w1, e1, _, k1⟩ := exec_reset_propagating h s _ isSubcommandCode_close_canceled
      _ (w0.setSocket s { w0.sockets s with m_closed := true }) f hlen (by omega)
    rw [e1]
    simp only [coreOf, Prod.mk.injEq, setSocket_sockets_self] at k1
    obtain ⟨k1, k2, k3, k4, k5⟩ := k1
    simp only [Option.map_some', opsOf, setSocket_sockets_self]
    refine ⟨k1, ?_, ?_, fun _ => ⟨k4, trivial⟩⟩
    · rw [k2, hsame.destroyed s]
      have := hsame.ops s
      simp only [addrsOf, opsOf, setSocket_sockets_self] at this ⊢
      rw [this]
    · rw [k3, hsame.subcommandResults s]
  · rw [if_neg hconn]
    have hlen : (opsOf w s).length = rest.length + 1 := by rw [hops]; rfl
    obtain ⟨w1, e1, _, k1⟩ := exec_reset_propagating h s _ isSubcommandCode_canceled
      _ w fuel hlen (by omega)
    unfold ResetOperation
    rw [e1]
    simp only [coreOf, Prod.mk.injEq] at k1
    obtain ⟨k1, k2, k3, _, _⟩ := k1
    simp only [Option.map_some']
    exact ⟨k1, k2, k3, fun hc => absurd hc hconn⟩

theorem c6_cancel_clears_stack_witness :
    match Cancel idleHooks 0 5 demoStack with
    | none => False
    | some w1 =>
      opsOf w1 0 = [] ∧
      (w1.sockets 0).destroyed = (demoStack.sockets 0).destroyed ++ (addrsOf demoStack 0).reverse ∧
      (w1.sockets 0).subcommandResults = (demoStack.sockets 0).subcommandResults ∧
      ((({ addr := 1, opId := Command.other 0 } : COpData).opId = Command.connect) →
        (w1.sockets 0).m_closed = true ∧ (w1.sockets 0).currentServer_ = none) :=
  c6_cancel_clears_stack idleHooks 0 demoStack { addr := 1, opId := Command.other 0 }
    [{ addr := 2, opId := Command.list }, { addr := 3, opId := Command.transfer }] 5 rfl
    (by decide) (by decide) (by decide)

/-- Counterexample to claim C6 as stated. On a three-deep stack whose current operation has
the id `none`, `Cancel` returns at once: all three frames remain on the stack and nothing is
deleted. -/
theorem c6_counterexample :
    (Cancel idleHooks 0 5 demoStackNone).map
        (fun w => (addrsOf w 0, (w.sockets 0).destroyed)) = some ([1, 2, 3], []) := by
  decide

/-! ## Stack integrity (C7) -/

theorem SameCore.addrs {w w1 : World} (h : SameCore w w1) (u : SocketId) :
    addrsOf w1 u = addrsOf w u := by
  unfold addrsOf
  rw [h.ops u]

theorem unlockIfHolds_addrs (s : SocketId) (w : World) :
    addrsOf (unlockIfHolds s w) s = addrsOf w s := by
  unfold addrsOf
  rw [unlockIfHolds_ops, clearTop_addrs]

theorem unlockIfHolds_destroyed (s : SocketId) (w : World) :
    ((unlockIfHolds s w).sockets s).destroyed = (w.sockets s).destroyed := by
  have := unlockIfHolds_core s w
  simp only [coreOf, Prod.mk.injEq] at this
  exact this.2.1

/-- Every entry point of the operation stack removes a prefix of the stack and appends the
removed frames to the destruction log in reverse order (bottom-most first). -/
theorem exec_frames (h : Hooks) (s : SocketId) (hk : HooksKeepFrames h s) :
    ∀ (fuel : Nat) (c : Call) (w w1 : World) (r : Nat), exec h s fuel c w = some (r, w1) →
      ∃ removed : List Nat, addrsOf w s = removed ++ addrsOf w1 s ∧
        (w1.sockets s).destroyed = (w.sockets s).destroyed ++ removed.reverse := by
  intro fuel
  induction fuel with
  | zero => intro c w w1 r he; simp [exec] at he
  | succ f ih =>
    intro c w w1 r he
    cases c with
    | ResetOperation code =>
      cases hops : opsOf (unlockIfHolds s w) s with
      | nil =>
        rw [exec_reset_root h s f code w (by rw [hops]; simp)] at he
        simp only [Option.some.injEq] at he
        have hs := (resetRoot_spec h s code (unlockIfHolds s w)).2.2.2.2
        rw [he] at hs
        simp only [coreOf, Prod.mk.injEq] at hs
        unfold opsOf at hops
        refine ⟨[], ?_, ?_⟩
        · have := unlockIfHolds_addrs s w
          simp only [addrsOf, opsOf, hops, List.map_nil] at this
          simp [addrsOf, opsOf, hs.1, ← this]
        · rw [hs.2.1, hops, unlockIfHolds_destroyed]; simp
      | cons old rest =>
        cases rest with
        | nil =>
          rw [exec_reset_root h s f code w (by rw [hops]; simp)] at he
          simp only [Option.some.injEq] at he
          have hs := (resetRoot_spec h s code (unlockIfHolds s w)).2.2.2.2
          rw [he] at hs
          simp only [coreOf, Prod.mk.injEq] at hs
          unfold opsOf at hops
          refine ⟨[old.addr], ?_, ?_⟩
          · have := unlockIfHolds_addrs s w
            simp only [addrsOf, opsOf, hops, List.map_cons, List.map_nil] at this
            simp [addrsOf, opsOf, hs.1, ← this]
          · rw [hs.2.1, hops, unlockIfHolds_destroyed]; simp
        | cons parent rest =>
          rw [exec_reset_pop h s f code w old parent rest hops] at he
          have haddr : addrsOf w s = old.addr :: addrsOf ((unlockIfHolds s w).setSocket s
              { (unlockIfHolds s w).sockets s with m_pCurOpData := parent :: rest }) s := by
            rw [← unlockIfHolds_addrs s w]
            unfold addrsOf
            rw [hops]
            simp [opsOf]
          have hdes : (((unlockIfHolds s w).setSocket s
              { (unlockIfHolds s w).sockets s with m_pCurOpData := parent :: rest }).sockets
                s).destroyed = (w.sockets s).destroyed := by
            simp only [setSocket_sockets_self]
            exact unlockIfHolds_destroyed s w
          generalize hsub : (if isSubcommandCode code = true then
            exec h s f (Call.ParseSubcommandResult code old)
              ((unlockIfHolds s w).setSocket s
                { (unlockIfHolds s w).sockets s with m_pCurOpData := parent :: rest })
            else
              exec h s f (Call.ResetOperation code)
                ((unlockIfHolds s w).setSocket s
                  { (unlockIfHolds s w).sockets s with m_pCurOpData := parent :: rest })) = res
            at he
          cases res with
          | none => simp at he
          | some p =>
            obtain ⟨ret, w3⟩ := p
            simp only [Option.some.injEq, Prod.mk.injEq] at he
            obtain ⟨_, he⟩ := he
            have hex : ∃ c2, exec h s f c2 ((unlockIfHolds s w).setSocket s
                { (unlockIfHolds s w).sockets s with m_pCurOpData := parent :: rest })
                = some (ret, w3) := by
              split_ifs at hsub
              · exact ⟨_, hsub⟩
              · exact ⟨_, hsub⟩
            obtain ⟨c2, hc2⟩ := hex
            obtain ⟨rem, r1, r2⟩ := ih c2 _ w3 ret hc2
            refine ⟨old.addr :: rem, ?_, ?_⟩
            · rw [haddr, r1, ← he]
              simp [addrsOf, opsOf, deleteOpData]
            · rw [hdes] at r2
              rw [← he]
              simp only [deleteOpData, setSocket_sockets_self, r2]
              simp
    | ParseSubcommandResult prev op =>
      rw [exec] at he
      have hb : addrsOf (countSubcommandResult s w) s = addrsOf w s ∧
          ((countSubcommandResult s w).sockets s).destroyed = (w.sockets s).destroyed := by
        simp [addrsOf, opsOf, countSubcommandResult]
      have hh := hk.2 prev op (countSubcommandResult s w)
      rw [hb.1, hb.2] at hh
      generalize h.SubcommandResult s prev op (countSubcommandResult s w) = res at he hh
      cases hops : (w.sockets s).m_pCurOpData with
      | nil =>
        simp only [hops] at he
        cases hr : exec h s f (Call.ResetOperation FZ_REPLY_ERROR) w with
        | none => simp [hr] at he
        | some p =>
          obtain ⟨ret, w2⟩ := p
          simp only [hr, Option.some.injEq, Prod.mk.injEq] at he
          rw [← he.2]
          exact ih _ _ _ _ hr
      | cons cur rest =>
        simp only [hops] at he
        split_ifs at he with h1 h2
        · simp only [Option.some.injEq, Prod.mk.injEq] at he
          rw [← he.2]
          exact ⟨[], by rw [hh.1]; rfl, by rw [hh.2]; simp⟩
        · obtain ⟨rem, r1, r2⟩ := ih _ _ _ _ he
          exact ⟨rem, by rw [← hh.1, r1], by rw [r2, hh.2]⟩
        · obtain ⟨rem, r1, r2⟩ := ih _ _ _ _ he
          exact ⟨rem, by rw [← hh.1, r1], by rw [r2, hh.2]⟩
    | SendNextCommand =>
      rw [exec] at he
      cases hops : (w.sockets s).m_pCurOpData with
      | nil =>
        simp only [hops] at he
        cases hr : exec h s f (Call.ResetOperation FZ_REPLY_ERROR) w with
        | none => simp [hr] at he
        | some p =>
          obtain ⟨ret, w2⟩ := p
          simp only [hr, Option.some.injEq, Prod.mk.injEq] at he
          rw [← he.2]
          exact ih _ _ _ _ hr
      | cons cur rest =>
        simp only [hops] at he
        exact ih _ _ _ _ he
    | SendNextCommandLoop =>
      rw [exec] at he
      have hh := hk.1 w
      generalize h.Send s w = res at he hh
      cases hops : (w.sockets s).m_pCurOpData with
      | nil =>
        simp only [hops, Option.some.injEq, Prod.mk.injEq] at he
        rw [← he.2]
        exact ⟨[], by simp, by simp⟩
      | cons cur rest =>
        simp only [hops] at he
        split_ifs at he with h1 h2 h3 h4 h5 h6 h7
        · simp only [Option.some.injEq, Prod.mk.injEq] at he
          rw [← he.2]
          exact ⟨[], by simp, by simp⟩
        · simp only [Option.some.injEq, Prod.mk.injEq] at he
          rw [← he.2]
          have hs := SetWait_sameCore s true w
          exact ⟨[], by rw [hs.addrs s]; rfl, by rw [hs.destroyed s]; simp⟩
        · obtain ⟨rem, r1, r2⟩ := ih _ _ _ _ he
          exact ⟨rem, by rw [← hh.1, r1], by rw [r2, hh.2]⟩
        · obtain ⟨rem, r1, r2⟩ := ih _ _ _ _ he
          exact ⟨rem, by rw [← hh.1, r1], by rw [r2, hh.2]⟩
        · obtain ⟨rem, r1, r2⟩ := ih _ _ _ _ he
          exact ⟨rem, by rw [← hh.1, r1], by rw [r2, hh.2]⟩
        · simp only [Option.some.injEq, Prod.mk.injEq] at he
          rw [← he.2]
          exact ⟨[], by rw [hh.1]; rfl, by rw [hh.2]; simp⟩
        · obtain ⟨rem, r1, r2⟩ := ih _ _ _ _ he
          exact ⟨rem, by rw [← hh.1, r1], by rw [r2, hh.2]⟩
        · obtain ⟨rem, r1, r2⟩ := ih _ _ _ _ he
          exact ⟨rem, by rw [← hh.1, r1], by rw [r2, hh.2]⟩
    | DoClose code =>
      rw [exec] at he
      dsimp only at he
      have hsame : SameCore w (if (w.sockets s).isReal = true then ResetSocket s w else w) := by
        split_ifs
        · exact ResetSocket_sameCore s w
        · exact SameCore.refl w
      generalize (if (w.sockets s).isReal = true then ResetSocket s w else w) = w0 at hsame he
      split_ifs at he with hcl
      · simp only [Option.some.injEq, Prod.mk.injEq] at he
        rw [← he.2]
        exact ⟨[], by rw [hsame.addrs s]; rfl, by rw [hsame.destroyed s]; simp⟩
      · cases hr : exec h s f (Call.ResetOperation
            (FZ_REPLY_ERROR ||| FZ_REPLY_DISCONNECTED ||| code))
            (w0.setSocket s { w0.sockets s with m_closed := true }) with
        | none => simp [hr] at he
        | some p =>
          obtain ⟨ret, w2⟩ := p
          simp only [hr, Option.some.injEq, Prod.mk.injEq] at he
          obtain ⟨rem, r1, r2⟩ := ih _ _ _ _ hr
          rw [← he.2]
          refine ⟨rem, ?_, ?_⟩
          · have : addrsOf w s = addrsOf (w0.setSocket s
                { w0.sockets s with m_closed := true }) s := by
              rw [← hsame.addrs s]
              simp [addrsOf, opsOf]
            rw [this, r1]
            simp [addrsOf, opsOf]
          · simp only [setSocket_sockets_self, r2]
            rw [hsame.destroyed s]

theorem Push_addrs (s : SocketId) (op : COpData) (w : World) :
    addrsOf (Push s op w) s = op.addr :: addrsOf w s ∧
      ((Push s op w).sockets s).destroyed = (w.sockets s).destroyed := by
  simp [Push, addrsOf, opsOf]

theorem runStack_perm (h : Hooks) (s : SocketId) (hk : HooksKeepFrames h s)
    (calls : List StackCall) :
    ∀ (w0 w : World), runStack h s calls w0 = some w →
      ((w.sockets s).destroyed ++ addrsOf w s).Perm
        ((w0.sockets s).destroyed ++ addrsOf w0 s ++ pushedAddrs calls) := by
  induction calls with
  | nil =>
    intro w0 w hr
    simp only [runStack, Option.some.injEq] at hr
    rw [← hr]
    simp [pushedAddrs]
  | cons c cs ih =>
    intro w0 w hr
    simp only [runStack] at hr
    cases hc : c.apply h s w0 with
    | none => simp [hc] at hr
    | some w1 =>
      simp only [hc] at hr
      have h1 := ih w1 w hr
      cases c with
      | Push op =>
        simp only [StackCall.apply, Option.some.injEq] at hc
        rw [← hc, (Push_addrs s op w0).1, (Push_addrs s op w0).2] at h1
        refine h1.trans ?_
        simp only [pushedAddrs, List.append_assoc]
        refine List.Perm.append_left _ ?_
        simp only [List.cons_append]
        exact (List.perm_middle).symm
      | ResetOperation fuel code =>
        simp only [StackCall.apply, ResetOperation, Option.map_eq_some', Prod.exists,
          exists_eq_right] at hc
        obtain ⟨r, hc⟩ := hc
        obtain ⟨rem, r1, r2⟩ := exec_frames h s hk fuel _ w0 w1 r hc
        refine h1.trans ?_
        simp only [pushedAddrs]
        refine List.Perm.append_right _ ?_
        rw [r2, r1, List.append_assoc]
        refine List.Perm.append_left _ ?_
        exact List.Perm.append_right _ (List.reverse_perm rem)

/-- Claim C7 (as amended). Let the frames be distinct objects and let the protocol callbacks
leave the frames of socket `s` alone. After any sequence of `Push` and
`ResetOperation(code)` steps on `s`: the frames deleted so far together with the frames still
on the stack are exactly the frames that existed at the start or were pushed, each once (so
every removed frame is destroyed exactly once and no live frame is destroyed); every further
`ResetOperation`, whatever its code and whatever the callbacks return, unlinks a prefix of
the stack and deletes the unlinked frames in the order bottom-most first, top frame last;
and a `ResetOperation` with a code other than `OK`, `ERROR`, `CRITICALERROR` and more fuel
than frames returns, having deleted the whole stack in that order. -/
theorem c7_frames_destroyed_once (h : Hooks) (s : SocketId) (calls : List StackCall)
    (w0 w : World) (hk : HooksKeepFrames h s)
    (hfresh : ((w0.sockets s).destroyed ++ addrsOf w0 s ++ pushedAddrs calls).Nodup)
    (hrun : runStack h s calls w0 = some w) :
    ((w.sockets s).destroyed ++ addrsOf w s).Perm
      ((w0.sockets s).destroyed ++ addrsOf w0 s ++ pushedAddrs calls) ∧
    ((w.sockets s).destroyed ++ addrsOf w s).Nodup ∧
    (∀ (fuel code r : Nat) (w1 : World), ResetOperation h s fuel code w = some (r, w1) →
      ∃ removed : List Nat, addrsOf w s = removed ++ addrsOf w1 s ∧
        (w1.sockets s).destroyed = (w.sockets s).destroyed ++ removed.reverse) ∧
    (∀ (fuel code : Nat), isSubcommandCode code = false → (opsOf w s).length < fuel →
      (ResetOperation h s fuel code w).map
          (fun p => (addrsOf p.2 s, (p.2.sockets s).destroyed)) =
        some ([], (w.sockets s).destroyed ++ (addrsOf w s).reverse)) := by
  have hp := runStack_perm h s hk calls w0 w hrun
  refine ⟨hp, hp.nodup_iff.mpr hfresh, ?_, ?_⟩
  · intro fuel code r w1 he
    exact exec_frames h s hk fuel _ w w1 r he
  · intro fuel code hcode hf
    obtain ⟨w1, e1, _, k1⟩ := exec_reset_propagating h s code hcode _ w fuel rfl hf
    unfold ResetOperation
    rw [e1]
    simp only [coreOf, Prod.mk.injEq] at k1
    simp [addrsOf, opsOf, k1.1, k1.2.1]

theorem idleHooks_keepFrames (s : SocketId) : HooksKeepFrames idleHooks s :=
  ⟨fun _ => ⟨rfl, rfl⟩, fun _ _ _ => ⟨rfl, rfl⟩⟩

theorem c7_frames_destroyed_once_witness :
    (((demoRun.sockets 0).destroyed ++ addrsOf demoRun 0).Perm
      ((demoStack.sockets 0).destroyed ++ addrsOf demoStack 0 ++
        pushedAddrs [StackCall.Push { addr := 4, opId := Command.other 1 },
          StackCall.ResetOperation 9 FZ_REPLY_OK,
          StackCall.Push { addr := 5, opId := Command.list },
          StackCall.Push { addr := 6, opId := Command.other 2 }])) ∧
    ((demoRun.sockets 0).destroyed ++ addrsOf demoRun 0).Nodup ∧
    (∀ (fuel code r : Nat) (w1 : World),
      ResetOperation idleHooks 0 fuel code demoRun = some (r, w1) →
      ∃ removed : List Nat, addrsOf demoRun 0 = removed ++ addrsOf w1 0 ∧
        (w1.sockets 0).destroyed = (demoRun.sockets 0).destroyed ++ removed.reverse) ∧
    (∀ (fuel code : Nat), isSubcommandCode code = false → (opsOf demoRun 0).length < fuel →
      (ResetOperation idleHooks 0 fuel code demoRun).map
          (fun p => (addrsOf p.2 0, (p.2.sockets 0).destroyed)) =
        some ([], (demoRun.sockets 0).destroyed ++ (addrsOf demoRun 0).reverse)) :=
  c7_frames_destroyed_once idleHooks 0
    [StackCall.Push { addr := 4, opId := Command.other 1 },
      StackCall.ResetOperation 9 FZ_REPLY_OK,
      StackCall.Push { addr := 5, opId := Command.list },
      StackCall.Push { addr := 6, opId := Command.other 2 }]
    demoStack demoRun (idleHooks_keepFrames 0) (by decide) rfl

/-- Counterexample to claim C7 as stated. On the stack 1 (top), 2, 3 (root):
`ResetOperation(CANCELED)` deletes frame 3 first and the top frame 1 last; and
`ResetOperation(ERROR)`, where each parent's `SubcommandResult` returns the error it is
given, does the same. In LIFO order the log would be 1, 2, 3. -/
theorem c7_counterexample :
    (ResetOperation idleHooks 0 5 FZ_REPLY_CANCELED demoStack).map
        (fun p => (p.2.sockets 0).destroyed) = some [3, 2, 1] ∧
    (ResetOperation idleHooks 0 9 FZ_REPLY_ERROR demoStack).map
        (fun p => ((p.2.sockets 0).destroyed, (p.2.sockets 0).subcommandResults))
      = some ([3, 2, 1], 2) := by
  decide

/-! ## Lock bookkeeping across resets (C5) -/

theorem holdCount_cons (cur : COpData) (rest : List COpData) :
    holdCount (cur :: rest) = holdCount rest + (if cur.holdsLock_ = true then 1 else 0) := by
  unfold holdCount
  rw [List.countP_cons]

theorem LockBooks_mono (w w1 : World) (hl : w1.m_lockInfoList = w.m_lockInfoList)
    (hops : ∀ u, holdCount (opsOf w u) ≤ holdCount (opsOf w1 u)) (hb : LockBooks w) :
    LockBooks w1 := by
  obtain ⟨b1, b2, b3⟩ := hb
  refine ⟨by rw [hl]; exact b1, by rw [hl]; exact b2, ?_⟩
  intro r hr
  rw [hl] at hr
  obtain ⟨c1, c2⟩ := b3 r hr
  have := hops r.pControlSocket
  exact ⟨by omega, by omega⟩

theorem LockBooks_of_sameCore (w w1 : World) (hs : SameCore w w1) (hb : LockBooks w) :
    LockBooks w1 :=
  LockBooks_mono w w1 hs.1 (fun u => by rw [hs.ops u]) hb

theorem LockBooks_norecord (w w1 : World) (s : SocketId)
    (hno : ∀ r ∈ w.m_lockInfoList, r.pControlSocket ≠ s)
    (hl : w1.m_lockInfoList = w.m_lockInfoList)
    (hops : ∀ u, u ≠ s → opsOf w1 u = opsOf w u) (hb : LockBooks w) : LockBooks w1 := by
  obtain ⟨b1, b2, b3⟩ := hb
  refine ⟨by rw [hl]; exact b1, by rw [hl]; exact b2, ?_⟩
  intro r hr
  rw [hl] at hr
  rw [hops _ (hno r hr)]
  exact b3 r hr

theorem nodup_owner_ne (pre post : List t_lockInfo) (own : t_lockInfo)
    (hn : ((pre ++ own :: post).map (fun r => r.pControlSocket)).Nodup) :
    ∀ r ∈ pre ++ post, r.pControlSocket ≠ own.pControlSocket := by
  intro r hr heq
  simp only [List.map_append, List.map_cons] at hn
  have hn2 := (List.nodup_cons.mp (List.nodup_middle.mp hn)).1
  apply hn2
  rw [← heq, ← List.map_append]
  exact List.mem_map_of_mem _ hr

theorem LockBooks_update (w w1 : World) (s : SocketId) (pre post : List t_lockInfo)
    (own own1 : t_lockInfo) (hl : w.m_lockInfoList = pre ++ own :: post)
    (hown : own.pControlSocket = s) (hl1 : w1.m_lockInfoList = pre ++ own1 :: post)
    (hown1 : own1.pControlSocket = s) (hops : ∀ u, u ≠ s → opsOf w1 u = opsOf w u)
    (hc : (own1.waiting = true → own1.lockcount = 0) ∧
      (own1.waiting = false → 1 ≤ own1.lockcount))
    (hh : 1 ≤ holdCount (opsOf w1 s) ∧ own1.lockcount ≤ holdCount (opsOf w1 s))
    (hb : LockBooks w) : LockBooks w1 := by
  obtain ⟨b1, b2, b3⟩ := hb
  rw [hl] at b1 b2 b3
  have hne := nodup_owner_ne pre post own b1
  refine ⟨?_, ?_, ?_⟩
  · rw [hl1]
    simp only [List.map_append, List.map_cons, hown1] at b1 ⊢
    rw [hown] at b1
    exact b1
  · rw [hl1]; exact CountsOK_update pre post own own1 b2 hc
  · intro r hr
    rw [hl1] at hr
    rcases List.mem_append.mp hr with hr | hr
    · have h1 : r.pControlSocket ≠ s := by
        rw [← hown]; exact hne r (List.mem_append_left _ hr)
      rw [hops _ h1]
      exact b3 r (List.mem_append_left _ hr)
    · rcases List.mem_cons.mp hr with hr | hr
      · rw [hr, hown1]; exact hh
      · have h1 : r.pControlSocket ≠ s := by
          rw [← hown]; exact hne r (List.mem_append_right _ hr)
        rw [hops _ h1]
        exact b3 r (List.mem_append_right _ (List.mem_cons_of_mem _ hr))

theorem LockBooks_erase (w w1 : World) (s : SocketId) (pre post : List t_lockInfo)
    (own : t_lockInfo) (hl : w.m_lockInfoList = pre ++ own :: post)
    (hown : own.pControlSocket = s) (hl1 : w1.m_lockInfoList = pre ++ post)
    (hops : ∀ u, u ≠ s → opsOf w1 u = opsOf w u) (hb : LockBooks w) : LockBooks w1 := by
  obtain ⟨b1, b2, b3⟩ := hb
  rw [hl] at b1 b2 b3
  have hne := nodup_owner_ne pre post own b1
  refine ⟨?_, ?_, ?_⟩
  · rw [hl1]
    simp only [List.map_append, List.map_cons] at b1 ⊢
    exact (List.nodup_cons.mp (List.nodup_middle.mp b1)).2
  · rw [hl1]; exact CountsOK_erase pre post own b2
  · intro r hr
    rw [hl1] at hr
    have h1 : r.pControlSocket ≠ s := by rw [← hown]; exact hne r hr
    rw [hops _ h1]
    rcases List.mem_append.mp hr with hr | hr
    · exact b3 r (List.mem_append_left _ hr)
    · exact b3 r (List.mem_append_right _ (List.mem_cons_of_mem _ hr))

theorem LockBooks_append (w w1 : World) (s : SocketId) (x : t_lockInfo)
    (hno : ∀ r ∈ w.m_lockInfoList, r.pControlSocket ≠ s)
    (hl1 : w1.m_lockInfoList = w.m_lockInfoList ++ [x]) (hx : x.pControlSocket = s)
    (hops : ∀ u, u ≠ s → opsOf w1 u = opsOf w u)
    (hc : (x.waiting = true → x.lockcount = 0) ∧ (x.waiting = false → 1 ≤ x.lockcount))
    (hh : 1 ≤ holdCount (opsOf w1 s) ∧ x.lockcount ≤ holdCount (opsOf w1 s))
    (hb : LockBooks w) : LockBooks w1 := by
  obtain ⟨b1, b2, b3⟩ := hb
  refine ⟨?_, ?_, ?_⟩
  · rw [hl1]
    simp only [List.map_append, List.map_cons, List.map_nil]
    rw [List.nodup_append]
    refine ⟨b1, List.nodup_singleton _, ?_⟩
    intro a ha hb2
    simp only [List.mem_singleton] at hb2
    simp only [List.mem_map] at ha
    obtain ⟨r, hr, hra⟩ := ha
    exact hno r hr (by rw [hra, hb2, hx])
  · rw [hl1]; exact CountsOK_append _ _ b2 hc
  · intro r hr
    rw [hl1] at hr
    rcases List.mem_append.mp hr with hr | hr
    · rw [hops _ (hno r hr)]; exact b3 r hr
    · simp only [List.mem_singleton] at hr
      rw [hr, hx]; exact hh

theorem setHoldsLock_opsOf_ne (w : World) (s u : SocketId) (b : Bool) (hu : u ≠ s) :
    opsOf (w.setHoldsLock s b) u = opsOf w u :=
  setHoldsLock_ops_ne w s u b hu

theorem setHoldsLock_opsOf_self (w : World) (s : SocketId) (b : Bool) (cur : COpData)
    (rest : List COpData) (hops : (w.sockets s).m_pCurOpData = cur :: rest) :
    opsOf (w.setHoldsLock s b) s = { cur with holdsLock_ := b } :: rest := by
  unfold opsOf
  rw [setHoldsLock_ops_self, hops]

theorem TryLockCache_books (s : SocketId) (r : locking_reason) (d : CServerPath)
    (w w1 : World) (b : Bool) (hb : LockBooks w) (h : TryLockCache s r d w = some (b, w1)) :
    LockBooks w1 := by
  unfold TryLockCache at h
  cases hops : (w.sockets s).m_pCurOpData with
  | nil => simp [hops] at h
  | cons cur rest =>
    simp only [hops] at h
    have hself := setHoldsLock_opsOf_self w s true cur rest hops
    have hne : ∀ u, u ≠ s → opsOf (w.setHoldsLock s true) u = opsOf w u :=
      fun u hu => setHoldsLock_opsOf_ne w s u true hu
    have hcNew : holdCount (opsOf (w.setHoldsLock s true) s) = holdCount rest + 1 := by
      rw [hself, holdCount_cons]; simp
    have hcOld : holdCount (opsOf w s) =
        holdCount rest + (if cur.holdsLock_ = true then 1 else 0) := by
      unfold opsOf; rw [hops, holdCount_cons]
    cases hg : GetLockStatus s w.m_lockInfoList with
    | none =>
      simp only [hg] at h
      have hno := GetLockStatus_none hg
      split_ifs at h with hany
      · simp only [Option.some.injEq, Prod.mk.injEq] at h
        rw [← h.2]
        refine LockBooks_append w _ s _ hno rfl rfl hne
          ⟨fun _ => rfl, fun hw => by simp at hw⟩ ?_ hb
        show 1 ≤ holdCount (opsOf (w.setHoldsLock s true) s) ∧
          (0 : Int) ≤ holdCount (opsOf (w.setHoldsLock s true) s)
        rw [hcNew]; omega
      · simp only [Option.some.injEq, Prod.mk.injEq] at h
        rw [← h.2]
        refine LockBooks_append w _ s _ hno rfl rfl hne
          ⟨fun hw => by simp at hw, fun _ => by simp⟩ ?_ hb
        show 1 ≤ holdCount (opsOf (w.setHoldsLock s true) s) ∧
          (0 + 1 : Int) ≤ holdCount (opsOf (w.setHoldsLock s true) s)
        rw [hcNew]; omega
    | some v =>
      obtain ⟨pre, own, post⟩ := v
      obtain ⟨hl, hown, _⟩ := GetLockStatus_some hg
      simp only [hg] at h
      have hco := hb.2.1 own (by rw [hl]; simp)
      have hbo := hb.2.2 own (by rw [hl]; simp)
      rw [hown, hcOld] at hbo
      split_ifs at h with hcnt hh hany
      · simp only [Option.some.injEq, Prod.mk.injEq] at h
        rw [← h.2]
        have hf : cur.holdsLock_ = false := by simpa using hh
        rw [hf] at hbo
        refine LockBooks_update w _ s pre post own _ hl hown rfl hown hne ⟨?_, ?_⟩ ?_ hb
        · intro hw; exact absurd (hco.1 hw) hcnt
        · intro hw
          have := hco.2 hw
          show 1 ≤ own.lockcount + 1
          omega
        · show 1 ≤ holdCount (opsOf (w.setHoldsLock s true) s) ∧
            own.lockcount + 1 ≤ holdCount (opsOf (w.setHoldsLock s true) s)
          rw [hcNew]
          simp only [Bool.false_eq_true, if_false, add_zero] at hbo
          omega
      · simp only [Option.some.injEq, Prod.mk.injEq] at h
        rw [← h.2]; exact hb
      · simp only [Option.some.injEq, Prod.mk.injEq] at h
        rw [← h.2]
        refine LockBooks_update w _ s pre post own own hl hown
          (by rw [setHoldsLock_lockInfoList]; exact hl) hown hne hco ?_ hb
        rw [hcNew]
        split_ifs at hbo <;> omega
      · simp only [Option.some.injEq, Prod.mk.injEq] at h
        rw [← h.2]
        have hc0 : own.lockcount = 0 := by simpa using hcnt
        refine LockBooks_update w _ s pre post own _ hl hown rfl hown hne
          ⟨fun hw => by simp at hw, fun _ => ?_⟩ ?_ hb
        · show 1 ≤ own.lockcount + 1
          omega
        · show 1 ≤ holdCount (opsOf (w.setHoldsLock s true) s) ∧
            own.lockcount + 1 ≤ holdCount (opsOf (w.setHoldsLock s true) s)
          rw [hcNew, hc0]; omega

theorem eraseAndNotify_opsOf (s : SocketId) (pre post : List t_lockInfo)
    (own : t_lockInfo) (w : World) (u : SocketId) :
    opsOf (eraseAndNotify s pre own post w) u = opsOf w u := by
  unfold opsOf
  rw [eraseAndNotify_sockets]

theorem UnlockCache_books (s : SocketId) (w : World) (hb : LockBooks w) :
    LockBooks (UnlockCache s w) := by
  unfold UnlockCache
  cases hops : (w.sockets s).m_pCurOpData with
  | nil => exact hb
  | cons cur rest =>
    dsimp only
    split_ifs with hh
    · exact hb
    · have hholds : cur.holdsLock_ = true := by simpa using hh
      have hself := setHoldsLock_opsOf_self w s false cur rest hops
      have hne : ∀ u, u ≠ s → opsOf (w.setHoldsLock s false) u = opsOf w u :=
        fun u hu => setHoldsLock_opsOf_ne w s u false hu
      have hcNew : holdCount (opsOf (w.setHoldsLock s false) s) = holdCount rest := by
        rw [hself, holdCount_cons]; simp
      have hcOld : holdCount (opsOf w s) = holdCount rest + 1 := by
        unfold opsOf; rw [hops, holdCount_cons, hholds]; simp
      rw [setHoldsLock_lockInfoList]
      cases hg : GetLockStatus s w.m_lockInfoList with
      | none =>
        exact LockBooks_norecord w _ s (GetLockStatus_none hg)
          (setHoldsLock_lockInfoList w s false) hne hb
      | some v =>
        obtain ⟨pre, own, post⟩ := v
        obtain ⟨hl, hown, _⟩ := GetLockStatus_some hg
        have hco := hb.2.1 own (by rw [hl]; simp)
        have hbo := hb.2.2 own (by rw [hl]; simp)
        rw [hown, hcOld] at hbo
        dsimp only
        split_ifs with hw hc
        · have hwf : own.waiting = false := by simpa using hw
          have h1 := hco.2 hwf
          refine LockBooks_update w _ s pre post own _ hl hown rfl hown hne ⟨?_, ?_⟩ ?_ hb
          · intro hw2
            rw [hwf] at hw2
            exact absurd hw2 (by simp)
          · intro _
            show 1 ≤ own.lockcount - 1
            omega
          · show 1 ≤ holdCount (opsOf (w.setHoldsLock s false) s) ∧
              own.lockcount - 1 ≤ holdCount (opsOf (w.setHoldsLock s false) s)
            rw [hcNew]
            omega
        · refine LockBooks_erase w _ s pre post own hl hown
            (eraseAndNotify_lockInfoList _ _ _ _ _) ?_ hb
          intro u hu
          rw [eraseAndNotify_opsOf]; exact hne u hu
        · refine LockBooks_erase w _ s pre post own hl hown
            (eraseAndNotify_lockInfoList _ _ _ _ _) ?_ hb
          intro u hu
          rw [eraseAndNotify_opsOf]; exact hne u hu

theorem ObtainLockFromEvent_books (s : SocketId) (w : World) (hb : LockBooks w) :
    LockBooks (ObtainLockFromEvent s w).2 := by
  unfold ObtainLockFromEvent
  cases hops : (w.sockets s).m_pCurOpData with
  | nil => exact hb
  | cons cur rest =>
    dsimp only
    cases hg : GetLockStatus s w.m_lockInfoList with
    | none => exact hb
    | some v =>
      obtain ⟨pre, own, post⟩ := v
      obtain ⟨hl, hown, _⟩ := GetLockStatus_some hg
      have hco := hb.2.1 own (by rw [hl]; simp)
      have hbo := hb.2.2 own (by rw [hl]; simp)
      rw [hown] at hbo
      dsimp only
      split_ifs with hw hany
      · exact hb
      · exact hb
      · have hwt : own.waiting = true := by simpa using hw
        have hc0 := hco.1 hwt
        refine LockBooks_update w _ s pre post own _ hl hown rfl hown (fun _ _ => rfl)
          ⟨fun h => by simp at h, fun _ => ?_⟩ ?_ hb
        · show 1 ≤ own.lockcount + 1
          omega
        · show 1 ≤ holdCount (opsOf w s) ∧ own.lockcount + 1 ≤ holdCount (opsOf w s)
          omega

theorem Push_books (s : SocketId) (op : COpData) (w : World) (hb : LockBooks w) :
    LockBooks (Push s op w) := by
  refine LockBooks_mono w _ rfl (fun u => ?_) hb
  by_cases hu : u = s
  · subst hu
    simp only [Push, opsOf, setSocket_sockets_self, holdCount_cons]
    omega
  · simp [Push, opsOf, hu]

theorem unlockIfHolds_books (s : SocketId) (w : World) (hb : LockBooks w) :
    LockBooks (unlockIfHolds s w) := by
  unfold unlockIfHolds
  cases hops : (w.sockets s).m_pCurOpData with
  | nil => exact hb
  | cons cur rest =>
    dsimp only
    split_ifs
    · exact UnlockCache_books s w hb
    · exact hb

theorem holdCount_clearTop (ops : List COpData) :
    holdCount (clearTop ops) = holdCount (ops.drop 1) := by
  cases ops with
  | nil => rfl
  | cons cur rest => simp [clearTop, holdCount_cons]

/-- Unlinking the frames of `s` down to a suffix that has as many lock-holding frames as the
whole stack keeps the bookkeeping. -/
theorem LockBooks_setOps (w : World) (s : SocketId) (x : CControlSocket)
    (hx : holdCount (opsOf w s) ≤ holdCount x.m_pCurOpData) (hb : LockBooks w) :
    LockBooks (w.setSocket s x) := by
  refine LockBooks_mono w _ rfl (fun u => ?_) hb
  by_cases hu : u = s
  · subst hu; simpa [opsOf] using hx
  · simp [opsOf, hu]

theorem resetRoot_books (h : Hooks) (s : SocketId) (code : Nat) (w : World)
    (hz : holdCount (opsOf w s) = 0) (hb : LockBooks w) :
    LockBooks (resetRoot h s code w).2 := by
  obtain ⟨_, s2, _, s4, _⟩ := resetRoot_spec h s code w
  have hno : ∀ r ∈ w.m_lockInfoList, r.pControlSocket ≠ s := by
    intro r hr heq
    have := (hb.2.2 r hr).1
    rw [heq, hz] at this
    omega
  refine LockBooks_norecord w _ s hno s2 (fun u hu => ?_) hb
  have := s4 u hu
  simp only [coreOf, Prod.mk.injEq] at this
  exact this.1

theorem exec_books (h : Hooks) (s : SocketId) (hk : HooksKeepBooks h) :
    ∀ (fuel : Nat) (c : Call) (w w1 : World) (r : Nat), LockBooks w →
      exec h s fuel c w = some (r, w1) → LockBooks w1 := by
  intro fuel
  induction fuel with
  | zero => intro c w w1 r _ he; simp [exec] at he
  | succ f ih =>
    intro c w w1 r hb he
    cases c with
    | ResetOperation code =>
      have hb1 := unlockIfHolds_books s w hb
      have hct : holdCount (opsOf (unlockIfHolds s w) s) =
          holdCount ((opsOf (unlockIfHolds s w) s).drop 1) := by
        rw [unlockIfHolds_ops, holdCount_clearTop]
        cases opsOf w s <;> simp [clearTop]
      cases hops : opsOf (unlockIfHolds s w) s with
      | nil =>
        rw [exec_reset_root h s f code w (by rw [hops]; simp)] at he
        simp only [Option.some.injEq] at he
        have := resetRoot_books h s code _ (by rw [hops]; rfl) hb1
        rw [he] at this
        exact this
      | cons old rest =>
        rw [hops] at hct
        cases rest with
        | nil =>
          rw [exec_reset_root h s f code w (by rw [hops]; simp)] at he
          simp only [Option.some.injEq] at he
          have := resetRoot_books h s code _ (by rw [hops, hct]; rfl) hb1
          rw [he] at this
          exact this
        | cons parent rest =>
          rw [exec_reset_pop h s f code w old parent rest hops] at he
          have hb2 : LockBooks ((unlockIfHolds s w).setSocket s
              { (unlockIfHolds s w).sockets s with m_pCurOpData := parent :: rest }) := by
            refine LockBooks_setOps _ s _ ?_ hb1
            rw [hops, hct]
            simp
          generalize hsub : (if isSubcommandCode code = true then
            exec h s f (Call.ParseSubcommandResult code old)
              ((unlockIfHolds s w).setSocket s
                { (unlockIfHolds s w).sockets s with m_pCurOpData := parent :: rest })
            else
              exec h s f (Call.ResetOperation code)
                ((unlockIfHolds s w).setSocket s
                  { (unlockIfHolds s w).sockets s with m_pCurOpData := parent :: rest })) = res
            at he
          cases res with
          | none => simp at he
          | some p =>
            obtain ⟨ret, w3⟩ := p
            simp only [Option.some.injEq, Prod.mk.injEq] at he
            obtain ⟨_, he⟩ := he
            have hb3 : LockBooks w3 := by
              split_ifs at hsub
              · exact ih _ _ _ _ hb2 hsub
              · exact ih _ _ _ _ hb2 hsub
            rw [← he]
            unfold deleteOpData
            exact LockBooks_setOps w3 s _ (le_refl _) hb3
    | ParseSubcommandResult prev op =>
      rw [exec] at he
      have hb0 : LockBooks (countSubcommandResult s w) := by
        unfold countSubcommandResult
        exact LockBooks_setOps w s _ (le_refl _) hb
      have hh := hk.2 s prev op _ hb0
      generalize h.SubcommandResult s prev op (countSubcommandResult s w) = res at he hh
      cases hops : (w.sockets s).m_pCurOpData with
      | nil =>
        simp only [hops] at he
        cases hr : exec h s f (Call.ResetOperation FZ_REPLY_ERROR) w with
        | none => simp [hr] at he
        | some p =>
          obtain ⟨ret, w2⟩ := p
          simp only [hr, Option.some.injEq, Prod.mk.injEq] at he
          rw [← he.2]
          exact ih _ _ _ _ hb hr
      | cons cur rest =>
        simp only [hops] at he
        split_ifs at he with h1 h2
        · simp only [Option.some.injEq, Prod.mk.injEq] at he
          rw [← he.2]; exact hh
        · exact ih _ _ _ _ hh he
        · exact ih _ _ _ _ hh he
    | SendNextCommand =>
      rw [exec] at he
      cases hops : (w.sockets s).m_pCurOpData with
      | nil =>
        simp only [hops] at he
        cases hr : exec h s f (Call.ResetOperation FZ_REPLY_ERROR) w with
        | none => simp [hr] at he
        | some p =>
          obtain ⟨ret, w2⟩ := p
          simp only [hr, Option.some.injEq, Prod.mk.injEq] at he
          rw [← he.2]
          exact ih _ _ _ _ hb hr
      | cons cur rest =>
        simp only [hops] at he
        exact ih _ _ _ _ hb he
    | SendNextCommandLoop =>
      rw [exec] at he
      have hh := hk.1 s w hb
      generalize h.Send s w = res at he hh
      cases hops : (w.sockets s).m_pCurOpData with
      | nil =>
        simp only [hops, Option.some.injEq, Prod.mk.injEq] at he
        rw [← he.2]; exact hb
      | cons cur rest =>
        simp only [hops] at he
        split_ifs at he with h1 h2 h3 h4 h5 h6 h7
        · simp only [Option.some.injEq, Prod.mk.injEq] at he
          rw [← he.2]; exact hb
        · simp only [Option.some.injEq, Prod.mk.injEq] at he
          rw [← he.2]
          exact LockBooks_of_sameCore _ _ (SetWait_sameCore s true w) hb
        · exact ih _ _ _ _ hh he
        · exact ih _ _ _ _ hh he
        · exact ih _ _ _ _ hh he
        · simp only [Option.some.injEq, Prod.mk.injEq] at he
          rw [← he.2]; exact hh
        · exact ih _ _ _ _ hh he
        · exact ih _ _ _ _ hh he
    | DoClose code =>
      rw [exec] at he
      dsimp only at he
      have hsame : SameCore w (if (w.sockets s).isReal = true then ResetSocket s w else w) := by
        split_ifs
        · exact ResetSocket_sameCore s w
        · exact SameCore.refl w
      generalize (if (w.sockets s).isReal = true then ResetSocket s w else w) = w0 at hsame he
      have hb0 := LockBooks_of_sameCore _ _ hsame hb
      split_ifs at he with hcl
      · simp only [Option.some.injEq, Prod.mk.injEq] at he
        rw [← he.2]; exact hb0
      · cases hr : exec h s f (Call.ResetOperation
            (FZ_REPLY_ERROR ||| FZ_REPLY_DISCONNECTED ||| code))
            (w0.setSocket s { w0.sockets s with m_closed := true }) with
        | none => simp [hr] at he
        | some p =>
          obtain ⟨ret, w2⟩ := p
          simp only [hr, Option.some.injEq, Prod.mk.injEq] at he
          have hb1 : LockBooks (w0.setSocket s { w0.sockets s with m_closed := true }) :=
            LockBooks_setOps _ s _ (le_refl _) hb0
          have hb2 := ih _ _ _ _ hb1 hr
          rw [← he.2]
          exact LockBooks_setOps _ s _ (le_refl _) hb2

theorem runSocket_books (h : Hooks) (hk : HooksKeepBooks h) (calls : List SocketCall) :
    ∀ (w w1 : World), LockBooks w → runSocket h calls w = some w1 → LockBooks w1 := by
  induction calls with
  | nil =>
    intro w w1 hb hr
    simp only [runSocket, Option.some.injEq] at hr
    rw [← hr]; exact hb
  | cons c cs ih =>
    intro w w1 hb hr
    simp only [runSocket] at hr
    cases hc : c.apply h w with
    | none => simp [hc] at hr
    | some w2 =>
      simp only [hc] at hr
      refine ih w2 w1 ?_ hr
      cases c with
      | Push s op =>
        simp only [SocketCall.apply, Option.some.injEq] at hc
        rw [← hc]; exact Push_books s op w hb
      | TryLockCache s r d =>
        simp only [SocketCall.apply, Option.map_eq_some', Prod.exists, exists_eq_right] at hc
        obtain ⟨b, hc⟩ := hc
        exact TryLockCache_books s r d w w2 b hb hc
      | UnlockCache s =>
        simp only [SocketCall.apply, Option.some.injEq] at hc
        rw [← hc]; exact UnlockCache_books s w hb
      | ObtainLockFromEvent s =>
        simp only [SocketCall.apply, Option.some.injEq] at hc
        rw [← hc]; exact ObtainLockFromEvent_books s w hb
      | exec s fuel c =>
        simp only [SocketCall.apply, Option.map_eq_some', Prod.exists, exists_eq_right] at hc
        obtain ⟨r, hc⟩ := hc
        exact exec_books h s hk fuel c w w2 r hb hc
      | setServer s srv =>
        simp only [SocketCall.apply, Option.some.injEq] at hc
        rw [← hc]
        exact LockBooks_setOps _ s _ (le_refl _) hb

/-- Claim C5. Let the protocol callbacks keep the lock bookkeeping. In every state reached
from an empty lock list by `Push`, `TryLockCache`, `UnlockCache`, `ObtainLockFromEvent`,
`ResetOperation`, `ParseSubcommandResult`, `SendNextCommand` and `DoClose` steps of any
sockets (and changes of their servers), `ResetOperation(code)` of a socket `s` with a code
other than `OK`, `ERROR`, `CRITICALERROR` and more fuel than frames returns, leaves no frame
on the stack of `s`, and leaves no record owned by `s` in the lock list. -/
theorem c5_reset_leaks_no_lock (h : Hooks) (calls : List SocketCall) (w0 w : World)
    (s : SocketId) (code fuel : Nat) (hk : HooksKeepBooks h)
    (hempty : w0.m_lockInfoList = []) (hrun : runSocket h calls w0 = some w)
    (hcode : isSubcommandCode code = false) (hfuel : (opsOf w s).length < fuel) :
    match ResetOperation h s fuel code w with
    | none => False
    | some p => opsOf p.2 s = [] ∧ ∀ r ∈ p.2.m_lockInfoList, r.pControlSocket ≠ s := by
  have hb0 : LockBooks w0 := by
    unfold LockBooks CountsOK
    rw [hempty]
    simp
  have hb := runSocket_books h hk calls w0 w hb0 hrun
  obtain ⟨w1, e1, _, k1⟩ := exec_reset_propagating h s code hcode _ w fuel rfl hfuel
  have hb1 := exec_books h s hk fuel _ w w1 _ hb e1
  unfold ResetOperation
  rw [e1]
  simp only [coreOf, Prod.mk.injEq] at k1
  have hops : opsOf w1 s = [] := k1.1
  refine ⟨hops, ?_⟩
  intro r hr heq
  have := (hb1.2.2 r hr).1
  rw [heq, hops] at this
  simp [holdCount] at this

theorem idleHooks_keepBooks : HooksKeepBooks idleHooks :=
  ⟨fun _ _ hb => hb, fun _ _ _ _ hb => hb⟩

theorem c5_reset_leaks_no_lock_witness :
    match ResetOperation idleHooks 1 5 FZ_REPLY_CANCELED demoBusy with
    | none => False
    | some p => opsOf p.2 1 = [] ∧ ∀ r ∈ p.2.m_lockInfoList, r.pControlSocket ≠ 1 :=
  c5_reset_leaks_no_lock idleHooks
    [SocketCall.TryLockCache 1 locking_reason.lock_list (some ["x"]),
      SocketCall.Push 1 { addr := 9, opId := Command.other 0 },
      SocketCall.TryLockCache 1 locking_reason.lock_list (some ["x"]),
      SocketCall.TryLockCache 2 locking_reason.lock_list (some ["x"])]
    demoWorld demoBusy 1 FZ_REPLY_CANCELED 5 idleHooks_keepBooks rfl rfl (by decide) (by decide)

/-! ## Writer ring: bounds, backpressure, conservation -/

theorem sizeInc_eq (x : Nat) (h : x + 1 < SIZE_MOD) : sizeInc x = x + 1 := by
  unfold sizeInc
  exact Nat.mod_eq_of_lt h

theorem sizeDec_eq (x : Nat) (h0 : 0 < x) (h : x < SIZE_MOD) : sizeDec x = x - 1 := by
  unfold sizeDec SIZE_MOD at *
  omega

theorem signal_capacity_length (w : writer_base) :
    (signal_capacity w).buffers_.length = w.buffers_.length := by
  unfold signal_capacity
  cases w.kind
  · simp
  · simp only
    split <;> simp

theorem commit_inv (n : Nat) (hn : n < SIZE_MOD) (l : List Byte) (w : writer_base)
    (hlen : w.buffers_.length = n) (hlt : w.ready_count_ < n) :
    (commit l w).buffers_.length = n ∧ (commit l w).ready_count_ ≤ n ∧
      (commit l w).processing_ = w.processing_ := by
  unfold commit
  simp only
  by_cases h0 : w.ready_count_ = 0
  · simp only [h0, decide_True, if_true]
    unfold signal_capacity
    cases hk : w.kind <;> simp [hk, hlen]
    · rw [sizeInc_eq 0 (by unfold SIZE_MOD; omega)]; omega
    · split <;> simp [hlen] <;> (unfold sizeInc sizeDec SIZE_MOD; omega)
  · simp only [h0, decide_False]
    simp [hlen]
    rw [sizeInc_eq _ (by omega)]; omega

theorem get_write_buffer_inv (n : Nat) (hn : n < SIZE_MOD) (l : List Byte) (w : writer_base)
    (hw : RingInv n w) : RingInv n (get_write_buffer l w).2 := by
  obtain ⟨hlen, hle, hp⟩ := hw
  unfold get_write_buffer
  dsimp only
  split_ifs with he hc hfull hfull
  · exact ⟨hlen, hle, hp⟩
  · have hpt : w.processing_ = true := by
      cases hq : w.processing_ <;> simp [hq] at hc ⊢
    obtain ⟨h1, h2, _⟩ := commit_inv n hn l w hlen (hp hpt)
    exact ⟨h1, h2, by simp⟩
  · have hpt : w.processing_ = true := by
      cases hq : w.processing_ <;> simp [hq] at hc ⊢
    obtain ⟨h1, h2, _⟩ := commit_inv n hn l w hlen (hp hpt)
    exact ⟨h1, h2, fun _ => by simp only at *; omega⟩
  · exact ⟨hlen, hle, by simp⟩
  · exact ⟨hlen, hle, fun _ => by simp only at *; omega⟩

theorem retire_inv (n : Nat) (hn : n < SIZE_MOD) (l : List Byte) (w : writer_base)
    (hw : RingInv n w) : RingInv n (retire l w).2 := by
  obtain ⟨hlen, hle, hp⟩ := hw
  unfold retire
  dsimp only
  split_ifs with he hq hc
  · exact ⟨hlen, hle, hp⟩
  · exact ⟨hlen, hle, hp⟩
  · have hpt : w.processing_ = true := by simpa using hq
    obtain ⟨h1, h2, h3⟩ := commit_inv n hn l { w with processing_ := false } hlen (hp hpt)
    exact ⟨h1, h2, fun h => by simp [h3] at h⟩
  · exact ⟨hlen, hle, by simp⟩

theorem write_inv (n : Nat) (hn : n < SIZE_MOD) (d : List Byte) (w : writer_base)
    (hw : RingInv n w) : RingInv n (write d w).2 := by
  obtain ⟨hlen, hle, hp⟩ := hw
  unfold write
  dsimp only
  split_ifs with he hd hfull hsig
  · exact ⟨hlen, hle, hp⟩
  · exact ⟨hlen, hle, hp⟩
  · exact ⟨hlen, hle, hp⟩
  · have hpf : w.processing_ = false := by
      cases hq : w.processing_ <;> simp [hq] at he ⊢
    have h0 : w.ready_count_ = 0 := by simpa using hsig
    refine ⟨?_, ?_, ?_⟩
    · rw [signal_capacity_length]; simp [hlen]
    · unfold signal_capacity
      cases hk : w.kind <;> simp [hk, h0]
      · rw [sizeInc_eq 0 (by unfold SIZE_MOD; omega)]; omega
      · split <;> simp <;> (unfold sizeInc sizeDec SIZE_MOD; omega)
    · unfold signal_capacity
      cases hk : w.kind <;> simp [hk, hpf]
      split <;> simp [hpf]
  · have hpf : w.processing_ = false := by
      cases hq : w.processing_ <;> simp [hq] at he ⊢
    refine ⟨by simp [hlen], ?_, by simp [hpf]⟩
    simp only at *
    rw [sizeInc_eq _ (by omega)]; omega

theorem finalize_inv (n : Nat) (hn : n < SIZE_MOD) (f : Bool) (l : List Byte) (w : writer_base)
    (hw : RingInv n w) : RingInv n (finalize f l w).2 := by
  obtain ⟨hlen, hle, hp⟩ := hw
  have key : RingInv n
      (if (w.processing_ && !l.isEmpty) = true then commit l { w with processing_ := false }
        else w) := by
    split_ifs with hc
    · have hpt : w.processing_ = true := by
        cases hq : w.processing_ <;> simp [hq] at hc ⊢
      obtain ⟨h1, h2, h3⟩ := commit_inv n hn l { w with processing_ := false } hlen (hp hpt)
      exact ⟨h1, h2, fun h => by simp [h3] at h⟩
    · exact ⟨hlen, hle, hp⟩
  unfold finalize
  dsimp only
  by_cases he : w.error_ = true
  · rw [if_pos he]; exact ⟨hlen, hle, hp⟩
  · rw [if_neg he]
    generalize (if (w.processing_ && !l.isEmpty) = true then
      commit l { w with processing_ := false } else w) = w1 at key ⊢
    obtain ⟨k1, k2, k3⟩ := key
    split_ifs with h0 hr
    · exact ⟨k1, k2, k3⟩
    · unfold continue_finalize at hr ⊢
      cases hk : w1.kind <;> simp only [hk] at hr ⊢
      · split_ifs at hr ⊢ <;> exact ⟨k1, k2, k3⟩
      · exact ⟨k1, k2, k3⟩
    · unfold continue_finalize at hr ⊢
      cases hk : w1.kind <;> simp only [hk] at hr ⊢
      · split_ifs at hr ⊢ <;> exact ⟨k1, k2, k3⟩
      · exact ⟨k1, k2, k3⟩

theorem entry_step_inv (n : Nat) (hn : n < SIZE_MOD) (k : Option Nat) (w : writer_base)
    (hw : RingInv n w) : RingInv n (entry_step k w) := by
  obtain ⟨hlen, hle, hp⟩ := hw
  have hd : 0 < w.ready_count_ → sizeDec w.ready_count_ = w.ready_count_ - 1 :=
    fun h0 => sizeDec_eq _ h0 (by omega)
  unfold entry_step
  dsimp only
  split_ifs with h1 h2 h3 h4
  · exact ⟨hlen, hle, hp⟩
  · exact ⟨hlen, hle, hp⟩
  · exact ⟨hlen, hle, hp⟩
  · exact ⟨hlen, hle, hp⟩
  · have h0 : 0 < w.ready_count_ := Nat.pos_of_ne_zero h3
    rcases k with _ | k
    · refine ⟨by simp [hlen], ?_, fun hq => ?_⟩
      · simp only [hd h0]; omega
      · simp only [hd h0]; omega
    · dsimp only
      split_ifs
      · refine ⟨by simp [hlen], ?_, fun hq => ?_⟩
        · simp only [hd h0]; omega
        · simp only [hd h0]; omega
      · refine ⟨by simp [hlen], ?_, fun hq => ?_⟩
        · simp only [hd h0]; omega
        · simp only [hd h0]; omega
  · have h0 : 0 < w.ready_count_ := Nat.pos_of_ne_zero h3
    rcases k with _ | k
    · refine ⟨by simp [hlen], ?_, fun hq => ?_⟩
      · simp only [hd h0]; omega
      · simp only [hd h0]; omega
    · dsimp only
      split_ifs
      · refine ⟨by simp [hlen], ?_, fun hq => ?_⟩
        · simp only [hd h0]; omega
        · simp only [hd h0]; omega
      · refine ⟨by simp [hlen], ?_, fun hq => ?_⟩
        · simp only [hd h0]; omega
        · simp only [hd h0]; omega

theorem openWriter_inv (kind : writer_kind) (n size limit : Nat) (fsync : Bool) :
    RingInv n (openWriter kind n size limit fsync) := by
  unfold RingInv openWriter
  simp

theorem runWriter_inv (n : Nat) (hn : n < SIZE_MOD) (ops : List WriterOp) :
    ∀ w : writer_base, RingInv n w → RingInv n (runWriter ops w) := by
  induction ops with
  | nil => intro w hw; exact hw
  | cons op ops ih =>
    intro w hw
    have h1 : RingInv n (op.apply w) := by
      cases op with
      | get_write_buffer l => exact get_write_buffer_inv n hn l w hw
      | retire l => exact retire_inv n hn l w hw
      | write d => exact write_inv n hn d w hw
      | finalize f l => exact finalize_inv n hn f l w hw
      | entry_step k => exact entry_step_inv n hn k w hw
    exact ih _ h1

/-- Claim C8. For a writer (file or memory) opened with `N` buffers, after any sequence of
`get_write_buffer`, `retire`, `write`, `finalize` and worker steps the ring still has `N`
slots and `ready_count_ ≤ N` (no wrap-around below zero either, as the decrement is
modelled on `size_t`); and whenever the next step would execute `++ready_count_`,
`ready_count_ < N` holds before it. -/
theorem c8_ready_count_bounded (kind : writer_kind) (n size limit : Nat) (fsync : Bool)
    (ops : List WriterOp) (hn : n < SIZE_MOD) :
    (runWriter ops (openWriter kind n size limit fsync)).buffers_.length = n ∧
    (runWriter ops (openWriter kind n size limit fsync)).ready_count_ ≤ n ∧
    ∀ op : WriterOp, op.commits (runWriter ops (openWriter kind n size limit fsync)) = true →
      (runWriter ops (openWriter kind n size limit fsync)).ready_count_ < n := by
  obtain ⟨h1, h2, h3⟩ := runWriter_inv n hn ops _ (openWriter_inv kind n size limit fsync)
  refine ⟨h1, h2, fun op hc => ?_⟩
  cases op with
  | get_write_buffer l =>
    simp only [WriterOp.commits, Bool.and_eq_true] at hc
    exact h3 hc.2.1
  | retire l =>
    simp only [WriterOp.commits, Bool.and_eq_true] at hc
    exact h3 hc.1.2
  | write d =>
    simp only [WriterOp.commits, Bool.and_eq_true, Bool.not_eq_true', decide_eq_false_iff_not,
      decide_eq_true_eq] at hc
    omega
  | finalize f l =>
    simp only [WriterOp.commits, Bool.and_eq_true] at hc
    exact h3 hc.2.1
  | entry_step k => simp [WriterOp.commits] at hc

theorem c8_ready_count_bounded_witness :
    (runWriter [WriterOp.get_write_buffer [], WriterOp.get_write_buffer [1],
        WriterOp.write [2], WriterOp.entry_step none, WriterOp.finalize true [3]]
      (openWriter writer_kind.file_writer 2 8 0 false)).buffers_.length = 2 ∧
    (runWriter [WriterOp.get_write_buffer [], WriterOp.get_write_buffer [1],
        WriterOp.write [2], WriterOp.entry_step none, WriterOp.finalize true [3]]
      (openWriter writer_kind.file_writer 2 8 0 false)).ready_count_ ≤ 2 ∧
    ∀ op : WriterOp, op.commits (runWriter [WriterOp.get_write_buffer [],
        WriterOp.get_write_buffer [1], WriterOp.write [2], WriterOp.entry_step none,
        WriterOp.finalize true [3]]
      (openWriter writer_kind.file_writer 2 8 0 false)) = true →
      (runWriter [WriterOp.get_write_buffer [], WriterOp.get_write_buffer [1],
        WriterOp.write [2], WriterOp.entry_step none, WriterOp.finalize true [3]]
      (openWriter writer_kind.file_writer 2 8 0 false)).ready_count_ < 2 :=
  c8_ready_count_bounded writer_kind.file_writer 2 8 0 false
    [WriterOp.get_write_buffer [], WriterOp.get_write_buffer [1], WriterOp.write [2],
      WriterOp.entry_step none, WriterOp.finalize true [3]] (by decide)

theorem commit_file (d : List Byte) (w : writer_base) (n : Nat) (hn : n < SIZE_MOD)
    (hk : w.kind = writer_kind.file_writer) (hlen : w.buffers_.length = n)
    (hlt : w.ready_count_ < n) :
    (commit d w).kind = writer_kind.file_writer ∧ (commit d w).buffers_.length = n ∧
    (commit d w).ready_count_ = w.ready_count_ + 1 ∧ (commit d w).error_ = w.error_ ∧
    (commit d w).processing_ = w.processing_ := by
  have hinc : sizeInc w.ready_count_ = w.ready_count_ + 1 := sizeInc_eq _ (by omega)
  unfold commit
  dsimp only
  split_ifs with h0
  · unfold signal_capacity
    simp [hk, hlen, hinc]
  · simp [hk, hlen, hinc]

theorem feed_file_full (n : Nat) (hn : n < SIZE_MOD) (ds : List (List Byte)) :
    ∀ (w : writer_base) (k : Nat), w.kind = writer_kind.file_writer → w.error_ = false →
      w.processing_ = true → w.buffers_.length = n → w.ready_count_ = k → k < n →
      ds.length = n - k → (∀ d ∈ ds, d ≠ []) →
      (feed ds w).1 = List.replicate (n - k - 1) (aio_result.ok, []) ++ [(aio_result.wait, [])] ∧
      (feed ds w).2.handler_waiting_ = true ∧ (feed ds w).2.processing_ = false := by
  induction ds with
  | nil => intro w k _ _ _ _ _ hk hl _; simp at hl; omega
  | cons d ds ih =>
    intro w k hkind herr hproc hlen hrc hk hl hne
    have hd : d ≠ [] := hne d (List.mem_cons_self _ _)
    have hdne : d.isEmpty = false := by
      cases d with
      | nil => exact absurd rfl hd
      | cons a t => rfl
    obtain ⟨c1, c2, c3, c4, c5⟩ := commit_file d w n hn hkind hlen (by omega)
    have hg : get_write_buffer d w =
        if (commit d w).ready_count_ ≥ (commit d w).buffers_.length then
          ((aio_result.wait, []),
            { commit d w with handler_waiting_ := true, processing_ := false })
        else
          ((aio_result.ok, []), { commit d w with processing_ := true }) := by
      unfold get_write_buffer
      simp [herr, hproc, hdne]
    by_cases hfull : (commit d w).ready_count_ ≥ (commit d w).buffers_.length
    · rw [if_pos hfull] at hg
      have hds : ds = [] := by
        apply List.eq_nil_of_length_eq_zero
        simp at hl
        omega
      subst hds
      have : n - k - 1 = 0 := by omega
      simp [feed, hg, this]
    · rw [if_neg hfull] at hg
      have hlt : k + 1 < n := by omega
      have hl2 : ds.length = n - (k + 1) := by simp at hl; omega
      obtain ⟨r1, r2, r3⟩ := ih { commit d w with processing_ := true } (k + 1)
        c1 (by simpa [herr] using c4) rfl c2 (by simp [c3, hrc]) hlt hl2
        (fun x hx => hne x (List.mem_cons_of_mem _ hx))
      have hrep : n - k - 1 = (n - (k + 1) - 1) + 1 := by omega
      simp only [feed, hg]
      refine ⟨?_, r2, r3⟩
      rw [r1, hrep, List.replicate_succ]
      rfl

/-- Claim C9. On a freshly opened file writer with `N` buffers (`N ≥ 1`) and no worker step
in between (the consumer is stalled), `N + 1` successive `get_write_buffer` calls, the first
with any argument and each later one passing back a non-empty buffer, return `ok` with an
empty buffer `N` times and then `wait`, after which `handler_waiting_` is set and
`processing_` is clear. -/
theorem c9_backpressure (n size limit : Nat) (fsync : Bool) (d0 : List Byte)
    (ds : List (List Byte)) (hn0 : 0 < n) (hn : n < SIZE_MOD) (hlen : ds.length = n)
    (hne : ∀ d ∈ ds, d ≠ []) :
    (feed (d0 :: ds) (openWriter writer_kind.file_writer n size limit fsync)).1 =
      List.replicate n (aio_result.ok, []) ++ [(aio_result.wait, [])] ∧
    (feed (d0 :: ds)
      (openWriter writer_kind.file_writer n size limit fsync)).2.handler_waiting_ = true ∧
    (feed (d0 :: ds)
      (openWriter writer_kind.file_writer n size limit fsync)).2.processing_ = false := by
  have hg : get_write_buffer d0 (openWriter writer_kind.file_writer n size limit fsync) =
      ((aio_result.ok, []),
        { openWriter writer_kind.file_writer n size limit fsync with processing_ := true }) := by
    unfold get_write_buffer openWriter
    simp
    omega
  obtain ⟨r1, r2, r3⟩ := feed_file_full n hn ds
    { openWriter writer_kind.file_writer n size limit fsync with processing_ := true } 0
    rfl rfl rfl (by simp [openWriter]) rfl hn0 (by simpa using hlen) hne
  simp only [feed, hg]
  refine ⟨?_, r2, r3⟩
  rw [r1]
  have : n = (n - 0 - 1) + 1 := by omega
  conv_rhs => rw [this, List.replicate_succ]
  rfl

theorem c9_backpressure_witness :
    (feed [[], [1], [2]] (openWriter writer_kind.file_writer 2 8 0 false)).1 =
      List.replicate 2 (aio_result.ok, []) ++ [(aio_result.wait, [])] ∧
    (feed [[], [1], [2]]
      (openWriter writer_kind.file_writer 2 8 0 false)).2.handler_waiting_ = true ∧
    (feed [[], [1], [2]]
      (openWriter writer_kind.file_writer 2 8 0 false)).2.processing_ = false :=
  c9_backpressure 2 8 0 false [] [[1], [2]] (by decide) (by decide) rfl (by decide)

theorem commit_memory (d : List Byte) (w : writer_base) (n : Nat) (hn0 : 0 < n)
    (hk : w.kind = writer_kind.memory_writer) (hlen : w.buffers_.length = n)
    (hrc : w.ready_count_ = 0) (hpos : w.ready_pos_ = 0) (hlim : w.sizeLimit_ = 0) :
    (commit d w).kind = writer_kind.memory_writer ∧ (commit d w).buffers_.length = n ∧
    (commit d w).ready_count_ = 0 ∧ (commit d w).ready_pos_ = 0 ∧
    (commit d w).sizeLimit_ = 0 ∧ (commit d w).error_ = w.error_ ∧
    (commit d w).processing_ = w.processing_ ∧
    (commit d w).result_buffer_ = w.result_buffer_ ++ d := by
  have h1 : sizeDec (sizeInc 0) = 0 := by decide
  have hlen0 : 0 < w.buffers_.length := by omega
  unfold commit signal_capacity
  simp [hk, hlen, hrc, hpos, hlim, h1, Nat.zero_mod, List.getD_eq_getElem?_getD,
    List.getElem?_set, hn0]

theorem feed_memory (n : Nat) (hn0 : 0 < n) (ds : List (List Byte)) :
    ∀ (w : writer_base), w.kind = writer_kind.memory_writer → w.error_ = false →
      w.processing_ = true → w.buffers_.length = n → w.ready_count_ = 0 → w.ready_pos_ = 0 →
      w.sizeLimit_ = 0 →
      (∀ r ∈ (feed ds w).1, r = (aio_result.ok, [])) ∧
      (feed ds w).2.kind = writer_kind.memory_writer ∧ (feed ds w).2.error_ = false ∧
      (feed ds w).2.processing_ = true ∧ (feed ds w).2.buffers_.length = n ∧
      (feed ds w).2.ready_count_ = 0 ∧ (feed ds w).2.ready_pos_ = 0 ∧
      (feed ds w).2.sizeLimit_ = 0 ∧
      (feed ds w).2.result_buffer_ = w.result_buffer_ ++ ds.flatten := by
  induction ds with
  | nil => intro w h1 h2 h3 h4 h5 h6 h7; simp [feed, h1, h2, h3, h4, h5, h6, h7]
  | cons d ds ih =>
    intro w hkind herr hproc hlen hrc hpos hlim
    have hg : (get_write_buffer d w).1 = (aio_result.ok, []) ∧
        (get_write_buffer d w).2.kind = writer_kind.memory_writer ∧
        (get_write_buffer d w).2.error_ = false ∧
        (get_write_buffer d w).2.processing_ = true ∧
        (get_write_buffer d w).2.buffers_.length = n ∧
        (get_write_buffer d w).2.ready_count_ = 0 ∧
        (get_write_buffer d w).2.ready_pos_ = 0 ∧
        (get_write_buffer d w).2.sizeLimit_ = 0 ∧
        (get_write_buffer d w).2.result_buffer_ = w.result_buffer_ ++ d := by
      obtain ⟨c1, c2, c3, c4, c5, c6, c7, c8⟩ :=
        commit_memory d w n hn0 hkind hlen hrc hpos hlim
      unfold get_write_buffer
      cases d with
      | nil =>
        have hn1 : n ≠ 0 := by omega
        simp [herr, hproc, hlen, hrc, hpos, hlim, hkind, hn1]
      | cons a t =>
        have hlt : ¬ (commit (a :: t) w).ready_count_ ≥ (commit (a :: t) w).buffers_.length := by
          rw [c2, c3]; omega
        simp only [herr, hproc, List.isEmpty_cons, Bool.not_false, Bool.and_self, if_true,
          Bool.false_eq_true, if_false, hlt]
        simp [c1, c2, c3, c4, c5, c6, c8, herr]
    obtain ⟨g1, g2, g3, g4, g5, g6, g7, g8, g9⟩ := hg
    obtain ⟨r1, r2, r3, r4, r5, r6, r7, r8, r9⟩ :=
      ih (get_write_buffer d w).2 g2 g3 g4 g5 g6 g7 g8
    simp only [feed]
    refine ⟨?_, r2, r3, r4, r5, r6, r7, r8, ?_⟩
    · intro r hr
      rcases List.mem_cons.mp hr with h | h
      · rw [h, g1]
      · exact r1 r h
    · rw [r9, g9, List.flatten_cons, List.append_assoc]

theorem finalize_memory (n : Nat) (hn0 : 0 < n) (f : Bool) (d : List Byte) (w : writer_base)
    (hkind : w.kind = writer_kind.memory_writer) (herr : w.error_ = false)
    (hproc : w.processing_ = true) (hlen : w.buffers_.length = n)
    (hrc : w.ready_count_ = 0) (hpos : w.ready_pos_ = 0) (hlim : w.sizeLimit_ = 0) :
    (finalize f d w).1 = aio_result.ok ∧ (finalize f d w).2.finalized_ = true ∧
    (finalize f d w).2.result_buffer_ = w.result_buffer_ ++ d := by
  have key : ∃ w1, (if (w.processing_ && !d.isEmpty) = true then
        commit d { w with processing_ := false } else w) = w1 ∧
      w1.kind = writer_kind.memory_writer ∧ w1.ready_count_ = 0 ∧
      w1.result_buffer_ = w.result_buffer_ ++ d := by
    refine ⟨_, rfl, ?_⟩
    cases d with
    | nil => simp [hkind, hrc]
    | cons a t =>
      obtain ⟨c1, _, c3, _, _, _, _, c8⟩ :=
        commit_memory (a :: t) { w with processing_ := false } n hn0 hkind hlen hrc hpos hlim
      rw [if_pos (by simp [hproc])]
      exact ⟨c1, c3, c8⟩
  obtain ⟨w1, hw1, k1, k2, k3⟩ := key
  unfold finalize
  dsimp only
  rw [if_neg (by simp [herr]), hw1]
  simp [k2, continue_finalize, k1, k3]

/-- Claim C10. On a memory writer opened with `N ≥ 1` buffers and no size limit, a first
`get_write_buffer` followed by one `get_write_buffer` per element of `ds` (each passing back
the handed-out buffer filled with that element) and a final `finalize dlast`: every
`get_write_buffer` returns `ok` with an empty buffer, `finalize` returns `ok` and sets
`finalized_`, and the result buffer is exactly the concatenation of `ds` followed by
`dlast`. -/
theorem c10_memory_writer_conservation (n size : Nat) (d0 dlast : List Byte)
    (ds : List (List Byte)) (fsync_ok : Bool) (hn0 : 0 < n) :
    (∀ r ∈ (feed (d0 :: ds) (openWriter writer_kind.memory_writer n size 0 false)).1,
      r = (aio_result.ok, [])) ∧
    (finalize fsync_ok dlast
      (feed (d0 :: ds) (openWriter writer_kind.memory_writer n size 0 false)).2).1
      = aio_result.ok ∧
    (finalize fsync_ok dlast
      (feed (d0 :: ds) (openWriter writer_kind.memory_writer n size 0 false)).2).2.finalized_
      = true ∧
    (finalize fsync_ok dlast
      (feed (d0 :: ds) (openWriter writer_kind.memory_writer n size 0 false)).2).2.result_buffer_
      = (ds ++ [dlast]).flatten := by
  have hg : get_write_buffer d0 (openWriter writer_kind.memory_writer n size 0 false) =
      ((aio_result.ok, []),
        { openWriter writer_kind.memory_writer n size 0 false with processing_ := true }) := by
    unfold get_write_buffer openWriter
    simp
    omega
  obtain ⟨r1, r2, r3, r4, r5, r6, r7, r8, r9⟩ := feed_memory n hn0 ds
    { openWriter writer_kind.memory_writer n size 0 false with processing_ := true }
    rfl rfl rfl (by simp [openWriter]) rfl rfl rfl
  simp only [feed, hg]
  generalize (feed ds { openWriter writer_kind.memory_writer n size 0 false with
    processing_ := true }).2 = w at r2 r3 r4 r5 r6 r7 r8 r9
  have hres : w.result_buffer_ = ds.flatten := by simpa [openWriter] using r9
  obtain ⟨f1, f2, f3⟩ := finalize_memory n hn0 fsync_ok dlast w r2 r3 r4 r5 r6 r7 r8
  refine ⟨?_, f1, f2, ?_⟩
  · intro r hr
    rcases List.mem_cons.mp hr with h | h
    · rw [h]
    · exact r1 r h
  · rw [f3, hres]
    simp

theorem c10_memory_writer_conservation_witness :
    (∀ r ∈ (feed [[], [1, 2], [], [3]] (openWriter writer_kind.memory_writer 2 8 0 false)).1,
      r = (aio_result.ok, [])) ∧
    (finalize true [4, 5]
      (feed [[], [1, 2], [], [3]] (openWriter writer_kind.memory_writer 2 8 0 false)).2).1
      = aio_result.ok ∧
    (finalize true [4, 5]
      (feed [[], [1, 2], [], [3]]
        (openWriter writer_kind.memory_writer 2 8 0 false)).2).2.finalized_ = true ∧
    (finalize true [4, 5]
      (feed [[], [1, 2], [], [3]]
        (openWriter writer_kind.memory_writer 2 8 0 false)).2).2.result_buffer_
      = ([[1, 2], [], [3]] ++ [[4, 5]]).flatten :=
  c10_memory_writer_conservation 2 8 [] [4, 5] [[1, 2], [], [3]] true (by decide)

/-! ## Writer: the error flag -/

theorem entry_step_error (k : Option Nat) (w : writer_base) (he : w.error_ = true) :
    (entry_step k w).error_ = true := by
  unfold entry_step
  split_ifs <;> simp_all

theorem get_write_buffer_error (l : List Byte) (w : writer_base) (he : w.error_ = true) :
    get_write_buffer l w = ((aio_result.error, []), w) := by
  unfold get_write_buffer
  rw [if_pos he]

theorem retire_error (l : List Byte) (w : writer_base) (he : w.error_ = true) :
    retire l w = (aio_result.error, w) := by
  unfold retire
  rw [if_pos he]

theorem write_error (d : List Byte) (w : writer_base) (he : w.error_ = true) :
    write d w = (aio_result.error, w) := by
  unfold write
  rw [if_pos (by simp [he])]

theorem finalize_error (f : Bool) (l : List Byte) (w : writer_base) (he : w.error_ = true) :
    finalize f l w = (aio_result.error, w) := by
  unfold finalize
  rw [if_pos he]

theorem apply_error (op : WriterOp) (w : writer_base) (he : w.error_ = true) :
    (op.apply w).error_ = true := by
  cases op with
  | get_write_buffer l => simp [WriterOp.apply, get_write_buffer_error l w he, he]
  | retire l => simp [WriterOp.apply, retire_error l w he, he]
  | write d => simp [WriterOp.apply, write_error d w he, he]
  | finalize f l => simp [WriterOp.apply, finalize_error f l w he, he]
  | entry_step k => exact entry_step_error k w he

theorem runWriter_error (ops : List WriterOp) :
    ∀ w : writer_base, w.error_ = true → (runWriter ops w).error_ = true := by
  induction ops with
  | nil => intro w he; exact he
  | cons op rest ih =>
    intro w he
    exact ih (op.apply w) (apply_error op w he)

/-! ## Writer: conservation for the synchronous `write` on a file writer -/

theorem mod_add_inj (n rp i j : Nat) (hi : i < n) (hj : j < n)
    (h : (rp + i) % n = (rp + j) % n) : i = j := by
  have h1 : i % n = j % n := Nat.ModEq.add_left_cancel' rp h
  rwa [Nat.mod_eq_of_lt hi, Nat.mod_eq_of_lt hj] at h1

theorem getD_set_eq (l : List (List Byte)) (i : Nat) (v : List Byte) (h : i < l.length) :
    (l.set i v).getD i [] = v := by
  simp [List.getD_eq_getElem?_getD, h]

theorem getD_set_ne (l : List (List Byte)) (i j : Nat) (v : List Byte) (h : i ≠ j) :
    (l.set i v).getD j [] = l.getD j [] := by
  simp [List.getD_eq_getElem?_getD, List.getElem?_set_ne h]

theorem openWriter_fileRing (n size limit : Nat) (fsync : Bool) :
    FileRing n size [] (openWriter writer_kind.file_writer n size limit fsync) := by
  refine ⟨rfl, rfl, by simp [openWriter], rfl, Nat.zero_le _, fun h => h, ?_, ?_⟩
  · simp [openWriter, pendingBytes]
  · intro i _ hi
    have hm : i % n < n := Nat.mod_lt _ (by omega)
    simp [openWriter, List.getD_eq_getElem?_getD, List.getElem?_replicate, hm]

theorem write_file_eq (d : List Byte) (w : writer_base) (hk : w.kind = writer_kind.file_writer)
    (he : w.error_ = false) (hp : w.processing_ = false) (hd : d.length ≠ 0)
    (hlt : w.ready_count_ < w.buffers_.length) :
    write d w = (aio_result.ok,
      { w with
        buffers_ := w.buffers_.set ((w.ready_pos_ + w.ready_count_) % w.buffers_.length)
          (w.buffers_.getD ((w.ready_pos_ + w.ready_count_) % w.buffers_.length) [] ++
            d.take (min d.length w.buffer_size_))
        ready_count_ := sizeInc w.ready_count_
        condSignals := if w.ready_count_ = 0 then w.condSignals + 1 else w.condSignals }) := by
  unfold write
  dsimp only
  rw [if_neg (by simp [he, hp]), if_neg hd, if_neg (by omega)]
  by_cases h0 : w.ready_count_ = 0
  · simp [h0, signal_capacity, hk]
  · simp [h0]

theorem fileRing_commit (n size : Nat) (acc v : List Byte) (c : Nat) (w : writer_base)
    (hw : FileRing n size acc w) (hlt : w.ready_count_ < n) :
    FileRing n size (acc ++ v)
      { w with
        buffers_ := w.buffers_.set ((w.ready_pos_ + w.ready_count_) % w.buffers_.length)
          (w.buffers_.getD ((w.ready_pos_ + w.ready_count_) % w.buffers_.length) [] ++ v)
        ready_count_ := w.ready_count_ + 1
        condSignals := c } := by
  obtain ⟨hk, hp, hlen, hsz, hle, hrp, hacc, hfree⟩ := hw
  have hn0 : 0 < n := by omega
  have hslot : w.buffers_.getD ((w.ready_pos_ + w.ready_count_) % n) [] = [] :=
    hfree _ (le_refl _) hlt
  have hi : (w.ready_pos_ + w.ready_count_) % n < w.buffers_.length := by
    rw [hlen]; exact Nat.mod_lt _ hn0
  rw [hlen, hslot, List.nil_append]
  refine ⟨hk, hp, by simp [hlen], hsz, by simp only; omega, hrp, ?_, ?_⟩
  · rw [← hacc]
    simp only [pendingBytes, List.length_set, hlen, List.range_succ, List.map_append,
      List.map_cons, List.map_nil, List.flatten_append, List.flatten_cons, List.flatten_nil,
      List.append_nil]
    rw [getD_set_eq _ _ _ hi, ← List.append_assoc]
    congr 2
    apply congrArg
    apply List.map_congr_left
    intro j hj
    have hjl : j < w.ready_count_ := List.mem_range.mp hj
    rw [getD_set_ne]
    intro hc
    have := mod_add_inj n w.ready_pos_ _ j hlt (by omega) hc
    omega
  · intro i hi1 hin
    simp only at hi1 ⊢
    rw [getD_set_ne]
    · exact hfree i (by omega) hin
    · intro hc
      have := mod_add_inj n w.ready_pos_ _ i hlt hin hc
      omega

theorem write_fileRing (n size : Nat) (hn : n < SIZE_MOD) (acc d : List Byte) (w : writer_base)
    (hw : FileRing n size acc w) (hok : (write d w).1 = aio_result.ok) :
    FileRing n size (acc ++ d.take (min d.length size)) (write d w).2 := by
  have hw0 := hw
  obtain ⟨hk, hp, hlen, hsz, hle, hrp, hacc, hfree⟩ := hw
  by_cases he : w.error_ = true
  · rw [write_error d w he] at hok
    simp at hok
  · have he0 : w.error_ = false := by simpa using he
    by_cases hd : d.length = 0
    · have hd0 : d = [] := List.length_eq_zero.mp hd
      have hs : (write d w).2 = w := by
        unfold write
        simp [he0, hp, hd]
      rw [hs, hd0]
      simpa using hw0
    · by_cases hfull : w.ready_count_ < w.buffers_.length
      · subst hsz
        rw [write_file_eq d w hk he0 hp hd hfull, sizeInc_eq _ (by omega)]
        exact fileRing_commit n _ acc _ _ w hw0 (by omega)
      · exfalso
        unfold write at hok
        simp [he0, hp, hd] at hok
        split_ifs at hok with h1 <;> omega

theorem pendingBytes_pos (n : Nat) (w : writer_base) (hlen : w.buffers_.length = n)
    (hrp : w.ready_pos_ < n) (h0 : 0 < w.ready_count_) :
    pendingBytes w = w.buffers_.getD w.ready_pos_ [] ++
      ((List.range (w.ready_count_ - 1)).map
        (fun j => w.buffers_.getD ((w.ready_pos_ + (j + 1)) % n) [])).flatten := by
  unfold pendingBytes
  obtain ⟨m, hm⟩ : ∃ m, w.ready_count_ = m + 1 := ⟨w.ready_count_ - 1, by omega⟩
  rw [hm, List.range_succ_eq_map, hlen]
  simp [Nat.mod_eq_of_lt hrp, List.map_map, Function.comp_def]

theorem fileRing_consume (n size : Nat) (hn : n < SIZE_MOD) (acc : List Byte) (w : writer_base)
    (hw : FileRing n size acc w) (h0 : w.ready_count_ ≠ 0) :
    FileRing n size acc
      { w with
        file_ := w.file_ ++ w.buffers_.getD w.ready_pos_ []
        buffers_ := w.buffers_.set w.ready_pos_ []
        ready_pos_ := (w.ready_pos_ + 1) % (w.buffers_.set w.ready_pos_ []).length
        ready_count_ := sizeDec w.ready_count_ } := by
  obtain ⟨hk, hp, hlen, hsz, hle, hrp, hacc, hfree⟩ := hw
  have hn0 : 0 < n := by omega
  have hrp1 := hrp hn0
  rw [sizeDec_eq _ (by omega) (by omega)]
  refine ⟨hk, hp, by simp [hlen], hsz, by simp only; omega, ?_, ?_, ?_⟩
  · intro _
    simp only [List.length_set, hlen]
    exact Nat.mod_lt _ hn0
  · rw [← hacc, pendingBytes_pos n w hlen hrp1 (by omega), List.append_assoc]
    congr 1
    simp only [pendingBytes, List.length_set, hlen]
    congr 1
    refine congrArg List.flatten (List.map_congr_left ?_)
    intro j hj
    have hjl : j < w.ready_count_ - 1 := List.mem_range.mp hj
    have hidx : ((w.ready_pos_ + 1) % n + j) % n = (w.ready_pos_ + (j + 1)) % n := by
      rw [Nat.mod_add_mod]; congr 1; omega
    rw [hidx, getD_set_ne]
    intro hc
    have hc1 : (w.ready_pos_ + 0) % n = (w.ready_pos_ + (j + 1)) % n := by
      rw [← hc, Nat.add_zero, Nat.mod_eq_of_lt hrp1]
    have := mod_add_inj n w.ready_pos_ 0 (j + 1) hn0 (by omega) hc1
    omega
  · intro i hi1 hin
    simp only [List.length_set, hlen] at hi1 ⊢
    have hidx : ((w.ready_pos_ + 1) % n + i) % n = (w.ready_pos_ + (i + 1)) % n := by
      rw [Nat.mod_add_mod]; congr 1; omega
    rw [hidx]
    by_cases hc : w.ready_pos_ = (w.ready_pos_ + (i + 1)) % n
    · rw [← hc, getD_set_eq _ _ _ (by omega)]
    · rw [getD_set_ne _ _ _ _ hc]
      by_cases hi2 : i + 1 < n
      · exact hfree (i + 1) (by omega) hi2
      · exfalso
        apply hc
        have : i + 1 = n := by omega
        rw [this, Nat.add_mod_right, Nat.mod_eq_of_lt hrp1]

theorem entry_step_fileRing (n size : Nat) (hn : n < SIZE_MOD) (acc : List Byte)
    (k : Option Nat) (w : writer_base) (hw : FileRing n size acc w) :
    (entry_step k w).error_ = true ∨ FileRing n size acc (entry_step k w) := by
  have hw0 := hw
  obtain ⟨hk, hp, hlen, hsz, hle, hrp, hacc, hfree⟩ := hw
  have keep : ∀ (hwt : Bool) (re : Nat) (w1 : writer_base), FileRing n size acc w1 →
      FileRing n size acc { w1 with handler_waiting_ := hwt, readyEvents := re } :=
    fun _ _ _ h1 => h1
  unfold entry_step
  dsimp only
  by_cases ht : w.threadDone = true
  · rw [if_pos ht]; exact Or.inr hw0
  rw [if_neg ht]
  by_cases hq : (w.quit_ || w.error_) = true
  · rw [if_pos hq]; exact Or.inr ⟨hk, hp, hlen, hsz, hle, hrp, hacc, hfree⟩
  rw [if_neg hq]
  by_cases h0 : w.ready_count_ = 0
  · rw [if_pos h0]
    split_ifs
    · exact Or.inr ⟨hk, hp, hlen, hsz, hle, hrp, hacc, hfree⟩
    · exact Or.inr hw0
  rw [if_neg h0]
  have hgood := fileRing_consume n size hn acc w hw0 h0
  cases k with
  | none =>
    right
    dsimp only
    split_ifs
    · exact keep _ _ _ hgood
    · exact hgood
  | some k =>
    dsimp only
    by_cases hkl : k < (w.buffers_.getD w.ready_pos_ []).length
    · left
      simp only [if_pos hkl]
      split_ifs <;> rfl
    · right
      simp only [if_neg hkl]
      split_ifs
      · exact keep _ _ _ hgood
      · exact hgood

theorem runWrites_fileRing (n size : Nat) (hn : n < SIZE_MOD) (steps : List WriteStep) :
    ∀ (acc : List Byte) (w : writer_base), w.error_ = true ∨ FileRing n size acc w →
      (runWrites steps w).2.error_ = true ∨
        FileRing n size (acc ++ copiedBytes size (runWrites steps w).1) (runWrites steps w).2 := by
  induction steps with
  | nil =>
    intro acc w hw
    simpa [runWrites, copiedBytes] using hw
  | cons st rest ih =>
    intro acc w hw
    cases st with
    | write d =>
      simp only [runWrites]
      rcases hw with he | hw
      · rw [write_error d w he]
        rcases ih acc w (Or.inl he) with h1 | h1
        · exact Or.inl h1
        · exact Or.inr (by simpa [copiedBytes] using h1)
      · by_cases hok : (write d w).1 = aio_result.ok
        · have h1 := ih _ _ (Or.inr (write_fileRing n size hn acc d w hw hok))
          rcases h1 with h1 | h1
          · exact Or.inl h1
          · right
            have hc : copiedBytes size (((write d w).1, d) :: (runWrites rest (write d w).2).1) =
                d.take (min d.length size) ++
                  copiedBytes size (runWrites rest (write d w).2).1 := by
              simp [copiedBytes, hok]
            rw [hc, ← List.append_assoc]
            exact h1
        · have hs : (write d w).2.error_ = true ∨ FileRing n size acc (write d w).2 := by
            obtain ⟨hk, hp, hlen, hsz, hle, hrp, hacc, hfree⟩ := hw
            unfold write at hok ⊢
            dsimp only at hok ⊢
            split_ifs at hok ⊢ with h1 h2 h3 h4
            · exact Or.inr ⟨hk, hp, hlen, hsz, hle, hrp, hacc, hfree⟩
            · exact absurd rfl hok
            · exact Or.inr ⟨hk, hp, hlen, hsz, hle, hrp, hacc, hfree⟩
            · exact absurd rfl hok
            · exact absurd rfl hok
          rcases ih acc _ hs with h1 | h1
          · exact Or.inl h1
          · right
            have hc : copiedBytes size (((write d w).1, d) :: (runWrites rest (write d w).2).1) =
                copiedBytes size (runWrites rest (write d w).2).1 := by
              simp [copiedBytes, hok]
            rw [hc]
            exact h1
    | worker k =>
      simp only [runWrites]
      rcases hw with he | hw
      · exact ih acc _ (Or.inl (entry_step_error k w he))
      · exact ih acc _ (entry_step_fileRing n size hn acc k w hw)

theorem finalize_fileRing (n size : Nat) (acc : List Byte) (f : Bool) (l : List Byte)
    (w : writer_base) (hw : w.error_ = true ∨ FileRing n size acc w)
    (hok : (finalize f l w).1 = aio_result.ok) :
    (finalize f l w).2.file_ = acc := by
  rcases hw with he | hw
  · rw [finalize_error f l w he] at hok
    simp at hok
  · obtain ⟨hk, hp, hlen, hsz, hle, hrp, hacc, hfree⟩ := hw
    unfold finalize at hok ⊢
    simp only [hp, Bool.false_and, Bool.false_eq_true, if_false] at hok ⊢
    unfold continue_finalize at hok ⊢
    simp only [hk] at hok ⊢
    split_ifs at hok ⊢ with h1 h2 h3 h4 <;>
      first
      | (simp at hok; done)
      | (have h0 : w.ready_count_ = 0 := by simpa using h2
         have hpend : pendingBytes w = [] := by simp [pendingBytes, h0]
         rw [hpend, List.append_nil] at hacc
         simpa using hacc)

/-- Claim C11 (amended). On a file writer as `open` leaves it, after any sequence of `write`
calls and worker passes followed by a `finalize` that returns `ok`, the file holds exactly,
in call order, the first `min len buffer_size_` bytes of the data of every `write` that
returned `ok`: nothing that was copied into the ring is dropped or duplicated. -/
theorem c11_file_writer_conservation (n size limit : Nat) (fsync f : Bool) (l : List Byte)
    (steps : List WriteStep) (hn : n < SIZE_MOD)
    (hok : (finalize f l
      (runWrites steps (openWriter writer_kind.file_writer n size limit fsync)).2).1 =
        aio_result.ok) :
    (finalize f l
      (runWrites steps (openWriter writer_kind.file_writer n size limit fsync)).2).2.file_ =
      copiedBytes size
        (runWrites steps (openWriter writer_kind.file_writer n size limit fsync)).1 := by
  have h := runWrites_fileRing n size hn steps [] _
    (Or.inr (openWriter_fileRing n size limit fsync))
  rw [List.nil_append] at h
  exact finalize_fileRing n size _ f l _ h hok

theorem c11_file_writer_conservation_witness :
    (2 < SIZE_MOD ∧
      (finalize true [] (runWrites
        [WriteStep.write [1, 2, 3], WriteStep.worker none, WriteStep.write [4],
          WriteStep.write [5], WriteStep.write [6], WriteStep.worker none,
          WriteStep.worker none]
        (openWriter writer_kind.file_writer 2 2 0 true)).2).1 = aio_result.ok) ∧
      (finalize true [] (runWrites
        [WriteStep.write [1, 2, 3], WriteStep.worker none, WriteStep.write [4],
          WriteStep.write [5], WriteStep.write [6], WriteStep.worker none,
          WriteStep.worker none]
        (openWriter writer_kind.file_writer 2 2 0 true)).2).2.file_ =
      copiedBytes 2 (runWrites
        [WriteStep.write [1, 2, 3], WriteStep.worker none, WriteStep.write [4],
          WriteStep.write [5], WriteStep.write [6], WriteStep.worker none,
          WriteStep.worker none]
        (openWriter writer_kind.file_writer 2 2 0 true)).1 :=
  ⟨⟨by decide, by decide⟩,
    c11_file_writer_conservation 2 2 0 true true []
      [WriteStep.write [1, 2, 3], WriteStep.worker none, WriteStep.write [4],
        WriteStep.write [5], WriteStep.write [6], WriteStep.worker none,
        WriteStep.worker none] (by decide) (by decide)⟩

/-- Counterexample to claim C11 as stated: on a file writer with buffers of 2 bytes, a `write`
of 3 bytes returns `ok`, the worker drains the ring and `finalize` returns `ok`, yet the file
holds 2 bytes: the third byte was never copied (`len = min(len, buffer_size_)`). -/
theorem c11_counterexample :
    (runWrites [WriteStep.write [1, 2, 3], WriteStep.worker none]
        (openWriter writer_kind.file_writer 2 2 0 false)).1 = [(aio_result.ok, [1, 2, 3])] ∧
      (finalize true [] (runWrites [WriteStep.write [1, 2, 3], WriteStep.worker none]
        (openWriter writer_kind.file_writer 2 2 0 false)).2).1 = aio_result.ok ∧
      (finalize true [] (runWrites [WriteStep.write [1, 2, 3], WriteStep.worker none]
        (openWriter writer_kind.file_writer 2 2 0 false)).2).2.file_ = [1, 2] ∧
      (finalize true [] (runWrites [WriteStep.write [1, 2, 3], WriteStep.worker none]
        (openWriter writer_kind.file_writer 2 2 0 false)).2).2.file_ ≠
        ((runWrites [WriteStep.write [1, 2, 3], WriteStep.worker none]
          (openWriter writer_kind.file_writer 2 2 0 false)).1.map Prod.snd).flatten := by
  decide

/-- On a memory writer the slot used by `write` is never emptied (`signal_capacity` appends it
to the result and leaves it as it is), so the second `write` hands the first one's byte to the
result once more. -/
theorem memory_writer_write_reappends :
    (runWrites [WriteStep.write [1], WriteStep.write [2]]
        (openWriter writer_kind.memory_writer 1 4 0 false)).1 =
        [(aio_result.ok, [1]), (aio_result.ok, [2])] ∧
      (finalize true [] (runWrites [WriteStep.write [1], WriteStep.write [2]]
        (openWriter writer_kind.memory_writer 1 4 0 false)).2).1 = aio_result.ok ∧
      (finalize true [] (runWrites [WriteStep.write [1], WriteStep.write [2]]
        (openWriter writer_kind.memory_writer 1 4 0 false)).2).2.result_buffer_ = [1, 1, 2] := by
  decide

/-! ## Writer: sticky error, finalize -/

/-- Claim C12. Once `error_` is set, `get_write_buffer`, `retire`, `write` and `finalize`
return `error` and leave the whole writer state as it was (so `ready_pos_`, `ready_count_`,
`processing_`, `handler_waiting_` and `finalized_` keep their values), and after any further
sequence of producer calls and worker passes, and after `close` of either writer, `error_` is
still set. -/
theorem c12_error_is_sticky (w : writer_base) (l d : List Byte) (f : Bool)
    (ops : List WriterOp) (he : w.error_ = true) :
    get_write_buffer l w = ((aio_result.error, []), w) ∧
      retire l w = (aio_result.error, w) ∧
      write d w = (aio_result.error, w) ∧
      finalize f l w = (aio_result.error, w) ∧
      (runWriter ops w).error_ = true ∧
      (file_writer.close w).error_ = true ∧
      (memory_writer.close w).error_ = true := by
  refine ⟨get_write_buffer_error l w he, retire_error l w he, write_error d w he,
    finalize_error f l w he, runWriter_error ops w he, ?_, ?_⟩
  · simp [file_writer.close, writer_base.close, he]
  · unfold memory_writer.close
    split_ifs <;> simp [he]

theorem c12_error_is_sticky_witness :
    ({ openWriter writer_kind.file_writer 2 4 0 false with error_ := true }).error_ = true ∧
      (runWriter [WriterOp.write [1], WriterOp.entry_step none, WriterOp.finalize true []]
        { openWriter writer_kind.file_writer 2 4 0 false with error_ := true }).error_ = true :=
  ⟨rfl, (c12_error_is_sticky { openWriter writer_kind.file_writer 2 4 0 false with error_ := true }
    [] [1] true
    [WriterOp.write [1], WriterOp.entry_step none, WriterOp.finalize true []] rfl).2.2.2.2.1⟩

theorem signal_capacity_finalized (w : writer_base) :
    (signal_capacity w).finalized_ = w.finalized_ := by
  unfold signal_capacity
  cases w.kind
  · simp
  · simp only
    split <;> simp

theorem commit_finalized (l : List Byte) (w : writer_base) :
    (commit l w).finalized_ = w.finalized_ := by
  unfold commit
  dsimp only
  split_ifs
  · rw [signal_capacity_finalized]
  · rfl

theorem continue_finalize_fields (f : Bool) (w : writer_base) :
    (continue_finalize f w).2.finalized_ = w.finalized_ ∧
      (continue_finalize f w).2.ready_count_ = w.ready_count_ := by
  unfold continue_finalize
  cases w.kind
  · simp only
    split_ifs <;> simp
  · simp

/-- Claim C13. On a writer without error, `finalize(last)` works on the state `w1` in which
the in-flight buffer has been committed (when `processing_` is set and `last` is non-empty).
If `ready_count_` is then non-zero the result is `wait` and the state is `w1` with
`handler_waiting_` set: `continue_finalize` has no part in it and `finalized_` is as before.
Otherwise the result is that of `continue_finalize`, and `finalized_` is set exactly when it
is `ok`. Hence a result `ok` implies `ready_count_ = 0` and `finalized_`, and any other result
leaves `finalized_` unchanged. -/
theorem c13_finalize_protocol (f : Bool) (l : List Byte) (w : writer_base)
    (he : w.error_ = false) :
    (((if w.processing_ && !l.isEmpty then commit l { w with processing_ := false }
        else w).ready_count_ ≠ 0 →
      finalize f l w = (aio_result.wait,
        { (if w.processing_ && !l.isEmpty then commit l { w with processing_ := false }
            else w) with handler_waiting_ := true })) ∧
    ((if w.processing_ && !l.isEmpty then commit l { w with processing_ := false }
        else w).ready_count_ = 0 →
      (continue_finalize f (if w.processing_ && !l.isEmpty then
          commit l { w with processing_ := false } else w)).1 = aio_result.ok →
      finalize f l w = (aio_result.ok,
        { (continue_finalize f (if w.processing_ && !l.isEmpty then
            commit l { w with processing_ := false } else w)).2 with finalized_ := true })) ∧
    ((if w.processing_ && !l.isEmpty then commit l { w with processing_ := false }
        else w).ready_count_ = 0 →
      (continue_finalize f (if w.processing_ && !l.isEmpty then
          commit l { w with processing_ := false } else w)).1 ≠ aio_result.ok →
      finalize f l w = continue_finalize f (if w.processing_ && !l.isEmpty then
          commit l { w with processing_ := false } else w)) ∧
    ((finalize f l w).1 = aio_result.ok →
      (finalize f l w).2.ready_count_ = 0 ∧ (finalize f l w).2.finalized_ = true) ∧
    ((finalize f l w).1 ≠ aio_result.ok →
      (finalize f l w).2.finalized_ = w.finalized_)) := by
  have hfin : (if (w.processing_ && !l.isEmpty) = true then
      commit l { w with processing_ := false } else w).finalized_ = w.finalized_ := by
    split_ifs
    · rw [commit_finalized]
    · rfl
  have hne : ¬ (w.error_ = true) := by simp [he]
  unfold finalize
  dsimp only
  rw [if_neg hne]
  generalize (if (w.processing_ && !l.isEmpty) = true then
    commit l { w with processing_ := false } else w) = w1 at hfin ⊢
  have hc := continue_finalize_fields f w1
  by_cases h0 : w1.ready_count_ = 0
  · by_cases hr : (continue_finalize f w1).1 = aio_result.ok
    · simp [h0, hr, hc.2]
    · simp [h0, hr, hc.1, hfin]
  · simp [h0, hfin]

theorem c13_finalize_protocol_witness :
    (openWriter writer_kind.file_writer 2 4 0 true).error_ = false ∧
      (finalize true [] (openWriter writer_kind.file_writer 2 4 0 true)).2.ready_count_ = 0 ∧
      (finalize true [] (openWriter writer_kind.file_writer 2 4 0 true)).2.finalized_ = true :=
  ⟨rfl,
    (c13_finalize_protocol true [] (openWriter writer_kind.file_writer 2 4 0 true) rfl).2.2.2.1
      rfl⟩

/-! ## Timeout -/

theorem setSocket_setSocket (w : World) (s : SocketId) (a b : CControlSocket) :
    (w.setSocket s a).setSocket s b = w.setSocket s b := by
  unfold World.setSocket
  simp only
  congr 1
  funext i
  by_cases hi : i = s <;> simp [hi]

theorem setSocket_self (w : World) (s : SocketId) : w.setSocket s (w.sockets s) = w := by
  unfold World.setSocket
  cases w
  simp only
  congr 1
  funext i
  by_cases hi : i = s <;> simp [hi]

@[simp] theorem setSocket_timeout (w : World) (s : SocketId) (x : CControlSocket) :
    (w.setSocket s x).timeout = w.timeout := rfl

@[simp] theorem setSocket_now (w : World) (s : SocketId) (x : CControlSocket) :
    (w.setSocket s x).now = w.now := rfl

theorem IsWaitingForLock_setSocket (s u : SocketId) (x : CControlSocket) (w : World) :
    IsWaitingForLock s (w.setSocket u x) = IsWaitingForLock s w := rfl

/-- Claim C14. When the timer fires while the current operation waits for an async reply or
the socket waits for a cache lock, `OnTimer` returns (with any fuel, also none) and the only
change is the timer: with a timeout configured it is rearmed for the full timeout
(`timeout * 1000` ms), otherwise it stays disarmed. Whatever the clock and the last activity
are, the socket is not closed: `m_closed`, the operation stack and every other field are as
before. -/
theorem c14_timeout_quiescence (h : Hooks) (s : SocketId) (fuel : Nat) (w : World)
    (hwait : (match (w.sockets s).m_pCurOpData with
        | [] => false
        | cur :: _ => cur.waitForAsyncRequest) = true ∨ IsWaitingForLock s w = true) :
    OnTimer h s fuel w = some (w.setSocket s
      { w.sockets s with
        m_timer := if w.timeout > 0 then some (w.timeout * 1000) else none }) := by
  unfold OnTimer
  simp only [setSocket_timeout, setSocket_now, setSocket_sockets_self, setSocket_setSocket,
    IsWaitingForLock_setSocket]
  by_cases ht : w.timeout > 0
  · rw [if_pos ht, if_pos ht]
    have hc : ((match (w.sockets s).m_pCurOpData with
        | [] => true
        | cur :: _ => !cur.waitForAsyncRequest) && !IsWaitingForLock s w) = false := by
      rcases hwait with hq | hq
      · cases hops : (w.sockets s).m_pCurOpData with
        | nil => rw [hops] at hq; simp at hq
        | cons cur rest => rw [hops] at hq; simp only at hq; simp [hq]
      · simp [hq]
    rw [if_neg (by simp [hc])]
    simp
  · rw [if_neg ht, if_neg ht]

theorem c14_timeout_quiescence_witness :
    ((match (demoTimerWaiting.sockets 0).m_pCurOpData with
        | [] => false
        | cur :: _ => cur.waitForAsyncRequest) = true ∨
        IsWaitingForLock 0 demoTimerWaiting = true) ∧
      OnTimer idleHooks 0 0 demoTimerWaiting = some (demoTimerWaiting.setSocket 0
        { demoTimerWaiting.sockets 0 with
          m_timer := if demoTimerWaiting.timeout > 0 then
            some (demoTimerWaiting.timeout * 1000) else none }) :=
  ⟨Or.inl rfl, c14_timeout_quiescence idleHooks 0 0 demoTimerWaiting (Or.inl rfl)⟩

/-! ## Closing the socket -/

theorem sameTransport_refl (w : World) : SameTransport w w := fun _ => rfl

theorem sameTransport_trans {w w1 w2 : World} (h1 : SameTransport w w1)
    (h2 : SameTransport w1 w2) : SameTransport w w2 :=
  fun u => (h2 u).trans (h1 u)

theorem setSocket_sameTransport (w : World) (s : SocketId) (x : CControlSocket)
    (hx : transportOf x = transportOf (w.sockets s)) : SameTransport w (w.setSocket s x) := by
  intro u
  by_cases hu : u = s
  · subst hu; simp [hx]
  · simp [hu]

theorem LogMessage_sameTransport (s : SocketId) (t : MessageType) (m : String) (w : World) :
    SameTransport w (LogMessage s t m w) :=
  setSocket_sameTransport _ _ _ rfl

theorem SendDirectoryListingNotification_sameTransport (s : SocketId) (p : CServerPath)
    (a b : Bool) (w : World) :
    SameTransport w (SendDirectoryListingNotification s p a b w) := by
  unfold SendDirectoryListingNotification
  split_ifs
  · exact sameTransport_refl w
  · exact fun _ => rfl

theorem LogTransferResultMessage_sameTransport (h : Hooks) (s : SocketId) (code : Nat)
    (op : COpData) (w : World) : SameTransport w (LogTransferResultMessage h s code op w) := by
  unfold LogTransferResultMessage
  split_ifs <;> exact LogMessage_sameTransport _ _ _ _

theorem resetRootMessages_sameTransport (h : Hooks) (s : SocketId) (code : Nat) (pfx : String)
    (cur : COpData) (w : World) : SameTransport w (resetRootMessages h s code pfx cur w) := by
  unfold resetRootMessages
  cases cur.opId with
  | none =>
    dsimp only
    split_ifs
    · exact LogMessage_sameTransport _ _ _ _
    · exact sameTransport_refl w
  | connect =>
    dsimp only
    split_ifs <;> first | exact LogMessage_sameTransport _ _ _ _ | exact sameTransport_refl w
  | list =>
    dsimp only
    split_ifs <;> exact LogMessage_sameTransport _ _ _ _
  | transfer =>
    dsimp only
    refine sameTransport_trans ?_ (LogTransferResultMessage_sameTransport _ _ _ _ _)
    split_ifs <;>
      first
      | exact sameTransport_refl w
      | exact SendDirectoryListingNotification_sameTransport _ _ _ _ _
  | other n =>
    dsimp only
    split_ifs <;> first | exact LogMessage_sameTransport _ _ _ _ | exact sameTransport_refl w

theorem resetRoot_transport (h : Hooks) (s : SocketId) (code : Nat) (w : World) :
    SameTransport w (resetRoot h s code w).2 ∧
      ((resetRoot h s code w).2.sockets s).m_timer = none := by
  have key : ∀ w1 : World, SameTransport w w1 →
      (let w2 := SetWait s false w1
       let w3 := if (w2.sockets s).m_invalidateCurrentPath then
          w2.setSocket s
            { w2.sockets s with m_CurrentPath := none, m_invalidateCurrentPath := false }
          else w2
       SameTransport w w3 ∧ (w3.sockets s).m_timer = none) := by
    intro w1 h1
    have hs : SameTransport w1 (SetWait s false w1) := by
      unfold SetWait
      exact setSocket_sameTransport _ _ _ rfl
    have ht : ((SetWait s false w1).sockets s).m_timer = none := by
      unfold SetWait
      simp
    dsimp only
    split_ifs
    · exact ⟨sameTransport_trans (sameTransport_trans h1 hs) (setSocket_sameTransport _ _ _ rfl),
        by simp [ht]⟩
    · exact ⟨sameTransport_trans h1 hs, ht⟩
  unfold resetRoot
  dsimp only
  cases hops : (w.sockets s).m_pCurOpData with
  | nil => exact key w (sameTransport_refl w)
  | cons cur rest =>
    dsimp only
    apply key
    have h1 := resetRootMessages_sameTransport h s code
      (if (decide (code &&& FZ_REPLY_CRITICALERROR = FZ_REPLY_CRITICALERROR) &&
          decide (cur.opId ≠ Command.transfer)) = true then "Critical error: " else "") cur w
    have h2 : SameTransport (resetRootMessages h s code
        (if (decide (code &&& FZ_REPLY_CRITICALERROR = FZ_REPLY_CRITICALERROR) &&
          decide (cur.opId ≠ Command.transfer)) = true then "Critical error: " else "") cur w)
        (deleteOpData s cur (resetRootMessages h s code
        (if (decide (code &&& FZ_REPLY_CRITICALERROR = FZ_REPLY_CRITICALERROR) &&
          decide (cur.opId ≠ Command.transfer)) = true then "Critical error: " else "") cur w)) := by
      unfold deleteOpData
      exact setSocket_sameTransport _ _ _ rfl
    exact sameTransport_trans (sameTransport_trans h1 h2) (setSocket_sameTransport _ _ _ rfl)

theorem unlockIfHolds_socket_self (s : SocketId) (w : World) :
    (unlockIfHolds s w).sockets s =
      { w.sockets s with m_pCurOpData := clearTop (w.sockets s).m_pCurOpData } := by
  unfold unlockIfHolds
  cases hops : (w.sockets s).m_pCurOpData with
  | nil =>
    dsimp only
    simp only [clearTop]
    rw [← hops]
  | cons cur rest =>
    dsimp only
    by_cases hh : cur.holdsLock_ = true
    · rw [if_pos hh, UnlockCache_sockets_of_holds s w cur rest hops hh]
      unfold World.setHoldsLock
      rw [hops]
      simp [clearTop]
    · rw [if_neg hh]
      have hf : cur.holdsLock_ = false := by simpa using hh
      rw [clearTop_of_not_holds cur rest hf, ← hops]

theorem unlockIfHolds_sameTransport (s : SocketId) (w : World) :
    SameTransport w (unlockIfHolds s w) := by
  intro u
  by_cases hu : u = s
  · subst hu; rw [unlockIfHolds_socket_self]; rfl
  · rw [unlockIfHolds_sockets_ne s u w hu]

theorem unlockIfHolds_timer (s : SocketId) (w : World) :
    ((unlockIfHolds s w).sockets s).m_timer = (w.sockets s).m_timer := by
  rw [unlockIfHolds_socket_self]

/-- A reset with a code that is propagated leaves the transport fields alone and disarms the
timer. -/
theorem exec_reset_propagating_transport (h : Hooks) (s : SocketId) (code : Nat)
    (hcode : isSubcommandCode code = false) :
    ∀ (fuel : Nat) (w : World) (r : Nat) (w1 : World),
      exec h s fuel (Call.ResetOperation code) w = some (r, w1) →
      SameTransport w w1 ∧ (w1.sockets s).m_timer = none := by
  intro fuel
  induction fuel with
  | zero => intro w r w1 he; simp [exec] at he
  | succ f ih =>
    intro w r w1 he
    have hu := unlockIfHolds_sameTransport s w
    cases hops : opsOf (unlockIfHolds s w) s with
    | nil =>
      rw [exec_reset_root h s f code w (by rw [hops]; simp)] at he
      simp only [Option.some.injEq] at he
      have hr := resetRoot_transport h s code (unlockIfHolds s w)
      rw [he] at hr
      exact ⟨sameTransport_trans hu hr.1, hr.2⟩
    | cons old rest =>
      cases rest with
      | nil =>
        rw [exec_reset_root h s f code w (by rw [hops]; simp)] at he
        simp only [Option.some.injEq] at he
        have hr := resetRoot_transport h s code (unlockIfHolds s w)
        rw [he] at hr
        exact ⟨sameTransport_trans hu hr.1, hr.2⟩
      | cons parent rest =>
        rw [exec_reset_pop h s f code w old parent rest hops, if_neg (by simp [hcode])] at he
        cases he2 : exec h s f (Call.ResetOperation code)
            ((unlockIfHolds s w).setSocket s
              { (unlockIfHolds s w).sockets s with m_pCurOpData := parent :: rest }) with
        | none => rw [he2] at he; simp at he
        | some p =>
          obtain ⟨ret, w3⟩ := p
          rw [he2] at he
          simp only [Option.some.injEq, Prod.mk.injEq] at he
          obtain ⟨k1, k2⟩ := ih _ _ _ he2
          rw [← he.2]
          refine ⟨?_, by simp [deleteOpData, k2]⟩
          have h2 : SameTransport (unlockIfHolds s w) ((unlockIfHolds s w).setSocket s
              { (unlockIfHolds s w).sockets s with m_pCurOpData := parent :: rest }) :=
            setSocket_sameTransport _ _ _ rfl
          have h3 : SameTransport w3 (deleteOpData s old w3) := by
            unfold deleteOpData
            exact setSocket_sameTransport _ _ _ rfl
          exact sameTransport_trans (sameTransport_trans (sameTransport_trans hu h2) k1) h3

theorem closeCode_contains (code : Nat) :
    (FZ_REPLY_ERROR ||| FZ_REPLY_DISCONNECTED ||| code) &&&
      (FZ_REPLY_ERROR ||| FZ_REPLY_DISCONNECTED) = FZ_REPLY_ERROR ||| FZ_REPLY_DISCONNECTED := by
  apply Nat.eq_of_testBit_eq
  intro i
  simp only [Nat.testBit_and, Nat.testBit_or]
  cases FZ_REPLY_ERROR.testBit i <;> cases FZ_REPLY_DISCONNECTED.testBit i <;>
    cases code.testBit i <;> rfl

theorem isSubcommandCode_close (code : Nat) :
    isSubcommandCode (FZ_REPLY_ERROR ||| FZ_REPLY_DISCONNECTED ||| code) = false := by
  have hc := closeCode_contains code
  unfold isSubcommandCode
  simp only [Bool.or_eq_false_iff, decide_eq_false_iff_not]
  refine ⟨⟨?_, ?_⟩, ?_⟩ <;>
  · intro he
    rw [he] at hc
    revert hc
    decide

theorem ResetSocket_fix (s : SocketId) (w : World)
    (h1 : (w.sockets s).m_pSendBuffer = none) (h2 : (w.sockets s).m_pBackend = false)
    (h3 : (w.sockets s).m_pProxyBackend = false) : ResetSocket s w = w := by
  unfold ResetSocket
  dsimp only
  rw [if_neg (by simp [h1])]
  have : ({ w.sockets s with m_pProxyBackend := false, m_pBackend := false } : CControlSocket) =
      w.sockets s := by
    cases hx : w.sockets s
    rw [hx] at h2 h3
    simp only at h2 h3
    simp [h2, h3]
  rw [this, setSocket_self]

theorem ResetSocket_fields (s : SocketId) (w : World) :
    ((ResetSocket s w).sockets s).m_pSendBuffer = none ∧
      ((ResetSocket s w).sockets s).m_pBackend = false ∧
      ((ResetSocket s w).sockets s).m_pProxyBackend = false ∧
      ((ResetSocket s w).sockets s).isReal = (w.sockets s).isReal := by
  unfold ResetSocket
  dsimp only
  split_ifs with hb
  · simp
  · simp only [setSocket_sockets_self]
    refine ⟨?_, trivial, trivial, trivial⟩
    cases hx : (w.sockets s).m_pSendBuffer with
    | none => rfl
    | some b => rw [hx] at hb; simp at hb

/-- A state in which a further `DoClose` finds nothing to do in `ResetSocket`. -/
theorem closeEntry_fix (s : SocketId) (w : World)
    (hfix : (w.sockets s).isReal = true → (w.sockets s).m_pSendBuffer = none ∧
      (w.sockets s).m_pBackend = false ∧ (w.sockets s).m_pProxyBackend = false) :
    (if (w.sockets s).isReal = true then ResetSocket s w else w) = w := by
  split_ifs with hr
  · obtain ⟨h1, h2, h3⟩ := hfix hr
    exact ResetSocket_fix s w h1 h2 h3
  · rfl

theorem exec_doClose_closed (h : Hooks) (s : SocketId) (fuel code : Nat) (w : World)
    (hc : (w.sockets s).m_closed = true) :
    exec h s (fuel + 1) (Call.DoClose code) w =
      some (code, if (w.sockets s).isReal = true then ResetSocket s w else w) := by
  rw [exec]
  dsimp only
  have hcl : ((if (w.sockets s).isReal = true then ResetSocket s w else w).sockets s).m_closed
      = true := by
    split_ifs
    · rw [(ResetSocket_sameCore s w).closed s]; exact hc
    · exact hc
  rw [if_pos hcl]

/-- The first `DoClose` on a socket that is not closed: with more fuel than frames plus one it
returns the engine's value for the reset code, and afterwards the socket is closed, without
frames and without server; the frames were deleted bottom-up, no `SubcommandResult` ran, the
timer is disarmed, and `ResetSocket` would find nothing left to do. -/
theorem exec_doClose_open (h : Hooks) (s : SocketId) (fuel code : Nat) (w : World)
    (hc : (w.sockets s).m_closed = false) (hfuel : (opsOf w s).length + 1 < fuel) :
    ∃ w1, exec h s fuel (Call.DoClose code) w =
        some (h.engineResetOperation (FZ_REPLY_ERROR ||| FZ_REPLY_DISCONNECTED ||| code), w1) ∧
      (w1.sockets s).m_closed = true ∧ opsOf w1 s = [] ∧ (w1.sockets s).currentServer_ = none ∧
      (w1.sockets s).destroyed = (w.sockets s).destroyed ++ (addrsOf w s).reverse ∧
      (w1.sockets s).subcommandResults = (w.sockets s).subcommandResults ∧
      (w1.sockets s).m_timer = none ∧
      ((w1.sockets s).isReal = true → (w1.sockets s).m_pSendBuffer = none ∧
        (w1.sockets s).m_pBackend = false ∧ (w1.sockets s).m_pProxyBackend = false) := by
  obtain ⟨f, rfl⟩ : ∃ f, fuel = f + 1 := ⟨fuel - 1, by omega⟩
  rw [exec]
  dsimp only
  have hsame : SameCore w (if (w.sockets s).isReal = true then ResetSocket s w else w) := by
    split_ifs
    · exact ResetSocket_sameCore s w
    · exact SameCore.refl w
  have hfix : ((if (w.sockets s).isReal = true then ResetSocket s w else w).sockets s).isReal
        = true →
      ((if (w.sockets s).isReal = true then ResetSocket s w else w).sockets s).m_pSendBuffer
        = none ∧
      ((if (w.sockets s).isReal = true then ResetSocket s w else w).sockets s).m_pBackend
        = false ∧
      ((if (w.sockets s).isReal = true then ResetSocket s w else w).sockets s).m_pProxyBackend
        = false := by
    split_ifs with hr
    · intro _
      exact ⟨(ResetSocket_fields s w).1, (ResetSocket_fields s w).2.1,
        (ResetSocket_fields s w).2.2.1⟩
    · intro hr2
      exact absurd hr2 hr
  generalize (if (w.sockets s).isReal = true then ResetSocket s w else w) = w0 at hsame hfix
  have hcl : (w0.sockets s).m_closed = false := by
    rw [hsame.closed s]; exact hc
  rw [if_neg (by simp [hcl])]
  have hlen : (opsOf (w0.setSocket s { w0.sockets s with m_closed := true }) s).length
      = (opsOf w s).length := by
    have := hsame.ops s
    simp only [opsOf, setSocket_sockets_self] at this ⊢
    rw [this]
  obtain ⟨w1, e1, _, k1⟩ := exec_reset_propagating h s _ (isSubcommandCode_close code)
    _ (w0.setSocket s { w0.sockets s with m_closed := true }) f hlen (by omega)
  obtain ⟨t1, t2⟩ := exec_reset_propagating_transport h s _ (isSubcommandCode_close code)
    f _ _ _ e1
  rw [e1]
  simp only [coreOf, Prod.mk.injEq, setSocket_sockets_self] at k1
  obtain ⟨k1, k2, k3, k4, k5⟩ := k1
  have t3 := t1 s
  simp only [transportOf, Prod.mk.injEq, setSocket_sockets_self] at t3
  obtain ⟨u1, u2, u3, u4, _⟩ := t3
  refine ⟨_, rfl, ?_, ?_, ?_, ?_, ?_, ?_, ?_⟩
  · simpa using k4
  · simpa [opsOf] using k1
  · simp
  · simp only [setSocket_sockets_self]
    rw [k2, hsame.destroyed s]
    have := hsame.ops s
    simp only [addrsOf, opsOf, setSocket_sockets_self] at this ⊢
    rw [this]
  · simp only [setSocket_sockets_self]
    rw [k3, hsame.subcommandResults s]
  · simpa using t2
  · simp only [setSocket_sockets_self]
    rw [u1, u2, u3, u4]
    exact hfix

theorem ResetSocket_timer (s : SocketId) (w : World) :
    ((ResetSocket s w).sockets s).m_timer = (w.sockets s).m_timer := by
  unfold ResetSocket
  dsimp only
  split_ifs <;> simp

/-- What any `DoClose` achieves, given more fuel than frames plus one. -/
theorem exec_doClose_spec (h : Hooks) (s : SocketId) (fuel code : Nat) (w : World)
    (hfuel : (opsOf w s).length + 1 < fuel) :
    ∃ r w1, exec h s fuel (Call.DoClose code) w = some (r, w1) ∧
      (w1.sockets s).m_closed = true ∧
      ((w1.sockets s).isReal = true → (w1.sockets s).m_pSendBuffer = none ∧
        (w1.sockets s).m_pBackend = false ∧ (w1.sockets s).m_pProxyBackend = false) ∧
      ((w.sockets s).m_timer = none → (w1.sockets s).m_timer = none) ∧
      ((w.sockets s).m_closed = false →
        r = h.engineResetOperation (FZ_REPLY_ERROR ||| FZ_REPLY_DISCONNECTED ||| code) ∧
        opsOf w1 s = [] ∧ (w1.sockets s).currentServer_ = none ∧
        (w1.sockets s).destroyed = (w.sockets s).destroyed ++ (addrsOf w s).reverse ∧
        (w1.sockets s).subcommandResults = (w.sockets s).subcommandResults) ∧
      ((w.sockets s).m_closed = true → r = code ∧ opsOf w1 s = opsOf w s) := by
  by_cases hc : (w.sockets s).m_closed = true
  · obtain ⟨f, rfl⟩ : ∃ f, fuel = f + 1 := ⟨fuel - 1, by omega⟩
    refine ⟨_, _, exec_doClose_closed h s f code w hc, ?_, ?_, ?_, ?_, ?_⟩
    · split_ifs
      · rw [(ResetSocket_sameCore s w).closed s]; exact hc
      · exact hc
    · split_ifs with hr
      · intro _
        exact ⟨(ResetSocket_fields s w).1, (ResetSocket_fields s w).2.1,
          (ResetSocket_fields s w).2.2.1⟩
      · intro hr2
        exact absurd hr2 hr
    · intro ht
      split_ifs
      · rw [ResetSocket_timer]; exact ht
      · exact ht
    · intro hc2
      rw [hc] at hc2
      simp at hc2
    · intro _
      refine ⟨rfl, ?_⟩
      split_ifs
      · exact (ResetSocket_sameCore s w).ops s
      · rfl
  · have hc0 : (w.sockets s).m_closed = false := by simpa using hc
    obtain ⟨w1, e1, k1, k2, k3, k4, k5, k6, k7⟩ := exec_doClose_open h s fuel code w hc0 hfuel
    exact ⟨_, w1, e1, k1, k7, fun _ => k6, fun _ => ⟨rfl, k2, k3, k4, k5⟩,
      fun hc2 => absurd hc2 hc⟩

/-- A `DoClose` on a closed socket whose transport is already reset returns its argument and
the state it was given. -/
theorem exec_doClose_again (h : Hooks) (s : SocketId) (fuel code : Nat) (w : World)
    (hc : (w.sockets s).m_closed = true)
    (hfix : (w.sockets s).isReal = true → (w.sockets s).m_pSendBuffer = none ∧
      (w.sockets s).m_pBackend = false ∧ (w.sockets s).m_pProxyBackend = false)
    (hfuel : 0 < fuel) :
    exec h s fuel (Call.DoClose code) w = some (code, w) := by
  obtain ⟨f, rfl⟩ : ∃ f, fuel = f + 1 := ⟨fuel - 1, by omega⟩
  rw [exec_doClose_closed h s f code w hc, closeEntry_fix s w hfix]

/-! ## Timeout: the decision at the timer fire -/

/-- Claim C15 (amended). On a timer fire with a timeout `t > 0` configured and neither the
current operation waiting for an async reply nor the socket waiting for a cache lock: if the
time elapsed since the last activity is strictly greater than `t` (`t * 1000` ms), `OnTimer`
logs the timeout and runs `DoClose(FZ_REPLY_TIMEOUT)`, after which (given more fuel than
frames plus one) the socket is closed and the timer is not armed; if the elapsed time is at
most `t`, nothing is closed and the timer is rearmed for the remainder `t * 1000 - elapsed`.
With a timeout of 0 (or less) the timer fire changes nothing but the timer, which stays
disarmed. -/
theorem c15_timeout_decision (h : Hooks) (s : SocketId) (fuel : Nat) (w : World)
    (hq : (match (w.sockets s).m_pCurOpData with
        | [] => false
        | cur :: _ => cur.waitForAsyncRequest) = false)
    (hl : IsWaitingForLock s w = false) :
    (w.timeout > 0 → (w.now : Int) - ((w.sockets s).m_lastActivity : Int) > w.timeout * 1000 →
      OnTimer h s fuel w =
        (DoClose h s fuel FZ_REPLY_TIMEOUT
          (LogMessage s MessageType.Error "Connection timed out after %d seconds of inactivity"
            (w.setSocket s { w.sockets s with m_timer := none }))).map Prod.snd ∧
      ((opsOf w s).length + 1 < fuel →
        match OnTimer h s fuel w with
        | none => False
        | some w1 => (w1.sockets s).m_closed = true ∧ (w1.sockets s).m_timer = none)) ∧
    (w.timeout > 0 → (w.now : Int) - ((w.sockets s).m_lastActivity : Int) ≤ w.timeout * 1000 →
      OnTimer h s fuel w = some (w.setSocket s
        { w.sockets s with
          m_timer := some (w.timeout * 1000 -
            ((w.now : Int) - ((w.sockets s).m_lastActivity : Int))) })) ∧
    (w.timeout ≤ 0 →
      OnTimer h s fuel w = some (w.setSocket s { w.sockets s with m_timer := none })) := by
  have hc : ((match (w.sockets s).m_pCurOpData with
      | [] => true
      | cur :: _ => !cur.waitForAsyncRequest) && !IsWaitingForLock s w) = true := by
    cases hops : (w.sockets s).m_pCurOpData with
    | nil => simp [hl]
    | cons cur rest => rw [hops] at hq; simp only at hq; simp [hq, hl]
  have hclose : w.timeout > 0 →
      (w.now : Int) - ((w.sockets s).m_lastActivity : Int) > w.timeout * 1000 →
      OnTimer h s fuel w =
        (DoClose h s fuel FZ_REPLY_TIMEOUT
          (LogMessage s MessageType.Error "Connection timed out after %d seconds of inactivity"
            (w.setSocket s { w.sockets s with m_timer := none }))).map Prod.snd := by
    intro ht he
    unfold OnTimer
    simp only [setSocket_timeout, setSocket_now, setSocket_sockets_self,
      IsWaitingForLock_setSocket]
    rw [if_pos ht, if_pos hc, if_pos he]
  refine ⟨fun ht he => ⟨hclose ht he, ?_⟩, ?_, ?_⟩
  · intro hfuel
    rw [hclose ht he]
    have hops : opsOf (LogMessage s MessageType.Error
        "Connection timed out after %d seconds of inactivity"
        (w.setSocket s { w.sockets s with m_timer := none })) s = opsOf w s := by
      simp [opsOf, LogMessage]
    have htm : ((LogMessage s MessageType.Error
        "Connection timed out after %d seconds of inactivity"
        (w.setSocket s { w.sockets s with m_timer := none })).sockets s).m_timer = none := by
      simp [LogMessage]
    obtain ⟨r, w1, e1, k1, _, k3, _, _⟩ := exec_doClose_spec h s fuel FZ_REPLY_TIMEOUT
      (LogMessage s MessageType.Error "Connection timed out after %d seconds of inactivity"
        (w.setSocket s { w.sockets s with m_timer := none })) (by rw [hops]; exact hfuel)
    unfold DoClose
    rw [e1]
    exact ⟨k1, k3 htm⟩
  · intro ht he
    unfold OnTimer
    simp only [setSocket_timeout, setSocket_now, setSocket_sockets_self, setSocket_setSocket,
      IsWaitingForLock_setSocket]
    rw [if_pos ht, if_pos hc, if_neg (by omega)]
  · intro ht
    unfold OnTimer
    simp only [setSocket_timeout]
    rw [if_neg (by omega)]

theorem c15_timeout_decision_witness :
    ((match (demoTimer.sockets 0).m_pCurOpData with
        | [] => false
        | cur :: _ => cur.waitForAsyncRequest) = false ∧
      IsWaitingForLock 0 demoTimer = false ∧ demoTimer.timeout > 0 ∧
      (demoTimer.now : Int) - ((demoTimer.sockets 0).m_lastActivity : Int) ≤
        demoTimer.timeout * 1000) ∧
      OnTimer idleHooks 0 5 demoTimer = some (demoTimer.setSocket 0
        { demoTimer.sockets 0 with
          m_timer := some (demoTimer.timeout * 1000 -
            ((demoTimer.now : Int) - ((demoTimer.sockets 0).m_lastActivity : Int))) }) ∧
      (demoTimerLate.timeout > 0 ∧
        (demoTimerLate.now : Int) - ((demoTimerLate.sockets 0).m_lastActivity : Int) >
          demoTimerLate.timeout * 1000 ∧ (opsOf demoTimerLate 0).length + 1 < 5) ∧
      match OnTimer idleHooks 0 5 demoTimerLate with
      | none => False
      | some w1 => (w1.sockets 0).m_closed = true ∧ (w1.sockets 0).m_timer = none :=
  ⟨⟨rfl, rfl, by decide, by decide⟩,
    (c15_timeout_decision idleHooks 0 5 demoTimer rfl rfl).2.1 (by decide) (by decide),
    ⟨by decide, by decide, by decide⟩,
    ((c15_timeout_decision idleHooks 0 5 demoTimerLate rfl rfl).1 (by decide) (by decide)).2
      (by decide)⟩

/-- Counterexample to claim C15 as stated: with a timeout of 20 s and exactly 20000 ms elapsed
since the last activity (elapsed `>= t`), the timer fire does not close the socket: the test
is `elapsed > t`, and the timer is rearmed for the remainder, 0 ms. -/
theorem c15_counterexample :
    (match (demoTimerEdge.sockets 0).m_pCurOpData with
        | [] => false
        | cur :: _ => cur.waitForAsyncRequest) = false ∧
      IsWaitingForLock 0 demoTimerEdge = false ∧
      (demoTimerEdge.now : Int) - ((demoTimerEdge.sockets 0).m_lastActivity : Int) =
        demoTimerEdge.timeout * 1000 ∧
      (OnTimer idleHooks 0 5 demoTimerEdge).map
        (fun w => ((w.sockets 0).m_closed, (w.sockets 0).m_timer, addrsOf w 0)) =
        some (false, some 0, [1, 2]) := by
  decide

/-! ## `DoClose` is idempotent -/

/-- Claim C16. `DoClose` is idempotent. Given more fuel than frames plus one it returns, and
afterwards the socket is closed and has no current operation (on a socket that was closed
before, this is the invariant `m_closed → no operation` that the source asserts). The first
call, on a socket that is not closed, resets the whole stack with the code
`ERROR | DISCONNECTED | nErrorCode`, which contains `ERROR | DISCONNECTED`: every frame is
deleted, no `SubcommandResult` runs, the engine's value for that code is returned and the
current server is cleared. Every later call, with any argument, returns that argument and
the state unchanged. -/
theorem c16_doclose_idempotent (h : Hooks) (s : SocketId) (w : World)
    (fuel fuel2 code code2 : Nat)
    (hinv : (w.sockets s).m_closed = true → opsOf w s = [])
    (hfuel : (opsOf w s).length + 1 < fuel) (hfuel2 : 0 < fuel2) :
    match DoClose h s fuel code w with
    | none => False
    | some (r, w1) =>
      (w1.sockets s).m_closed = true ∧ opsOf w1 s = [] ∧
      ((w.sockets s).m_closed = false →
        r = h.engineResetOperation (FZ_REPLY_ERROR ||| FZ_REPLY_DISCONNECTED ||| code) ∧
        (FZ_REPLY_ERROR ||| FZ_REPLY_DISCONNECTED ||| code) &&&
          (FZ_REPLY_ERROR ||| FZ_REPLY_DISCONNECTED) =
            FZ_REPLY_ERROR ||| FZ_REPLY_DISCONNECTED ∧
        (w1.sockets s).currentServer_ = none ∧
        (w1.sockets s).destroyed = (w.sockets s).destroyed ++ (addrsOf w s).reverse ∧
        (w1.sockets s).subcommandResults = (w.sockets s).subcommandResults) ∧
      ((w.sockets s).m_closed = true → r = code) ∧
      DoClose h s fuel2 code2 w1 = some (code2, w1) := by
  obtain ⟨r, w1, e1, k1, k2, _, k4, k5⟩ := exec_doClose_spec h s fuel code w hfuel
  unfold DoClose
  rw [e1]
  dsimp only
  refine ⟨k1, ?_, ?_, fun hc => (k5 hc).1, exec_doClose_again h s fuel2 code2 w1 k1 k2 hfuel2⟩
  · by_cases hc : (w.sockets s).m_closed = true
    · rw [(k5 hc).2]; exact hinv hc
    · exact (k4 (by simpa using hc)).2.1
  · intro hc
    obtain ⟨a1, a2, a3, a4, a5⟩ := k4 hc
    exact ⟨a1, closeCode_contains code, a3, a4, a5⟩

theorem c16_doclose_idempotent_witness :
    ((demoStack.sockets 0).m_closed = true → opsOf demoStack 0 = []) ∧
      (opsOf demoStack 0).length + 1 < 5 ∧ 0 < 1 ∧
      match DoClose idleHooks 0 5 FZ_REPLY_TIMEOUT demoStack with
      | none => False
      | some (r, w1) =>
        (w1.sockets 0).m_closed = true ∧ opsOf w1 0 = [] ∧
        ((demoStack.sockets 0).m_closed = false →
          r = idleHooks.engineResetOperation
            (FZ_REPLY_ERROR ||| FZ_REPLY_DISCONNECTED ||| FZ_REPLY_TIMEOUT) ∧
          (FZ_REPLY_ERROR ||| FZ_REPLY_DISCONNECTED ||| FZ_REPLY_TIMEOUT) &&&
            (FZ_REPLY_ERROR ||| FZ_REPLY_DISCONNECTED) =
              FZ_REPLY_ERROR ||| FZ_REPLY_DISCONNECTED ∧
          (w1.sockets 0).currentServer_ = none ∧
          (w1.sockets 0).destroyed =
            (demoStack.sockets 0).destroyed ++ (addrsOf demoStack 0).reverse ∧
          (w1.sockets 0).subcommandResults = (demoStack.sockets 0).subcommandResults) ∧
        ((demoStack.sockets 0).m_closed = true → r = FZ_REPLY_TIMEOUT) ∧
        DoClose idleHooks 0 1 FZ_REPLY_OK w1 = some (FZ_REPLY_OK, w1) :=
  ⟨by decide, by decide, by decide,
    c16_doclose_idempotent idleHooks 0 demoStack 5 1 FZ_REPLY_TIMEOUT FZ_REPLY_OK
      (by decide) (by decide) (by decide)⟩

/-! ## Dispatch: `SendNextCommand` and `ResetOperation` with a parent -/

theorem option_match_eq_map (r : Option (Nat × World)) (f : World → World) :
    (match r with
      | none => none
      | some (ret, w3) => some (ret, f w3)) = r.map (fun p => (p.1, f p.2)) := by
  cases r with
  | none => rfl
  | some p => rfl

/-- Claim C17. `SendNextCommand` while a current operation `cur` exists: with
`waitForAsyncRequest` set it returns `WOULDBLOCK` and the state untouched (no `Send`);
with `CanSendNextCommand` false it arms the timeout (`SetWait(true)`) and returns
`WOULDBLOCK`; otherwise the result of `Send` decides: `CONTINUE` runs the loop again on the
state `Send` left, `OK` is `ResetOperation(OK)`, `WOULDBLOCK` returns `WOULDBLOCK` with the
state `Send` left, a result containing `DISCONNECTED` is `DoClose(result)`, another result
containing `ERROR` is `ResetOperation(result)`, and every other value is
`ResetOperation(INTERNALERROR)`. -/
theorem c17_send_next_command (h : Hooks) (s : SocketId) (fuel : Nat) (w : World)
    (cur : COpData) (rest : List COpData) (hops : opsOf w s = cur :: rest) :
    (cur.waitForAsyncRequest = true →
      SendNextCommand h s (fuel + 2) w = some (FZ_REPLY_WOULDBLOCK, w)) ∧
    (cur.waitForAsyncRequest = false → h.CanSendNextCommand s w = false →
      SendNextCommand h s (fuel + 2) w = some (FZ_REPLY_WOULDBLOCK, SetWait s true w)) ∧
    (cur.waitForAsyncRequest = false → h.CanSendNextCommand s w = true →
      ((h.Send s w).1 = FZ_REPLY_CONTINUE →
        SendNextCommand h s (fuel + 2) w =
          exec h s fuel Call.SendNextCommandLoop (h.Send s w).2) ∧
      ((h.Send s w).1 = FZ_REPLY_OK →
        SendNextCommand h s (fuel + 2) w = ResetOperation h s fuel FZ_REPLY_OK (h.Send s w).2) ∧
      ((h.Send s w).1 = FZ_REPLY_WOULDBLOCK →
        SendNextCommand h s (fuel + 2) w = some (FZ_REPLY_WOULDBLOCK, (h.Send s w).2)) ∧
      ((h.Send s w).1 &&& FZ_REPLY_DISCONNECTED = FZ_REPLY_DISCONNECTED →
        SendNextCommand h s (fuel + 2) w = DoClose h s fuel (h.Send s w).1 (h.Send s w).2) ∧
      ((h.Send s w).1 &&& FZ_REPLY_DISCONNECTED ≠ FZ_REPLY_DISCONNECTED →
        (h.Send s w).1 &&& FZ_REPLY_ERROR ≠ 0 →
        SendNextCommand h s (fuel + 2) w =
          ResetOperation h s fuel (h.Send s w).1 (h.Send s w).2) ∧
      ((h.Send s w).1 ≠ FZ_REPLY_CONTINUE → (h.Send s w).1 ≠ FZ_REPLY_OK →
        (h.Send s w).1 ≠ FZ_REPLY_WOULDBLOCK →
        (h.Send s w).1 &&& FZ_REPLY_DISCONNECTED ≠ FZ_REPLY_DISCONNECTED →
        (h.Send s w).1 &&& FZ_REPLY_ERROR = 0 →
        SendNextCommand h s (fuel + 2) w =
          ResetOperation h s fuel FZ_REPLY_INTERNALERROR (h.Send s w).2)) := by
  unfold opsOf at hops
  have hloop : SendNextCommand h s (fuel + 2) w =
      if cur.waitForAsyncRequest then some (FZ_REPLY_WOULDBLOCK, w)
      else if !h.CanSendNextCommand s w then some (FZ_REPLY_WOULDBLOCK, SetWait s true w)
      else
        if (h.Send s w).1 ≠ FZ_REPLY_CONTINUE then
          if (h.Send s w).1 = FZ_REPLY_OK then
            exec h s fuel (Call.ResetOperation (h.Send s w).1) (h.Send s w).2
          else if (h.Send s w).1 &&& FZ_REPLY_DISCONNECTED = FZ_REPLY_DISCONNECTED then
            exec h s fuel (Call.DoClose (h.Send s w).1) (h.Send s w).2
          else if (h.Send s w).1 &&& FZ_REPLY_ERROR ≠ 0 then
            exec h s fuel (Call.ResetOperation (h.Send s w).1) (h.Send s w).2
          else if (h.Send s w).1 = FZ_REPLY_WOULDBLOCK then
            some (FZ_REPLY_WOULDBLOCK, (h.Send s w).2)
          else exec h s fuel (Call.ResetOperation FZ_REPLY_INTERNALERROR) (h.Send s w).2
        else exec h s fuel Call.SendNextCommandLoop (h.Send s w).2 := by
    unfold SendNextCommand
    rw [exec]
    simp only [hops]
    rw [exec]
    simp only [hops]
  rw [hloop]
  unfold ResetOperation DoClose
  generalize (h.Send s w).1 = res
  generalize (h.Send s w).2 = w1
  refine ⟨fun ha => by rw [if_pos ha], fun ha hcan => ?_, fun ha hcan => ?_⟩
  · rw [if_neg (by simp [ha]), if_pos (by simp [hcan])]
  · rw [if_neg (by simp [ha]), if_neg (by simp [hcan])]
    refine ⟨?_, ?_, ?_, ?_, ?_, ?_⟩
    · intro hr
      rw [if_neg (by simp [hr])]
    · intro hr
      subst hr
      rw [if_pos (by decide), if_pos rfl]
    · intro hr
      subst hr
      rw [if_pos (by decide), if_neg (by decide), if_neg (by decide), if_neg (by decide),
        if_pos rfl]
    · intro hd
      have h1 : res ≠ FZ_REPLY_CONTINUE := by
        intro hc; subst hc; revert hd; decide
      have h2 : res ≠ FZ_REPLY_OK := by
        intro hc; subst hc; revert hd; decide
      rw [if_pos h1, if_neg h2, if_pos hd]
    · intro hd he
      have h1 : res ≠ FZ_REPLY_CONTINUE := by
        intro hc; subst hc; revert he; decide
      have h2 : res ≠ FZ_REPLY_OK := by
        intro hc; subst hc; revert he; decide
      rw [if_pos h1, if_neg h2, if_neg hd, if_pos he]
    · intro h1 h2 h3 hd he
      rw [if_pos h1, if_neg h2, if_neg hd, if_neg (by simp [he]), if_neg h3]

theorem c17_send_next_command_witness :
    (opsOf demoStack 0 = [{ addr := 1, opId := Command.other 0 },
        { addr := 2, opId := Command.list }, { addr := 3, opId := Command.transfer }] ∧
      ({ addr := 1, opId := Command.other 0 } : COpData).waitForAsyncRequest = false ∧
      idleHooks.CanSendNextCommand 0 demoStack = true ∧
      (idleHooks.Send 0 demoStack).1 = FZ_REPLY_WOULDBLOCK) ∧
      SendNextCommand idleHooks 0 2 demoStack =
        some (FZ_REPLY_WOULDBLOCK, (idleHooks.Send 0 demoStack).2) :=
  ⟨⟨rfl, rfl, rfl, rfl⟩,
    ((c17_send_next_command idleHooks 0 0 demoStack { addr := 1, opId := Command.other 0 }
      [{ addr := 2, opId := Command.list }, { addr := 3, opId := Command.transfer }]
      rfl).2.2 rfl rfl).2.2.1 rfl⟩

/-- Claim C18. `ResetOperation(code)` on a stack `old :: parent :: rest` unlinks exactly the
top frame (the state `w2` has the stack `parent :: rest`; `old1` is the popped frame, its lock
released) and deletes it when the nested call has returned. If `code` is exactly `OK`, `ERROR`
or `CRITICALERROR`, the parent's `SubcommandResult(code, popped)` is called once: `WOULDBLOCK`
from it ends the reset with the state it left (the parent stays), `CONTINUE` runs
`SendNextCommand`, any other result resets the parent with that result. For every other code
the parent is reset with the same code; with more fuel than frames this empties the stack
without any call of `SubcommandResult`. -/
theorem c18_reset_with_parent (h : Hooks) (s : SocketId) (fuel code : Nat) (w w2 : World)
    (old old1 parent : COpData) (rest : List COpData)
    (hops : opsOf w s = old :: parent :: rest)
    (hold : old1 = { old with holdsLock_ := false })
    (hw2 : w2 = (unlockIfHolds s w).setSocket s
      { (unlockIfHolds s w).sockets s with m_pCurOpData := parent :: rest }) :
    opsOf w2 s = parent :: rest ∧
    (code = FZ_REPLY_OK ∨ code = FZ_REPLY_ERROR ∨ code = FZ_REPLY_CRITICALERROR →
      ResetOperation h s (fuel + 2) code w =
        if (h.SubcommandResult s code old1 (countSubcommandResult s w2)).1 =
            FZ_REPLY_WOULDBLOCK then
          some (FZ_REPLY_WOULDBLOCK, deleteOpData s old1
            (h.SubcommandResult s code old1 (countSubcommandResult s w2)).2)
        else if (h.SubcommandResult s code old1 (countSubcommandResult s w2)).1 =
            FZ_REPLY_CONTINUE then
          (SendNextCommand h s fuel
            (h.SubcommandResult s code old1 (countSubcommandResult s w2)).2).map
              (fun r => (r.1, deleteOpData s old1 r.2))
        else
          (ResetOperation h s fuel
            (h.SubcommandResult s code old1 (countSubcommandResult s w2)).1
            (h.SubcommandResult s code old1 (countSubcommandResult s w2)).2).map
              (fun r => (r.1, deleteOpData s old1 r.2))) ∧
    (¬ (code = FZ_REPLY_OK ∨ code = FZ_REPLY_ERROR ∨ code = FZ_REPLY_CRITICALERROR) →
      ResetOperation h s (fuel + 1) code w =
          (ResetOperation h s fuel code w2).map (fun r => (r.1, deleteOpData s old1 r.2)) ∧
      (rest.length + 2 < fuel + 1 →
        match ResetOperation h s (fuel + 1) code w with
        | none => False
        | some (r, w1) =>
          r = h.engineResetOperation code ∧ opsOf w1 s = [] ∧
          (w1.sockets s).subcommandResults = (w.sockets s).subcommandResults ∧
          (w1.sockets s).destroyed = (w.sockets s).destroyed ++ (addrsOf w s).reverse)) := by
  have hu : opsOf (unlockIfHolds s w) s = old1 :: parent :: rest := by
    rw [unlockIfHolds_ops, hops, hold]; rfl
  have hsub : (code = FZ_REPLY_OK ∨ code = FZ_REPLY_ERROR ∨ code = FZ_REPLY_CRITICALERROR) ↔
      isSubcommandCode code = true := by
    unfold isSubcommandCode
    simp [or_assoc]
  have hw2ops : (w2.sockets s).m_pCurOpData = parent :: rest := by
    rw [hw2]; simp
  refine ⟨hw2ops, ?_, ?_⟩
  · intro hc
    unfold ResetOperation SendNextCommand
    rw [exec_reset_pop h s (fuel + 1) code w old1 parent rest hu, if_pos (hsub.mp hc), ← hw2]
    rw [exec]
    have hcount : ((countSubcommandResult s w2).sockets s).m_pCurOpData = parent :: rest := by
      simp [countSubcommandResult, hw2ops]
    simp only [hw2ops]
    generalize h.SubcommandResult s code old1 (countSubcommandResult s w2) = res
    by_cases h1 : res.1 = FZ_REPLY_WOULDBLOCK
    · simp only [if_pos h1]
    · simp only [if_neg h1]
      by_cases h2 : res.1 = FZ_REPLY_CONTINUE
      · simp only [if_pos h2]
        exact option_match_eq_map _ _
      · simp only [if_neg h2]
        exact option_match_eq_map _ _
  · intro hc
    have hns : isSubcommandCode code = false := by
      cases hb : isSubcommandCode code with
      | false => rfl
      | true => exact absurd (hsub.mpr hb) hc
    have heq : ResetOperation h s (fuel + 1) code w =
        (ResetOperation h s fuel code w2).map (fun r => (r.1, deleteOpData s old1 r.2)) := by
      unfold ResetOperation
      rw [exec_reset_pop h s fuel code w old1 parent rest hu, if_neg (by simp [hns]), ← hw2]
      exact option_match_eq_map _ _
    refine ⟨heq, fun hf => ?_⟩
    obtain ⟨w1, e1, _, k1⟩ := exec_reset_propagating h s code hns _ w (fuel + 1)
      (by rw [hops]) (by simp only [List.length_cons]; omega)
    unfold ResetOperation
    rw [e1]
    simp only [coreOf, Prod.mk.injEq] at k1
    obtain ⟨k1, k2, k3, _, _⟩ := k1
    exact ⟨rfl, k1, k3, k2⟩

theorem c18_reset_with_parent_witness :
    (opsOf demoStack 0 = [{ addr := 1, opId := Command.other 0 },
        { addr := 2, opId := Command.list }, { addr := 3, opId := Command.transfer }] ∧
      ¬ (FZ_REPLY_CANCELED = FZ_REPLY_OK ∨ FZ_REPLY_CANCELED = FZ_REPLY_ERROR ∨
        FZ_REPLY_CANCELED = FZ_REPLY_CRITICALERROR) ∧
      [({ addr := 3, opId := Command.transfer } : COpData)].length + 2 < 4 + 1) ∧
      (match ResetOperation idleHooks 0 (4 + 1) FZ_REPLY_CANCELED demoStack with
        | none => False
        | some (r, w1) =>
          r = idleHooks.engineResetOperation FZ_REPLY_CANCELED ∧ opsOf w1 0 = [] ∧
          (w1.sockets 0).subcommandResults = (demoStack.sockets 0).subcommandResults ∧
          (w1.sockets 0).destroyed =
            (demoStack.sockets 0).destroyed ++ (addrsOf demoStack 0).reverse) ∧
      ResetOperation idleHooks 0 (3 + 2) FZ_REPLY_OK demoStack =
        if (idleHooks.SubcommandResult 0 FZ_REPLY_OK
            { addr := 1, opId := Command.other 0, holdsLock_ := false }
            (countSubcommandResult 0 demoStackPopped)).1 = FZ_REPLY_WOULDBLOCK then
          some (FZ_REPLY_WOULDBLOCK, deleteOpData 0
            { addr := 1, opId := Command.other 0, holdsLock_ := false }
            (idleHooks.SubcommandResult 0 FZ_REPLY_OK
              { addr := 1, opId := Command.other 0, holdsLock_ := false }
              (countSubcommandResult 0 demoStackPopped)).2)
        else if (idleHooks.SubcommandResult 0 FZ_REPLY_OK
            { addr := 1, opId := Command.other 0, holdsLock_ := false }
            (countSubcommandResult 0 demoStackPopped)).1 = FZ_REPLY_CONTINUE then
          (SendNextCommand idleHooks 0 3
            (idleHooks.SubcommandResult 0 FZ_REPLY_OK
              { addr := 1, opId := Command.other 0, holdsLock_ := false }
              (countSubcommandResult 0 demoStackPopped)).2).map
              (fun r => (r.1, deleteOpData 0
                { addr := 1, opId := Command.other 0, holdsLock_ := false } r.2))
        else
          (ResetOperation idleHooks 0 3
            (idleHooks.SubcommandResult 0 FZ_REPLY_OK
              { addr := 1, opId := Command.other 0, holdsLock_ := false }
              (countSubcommandResult 0 demoStackPopped)).1
            (idleHooks.SubcommandResult 0 FZ_REPLY_OK
              { addr := 1, opId := Command.other 0, holdsLock_ := false }
              (countSubcommandResult 0 demoStackPopped)).2).map
              (fun r => (r.1, deleteOpData 0
                { addr := 1, opId := Command.other 0, holdsLock_ := false } r.2)) :=
  ⟨⟨rfl, by decide, by decide⟩,
    ((c18_reset_with_parent idleHooks 0 4 FZ_REPLY_CANCELED demoStack demoStackPopped
      { addr := 1, opId := Command.other 0 } { addr := 1, opId := Command.other 0 }
      { addr := 2, opId := Command.list } [{ addr := 3, opId := Command.transfer }]
      rfl rfl rfl).2.2 (by decide)).2 (by decide),
    (c18_reset_with_parent idleHooks 0 3 FZ_REPLY_OK demoStack demoStackPopped
      { addr := 1, opId := Command.other 0 } { addr := 1, opId := Command.other 0 }
      { addr := 2, opId := Command.list } [{ addr := 3, opId := Command.transfer }]
      rfl rfl rfl).2.1 (Or.inl rfl)⟩

/-! ## Overwrite decisions of `SetFileExistsAction` -/

theorem code_newer_eq_spec (n : CFileExistsNotification) :
    (if n.localTime.isNone || n.remoteTime.isNone then true
      else if n.download && earlier_than n.localTime n.remoteTime then true
      else if !n.download && later_than n.localTime n.remoteTime then true
      else false) = spec_overwrite_newer_proceeds n := by
  unfold spec_overwrite_newer_proceeds earlier_than later_than
  cases hl : n.localTime with
  | none => simp
  | some l =>
    cases hr : n.remoteTime with
    | none => simp
    | some r =>
      cases hd : n.download <;> simp

theorem code_size_eq_spec (n : CFileExistsNotification) :
    (decide (n.localSize ≠ n.remoteSize) || decide (n.localSize < 0)) =
      spec_overwrite_size_proceeds n := by
  unfold spec_overwrite_size_proceeds
  by_cases h1 : n.localSize = n.remoteSize
  · by_cases h2 : n.localSize < 0
    · simp [h1, h2]
    · have h3 : ¬ n.remoteSize < 0 := by rw [← h1]; exact h2
      simp [h2, h3]
  · simp [h1]

/-- Claim C19. On a file-exists reply with action `overwriteNewer` while the current operation
is a transfer: if the spec's rule says "proceed" (a timestamp is missing, or the side being
written is strictly older: for a download the local time is earlier than the remote time, for
an upload the local time is later than the remote time), `SetFileExistsAction` runs
`SendNextCommand`; in every other case it logs the skip and runs `ResetOperation(FZ_REPLY_OK)`.
It answers `true` in both cases. -/
theorem c19_overwrite_newer (h : Hooks) (s : SocketId) (fuel : Nat)
    (n : CFileExistsNotification) (w : World) (pData : COpData) (rest : List COpData)
    (hops : opsOf w s = pData :: rest) (hid : pData.opId = Command.transfer)
    (hact : n.overwriteAction = OverwriteAction.overwriteNewer) :
    SetFileExistsAction h s fuel n w =
      if spec_overwrite_newer_proceeds n then
        (SendNextCommand h s fuel w).map (fun r => (true, r.2))
      else
        (ResetOperation h s fuel FZ_REPLY_OK
          (LogMessage s MessageType.Status
            (if pData.download_ then "Skipping download of %s" else "Skipping upload of %s")
            w)).map (fun r => (true, r.2)) := by
  unfold opsOf at hops
  rw [← code_newer_eq_spec]
  unfold SetFileExistsAction
  simp only [hops, hid, hact, ne_eq, not_true_eq_false, if_false]
  unfold proceedTransfer skipTransfer
  by_cases h1 : (n.localTime.isNone || n.remoteTime.isNone) = true
  · simp only [if_pos h1, if_true]
  · simp only [if_neg h1]
    by_cases h2 : (n.download && earlier_than n.localTime n.remoteTime) = true
    · simp only [if_pos h2, if_true]
    · simp only [if_neg h2]
      by_cases h3 : (!n.download && later_than n.localTime n.remoteTime) = true
      · simp only [if_pos h3, if_true]
      · simp only [if_neg h3, Bool.false_eq_true, if_false]
        cases pData.download_ <;> rfl

theorem c19_overwrite_newer_witness :
    (opsOf demoTimer 0 = [{ addr := 1, opId := Command.transfer, download_ := true },
        { addr := 2, opId := Command.list }] ∧
      ({ addr := 1, opId := Command.transfer, download_ := true } : COpData).opId =
        Command.transfer ∧
      demoS1.overwriteAction = OverwriteAction.overwriteNewer ∧
      spec_overwrite_newer_proceeds demoS1 = false) ∧
      SetFileExistsAction idleHooks 0 5 demoS1 demoTimer =
        (if spec_overwrite_newer_proceeds demoS1 then
          (SendNextCommand idleHooks 0 5 demoTimer).map (fun r => (true, r.2))
        else
          (ResetOperation idleHooks 0 5 FZ_REPLY_OK
            (LogMessage 0 MessageType.Status
              (if ({ addr := 1, opId := Command.transfer, download_ := true } : COpData).download_
                then "Skipping download of %s" else "Skipping upload of %s")
              demoTimer)).map (fun r => (true, r.2))) ∧
      (SetFileExistsAction idleHooks 0 5 demoS1 demoTimer).map
          (fun r => (r.1, addrsOf r.2 0, ((r.2.sockets 0).messages.take 1))) =
        some (true, [], [(MessageType.Status, "Skipping download of %s")]) :=
  ⟨⟨rfl, rfl, rfl, by decide⟩,
    c19_overwrite_newer idleHooks 0 5 demoS1 demoTimer
      { addr := 1, opId := Command.transfer, download_ := true }
      [{ addr := 2, opId := Command.list }] rfl rfl rfl,
    by decide⟩

/-- Claim C20. On a file-exists reply with action `overwriteSize` while the current operation
is a transfer: if the local and remote sizes differ or at least one of them is unknown
(negative), `SetFileExistsAction` runs `SendNextCommand`; otherwise (both sizes known and
equal) it logs the skip and runs `ResetOperation(FZ_REPLY_OK)`. It answers `true` in both
cases. -/
theorem c20_overwrite_size (h : Hooks) (s : SocketId) (fuel : Nat)
    (n : CFileExistsNotification) (w : World) (pData : COpData) (rest : List COpData)
    (hops : opsOf w s = pData :: rest) (hid : pData.opId = Command.transfer)
    (hact : n.overwriteAction = OverwriteAction.overwriteSize) :
    SetFileExistsAction h s fuel n w =
      if spec_overwrite_size_proceeds n then
        (SendNextCommand h s fuel w).map (fun r => (true, r.2))
      else
        (ResetOperation h s fuel FZ_REPLY_OK
          (LogMessage s MessageType.Status
            (if pData.download_ then "Skipping download of %s" else "Skipping upload of %s")
            w)).map (fun r => (true, r.2)) := by
  unfold opsOf at hops
  rw [← code_size_eq_spec]
  unfold SetFileExistsAction
  simp only [hops, hid, hact, ne_eq, not_true_eq_false, if_false]
  unfold proceedTransfer skipTransfer
  by_cases h1 : (decide (¬ n.localSize = n.remoteSize) || decide (n.localSize < 0)) = true
  · simp only [if_pos h1]
  · simp only [if_neg h1]
    cases pData.download_ <;> rfl

theorem c20_overwrite_size_witness :
    (opsOf demoTimer 0 = [{ addr := 1, opId := Command.transfer, download_ := true },
        { addr := 2, opId := Command.list }] ∧
      ({ addr := 1, opId := Command.transfer, download_ := true } : COpData).opId =
        Command.transfer ∧
      demoSameSize.overwriteAction = OverwriteAction.overwriteSize ∧
      spec_overwrite_size_proceeds demoSameSize = false) ∧
      SetFileExistsAction idleHooks 0 5 demoSameSize demoTimer =
        (if spec_overwrite_size_proceeds demoSameSize then
          (SendNextCommand idleHooks 0 5 demoTimer).map (fun r => (true, r.2))
        else
          (ResetOperation idleHooks 0 5 FZ_REPLY_OK
            (LogMessage 0 MessageType.Status
              (if ({ addr := 1, opId := Command.transfer, download_ := true } : COpData).download_
                then "Skipping download of %s" else "Skipping upload of %s")
              demoTimer)).map (fun r => (true, r.2))) :=
  ⟨⟨rfl, rfl, rfl, by decide⟩,
    c20_overwrite_size idleHooks 0 5 demoSameSize demoTimer
      { addr := 1, opId := Command.transfer, download_ := true }
      [{ addr := 2, opId := Command.list }] rfl rfl rfl⟩

/-! ## Replies to a file-exists request: composition, resume, rename, stale replies -/

theorem spec_newer_action (n : CFileExistsNotification) (a : OverwriteAction) :
    spec_overwrite_newer_proceeds { n with overwriteAction := a } =
      spec_overwrite_newer_proceeds n := rfl

theorem spec_size_action (n : CFileExistsNotification) (a : OverwriteAction) :
    spec_overwrite_size_proceeds { n with overwriteAction := a } =
      spec_overwrite_size_proceeds n := rfl

theorem code_size_or_newer_eq_spec (n : CFileExistsNotification) :
    (if n.localTime.isNone || n.remoteTime.isNone then true
      else if decide (n.localSize ≠ n.remoteSize) || decide (n.localSize < 0) then true
      else if n.download && earlier_than n.localTime n.remoteTime then true
      else if !n.download && later_than n.localTime n.remoteTime then true
      else false) =
      (spec_overwrite_newer_proceeds n || spec_overwrite_size_proceeds n) := by
  rw [← code_newer_eq_spec, ← code_size_eq_spec]
  by_cases h1 : (n.localTime.isNone || n.remoteTime.isNone) = true
  · simp [h1]
  · by_cases h2 : (decide (n.localSize ≠ n.remoteSize) || decide (n.localSize < 0)) = true
    · simp only [if_neg h1, if_pos h2]
      rw [h2, Bool.or_true]
    · simp only [if_neg h1, if_neg h2]
      have h3 : (decide (n.localSize ≠ n.remoteSize) || decide (n.localSize < 0)) = false := by
        simpa using h2
      rw [h3, Bool.or_false]

theorem setFileExistsAction_newer (h : Hooks) (s : SocketId) (fuel : Nat)
    (n : CFileExistsNotification) (w : World) (pData : COpData) (rest : List COpData)
    (hops : opsOf w s = pData :: rest) (hid : pData.opId = Command.transfer)
    (hact : n.overwriteAction = OverwriteAction.overwriteNewer) :
    SetFileExistsAction h s fuel n w =
      if spec_overwrite_newer_proceeds n then proceedTransfer h s fuel w
      else skipTransfer h s fuel pData w := by
  unfold opsOf at hops
  rw [← code_newer_eq_spec]
  unfold SetFileExistsAction
  simp only [hops, hid, hact, ne_eq, not_true_eq_false, if_false]
  by_cases h1 : (n.localTime.isNone || n.remoteTime.isNone) = true
  · simp only [if_pos h1, if_true]
  · simp only [if_neg h1]
    by_cases h2 : (n.download && earlier_than n.localTime n.remoteTime) = true
    · simp only [if_pos h2, if_true]
    · simp only [if_neg h2]
      by_cases h3 : (!n.download && later_than n.localTime n.remoteTime) = true
      · simp only [if_pos h3, if_true]
      · simp only [if_neg h3, Bool.false_eq_true, if_false]

theorem setFileExistsAction_size (h : Hooks) (s : SocketId) (fuel : Nat)
    (n : CFileExistsNotification) (w : World) (pData : COpData) (rest : List COpData)
    (hops : opsOf w s = pData :: rest) (hid : pData.opId = Command.transfer)
    (hact : n.overwriteAction = OverwriteAction.overwriteSize) :
    SetFileExistsAction h s fuel n w =
      if spec_overwrite_size_proceeds n then proceedTransfer h s fuel w
      else skipTransfer h s fuel pData w := by
  unfold opsOf at hops
  rw [← code_size_eq_spec]
  unfold SetFileExistsAction
  simp only [hops, hid, hact, ne_eq, not_true_eq_false, if_false]

theorem setFileExistsAction_size_or_newer (h : Hooks) (s : SocketId) (fuel : Nat)
    (n : CFileExistsNotification) (w : World) (pData : COpData) (rest : List COpData)
    (hops : opsOf w s = pData :: rest) (hid : pData.opId = Command.transfer)
    (hact : n.overwriteAction = OverwriteAction.overwriteSizeOrNewer) :
    SetFileExistsAction h s fuel n w =
      if spec_overwrite_newer_proceeds n || spec_overwrite_size_proceeds n then
        proceedTransfer h s fuel w
      else skipTransfer h s fuel pData w := by
  unfold opsOf at hops
  rw [← code_size_or_newer_eq_spec]
  unfold SetFileExistsAction
  simp only [hops, hid, hact, ne_eq, not_true_eq_false, if_false]
  by_cases h1 : (n.localTime.isNone || n.remoteTime.isNone) = true
  · simp only [if_pos h1, if_true]
  · simp only [if_neg h1]
    by_cases h2 : (decide (¬ n.localSize = n.remoteSize) || decide (n.localSize < 0)) = true
    · simp only [if_pos h2, if_true]
    · simp only [if_neg h2]
      by_cases h3 : (n.download && earlier_than n.localTime n.remoteTime) = true
      · simp only [if_pos h3, if_true]
      · simp only [if_neg h3]
        by_cases h4 : (!n.download && later_than n.localTime n.remoteTime) = true
        · simp only [if_pos h4, if_true]
        · simp only [if_neg h4, Bool.false_eq_true, if_false]

/-- Claim C21. For every file-exists reply `n` (any direction, sizes and timestamps) to a
transfer, with `P` the outcome "proceed" (`SendNextCommand`) and `S` the outcome "skip" (the
status line and `ResetOperation(FZ_REPLY_OK)`): the action `overwriteNewer` gives `P` when
the spec's newer-rule holds and `S` otherwise, the action `overwriteSize` gives `P` when the
spec's size-rule holds and `S` otherwise, and the action `overwriteSizeOrNewer` gives `P`
exactly when one of the two rules holds on the same reply, and `S` otherwise. -/
theorem c21_size_or_newer_composes (h : Hooks) (s : SocketId) (fuel : Nat)
    (n : CFileExistsNotification) (w : World) (pData : COpData) (rest : List COpData)
    (hops : opsOf w s = pData :: rest) (hid : pData.opId = Command.transfer) :
    SetFileExistsAction h s fuel
        { n with overwriteAction := OverwriteAction.overwriteNewer } w =
      (if spec_overwrite_newer_proceeds n then proceedTransfer h s fuel w
        else skipTransfer h s fuel pData w) ∧
    SetFileExistsAction h s fuel
        { n with overwriteAction := OverwriteAction.overwriteSize } w =
      (if spec_overwrite_size_proceeds n then proceedTransfer h s fuel w
        else skipTransfer h s fuel pData w) ∧
    SetFileExistsAction h s fuel
        { n with overwriteAction := OverwriteAction.overwriteSizeOrNewer } w =
      (if spec_overwrite_newer_proceeds n || spec_overwrite_size_proceeds n then
        proceedTransfer h s fuel w
      else skipTransfer h s fuel pData w) ∧
    proceedTransfer h s fuel w = (SendNextCommand h s fuel w).map (fun r => (true, r.2)) ∧
    skipTransfer h s fuel pData w =
      (ResetOperation h s fuel FZ_REPLY_OK
        (LogMessage s MessageType.Status
          (if pData.download_ then "Skipping download of %s" else "Skipping upload of %s")
          w)).map (fun r => (true, r.2)) := by
  refine ⟨?_, ?_, ?_, rfl, ?_⟩
  · rw [setFileExistsAction_newer h s fuel _ w pData rest hops hid rfl, spec_newer_action]
  · rw [setFileExistsAction_size h s fuel _ w pData rest hops hid rfl, spec_size_action]
  · rw [setFileExistsAction_size_or_newer h s fuel _ w pData rest hops hid rfl,
      spec_newer_action, spec_size_action]
  · unfold skipTransfer
    cases pData.download_ <;> rfl

theorem c21_size_or_newer_composes_witness :
    (opsOf demoTimer 0 = [{ addr := 1, opId := Command.transfer, download_ := true },
        { addr := 2, opId := Command.list }] ∧
      ({ addr := 1, opId := Command.transfer, download_ := true } : COpData).opId =
        Command.transfer ∧
      spec_overwrite_newer_proceeds demoMixed = false ∧
      spec_overwrite_size_proceeds demoMixed = true) ∧
      SetFileExistsAction idleHooks 0 5
          { demoMixed with overwriteAction := OverwriteAction.overwriteSizeOrNewer } demoTimer =
        (if spec_overwrite_newer_proceeds demoMixed || spec_overwrite_size_proceeds demoMixed
          then proceedTransfer idleHooks 0 5 demoTimer
          else skipTransfer idleHooks 0 5
            { addr := 1, opId := Command.transfer, download_ := true } demoTimer) :=
  ⟨⟨rfl, rfl, by decide, by decide⟩,
    (c21_size_or_newer_composes idleHooks 0 5 demoMixed demoTimer
      { addr := 1, opId := Command.transfer, download_ := true }
      [{ addr := 2, opId := Command.list }] rfl rfl).2.2.1⟩

theorem setSocket_ops_self (w : World) (s : SocketId) (ops : List COpData)
    (hops : (w.sockets s).m_pCurOpData = ops) :
    w.setSocket s { w.sockets s with m_pCurOpData := ops } = w := by
  have : ({ w.sockets s with m_pCurOpData := ops } : CControlSocket) = w.sockets s := by
    rw [← hops]
  rw [this, setSocket_self]

/-- Claim C22. On a file-exists reply with action `resume` while the current operation is a
transfer: if the relevant side's size is known (download: local size `>= 0`; upload: remote
size `>= 0`) the transfer's `resume_` flag is set, otherwise no field is written; in either
case the outcome is that of one `SendNextCommand` on the resulting state, and the answer is
`true`. -/
theorem c22_resume (h : Hooks) (s : SocketId) (fuel : Nat)
    (n : CFileExistsNotification) (w : World) (pData : COpData) (rest : List COpData)
    (hops : opsOf w s = pData :: rest) (hid : pData.opId = Command.transfer)
    (hact : n.overwriteAction = OverwriteAction.resume) :
    (spec_resume_size_known pData = true →
      SetFileExistsAction h s fuel n w =
        (SendNextCommand h s fuel
          (w.setSocket s
            { w.sockets s with m_pCurOpData := { pData with resume_ := true } :: rest })).map
          (fun r => (true, r.2))) ∧
    (spec_resume_size_known pData = false →
      SetFileExistsAction h s fuel n w =
        (SendNextCommand h s fuel w).map (fun r => (true, r.2))) := by
  unfold opsOf at hops
  unfold SetFileExistsAction
  simp only [hops, hid, hact, ne_eq, not_true_eq_false, if_false]
  unfold proceedTransfer spec_resume_size_known
  cases hd : pData.download_
  · simp only [Bool.false_and, Bool.false_eq_true, if_false, Bool.not_false, Bool.true_and]
    refine ⟨fun hk => ?_, fun hk => ?_⟩
    · rw [if_pos hk]
    · rw [if_neg (by simp [hk]), setSocket_ops_self w s _ hops]
  · simp only [Bool.true_and, if_true]
    refine ⟨fun hk => ?_, fun hk => ?_⟩
    · rw [if_pos hk]
    · rw [if_neg (by simp [hk])]
      simp only [Bool.not_true, Bool.false_and, Bool.false_eq_true, if_false]
      rw [setSocket_ops_self w s _ hops]

theorem c22_resume_witness :
    (opsOf demoS2World 0 =
        [{ addr := 1, opId := Command.transfer, download_ := true, localFileSize_ := 1024,
           remoteFileSize_ := 4096 }] ∧
      demoS2.overwriteAction = OverwriteAction.resume ∧
      spec_resume_size_known
        { addr := 1, opId := Command.transfer, download_ := true, localFileSize_ := 1024,
          remoteFileSize_ := 4096 } = true) ∧
      SetFileExistsAction idleHooks 0 5 demoS2 demoS2World =
        (SendNextCommand idleHooks 0 5
          (demoS2World.setSocket 0
            { demoS2World.sockets 0 with
              m_pCurOpData :=
                [{ addr := 1, opId := Command.transfer, download_ := true,
                   localFileSize_ := 1024, remoteFileSize_ := 4096, resume_ := true }] })).map
          (fun r => (true, r.2)) ∧
      (SetFileExistsAction idleHooks 0 5 demoS2 demoS2World).map
          (fun r => (r.1, (opsOf r.2 0).map (fun op => op.resume_))) = some (true, [true]) :=
  ⟨⟨rfl, rfl, by decide⟩,
    (c22_resume idleHooks 0 5 demoS2 demoS2World
      { addr := 1, opId := Command.transfer, download_ := true, localFileSize_ := 1024,
        remoteFileSize_ := 4096 } [] rfl rfl rfl).1 (by decide),
    by decide⟩

theorem SendAsyncRequest_notifications (s : SocketId) (n : CFileExistsNotification)
    (w : World) :
    (SendAsyncRequest s n w).notifications = w.notifications ++
      [Notification.file_exists { n with requestNumber := w.nextAsyncRequestNumber + 1 }] := by
  unfold SendAsyncRequest
  dsimp only
  split <;> rfl

theorem SendAsyncRequest_ops (s : SocketId) (n : CFileExistsNotification) (w : World)
    (cur : COpData) (rest : List COpData) (hops : (w.sockets s).m_pCurOpData = cur :: rest) :
    opsOf (SendAsyncRequest s n w) s = { cur with waitForAsyncRequest := true } :: rest := by
  unfold SendAsyncRequest opsOf
  dsimp only
  rw [hops]
  simp

theorem checkOverwriteFile_upload_eq (h : Hooks) (s : SocketId) (w : World)
    (pData : COpData) (rest : List COpData)
    (hops : (w.sockets s).m_pCurOpData = pData :: rest) (hup : pData.download_ = false)
    (hreq : ((h.LookupFile (w.sockets s).currentServer_
        (if pData.tryAbsolutePath_ || (w.sockets s).m_CurrentPath.isNone then pData.remotePath_
          else (w.sockets s).m_CurrentPath) pData.remoteFile_).1 &&
        (h.LookupFile (w.sockets s).currentServer_
        (if pData.tryAbsolutePath_ || (w.sockets s).m_CurrentPath.isNone then pData.remotePath_
          else (w.sockets s).m_CurrentPath) pData.remoteFile_).2.1) = true ∨
      0 ≤ pData.remoteFileSize_ ∨ pData.fileTime_.isSome = true) :
    ∃ (p1 : COpData) (n1 : CFileExistsNotification),
      CheckOverwriteFile h s w = (FZ_REPLY_WOULDBLOCK,
        SendAsyncRequest s n1
          (w.setSocket s { w.sockets s with m_pCurOpData := p1 :: rest })) ∧
      p1.addr = pData.addr ∧ n1.download = false ∧ n1.remoteFile = pData.remoteFile_ ∧
      n1.remoteSize = pData.remoteFileSize_ := by
  unfold CheckOverwriteFile
  simp only [hops, hup, Bool.false_and, Bool.false_eq_true, if_false, Bool.not_false,
    Bool.true_and]
  generalize h.LookupFile (w.sockets s).currentServer_
    (if (pData.tryAbsolutePath_ || (w.sockets s).m_CurrentPath.isNone) = true then
      pData.remotePath_ else (w.sockets s).m_CurrentPath) pData.remoteFile_ = lk at hreq ⊢
  have hno : ¬ ((!(lk.1 && lk.2.1) && decide (pData.remoteFileSize_ < 0) &&
      pData.fileTime_.isNone) = true) := by
    rcases hreq with h1 | h1 | h1
    · simp [h1]
    · have : ¬ pData.remoteFileSize_ < 0 := by omega
      simp [this]
    · cases ht : pData.fileTime_ with
      | none => rw [ht] at h1; simp at h1
      | some t => simp
  rw [if_neg hno]
  refine ⟨_, _, rfl, ?_, ?_, ?_, ?_⟩ <;> (split_ifs <;> rfl)

theorem checkOverwriteFile_upload_request (h : Hooks) (s : SocketId) (w : World)
    (pData : COpData) (rest : List COpData)
    (hops : (w.sockets s).m_pCurOpData = pData :: rest) (hup : pData.download_ = false)
    (hreq : ((h.LookupFile (w.sockets s).currentServer_
        (if pData.tryAbsolutePath_ || (w.sockets s).m_CurrentPath.isNone then pData.remotePath_
          else (w.sockets s).m_CurrentPath) pData.remoteFile_).1 &&
        (h.LookupFile (w.sockets s).currentServer_
        (if pData.tryAbsolutePath_ || (w.sockets s).m_CurrentPath.isNone then pData.remotePath_
          else (w.sockets s).m_CurrentPath) pData.remoteFile_).2.1) = true ∨
      0 ≤ pData.remoteFileSize_ ∨ pData.fileTime_.isSome = true) :
    (CheckOverwriteFile h s w).1 = FZ_REPLY_WOULDBLOCK ∧
      (CheckOverwriteFile h s w).2.notifications.dropLast = w.notifications ∧
      (CheckOverwriteFile h s w).2.notifications.getLast?.bind fileExistsSummary =
        some (false, pData.remoteFile_, pData.remoteFileSize_, w.nextAsyncRequestNumber + 1) ∧
      (opsOf (CheckOverwriteFile h s w).2 s).map (fun op => op.waitForAsyncRequest) =
        true :: rest.map (fun op => op.waitForAsyncRequest) ∧
      addrsOf (CheckOverwriteFile h s w).2 s = addrsOf w s := by
  obtain ⟨p1, n1, he, k1, k2, k3, k4⟩ := checkOverwriteFile_upload_eq h s w pData rest hops hup hreq
  rw [he]
  dsimp only
  have hn := SendAsyncRequest_notifications s n1
    (w.setSocket s { w.sockets s with m_pCurOpData := p1 :: rest })
  have ho := SendAsyncRequest_ops s n1
    (w.setSocket s { w.sockets s with m_pCurOpData := p1 :: rest }) p1 rest (by simp)
  have hn2 : (w.setSocket s { w.sockets s with m_pCurOpData := p1 :: rest }).notifications =
      w.notifications := rfl
  have hn3 : (w.setSocket s
      { w.sockets s with m_pCurOpData := p1 :: rest }).nextAsyncRequestNumber =
      w.nextAsyncRequestNumber := rfl
  rw [hn2, hn3] at hn
  refine ⟨rfl, ?_, ?_, ?_, ?_⟩
  · rw [hn]; simp
  · rw [hn]
    simp [fileExistsSummary, k2, k3, k4]
  · rw [ho]; simp
  · unfold addrsOf
    rw [ho]
    unfold opsOf
    rw [hops]
    simp [k1]

/-- A `rename` reply for an upload: the frame `pData1` has the new name as remote
file and unknown remote size and time. If the directory cache has no case-exact entry for the
new name, the outcome is that of `SendNextCommand` on the state with `pData1` (no request is
issued by `SetFileExistsAction`). If it has one, the frame `pData2` adopts the entry's size
and, if present, date, and `CheckOverwriteFile` is run on that state: it answers
`WOULDBLOCK`, appends one file-exists request for the new name with the adopted size and the
next request number, marks the operation as waiting, and `SendNextCommand` is not run. The
second case is stated for a lookup that the overwrite check repeats with the same path (the
absolute path is tried, or the current path is known), or an entry that carries a size or a
date. -/
theorem setFileExistsAction_rename_upload (h : Hooks) (s : SocketId) (fuel : Nat)
    (n : CFileExistsNotification) (w w1 w2 : World) (pData pData1 pData2 : COpData)
    (rest : List COpData) (lookup : Bool × Bool × CDirentry)
    (hops : opsOf w s = pData :: rest) (hid : pData.opId = Command.transfer)
    (hact : n.overwriteAction = OverwriteAction.rename) (hup : pData.download_ = false)
    (hlookup : lookup = h.LookupFile (w.sockets s).currentServer_
      (if pData.tryAbsolutePath_ then pData.remotePath_ else (w.sockets s).m_CurrentPath)
      n.newName)
    (hp1 : pData1 =
      { pData with remoteFile_ := n.newName, fileTime_ := none, remoteFileSize_ := -1 })
    (hp2 : pData2 =
      { pData1 with remoteFileSize_ := lookup.2.2.size, fileTime_ := lookup.2.2.time })
    (hw1 : w1 = w.setSocket s { w.sockets s with m_pCurOpData := pData1 :: rest })
    (hw2 : w2 = w.setSocket s { w.sockets s with m_pCurOpData := pData2 :: rest }) :
    ((lookup.1 && lookup.2.1) = false →
      SetFileExistsAction h s fuel n w =
        (SendNextCommand h s fuel w1).map (fun r => (true, r.2))) ∧
    ((lookup.1 && lookup.2.1) = true →
      (pData.tryAbsolutePath_ = true ∨ (w.sockets s).m_CurrentPath ≠ none ∨
        0 ≤ lookup.2.2.size ∨ lookup.2.2.time.isSome = true) →
      SetFileExistsAction h s fuel n w = some (true, (CheckOverwriteFile h s w2).2) ∧
      (CheckOverwriteFile h s w2).1 = FZ_REPLY_WOULDBLOCK ∧
      (CheckOverwriteFile h s w2).2.notifications.dropLast = w.notifications ∧
      (CheckOverwriteFile h s w2).2.notifications.getLast?.bind fileExistsSummary =
        some (false, n.newName, lookup.2.2.size, w.nextAsyncRequestNumber + 1) ∧
      (opsOf (CheckOverwriteFile h s w2).2 s).map (fun op => op.waitForAsyncRequest) =
        true :: rest.map (fun op => op.waitForAsyncRequest) ∧
      addrsOf (CheckOverwriteFile h s w2).2 s = addrsOf w s) := by
  unfold opsOf at hops
  have htime : (if lookup.2.2.time.isSome = true then lookup.2.2.time else none) =
      lookup.2.2.time := by
    cases lookup.2.2.time <;> rfl
  have hsfa : SetFileExistsAction h s fuel n w =
      if (lookup.1 && lookup.2.1) = true then
        if (CheckOverwriteFile h s w2).1 ≠ FZ_REPLY_OK then
          some (true, (CheckOverwriteFile h s w2).2)
        else proceedTransfer h s fuel (CheckOverwriteFile h s w2).2
      else proceedTransfer h s fuel w1 := by
    unfold SetFileExistsAction
    rw [hops]
    dsimp only
    rw [if_neg (by simp [hid]), hact]
    dsimp only
    rw [if_neg (by simp [hup]), ← hlookup, htime, hw1, hw2, hp2, hp1]
  refine ⟨fun hno => ?_, fun hyes hkey => ?_⟩
  · rw [hsfa, if_neg (by simp [hno])]
    rfl
  · have hops2 : (w2.sockets s).m_pCurOpData = pData2 :: rest := by
      rw [hw2]; simp
    have hup2 : pData2.download_ = false := by rw [hp2, hp1]; exact hup
    have hfile : pData2.remoteFile_ = n.newName := by rw [hp2, hp1]
    have hsize : pData2.remoteFileSize_ = lookup.2.2.size := by rw [hp2]
    have hft : pData2.fileTime_ = lookup.2.2.time := by rw [hp2]
    have htry : pData2.tryAbsolutePath_ = pData.tryAbsolutePath_ := by rw [hp2, hp1]
    have hrp : pData2.remotePath_ = pData.remotePath_ := by rw [hp2, hp1]
    have hsrv : (w2.sockets s).currentServer_ = (w.sockets s).currentServer_ := by
      rw [hw2]; simp
    have hcp : (w2.sockets s).m_CurrentPath = (w.sockets s).m_CurrentPath := by
      rw [hw2]; simp
    have hreq := checkOverwriteFile_upload_request h s w2 pData2 rest hops2 hup2 (by
      rw [hsrv, hcp, htry, hrp, hfile, hsize, hft]
      rcases hkey with hk | hk | hk | hk
      · left
        rw [hk] at hlookup
        simp only [if_true] at hlookup
        simp only [hk, Bool.true_or, if_true]
        rw [← hlookup]; exact hyes
      · left
        cases htr : pData.tryAbsolutePath_ with
        | true =>
          rw [htr] at hlookup
          simp only [if_true] at hlookup
          simp only [Bool.true_or, if_true]
          rw [← hlookup]; exact hyes
        | false =>
          rw [htr] at hlookup
          simp only [Bool.false_eq_true, if_false] at hlookup
          have hnn : (w.sockets s).m_CurrentPath.isNone = false := by
            cases hc : (w.sockets s).m_CurrentPath with
            | none => exact absurd hc hk
            | some p => rfl
          simp only [hnn, Bool.or_false, Bool.false_eq_true, if_false]
          rw [← hlookup]; exact hyes
      · right; left; exact hk
      · right; right; exact hk)
    have hnot : w2.notifications = w.notifications := by rw [hw2]; rfl
    have hnum : w2.nextAsyncRequestNumber = w.nextAsyncRequestNumber := by rw [hw2]; rfl
    have haddr : addrsOf w2 s = addrsOf w s := by
      simp only [addrsOf, opsOf, hops2, hops, hp2, hp1, List.map_cons]
    obtain ⟨r1, r2, r3, r4, r5⟩ := hreq
    rw [hnot] at r2
    rw [hfile, hsize, hnum] at r3
    rw [haddr] at r5
    refine ⟨?_, r1, r2, r3, r4, r5⟩
    rw [hsfa, if_pos hyes, if_pos (by rw [r1]; decide)]

/-- Scenario S3 with the working directory known: the renamed upload adopts the cached size
and date, and a second file-exists request is queued. -/
theorem setFileExistsAction_rename_upload_s3 :
    (opsOf demoS3World 0 = [demoS3Frame] ∧ demoS3Frame.opId = Command.transfer ∧
      demoS3.overwriteAction = OverwriteAction.rename ∧ demoS3Frame.download_ = false ∧
      (cacheHooks.LookupFile (some 7) (some ["x"]) "new.txt").1 = true ∧
      (cacheHooks.LookupFile (some 7) (some ["x"]) "new.txt").2.1 = true) ∧
      SetFileExistsAction cacheHooks 0 5 demoS3 demoS3World =
        some (true, (CheckOverwriteFile cacheHooks 0
          (demoS3World.setSocket 0
            { demoS3World.sockets 0 with m_pCurOpData := [demoS3Adopted] })).2) ∧
      (SetFileExistsAction cacheHooks 0 5 demoS3 demoS3World).map
          (fun r => r.2.notifications.filterMap fileExistsSummary) =
        some [(false, "old.txt", 5, 1), (false, "new.txt", 10, 2)] ∧
      (SetFileExistsAction cacheHooks 0 5 demoS3 demoS3World).map
          (fun r => (r.1, (opsOf r.2 0).map (fun op => op.waitForAsyncRequest))) =
        some (true, [true]) :=
  ⟨⟨rfl, rfl, rfl, rfl, by decide, by decide⟩,
    ((setFileExistsAction_rename_upload cacheHooks 0 5 demoS3 demoS3World
      (demoS3World.setSocket 0 { demoS3World.sockets 0 with m_pCurOpData := [demoS3Renamed] })
      (demoS3World.setSocket 0 { demoS3World.sockets 0 with m_pCurOpData := [demoS3Adopted] })
      demoS3Frame demoS3Renamed demoS3Adopted []
      (true, true, { size := 10, time := some 1704067200000 })
      rfl rfl rfl rfl (by decide) rfl rfl rfl rfl).2 rfl (Or.inr (Or.inl (by decide)))).1,
    by decide, by decide⟩

/-- Claim C24 (amended). `Cancel` of a transfer (awaiting a file-exists reply or not) with
more fuel than frames leaves no current operation, and a reply delivered afterwards through
`SetFileExistsAction` is discarded: the answer is `false` and the state is unchanged. More
generally `SetFileExistsAction` answers `false` without any change of state, whatever the
reply and the fuel, whenever there is no current operation or the current operation is not a
transfer. -/
theorem c24_stale_reply_discarded (h : Hooks) (s : SocketId) (fuel fuel2 : Nat)
    (n : CFileExistsNotification) (w w2 : World) (cur : COpData) (rest : List COpData)
    (hops : opsOf w s = cur :: rest) (hid : cur.opId = Command.transfer)
    (hfuel : rest.length + 1 < fuel)
    (hother : (opsOf w2 s).head?.map (fun op => op.opId) ≠ some Command.transfer) :
    (match Cancel h s fuel w with
      | none => False
      | some w1 => opsOf w1 s = [] ∧ SetFileExistsAction h s fuel2 n w1 = some (false, w1)) ∧
    SetFileExistsAction h s fuel2 n w2 = some (false, w2) := by
  have hgen : ∀ w3 : World,
      (opsOf w3 s).head?.map (fun op => op.opId) ≠ some Command.transfer →
      SetFileExistsAction h s fuel2 n w3 = some (false, w3) := by
    intro w3 h3
    unfold SetFileExistsAction
    unfold opsOf at h3
    cases hc : (w3.sockets s).m_pCurOpData with
    | nil => rfl
    | cons op ops =>
      rw [hc] at h3
      simp only [List.head?_cons, Option.map_some', ne_eq, Option.some.injEq] at h3
      dsimp only
      rw [if_pos h3]
  refine ⟨?_, hgen w2 hother⟩
  have hcmd : GetCurrentCommandId h s w = cur.opId := by
    unfold GetCurrentCommandId
    unfold opsOf at hops
    rw [hops]
  unfold Cancel
  rw [hcmd, if_pos (by rw [hid]; decide), if_neg (by rw [hid]; decide)]
  obtain ⟨w1, e1, _, k1⟩ := exec_reset_propagating h s _ isSubcommandCode_canceled
    _ w fuel (by rw [hops]) (by simp only [List.length_cons]; omega)
  unfold ResetOperation
  rw [e1]
  simp only [coreOf, Prod.mk.injEq] at k1
  simp only [Option.map_some']
  have hempty : opsOf w1 s = [] := k1.1
  exact ⟨hempty, hgen w1 (by rw [hempty]; simp)⟩

theorem c24_stale_reply_discarded_witness :
    (opsOf demoAwaiting 0 =
        [{ addr := 1, opId := Command.transfer, download_ := true,
           waitForAsyncRequest := true }] ∧
      ([] : List COpData).length + 1 < 5 ∧
      (opsOf demoStack 0).head?.map (fun op => op.opId) ≠ some Command.transfer) ∧
      (match Cancel idleHooks 0 5 demoAwaiting with
        | none => False
        | some w1 =>
          opsOf w1 0 = [] ∧ SetFileExistsAction idleHooks 0 0 demoSkip w1 = some (false, w1)) ∧
      SetFileExistsAction idleHooks 0 0 demoSkip demoStack = some (false, demoStack) :=
  ⟨⟨rfl, by decide, by decide⟩,
    c24_stale_reply_discarded idleHooks 0 5 0 demoSkip demoAwaiting demoStack
      { addr := 1, opId := Command.transfer, download_ := true, waitForAsyncRequest := true }
      [] rfl rfl (by decide) (by decide)⟩

/-- Counterexample to claim C24 as stated. A download that awaits a file-exists reply is
cancelled; a new download is started (frame 2); the reply `skip` to the first request is
then delivered: `SetFileExistsAction` tests only that the current operation is a transfer,
answers `true` and resets the new transfer with `OK`, deleting frame 2. -/
theorem c24_counterexample :
    ((Cancel idleHooks 0 5 demoAwaiting).bind
        (fun w1 => SetFileExistsAction idleHooks 0 5 demoSkip
          (Push 0 { addr := 2, opId := Command.transfer, download_ := true } w1))).map
      (fun r => (r.1, addrsOf r.2 0, (r.2.sockets 0).destroyed,
        (r.2.sockets 0).messages.map Prod.snd)) =
    some (true, [], [1, 2],
      ["File transfer aborted by user", "Skipping download of %s", "File transfer skipped"]) := by
  decide

/-! ## The rename reply when the working directory is unknown (C23) -/

/-- Claim C23, the failing input evaluated. The directory cache has a case-exact entry for
`new.txt` in `/x`, the directory the upload goes to, with size 10 and a date. The upload runs
with the working directory unknown and the absolute path not tried, and the reply renames
the remote file to `new.txt`. `SetFileExistsAction` looks the name up under the empty
working directory, finds nothing, and proceeds with `SendNextCommand`: no second request is
queued, size and date stay unknown, and the operation does not wait for a reply. The
overwrite check itself, run on the renamed operation, looks under `/x`, finds the entry and
asks. With the working directory known to be `/x` the same reply adopts the entry and queues
the second request. -/
theorem c23_rename_lookup_misses_target_directory :
    dirCacheHooks.LookupFile (some 7) (some ["x"]) "new.txt" =
      (true, true, { size := 10, time := some 1704067200000 }) ∧
    ((demoS3NoCwd.sockets 0).m_CurrentPath = none ∧ demoS3Frame.tryAbsolutePath_ = false ∧
      demoS3Frame.remotePath_ = some ["x"] ∧ demoS3Frame.download_ = false) ∧
    SetFileExistsAction dirCacheHooks 0 5 demoS3 demoS3NoCwd =
      (SendNextCommand dirCacheHooks 0 5
        (demoS3NoCwd.setSocket 0
          { demoS3NoCwd.sockets 0 with m_pCurOpData := [demoS3Renamed] })).map
        (fun r => (true, r.2)) ∧
    (SetFileExistsAction dirCacheHooks 0 5 demoS3 demoS3NoCwd).map
        (fun r => r.2.notifications.filterMap fileExistsSummary) =
      some [(false, "old.txt", 5, 1)] ∧
    (SetFileExistsAction dirCacheHooks 0 5 demoS3 demoS3NoCwd).map
        (fun r => (opsOf r.2 0).map
          (fun op => (op.remoteFile_, op.remoteFileSize_, op.waitForAsyncRequest))) =
      some [("new.txt", -1, false)] ∧
    (CheckOverwriteFile dirCacheHooks 0
        (demoS3NoCwd.setSocket 0
          { demoS3NoCwd.sockets 0 with m_pCurOpData := [demoS3Renamed] })).1 =
      FZ_REPLY_WOULDBLOCK ∧
    (SetFileExistsAction dirCacheHooks 0 5 demoS3 demoS3World).map
        (fun r => r.2.notifications.filterMap fileExistsSummary) =
      some [(false, "old.txt", 5, 1), (false, "new.txt", 10, 2)] := by
  refine ⟨by decide, ⟨rfl, rfl, rfl, rfl⟩, rfl, by decide, by decide, by decide, by decide⟩

/-! ## Lock queries and recursion: `IsLocked`, recursive acquire and release, promotion -/

theorem any_owner_of_getLockStatus (s : SocketId) (l : List t_lockInfo) :
    l.any (fun r => decide (r.pControlSocket = s)) = (GetLockStatus s l).isSome := by
  cases hg : GetLockStatus s l with
  | none =>
    have hno := GetLockStatus_none hg
    simp only [Option.isSome_none, List.any_eq_false, decide_eq_true_eq]
    exact hno
  | some v =>
    obtain ⟨pre, own, post⟩ := v
    obtain ⟨hl, hown, _⟩ := GetLockStatus_some hg
    simp only [Option.isSome_some, List.any_eq_true, decide_eq_true_eq]
    exact ⟨own, by rw [hl]; simp, hown⟩

/-- Claim C25 (amended). `IsLocked(reason, directory)` returns true whenever the calling
socket owns a record, whatever the record's position, directory and reason and whatever the
other records are; when the socket owns no record it returns whether some record of the whole
list matches (same server, directory and reason). -/
theorem c25_is_locked (self : SocketId) (reason : locking_reason) (directory : CServerPath)
    (w : World) :
    IsLocked self reason directory w =
      if w.m_lockInfoList.any (fun r => decide (r.pControlSocket = self)) then true
      else w.m_lockInfoList.any (lockMatches w (w.serverOf self) directory reason) := by
  rw [any_owner_of_getLockStatus]
  unfold IsLocked
  cases GetLockStatus self w.m_lockInfoList <;> rfl

theorem c25_is_locked_witness :
    IsLocked 4 locking_reason.lock_list (some ["x"]) demoLocked =
      if demoLocked.m_lockInfoList.any (fun r => decide (r.pControlSocket = 4)) then true
      else demoLocked.m_lockInfoList.any
        (lockMatches demoLocked (demoLocked.serverOf 4) (some ["x"]) locking_reason.lock_list) :=
  c25_is_locked 4 locking_reason.lock_list (some ["x"]) demoLocked

/-- Counterexample to claim C25 as stated. In `demoLocked` socket 1 owns the first record of
the list: its own record exists and no record is strictly earlier, so no earlier record
matches; `IsLocked` still returns true, for the directory of the record and for any other. -/
theorem c25_counterexample :
    (GetLockStatus 1 demoLocked.m_lockInfoList).map (fun v => v.1) = some [] ∧
      IsLocked 1 locking_reason.lock_list (some ["x"]) demoLocked = true ∧
      IsLocked 1 locking_reason.lock_mkdir (some ["y"]) demoLocked = true := by
  decide

/-- Claim C26 (amended). When the calling socket already has a record with a non-zero count,
`TryLockCache` returns true for every reason and directory without looking at any other
record. If the current operation does not hold the lock yet, its `holdsLock_` is set and the
record's count is incremented by one; if it holds the lock already, nothing changes. -/
theorem c26_recursive_acquire (s : SocketId) (reason : locking_reason)
    (directory : CServerPath) (w : World) (cur : COpData) (rest : List COpData)
    (pre post : List t_lockInfo) (own : t_lockInfo)
    (hops : opsOf w s = cur :: rest)
    (hg : GetLockStatus s w.m_lockInfoList = some (pre, own, post))
    (hcount : own.lockcount ≠ 0) :
    (cur.holdsLock_ = false →
      TryLockCache s reason directory w = some (true,
        { w.setHoldsLock s true with
          m_lockInfoList := pre ++ { own with lockcount := own.lockcount + 1 } :: post })) ∧
    (cur.holdsLock_ = true → TryLockCache s reason directory w = some (true, w)) := by
  unfold opsOf at hops
  unfold TryLockCache
  simp only [hops, hg]
  rw [if_pos hcount]
  refine ⟨fun hf => ?_, fun ht => ?_⟩
  · rw [if_pos (by simp [hf])]
  · rw [if_neg (by simp [ht])]

theorem c26_recursive_acquire_witness :
    (opsOf demoBusy 1 = [{ addr := 9, opId := Command.other 0, holdsLock_ := true },
        { addr := 1, opId := Command.list, holdsLock_ := true }] ∧
      GetLockStatus 1 demoBusy.m_lockInfoList =
        some ([], t_lockInfo.mk 1 (some ["x"]) locking_reason.lock_list false 2,
          [t_lockInfo.mk 2 (some ["x"]) locking_reason.lock_list true 0]) ∧
      (t_lockInfo.mk 1 (some ["x"]) locking_reason.lock_list false 2).lockcount ≠ 0 ∧
      ({ addr := 9, opId := Command.other 0, holdsLock_ := true } : COpData).holdsLock_ = true) ∧
      TryLockCache 1 locking_reason.lock_mkdir (some ["y"]) demoBusy = some (true, demoBusy) :=
  ⟨⟨by decide, by decide, by decide, rfl⟩,
    (c26_recursive_acquire 1 locking_reason.lock_mkdir (some ["y"]) demoBusy
      { addr := 9, opId := Command.other 0, holdsLock_ := true }
      [{ addr := 1, opId := Command.list, holdsLock_ := true }] []
      [t_lockInfo.mk 2 (some ["x"]) locking_reason.lock_list true 0]
      (t_lockInfo.mk 1 (some ["x"]) locking_reason.lock_list false 2)
      (by decide) (by decide) (by decide)).2 rfl⟩

/-- Counterexample to claim C26 as stated. In `demoLocked` socket 1 has a record with count 1
and its current operation holds the lock already; `TryLockCache` returns true but the count
stays 1: the increment is guarded by `!m_pCurOpData->holdsLock_`. -/
theorem c26_counterexample :
    (opsOf demoLocked 1).map (fun op => op.holdsLock_) = [true] ∧
      (GetLockStatus 1 demoLocked.m_lockInfoList).map (fun v => v.2.1.lockcount) = some 1 ∧
      (TryLockCache 1 locking_reason.lock_list (some ["x"]) demoLocked).map
        (fun r => (r.1, (GetLockStatus 1 r.2.m_lockInfoList).map (fun v => v.2.1.lockcount))) =
        some (true, some 1) := by
  decide

/-- Claim C27. Let the current operation hold the lock and the socket's record `own` have a
count of at least 1 (so that, by invariant (ii), it is not waiting). If the count is greater
than 1, `UnlockCache` clears the operation's `holdsLock_`, decrements the count by exactly
one, keeps the record at its position, and changes nothing else: no `CObtainLockEvent` is
posted. If the count is 1, the unlock brings it to zero and the record is erased. -/
theorem c27_recursive_release (s : SocketId) (w : World) (cur : COpData)
    (rest : List COpData) (pre post : List t_lockInfo) (own : t_lockInfo)
    (hops : opsOf w s = cur :: rest) (hh : cur.holdsLock_ = true)
    (hg : GetLockStatus s w.m_lockInfoList = some (pre, own, post))
    (hii : own.waiting = true → own.lockcount = 0) (hpos : 1 ≤ own.lockcount) :
    (1 < own.lockcount →
      UnlockCache s w =
        { w.setHoldsLock s false with
          m_lockInfoList := pre ++ { own with lockcount := own.lockcount - 1 } :: post } ∧
      (UnlockCache s w).obtainLockEvents = w.obtainLockEvents ∧
      opsOf (UnlockCache s w) s = { cur with holdsLock_ := false } :: rest) ∧
    (own.lockcount = 1 →
      (UnlockCache s w).m_lockInfoList = pre ++ post ∧
      opsOf (UnlockCache s w) s = { cur with holdsLock_ := false } :: rest) := by
  have hnw : own.waiting = false := by
    cases hw : own.waiting with
    | false => rfl
    | true => have := hii hw; omega
  have hself := setHoldsLock_ops_self w s false
  unfold opsOf at hops
  rw [hops] at hself
  have hu : UnlockCache s w =
      if own.lockcount - 1 ≠ 0 then
        { w.setHoldsLock s false with
          m_lockInfoList := pre ++ { own with lockcount := own.lockcount - 1 } :: post }
      else
        eraseAndNotify s pre { own with lockcount := own.lockcount - 1 } post
          (w.setHoldsLock s false) := by
    unfold UnlockCache
    simp only [hops, hh, Bool.not_true, Bool.false_eq_true, if_false,
      setHoldsLock_lockInfoList, hg, hnw, Bool.not_false, if_true]
  refine ⟨fun h1 => ?_, fun h1 => ?_⟩
  · rw [hu, if_pos (by omega)]
    refine ⟨rfl, ?_, ?_⟩
    · simp
    · simpa [opsOf] using hself
  · rw [hu, if_neg (by omega)]
    refine ⟨eraseAndNotify_lockInfoList _ _ _ _ _, ?_⟩
    unfold opsOf
    rw [eraseAndNotify_sockets]
    simpa using hself

theorem c27_recursive_release_witness :
    (opsOf demoBusy 1 = [{ addr := 9, opId := Command.other 0, holdsLock_ := true },
        { addr := 1, opId := Command.list, holdsLock_ := true }] ∧
      GetLockStatus 1 demoBusy.m_lockInfoList =
        some ([], t_lockInfo.mk 1 (some ["x"]) locking_reason.lock_list false 2,
          [t_lockInfo.mk 2 (some ["x"]) locking_reason.lock_list true 0]) ∧
      (1 : Int) < (t_lockInfo.mk 1 (some ["x"]) locking_reason.lock_list false 2).lockcount) ∧
      UnlockCache 1 demoBusy =
        { demoBusy.setHoldsLock 1 false with
          m_lockInfoList := [] ++
            { t_lockInfo.mk 1 (some ["x"]) locking_reason.lock_list false 2 with
              lockcount :=
                (t_lockInfo.mk 1 (some ["x"]) locking_reason.lock_list false 2).lockcount - 1 } ::
            [t_lockInfo.mk 2 (some ["x"]) locking_reason.lock_list true 0] } ∧
      (UnlockCache 1 demoBusy).obtainLockEvents = demoBusy.obtainLockEvents ∧
      opsOf (UnlockCache 1 demoBusy) 1 =
        { ({ addr := 9, opId := Command.other 0, holdsLock_ := true } : COpData) with
          holdsLock_ := false } :: [{ addr := 1, opId := Command.list, holdsLock_ := true }] :=
  ⟨⟨by decide, by decide, by decide⟩,
    (c27_recursive_release 1 demoBusy
      { addr := 9, opId := Command.other 0, holdsLock_ := true }
      [{ addr := 1, opId := Command.list, holdsLock_ := true }] []
      [t_lockInfo.mk 2 (some ["x"]) locking_reason.lock_list true 0]
      (t_lockInfo.mk 1 (some ["x"]) locking_reason.lock_list false 2)
      (by decide) rfl (by decide) (by decide) (by decide)).1 (by decide)⟩

/-- Claim C28. `ObtainLockFromEvent` returns `lock_unknown` and leaves the state unchanged
when the socket has no current operation, when it owns no record, when its record is not
waiting, and when a strictly earlier record matches the record's server, directory and
reason. In the remaining case (a current operation, a waiting record with count 0 as
invariant (ii) requires, no earlier match) it returns the record's reason and turns the
record, at its position, into a holder with `waiting = false` and count 1; a `TryLockCache`
of the socket after that returns true, for any reason and directory. -/
theorem c28_obtain_lock_from_event (s : SocketId) (w : World) (cur : COpData)
    (rest : List COpData) (pre post : List t_lockInfo) (own : t_lockInfo)
    (reason : locking_reason) (directory : CServerPath) :
    (opsOf w s = [] → ObtainLockFromEvent s w = (locking_reason.lock_unknown, w)) ∧
    (GetLockStatus s w.m_lockInfoList = none →
      ObtainLockFromEvent s w = (locking_reason.lock_unknown, w)) ∧
    (GetLockStatus s w.m_lockInfoList = some (pre, own, post) →
      own.waiting = false ∨
        pre.any (lockMatches w (w.serverOf s) own.directory own.reason) = true →
      ObtainLockFromEvent s w = (locking_reason.lock_unknown, w)) ∧
    (opsOf w s = cur :: rest →
      GetLockStatus s w.m_lockInfoList = some (pre, own, post) →
      own.waiting = true → own.lockcount = 0 →
      pre.any (lockMatches w (w.serverOf s) own.directory own.reason) = false →
      ObtainLockFromEvent s w = (own.reason,
        { w with m_lockInfoList :=
            pre ++ { own with waiting := false, lockcount := 1 } :: post }) ∧
      (TryLockCache s reason directory (ObtainLockFromEvent s w).2).map Prod.fst =
        some true) := by
  refine ⟨fun hops => ?_, fun hg => ?_, fun hg hc => ?_, fun hops hg hw hc0 hany => ?_⟩
  · unfold opsOf at hops
    unfold ObtainLockFromEvent
    rw [hops]
  · unfold ObtainLockFromEvent
    cases (w.sockets s).m_pCurOpData with
    | nil => rfl
    | cons c r => simp only [hg]
  · unfold ObtainLockFromEvent
    cases (w.sockets s).m_pCurOpData with
    | nil => rfl
    | cons c r =>
      simp only [hg]
      rcases hc with hc | hc
      · rw [if_pos (by simp [hc])]
      · split_ifs <;> rfl
  · unfold opsOf at hops
    have he : ObtainLockFromEvent s w = (own.reason,
        { w with m_lockInfoList :=
            pre ++ { own with waiting := false, lockcount := 1 } :: post }) := by
      unfold ObtainLockFromEvent
      simp only [hops, hg]
      rw [if_neg (by simp [hw]), if_neg (by simp [hany]), hc0]
      rfl
    refine ⟨he, ?_⟩
    rw [he]
    obtain ⟨_, hown, hpre⟩ := GetLockStatus_some hg
    have hg2 : GetLockStatus s
        (pre ++ { own with waiting := false, lockcount := 1 } :: post) =
        some (pre, { own with waiting := false, lockcount := 1 }, post) :=
      GetLockStatus_eq_some pre post _ hown hpre
    unfold TryLockCache
    simp only [hops, hg2]
    rw [if_pos (by decide)]
    split_ifs <;> rfl

theorem c28_obtain_lock_from_event_witness :
    (opsOf demoS5 2 = [{ addr := 2, opId := Command.list, holdsLock_ := true }] ∧
      GetLockStatus 2 demoS5.m_lockInfoList =
        some ([], t_lockInfo.mk 2 (some ["x"]) locking_reason.lock_list true 0, []) ∧
      demoS5.obtainLockEvents = [2]) ∧
      ObtainLockFromEvent 2 demoS5 = (locking_reason.lock_list,
        { demoS5 with m_lockInfoList :=
            [] ++ { t_lockInfo.mk 2 (some ["x"]) locking_reason.lock_list true 0 with
              waiting := false, lockcount := 1 } :: [] }) ∧
      (TryLockCache 2 locking_reason.lock_list (some ["x"])
        (ObtainLockFromEvent 2 demoS5).2).map Prod.fst = some true :=
  ⟨⟨by decide, by decide, by decide⟩,
    (c28_obtain_lock_from_event 2 demoS5
      { addr := 2, opId := Command.list, holdsLock_ := true } [] [] []
      (t_lockInfo.mk 2 (some ["x"]) locking_reason.lock_list true 0)
      locking_reason.lock_list (some ["x"])).2.2.2
      (by decide) (by decide) rfl rfl (by decide)⟩

/-! ## Invariants (i) and (ii) of the lock list (C29) -/

theorem LockOwners_nil : LockOwners [] :=
  ⟨List.nodup_nil, fun r hr => by simp at hr⟩

theorem LockOwners_update (pre post : List t_lockInfo) (own own1 : t_lockInfo)
    (h : LockOwners (pre ++ own :: post)) (hown : own1.pControlSocket = own.pControlSocket)
    (hc : (own1.waiting = true → own1.lockcount = 0) ∧
      (own1.waiting = false → 1 ≤ own1.lockcount)) :
    LockOwners (pre ++ own1 :: post) := by
  refine ⟨?_, CountsOK_update pre post own own1 h.2 hc⟩
  have := h.1
  simp only [List.map_append, List.map_cons] at this ⊢
  rw [hown]
  exact this

theorem LockOwners_erase (pre post : List t_lockInfo) (own : t_lockInfo)
    (h : LockOwners (pre ++ own :: post)) : LockOwners (pre ++ post) := by
  refine ⟨?_, CountsOK_erase pre post own h.2⟩
  have := h.1
  simp only [List.map_append, List.map_cons] at this ⊢
  exact (List.nodup_cons.mp (List.nodup_middle.mp this)).2

theorem LockOwners_append (l : List t_lockInfo) (x : t_lockInfo) (h : LockOwners l)
    (hno : ∀ r ∈ l, r.pControlSocket ≠ x.pControlSocket)
    (hc : (x.waiting = true → x.lockcount = 0) ∧ (x.waiting = false → 1 ≤ x.lockcount)) :
    LockOwners (l ++ [x]) := by
  refine ⟨?_, CountsOK_append l x h.2 hc⟩
  simp only [List.map_append, List.map_cons, List.map_nil]
  rw [List.nodup_append]
  refine ⟨h.1, List.nodup_singleton _, ?_⟩
  intro a ha hb
  simp only [List.mem_singleton] at hb
  simp only [List.mem_map] at ha
  obtain ⟨r, hr, hra⟩ := ha
  exact hno r hr (by rw [hra, hb])

theorem TryLockCache_owners (s : SocketId) (r : locking_reason) (d : CServerPath)
    (w w1 : World) (b : Bool) (hinv : LockOwners w.m_lockInfoList)
    (h : TryLockCache s r d w = some (b, w1)) : LockOwners w1.m_lockInfoList := by
  unfold TryLockCache at h
  cases hops : (w.sockets s).m_pCurOpData with
  | nil => simp [hops] at h
  | cons cur rest =>
    simp only [hops] at h
    cases hg : GetLockStatus s w.m_lockInfoList with
    | none =>
      simp only [hg] at h
      have hno := GetLockStatus_none hg
      split_ifs at h with hany
      · simp only [Option.some.injEq, Prod.mk.injEq] at h
        rw [← h.2]
        exact LockOwners_append _ _ hinv hno ⟨fun _ => rfl, fun hw => by simp at hw⟩
      · simp only [Option.some.injEq, Prod.mk.injEq] at h
        rw [← h.2]
        exact LockOwners_append _ _ hinv hno ⟨fun hw => by simp at hw, fun _ => by simp⟩
    | some v =>
      obtain ⟨pre, own, post⟩ := v
      obtain ⟨hl, hown, _⟩ := GetLockStatus_some hg
      simp only [hg] at h
      have hco := hinv.2 own (by rw [hl]; simp)
      rw [hl] at hinv
      split_ifs at h with hcnt hh hany
      · simp only [Option.some.injEq, Prod.mk.injEq] at h
        rw [← h.2]
        refine LockOwners_update pre post own _ hinv rfl ⟨?_, ?_⟩
        · intro hw; exact absurd (hco.1 hw) hcnt
        · intro hw
          have := hco.2 hw
          show 1 ≤ own.lockcount + 1
          omega
      · simp only [Option.some.injEq, Prod.mk.injEq] at h
        rw [← h.2, hl]; exact hinv
      · simp only [Option.some.injEq, Prod.mk.injEq] at h
        rw [← h.2, setHoldsLock_lockInfoList, hl]; exact hinv
      · simp only [Option.some.injEq, Prod.mk.injEq] at h
        rw [← h.2]
        have hc0 : own.lockcount = 0 := by simpa using hcnt
        refine LockOwners_update pre post own _ hinv rfl
          ⟨fun hw => by simp at hw, fun _ => ?_⟩
        show 1 ≤ own.lockcount + 1
        omega

theorem UnlockCache_owners (s : SocketId) (w : World) (hinv : LockOwners w.m_lockInfoList) :
    LockOwners (UnlockCache s w).m_lockInfoList := by
  unfold UnlockCache
  cases hops : (w.sockets s).m_pCurOpData with
  | nil => exact hinv
  | cons cur rest =>
    dsimp only
    split_ifs with hh
    · exact hinv
    · rw [setHoldsLock_lockInfoList]
      cases hg : GetLockStatus s w.m_lockInfoList with
      | none =>
        dsimp only
        rw [setHoldsLock_lockInfoList]
        exact hinv
      | some v =>
        obtain ⟨pre, own, post⟩ := v
        obtain ⟨hl, hown, _⟩ := GetLockStatus_some hg
        have hco := hinv.2 own (by rw [hl]; simp)
        rw [hl] at hinv
        dsimp only
        split_ifs with hw hc
        · have hwf : own.waiting = false := by simpa using hw
          have h1 := hco.2 hwf
          refine LockOwners_update pre post own _ hinv rfl ⟨?_, ?_⟩
          · intro hw2
            rw [hwf] at hw2
            exact absurd hw2 (by simp)
          · intro _
            show 1 ≤ own.lockcount - 1
            omega
        · rw [eraseAndNotify_lockInfoList]
          exact LockOwners_erase pre post own hinv
        · rw [eraseAndNotify_lockInfoList]
          exact LockOwners_erase pre post own hinv

theorem ObtainLockFromEvent_owners (s : SocketId) (w : World)
    (hinv : LockOwners w.m_lockInfoList) :
    LockOwners (ObtainLockFromEvent s w).2.m_lockInfoList := by
  unfold ObtainLockFromEvent
  cases hops : (w.sockets s).m_pCurOpData with
  | nil => exact hinv
  | cons cur rest =>
    dsimp only
    cases hg : GetLockStatus s w.m_lockInfoList with
    | none => exact hinv
    | some v =>
      obtain ⟨pre, own, post⟩ := v
      obtain ⟨hl, hown, _⟩ := GetLockStatus_some hg
      have hco := hinv.2 own (by rw [hl]; simp)
      dsimp only
      split_ifs with hw hany
      · exact hinv
      · exact hinv
      · have hwt : own.waiting = true := by simpa using hw
        have hc0 := hco.1 hwt
        rw [hl] at hinv
        refine LockOwners_update pre post own _ hinv rfl
          ⟨fun h => by simp at h, fun _ => ?_⟩
        show 1 ≤ own.lockcount + 1
        omega

theorem runLock_owners (calls : List LockCall) :
    ∀ (w w1 : World), LockOwners w.m_lockInfoList → runLock calls w = some w1 →
      LockOwners w1.m_lockInfoList := by
  induction calls with
  | nil =>
    intro w w1 hinv h
    simp only [runLock, Option.some.injEq] at h
    rw [← h]; exact hinv
  | cons c cs ih =>
    intro w w1 hinv h
    simp only [runLock] at h
    cases hc : c.apply w with
    | none => simp [hc] at h
    | some w2 =>
      simp only [hc] at h
      refine ih w2 w1 ?_ h
      cases c with
      | TryLockCache s r d =>
        simp only [LockCall.apply, Option.map_eq_some', Prod.exists, exists_eq_right] at hc
        obtain ⟨b, hc⟩ := hc
        exact TryLockCache_owners s r d w w2 b hinv hc
      | UnlockCache s =>
        simp only [LockCall.apply, Option.some.injEq] at hc
        rw [← hc]; exact UnlockCache_owners s w hinv
      | ObtainLockFromEvent s =>
        simp only [LockCall.apply, Option.some.injEq] at hc
        rw [← hc]; exact ObtainLockFromEvent_owners s w hinv
      | setOps s ops =>
        simp only [LockCall.apply, Option.some.injEq] at hc
        rw [← hc]; exact hinv

/-- Claim C29. From any world with an empty lock list, after any sequence of `TryLockCache`,
`UnlockCache` and `ObtainLockFromEvent` calls of any sockets (interleaved with arbitrary
changes of their operation stacks), no socket owns more than one record, every waiting record
has count 0 and every record that is not waiting has a count of at least 1. -/
theorem c29_owners_and_counts (calls : List LockCall) (w0 w : World)
    (hempty : w0.m_lockInfoList = []) (hrun : runLock calls w0 = some w) :
    (∀ s, (w.m_lockInfoList.map (fun r => r.pControlSocket)).count s ≤ 1) ∧
      ∀ r ∈ w.m_lockInfoList,
        (r.waiting = true → r.lockcount = 0) ∧ (r.waiting = false → 1 ≤ r.lockcount) := by
  have h0 : LockOwners w0.m_lockInfoList := by rw [hempty]; exact LockOwners_nil
  obtain ⟨h1, h2⟩ := runLock_owners calls w0 w h0 hrun
  exact ⟨fun s => List.nodup_iff_count_le_one.mp h1 s, h2⟩

theorem c29_owners_and_counts_witness :
    (demoWorld.m_lockInfoList = [] ∧
      runLock [LockCall.TryLockCache 1 locking_reason.lock_list (some ["x"]),
        LockCall.TryLockCache 2 locking_reason.lock_list (some ["x"]),
        LockCall.UnlockCache 1] demoWorld = some demoS5) ∧
      ((∀ s, (demoS5.m_lockInfoList.map (fun r => r.pControlSocket)).count s ≤ 1) ∧
        ∀ r ∈ demoS5.m_lockInfoList,
          (r.waiting = true → r.lockcount = 0) ∧ (r.waiting = false → 1 ≤ r.lockcount)) :=
  ⟨⟨rfl, rfl⟩,
    c29_owners_and_counts
      [LockCall.TryLockCache 1 locking_reason.lock_list (some ["x"]),
        LockCall.TryLockCache 2 locking_reason.lock_list (some ["x"]),
        LockCall.UnlockCache 1] demoWorld demoS5 rfl rfl⟩

/-! ## Invariant (iii): count equals the number of lock-holding frames (C30) -/

theorem CountsMatch_congr (l : List t_lockInfo) (hc hc1 : SocketId → Nat)
    (h : ∀ u, hc1 u = hc u) (hm : CountsMatch l hc) : CountsMatch l hc1 := by
  obtain ⟨m1, m2, m3⟩ := hm
  refine ⟨m1, ?_, ?_⟩
  · intro r hr
    rw [h]
    exact m2 r hr
  · intro u hu
    rw [h]
    exact m3 u hu

theorem CountsMatch_update (pre post : List t_lockInfo) (own own1 : t_lockInfo)
    (hc hc1 : SocketId → Nat) (s : SocketId)
    (hm : CountsMatch (pre ++ own :: post) hc)
    (hown : own.pControlSocket = s) (hown1 : own1.pControlSocket = s)
    (hne : ∀ u, u ≠ s → hc1 u = hc u)
    (hco : (own1.waiting = true → own1.lockcount = 0) ∧
      (own1.waiting = false → 1 ≤ own1.lockcount))
    (hm1 : (own1.waiting = false → own1.lockcount = hc1 s) ∧
      (own1.waiting = true → hc1 s = 1)) :
    CountsMatch (pre ++ own1 :: post) hc1 := by
  obtain ⟨m1, m2, m3⟩ := hm
  have hno := nodup_owner_ne pre post own m1.1
  rw [hown] at hno
  refine ⟨LockOwners_update pre post own own1 m1 (by rw [hown1, hown]) hco, ?_, ?_⟩
  · intro r hr
    rcases List.mem_append.mp hr with hr | hr
    · rw [hne _ (hno r (List.mem_append_left _ hr))]
      exact m2 r (List.mem_append_left _ hr)
    · rcases List.mem_cons.mp hr with hr | hr
      · rw [hr, hown1]; exact hm1
      · rw [hne _ (hno r (List.mem_append_right _ hr))]
        exact m2 r (List.mem_append_right _ (List.mem_cons_of_mem _ hr))
  · intro u hu
    have hus : u ≠ s := by
      intro he
      exact hu own1 (by simp) (by rw [hown1, he])
    rw [hne u hus]
    apply m3
    intro r hr
    rcases List.mem_append.mp hr with hr | hr
    · exact hu r (List.mem_append_left _ hr)
    · rcases List.mem_cons.mp hr with hr | hr
      · rw [hr, hown]; exact fun he => hus he.symm
      · exact hu r (List.mem_append_right _ (List.mem_cons_of_mem _ hr))

theorem CountsMatch_erase (pre post : List t_lockInfo) (own : t_lockInfo)
    (hc hc1 : SocketId → Nat) (s : SocketId)
    (hm : CountsMatch (pre ++ own :: post) hc) (hown : own.pControlSocket = s)
    (hne : ∀ u, u ≠ s → hc1 u = hc u) (h0 : hc1 s = 0) :
    CountsMatch (pre ++ post) hc1 := by
  obtain ⟨m1, m2, m3⟩ := hm
  have hno := nodup_owner_ne pre post own m1.1
  rw [hown] at hno
  refine ⟨LockOwners_erase pre post own m1, ?_, ?_⟩
  · intro r hr
    rw [hne _ (hno r hr)]
    rcases List.mem_append.mp hr with hr | hr
    · exact m2 r (List.mem_append_left _ hr)
    · exact m2 r (List.mem_append_right _ (List.mem_cons_of_mem _ hr))
  · intro u hu
    by_cases hus : u = s
    · rw [hus]; exact h0
    · rw [hne u hus]
      apply m3
      intro r hr
      rcases List.mem_append.mp hr with hr | hr
      · exact hu r (List.mem_append_left _ hr)
      · rcases List.mem_cons.mp hr with hr | hr
        · rw [hr, hown]; exact fun he => hus he.symm
        · exact hu r (List.mem_append_right _ hr)

theorem CountsMatch_append (l : List t_lockInfo) (x : t_lockInfo)
    (hc hc1 : SocketId → Nat) (s : SocketId) (hm : CountsMatch l hc)
    (hno : ∀ r ∈ l, r.pControlSocket ≠ s) (hx : x.pControlSocket = s)
    (hne : ∀ u, u ≠ s → hc1 u = hc u)
    (hco : (x.waiting = true → x.lockcount = 0) ∧ (x.waiting = false → 1 ≤ x.lockcount))
    (hm1 : (x.waiting = false → x.lockcount = hc1 s) ∧ (x.waiting = true → hc1 s = 1)) :
    CountsMatch (l ++ [x]) hc1 := by
  obtain ⟨m1, m2, m3⟩ := hm
  refine ⟨LockOwners_append l x m1 (by rw [hx]; exact hno) hco, ?_, ?_⟩
  · intro r hr
    rcases List.mem_append.mp hr with hr | hr
    · rw [hne _ (hno r hr)]
      exact m2 r hr
    · simp only [List.mem_singleton] at hr
      rw [hr, hx]; exact hm1
  · intro u hu
    have hus : u ≠ s := by
      intro he
      exact hu x (by simp) (by rw [hx, he])
    rw [hne u hus]
    exact m3 u (fun r hr => hu r (List.mem_append_left _ hr))

theorem LockCounts_of_ops (w w1 : World) (hl : w1.m_lockInfoList = w.m_lockInfoList)
    (hops : ∀ u, holdCount (opsOf w1 u) = holdCount (opsOf w u)) (hb : LockCounts w) :
    LockCounts w1 := by
  unfold LockCounts at hb ⊢
  rw [hl]
  exact CountsMatch_congr _ _ _ hops hb

theorem LockCounts_of_sameCore (w w1 : World) (hs : SameCore w w1) (hb : LockCounts w) :
    LockCounts w1 :=
  LockCounts_of_ops w w1 hs.1 (fun u => by rw [hs.ops u]) hb

theorem LockCounts_setOps (w : World) (s : SocketId) (x : CControlSocket)
    (hx : holdCount x.m_pCurOpData = holdCount (opsOf w s)) (hb : LockCounts w) :
    LockCounts (w.setSocket s x) := by
  refine LockCounts_of_ops w _ rfl (fun u => ?_) hb
  by_cases hu : u = s
  · subst hu; simpa [opsOf] using hx
  · simp [opsOf, hu]

theorem TryLockCache_counts (s : SocketId) (r : locking_reason) (d : CServerPath)
    (w w1 : World) (b : Bool) (hb : LockCounts w)
    (hn : (SocketCall.TryLockCache s r d).nested w = true)
    (h : TryLockCache s r d w = some (b, w1)) : LockCounts w1 := by
  unfold TryLockCache at h
  cases hops : (w.sockets s).m_pCurOpData with
  | nil => simp [hops] at h
  | cons cur rest =>
    simp only [hops] at h
    have hself := setHoldsLock_opsOf_self w s true cur rest hops
    have hne : ∀ u, u ≠ s → holdCount (opsOf (w.setHoldsLock s true) u) =
        holdCount (opsOf w u) :=
      fun u hu => by rw [setHoldsLock_opsOf_ne w s u true hu]
    have hcNew : holdCount (opsOf (w.setHoldsLock s true) s) = holdCount rest + 1 := by
      rw [hself, holdCount_cons]; simp
    have hcOld : holdCount (opsOf w s) =
        holdCount rest + (if cur.holdsLock_ = true then 1 else 0) := by
      unfold opsOf; rw [hops, holdCount_cons]
    unfold LockCounts at hb ⊢
    cases hg : GetLockStatus s w.m_lockInfoList with
    | none =>
      simp only [hg] at h
      have hno := GetLockStatus_none hg
      have hz := hb.2.2 s hno
      simp only at hz
      rw [hcOld] at hz
      have hr0 : holdCount rest = 0 := by omega
      split_ifs at h with hany
      · simp only [Option.some.injEq, Prod.mk.injEq] at h
        rw [← h.2]
        refine CountsMatch_append _ _ _ _ s hb hno rfl hne
          ⟨fun _ => rfl, fun hw => by simp at hw⟩ ⟨fun hw => by simp at hw, fun _ => ?_⟩
        show holdCount (opsOf (w.setHoldsLock s true) s) = 1
        rw [hcNew, hr0]
      · simp only [Option.some.injEq, Prod.mk.injEq] at h
        rw [← h.2]
        refine CountsMatch_append _ _ _ _ s hb hno rfl hne
          ⟨fun hw => by simp at hw, fun _ => by simp⟩ ⟨fun _ => ?_, fun hw => by simp at hw⟩
        show (0 + 1 : Int) = holdCount (opsOf (w.setHoldsLock s true) s)
        rw [hcNew, hr0]
        rfl
    | some v =>
      obtain ⟨pre, own, post⟩ := v
      obtain ⟨hl, hown, _⟩ := GetLockStatus_some hg
      simp only [hg] at h
      simp only [SocketCall.nested, hg, hops] at hn
      have hco := hb.1.2 own (by rw [hl]; simp)
      have hbo := hb.2.1 own (by rw [hl]; simp)
      simp only at hbo
      rw [hown, hcOld] at hbo
      rw [hl] at hb
      split_ifs at h with hcnt hh hany
      · simp only [Option.some.injEq, Prod.mk.injEq] at h
        rw [← h.2]
        have hf : cur.holdsLock_ = false := by simpa using hh
        have hnw : own.waiting = false := by
          cases hw : own.waiting with
          | false => rfl
          | true => exact absurd (hco.1 hw) hcnt
        have hcnt2 := hbo.1 hnw
        rw [hf] at hcnt2
        simp only [Bool.false_eq_true, if_false, add_zero] at hcnt2
        refine CountsMatch_update pre post own _ _ _ s hb hown hown hne ⟨?_, ?_⟩ ⟨?_, ?_⟩
        · intro hw; rw [hnw] at hw; simp at hw
        · intro _
          have := hco.2 hnw
          show 1 ≤ own.lockcount + 1
          omega
        · intro _
          show own.lockcount + 1 = holdCount (opsOf (w.setHoldsLock s true) s)
          rw [hcNew, hcnt2]
          push_cast
          rfl
        · intro hw; rw [hnw] at hw; simp at hw
      · simp only [Option.some.injEq, Prod.mk.injEq] at h
        rw [← h.2, hl]; exact hb
      · simp only [Option.some.injEq, Prod.mk.injEq] at h
        rw [← h.2, setHoldsLock_lockInfoList, hl]
        have hc0 : own.lockcount = 0 := by simpa using hcnt
        have hwt : own.waiting = true := by
          cases hw : own.waiting with
          | true => rfl
          | false => have := hco.2 hw; omega
        have hcur : cur.holdsLock_ = true := by simpa [hwt] using hn
        refine CountsMatch_congr _ _ _ (fun u => ?_) hb
        by_cases hu : u = s
        · rw [hu, hcNew, hcOld, hcur]; simp
        · exact hne u hu
      · simp only [Option.some.injEq, Prod.mk.injEq] at h
        rw [← h.2]
        have hc0 : own.lockcount = 0 := by simpa using hcnt
        have hwt : own.waiting = true := by
          cases hw : own.waiting with
          | true => rfl
          | false => have := hco.2 hw; omega
        have hcur : cur.holdsLock_ = true := by simpa [hwt] using hn
        have h1 := hbo.2 hwt
        rw [hcur] at h1
        simp only [if_true] at h1
        refine CountsMatch_update pre post own _ _ _ s hb hown hown hne
          ⟨fun hw => by simp at hw, fun _ => ?_⟩ ⟨fun _ => ?_, fun hw => by simp at hw⟩
        · show 1 ≤ own.lockcount + 1
          omega
        · show own.lockcount + 1 = holdCount (opsOf (w.setHoldsLock s true) s)
          rw [hcNew, hc0, h1]
          rfl

theorem UnlockCache_counts (s : SocketId) (w : World) (hb : LockCounts w) :
    LockCounts (UnlockCache s w) := by
  unfold UnlockCache
  cases hops : (w.sockets s).m_pCurOpData with
  | nil => exact hb
  | cons cur rest =>
    dsimp only
    split_ifs with hh
    · exact hb
    · have hholds : cur.holdsLock_ = true := by simpa using hh
      have hself := setHoldsLock_opsOf_self w s false cur rest hops
      have hne : ∀ u, u ≠ s → holdCount (opsOf (w.setHoldsLock s false) u) =
          holdCount (opsOf w u) :=
        fun u hu => by rw [setHoldsLock_opsOf_ne w s u false hu]
      have hcNew : holdCount (opsOf (w.setHoldsLock s false) s) = holdCount rest := by
        rw [hself, holdCount_cons]; simp
      have hcOld : holdCount (opsOf w s) = holdCount rest + 1 := by
        unfold opsOf; rw [hops, holdCount_cons, hholds]; simp
      rw [setHoldsLock_lockInfoList]
      unfold LockCounts at hb ⊢
      cases hg : GetLockStatus s w.m_lockInfoList with
      | none =>
        have hz := hb.2.2 s (GetLockStatus_none hg)
        simp only at hz
        omega
      | some v =>
        obtain ⟨pre, own, post⟩ := v
        obtain ⟨hl, hown, _⟩ := GetLockStatus_some hg
        have hco := hb.1.2 own (by rw [hl]; simp)
        have hbo := hb.2.1 own (by rw [hl]; simp)
        simp only at hbo
        rw [hown, hcOld] at hbo
        rw [hl] at hb
        dsimp only
        split_ifs with hw hc
        · have hwf : own.waiting = false := by simpa using hw
          have h1 := hco.2 hwf
          have h2 := hbo.1 hwf
          refine CountsMatch_update pre post own _ _ _ s hb hown hown hne ⟨?_, ?_⟩ ⟨?_, ?_⟩
          · intro hw2
            rw [hwf] at hw2
            exact absurd hw2 (by simp)
          · intro _
            show 1 ≤ own.lockcount - 1
            omega
          · intro _
            show own.lockcount - 1 = holdCount (opsOf (w.setHoldsLock s false) s)
            rw [hcNew, h2]
            push_cast
            omega
          · intro hw2
            rw [hwf] at hw2
            exact absurd hw2 (by simp)
        · have hwf : own.waiting = false := by simpa using hw
          have h2 := hbo.1 hwf
          have hc0 : own.lockcount - 1 = 0 := by simpa using hc
          rw [eraseAndNotify_lockInfoList]
          refine CountsMatch_erase pre post own _ _ s hb hown ?_ ?_
          · intro u hu
            show holdCount (opsOf (eraseAndNotify _ _ _ _ _) u) = _
            rw [eraseAndNotify_opsOf]; exact hne u hu
          · show holdCount (opsOf (eraseAndNotify _ _ _ _ _) s) = 0
            rw [eraseAndNotify_opsOf, hcNew]
            omega
        · have hwt : own.waiting = true := by simpa using hw
          have h2 := hbo.2 hwt
          rw [eraseAndNotify_lockInfoList]
          refine CountsMatch_erase pre post own _ _ s hb hown ?_ ?_
          · intro u hu
            show holdCount (opsOf (eraseAndNotify _ _ _ _ _) u) = _
            rw [eraseAndNotify_opsOf]; exact hne u hu
          · show holdCount (opsOf (eraseAndNotify _ _ _ _ _) s) = 0
            rw [eraseAndNotify_opsOf, hcNew]
            omega

theorem ObtainLockFromEvent_counts (s : SocketId) (w : World) (hb : LockCounts w) :
    LockCounts (ObtainLockFromEvent s w).2 := by
  unfold ObtainLockFromEvent
  cases hops : (w.sockets s).m_pCurOpData with
  | nil => exact hb
  | cons cur rest =>
    dsimp only
    cases hg : GetLockStatus s w.m_lockInfoList with
    | none => exact hb
    | some v =>
      obtain ⟨pre, own, post⟩ := v
      obtain ⟨hl, hown, _⟩ := GetLockStatus_some hg
      unfold LockCounts at hb
      have hco := hb.1.2 own (by rw [hl]; simp)
      have hbo := hb.2.1 own (by rw [hl]; simp)
      simp only at hbo
      rw [hown] at hbo
      dsimp only
      split_ifs with hw hany
      · exact hb
      · exact hb
      · have hwt : own.waiting = true := by simpa using hw
        have hc0 := hco.1 hwt
        have h1 := hbo.2 hwt
        rw [hl] at hb
        unfold LockCounts
        refine CountsMatch_update pre post own _ _ _ s hb hown hown (fun _ _ => rfl)
          ⟨fun h => by simp at h, fun _ => ?_⟩ ⟨fun _ => ?_, fun h => by simp at h⟩
        · show 1 ≤ own.lockcount + 1
          omega
        · show own.lockcount + 1 = holdCount (opsOf w s)
          rw [hc0, h1]
          rfl

theorem Push_counts (s : SocketId) (op : COpData) (w : World) (hf : op.holdsLock_ = false)
    (hb : LockCounts w) : LockCounts (Push s op w) := by
  unfold Push
  refine LockCounts_setOps w s _ ?_ hb
  simp only [holdCount_cons, hf, Bool.false_eq_true, if_false, add_zero]
  rfl

theorem unlockIfHolds_counts (s : SocketId) (w : World) (hb : LockCounts w) :
    LockCounts (unlockIfHolds s w) := by
  unfold unlockIfHolds
  cases hops : (w.sockets s).m_pCurOpData with
  | nil => exact hb
  | cons cur rest =>
    dsimp only
    split_ifs
    · exact UnlockCache_counts s w hb
    · exact hb

theorem resetRoot_counts (h : Hooks) (s : SocketId) (code : Nat) (w : World)
    (hz : holdCount (opsOf w s) = 0) (hb : LockCounts w) :
    LockCounts (resetRoot h s code w).2 := by
  obtain ⟨_, s2, _, s4, s5⟩ := resetRoot_spec h s code w
  refine LockCounts_of_ops w _ s2 (fun u => ?_) hb
  by_cases hu : u = s
  · rw [hu, hz]
    simp only [coreOf, Prod.mk.injEq] at s5
    unfold opsOf
    rw [s5.1]
    rfl
  · have := s4 u hu
    simp only [coreOf, Prod.mk.injEq] at this
    unfold opsOf
    rw [this.1]

theorem exec_counts (h : Hooks) (s : SocketId) (hk : HooksKeepCounts h) :
    ∀ (fuel : Nat) (c : Call) (w w1 : World) (r : Nat), LockCounts w →
      exec h s fuel c w = some (r, w1) → LockCounts w1 := by
  intro fuel
  induction fuel with
  | zero => intro c w w1 r _ he; simp [exec] at he
  | succ f ih =>
    intro c w w1 r hb he
    cases c with
    | ResetOperation code =>
      have hb1 := unlockIfHolds_counts s w hb
      have hct : holdCount (opsOf (unlockIfHolds s w) s) =
          holdCount ((opsOf (unlockIfHolds s w) s).drop 1) := by
        rw [unlockIfHolds_ops, holdCount_clearTop]
        cases opsOf w s <;> simp [clearTop]
      cases hops : opsOf (unlockIfHolds s w) s with
      | nil =>
        rw [exec_reset_root h s f code w (by rw [hops]; simp)] at he
        simp only [Option.some.injEq] at he
        have := resetRoot_counts h s code _ (by rw [hops]; rfl) hb1
        rw [he] at this
        exact this
      | cons old rest =>
        rw [hops] at hct
        cases rest with
        | nil =>
          rw [exec_reset_root h s f code w (by rw [hops]; simp)] at he
          simp only [Option.some.injEq] at he
          have := resetRoot_counts h s code _ (by rw [hops, hct]; rfl) hb1
          rw [he] at this
          exact this
        | cons parent rest =>
          rw [exec_reset_pop h s f code w old parent rest hops] at he
          have hb2 : LockCounts ((unlockIfHolds s w).setSocket s
              { (unlockIfHolds s w).sockets s with m_pCurOpData := parent :: rest }) := by
            refine LockCounts_setOps _ s _ ?_ hb1
            rw [hops, hct]
            simp
          generalize hsub : (if isSubcommandCode code = true then
            exec h s f (Call.ParseSubcommandResult code old)
              ((unlockIfHolds s w).setSocket s
                { (unlockIfHolds s w).sockets s with m_pCurOpData := parent :: rest })
            else
              exec h s f (Call.ResetOperation code)
                ((unlockIfHolds s w).setSocket s
                  { (unlockIfHolds s w).sockets s with m_pCurOpData := parent :: rest })) = res
            at he
          cases res with
          | none => simp at he
          | some p =>
            obtain ⟨ret, w3⟩ := p
            simp only [Option.some.injEq, Prod.mk.injEq] at he
            obtain ⟨_, he⟩ := he
            have hb3 : LockCounts w3 := by
              split_ifs at hsub
              · exact ih _ _ _ _ hb2 hsub
              · exact ih _ _ _ _ hb2 hsub
            rw [← he]
            unfold deleteOpData
            exact LockCounts_setOps w3 s _ rfl hb3
    | ParseSubcommandResult prev op =>
      rw [exec] at he
      have hb0 : LockCounts (countSubcommandResult s w) := by
        unfold countSubcommandResult
        exact LockCounts_setOps w s _ rfl hb
      have hh := hk.2 s prev op _ hb0
      generalize h.SubcommandResult s prev op (countSubcommandResult s w) = res at he hh
      cases hops : (w.sockets s).m_pCurOpData with
      | nil =>
        simp only [hops] at he
        cases hr : exec h s f (Call.ResetOperation FZ_REPLY_ERROR) w with
        | none => simp [hr] at he
        | some p =>
          obtain ⟨ret, w2⟩ := p
          simp only [hr, Option.some.injEq, Prod.mk.injEq] at he
          rw [← he.2]
          exact ih _ _ _ _ hb hr
      | cons cur rest =>
        simp only [hops] at he
        split_ifs at he with h1 h2
        · simp only [Option.some.injEq, Prod.mk.injEq] at he
          rw [← he.2]; exact hh
        · exact ih _ _ _ _ hh he
        · exact ih _ _ _ _ hh he
    | SendNextCommand =>
      rw [exec] at he
      cases hops : (w.sockets s).m_pCurOpData with
      | nil =>
        simp only [hops] at he
        cases hr : exec h s f (Call.ResetOperation FZ_REPLY_ERROR) w with
        | none => simp [hr] at he
        | some p =>
          obtain ⟨ret, w2⟩ := p
          simp only [hr, Option.some.injEq, Prod.mk.injEq] at he
          rw [← he.2]
          exact ih _ _ _ _ hb hr
      | cons cur rest =>
        simp only [hops] at he
        exact ih _ _ _ _ hb he
    | SendNextCommandLoop =>
      rw [exec] at he
      have hh := hk.1 s w hb
      generalize h.Send s w = res at he hh
      cases hops : (w.sockets s).m_pCurOpData with
      | nil =>
        simp only [hops, Option.some.injEq, Prod.mk.injEq] at he
        rw [← he.2]; exact hb
      | cons cur rest =>
        simp only [hops] at he
        split_ifs at he with h1 h2 h3 h4 h5 h6 h7
        · simp only [Option.some.injEq, Prod.mk.injEq] at he
          rw [← he.2]; exact hb
        · simp only [Option.some.injEq, Prod.mk.injEq] at he
          rw [← he.2]
          exact LockCounts_of_sameCore _ _ (SetWait_sameCore s true w) hb
        · exact ih _ _ _ _ hh he
        · exact ih _ _ _ _ hh he
        · exact ih _ _ _ _ hh he
        · simp only [Option.some.injEq, Prod.mk.injEq] at he
          rw [← he.2]; exact hh
        · exact ih _ _ _ _ hh he
        · exact ih _ _ _ _ hh he
    | DoClose code =>
      rw [exec] at he
      dsimp only at he
      have hsame : SameCore w (if (w.sockets s).isReal = true then ResetSocket s w else w) := by
        split_ifs
        · exact ResetSocket_sameCore s w
        · exact SameCore.refl w
      generalize (if (w.sockets s).isReal = true then ResetSocket s w else w) = w0 at hsame he
      have hb0 := LockCounts_of_sameCore _ _ hsame hb
      split_ifs at he with hcl
      · simp only [Option.some.injEq, Prod.mk.injEq] at he
        rw [← he.2]; exact hb0
      · cases hr : exec h s f (Call.ResetOperation
            (FZ_REPLY_ERROR ||| FZ_REPLY_DISCONNECTED ||| code))
            (w0.setSocket s { w0.sockets s with m_closed := true }) with
        | none => simp [hr] at he
        | some p =>
          obtain ⟨ret, w2⟩ := p
          simp only [hr, Option.some.injEq, Prod.mk.injEq] at he
          have hb1 : LockCounts (w0.setSocket s { w0.sockets s with m_closed := true }) :=
            LockCounts_setOps _ s _ rfl hb0
          have hb2 := ih _ _ _ _ hb1 hr
          rw [← he.2]
          exact LockCounts_setOps _ s _ rfl hb2

theorem runSocket_counts (h : Hooks) (hk : HooksKeepCounts h) (calls : List SocketCall) :
    ∀ (w w1 : World), LockCounts w → nestedCalls h calls w = true →
      runSocket h calls w = some w1 → LockCounts w1 := by
  induction calls with
  | nil =>
    intro w w1 hb _ hr
    simp only [runSocket, Option.some.injEq] at hr
    rw [← hr]; exact hb
  | cons c cs ih =>
    intro w w1 hb hn hr
    simp only [nestedCalls, Bool.and_eq_true] at hn
    obtain ⟨hn1, hn2⟩ := hn
    simp only [runSocket] at hr
    cases hc : c.apply h w with
    | none => simp [hc] at hr
    | some w2 =>
      simp only [hc] at hr hn2
      refine ih w2 w1 ?_ hn2 hr
      cases c with
      | Push s op =>
        simp only [SocketCall.apply, Option.some.injEq] at hc
        rw [← hc]
        exact Push_counts s op w (by simpa [SocketCall.nested] using hn1) hb
      | TryLockCache s r d =>
        simp only [SocketCall.apply, Option.map_eq_some', Prod.exists, exists_eq_right] at hc
        obtain ⟨b, hc⟩ := hc
        exact TryLockCache_counts s r d w w2 b hb hn1 hc
      | UnlockCache s =>
        simp only [SocketCall.apply, Option.some.injEq] at hc
        rw [← hc]; exact UnlockCache_counts s w hb
      | ObtainLockFromEvent s =>
        simp only [SocketCall.apply, Option.some.injEq] at hc
        rw [← hc]; exact ObtainLockFromEvent_counts s w hb
      | exec s fuel c =>
        simp only [SocketCall.apply, Option.map_eq_some', Prod.exists, exists_eq_right] at hc
        obtain ⟨r, hc⟩ := hc
        exact exec_counts h s hk fuel c w w2 r hb hc
      | setServer s srv =>
        simp only [SocketCall.apply, Option.some.injEq] at hc
        rw [← hc]
        exact LockCounts_setOps _ s _ rfl hb

theorem idleHooks_keepCounts : HooksKeepCounts idleHooks :=
  ⟨fun _ _ hb => hb, fun _ _ _ _ hb => hb⟩

/-- Claim C30 (amended). Let the protocol callbacks keep the bookkeeping, and start from a
world with an empty lock list in which no frame has `holdsLock_` set. In every state reached
by `Push`, `TryLockCache`, `UnlockCache`, `ObtainLockFromEvent`, `ResetOperation` (and the
other entry points of the operation stack) in which every pushed frame is fresh and a socket
whose record is waiting repeats `TryLockCache` only from the operation that is waiting, the
count of every record that is not waiting equals the number of frames on its owner's
operation stack whose `holdsLock_` is set. -/
theorem c30_count_equals_holders (h : Hooks) (calls : List SocketCall) (w0 w : World)
    (hk : HooksKeepCounts h) (hempty : w0.m_lockInfoList = [])
    (hfresh : ∀ u, holdCount (opsOf w0 u) = 0)
    (hnested : nestedCalls h calls w0 = true) (hrun : runSocket h calls w0 = some w) :
    ∀ r ∈ w.m_lockInfoList, r.waiting = false →
      r.lockcount = holdCount (opsOf w r.pControlSocket) := by
  have hb0 : LockCounts w0 := by
    unfold LockCounts
    rw [hempty]
    exact ⟨LockOwners_nil, fun r hr => by simp at hr, fun u _ => hfresh u⟩
  have hb := runSocket_counts h hk calls w0 w hb0 hnested hrun
  intro r hr hw
  exact (hb.2.1 r hr).1 hw

theorem c30_count_equals_holders_witness :
    (demoWorld.m_lockInfoList = [] ∧
      nestedCalls idleHooks
        [SocketCall.TryLockCache 1 locking_reason.lock_list (some ["x"]),
          SocketCall.Push 1 { addr := 9, opId := Command.other 0 },
          SocketCall.TryLockCache 1 locking_reason.lock_list (some ["x"]),
          SocketCall.TryLockCache 2 locking_reason.lock_list (some ["x"])] demoWorld = true ∧
      runSocket idleHooks
        [SocketCall.TryLockCache 1 locking_reason.lock_list (some ["x"]),
          SocketCall.Push 1 { addr := 9, opId := Command.other 0 },
          SocketCall.TryLockCache 1 locking_reason.lock_list (some ["x"]),
          SocketCall.TryLockCache 2 locking_reason.lock_list (some ["x"])] demoWorld =
        some demoBusy ∧
      demoBusy.m_lockInfoList =
        [t_lockInfo.mk 1 (some ["x"]) locking_reason.lock_list false 2,
          t_lockInfo.mk 2 (some ["x"]) locking_reason.lock_list true 0]) ∧
      ∀ r ∈ demoBusy.m_lockInfoList, r.waiting = false →
        r.lockcount = holdCount (opsOf demoBusy r.pControlSocket) :=
  ⟨⟨rfl, by decide, rfl, by decide⟩,
    c30_count_equals_holders idleHooks
      [SocketCall.TryLockCache 1 locking_reason.lock_list (some ["x"]),
        SocketCall.Push 1 { addr := 9, opId := Command.other 0 },
        SocketCall.TryLockCache 1 locking_reason.lock_list (some ["x"]),
        SocketCall.TryLockCache 2 locking_reason.lock_list (some ["x"])]
      demoWorld demoBusy idleHooks_keepCounts rfl (fun _ => rfl) (by decide) rfl⟩

/-- Counterexample to claim C30 as stated. Socket 1 takes the lock on `/x`; socket 2 asks for
it and waits (its frame is flagged); socket 2 pushes a sub-operation, which asks again while
the record is still waiting (the new frame is flagged too); socket 1 unlocks and socket 2 is
promoted by `ObtainLockFromEvent`: its record is a holder with count 1, while two frames of
its stack have `holdsLock_` set. -/
theorem c30_counterexample :
    (runSocket idleHooks
        [SocketCall.TryLockCache 1 locking_reason.lock_list (some ["x"]),
          SocketCall.TryLockCache 2 locking_reason.lock_list (some ["x"]),
          SocketCall.Push 2 { addr := 9, opId := Command.other 0 },
          SocketCall.TryLockCache 2 locking_reason.lock_list (some ["x"]),
          SocketCall.UnlockCache 1,
          SocketCall.ObtainLockFromEvent 2] demoWorld).map
      (fun w => (w.m_lockInfoList, holdCount (opsOf w 2))) =
    some ([t_lockInfo.mk 2 (some ["x"]) locking_reason.lock_list false 1], 2) := by
  decide

/-! ## Size limit of the memory writer (C31) -/

theorem sizeSub_of_le (L len : Nat) (hL : L < SIZE_MOD) (hlen : len ≤ L) :
    sizeSub L len = L - len := by
  unfold sizeSub
  have h1 : len % SIZE_MOD = len := Nat.mod_eq_of_lt (by omega)
  rw [h1]
  have h2 : L + SIZE_MOD - len = (L - len) + SIZE_MOD := by omega
  rw [h2, Nat.add_mod_right]
  exact Nat.mod_eq_of_lt (by omega)

theorem signal_capacity_memory (w : writer_base) (hk : w.kind = writer_kind.memory_writer) :
    signal_capacity w =
      if w.sizeLimit_ ≠ 0 ∧
          (w.buffers_.getD w.ready_pos_ []).length >
            sizeSub w.sizeLimit_ w.result_buffer_.length then
        { w with ready_count_ := sizeDec w.ready_count_, error_ := true }
      else
        { w with ready_count_ := sizeDec w.ready_count_,
                 result_buffer_ := w.result_buffer_ ++ w.buffers_.getD w.ready_pos_ [] } := by
  unfold signal_capacity
  rw [hk]

theorem signal_capacity_withinLimit (L : Nat) (w : writer_base) (hL0 : L ≠ 0)
    (hL : L < SIZE_MOD) (h : WithinLimit L w) : WithinLimit L (signal_capacity w) := by
  obtain ⟨hk, hl, hlen⟩ := h
  rw [signal_capacity_memory w hk]
  split_ifs with hc
  · exact ⟨hk, hl, hlen⟩
  · refine ⟨hk, hl, ?_⟩
    have hs := sizeSub_of_le L w.result_buffer_.length hL hlen
    rw [hl, hs] at hc
    have : (w.buffers_.getD w.ready_pos_ []).length ≤ L - w.result_buffer_.length := by
      by_contra hn
      exact hc ⟨hL0, by omega⟩
    simp only [List.length_append]
    omega

theorem commit_withinLimit (L : Nat) (d : List Byte) (w : writer_base) (hL0 : L ≠ 0)
    (hL : L < SIZE_MOD) (h : WithinLimit L w) : WithinLimit L (commit d w) := by
  unfold commit
  dsimp only
  split_ifs
  · exact signal_capacity_withinLimit L _ hL0 hL h
  · exact h

theorem get_write_buffer_withinLimit (L : Nat) (d : List Byte) (w : writer_base) (hL0 : L ≠ 0)
    (hL : L < SIZE_MOD) (h : WithinLimit L w) : WithinLimit L (get_write_buffer d w).2 := by
  have hc := commit_withinLimit L d w hL0 hL h
  unfold get_write_buffer
  dsimp only
  split_ifs <;> first | exact h | exact hc

theorem retire_withinLimit (L : Nat) (d : List Byte) (w : writer_base) (hL0 : L ≠ 0)
    (hL : L < SIZE_MOD) (h : WithinLimit L w) : WithinLimit L (retire d w).2 := by
  have h1 : WithinLimit L { w with processing_ := false } := h
  have hc := commit_withinLimit L d { w with processing_ := false } hL0 hL h1
  unfold retire
  dsimp only
  split_ifs <;> first | exact h | exact hc

theorem write_withinLimit (L : Nat) (d : List Byte) (w : writer_base) (hL0 : L ≠ 0)
    (hL : L < SIZE_MOD) (h : WithinLimit L w) : WithinLimit L (write d w).2 := by
  unfold write
  dsimp only
  split_ifs <;> first | exact h | exact signal_capacity_withinLimit L _ hL0 hL h

theorem continue_finalize_withinLimit (L : Nat) (f : Bool) (w : writer_base)
    (h : WithinLimit L w) : WithinLimit L (continue_finalize f w).2 := by
  unfold continue_finalize
  rw [h.1]
  exact h

theorem finalize_withinLimit (L : Nat) (f : Bool) (d : List Byte) (w : writer_base)
    (hL0 : L ≠ 0) (hL : L < SIZE_MOD) (h : WithinLimit L w) :
    WithinLimit L (finalize f d w).2 := by
  have h1 : WithinLimit L { w with processing_ := false } := h
  have hc := commit_withinLimit L d { w with processing_ := false } hL0 hL h1
  unfold finalize
  dsimp only
  split_ifs <;>
    first
    | exact h
    | exact hc
    | exact continue_finalize_withinLimit L f _ hc
    | exact continue_finalize_withinLimit L f _ h

theorem entry_step_withinLimit (L : Nat) (k : Option Nat) (w : writer_base)
    (h : WithinLimit L w) : WithinLimit L (entry_step k w) := by
  unfold entry_step
  dsimp only
  cases k with
  | none => dsimp only; split_ifs <;> exact h
  | some k => dsimp only; split_ifs <;> exact h

theorem apply_withinLimit (L : Nat) (op : WriterOp) (w : writer_base) (hL0 : L ≠ 0)
    (hL : L < SIZE_MOD) (h : WithinLimit L w) : WithinLimit L (op.apply w) := by
  cases op with
  | get_write_buffer l => exact get_write_buffer_withinLimit L l w hL0 hL h
  | retire l => exact retire_withinLimit L l w hL0 hL h
  | write d => exact write_withinLimit L d w hL0 hL h
  | finalize f l => exact finalize_withinLimit L f l w hL0 hL h
  | entry_step k => exact entry_step_withinLimit L k w h

theorem runWriter_withinLimit (L : Nat) (hL0 : L ≠ 0) (hL : L < SIZE_MOD)
    (ops : List WriterOp) :
    ∀ w : writer_base, WithinLimit L w → WithinLimit L (runWriter ops w) := by
  induction ops with
  | nil => intro w h; exact h
  | cons op rest ih =>
    intro w h
    exact ih _ (apply_withinLimit L op w hL0 hL h)

/-- Claim C31. A memory writer opened with a size limit `L ≠ 0` (a `size_t`), after any
sequence `ops` of producer calls and worker passes: the result buffer holds at most `L`
bytes, also after `close`; the subtraction `sizeLimit_ - result_buffer_.size()` does not
wrap; and when the slot at `ready_pos_` is longer than `L` minus the size of the result
buffer, `signal_capacity` sets `error_` and leaves the result buffer as it is, while a slot
that fits is appended. -/
theorem c31_memory_size_limit (n size L : Nat) (fsync : Bool) (ops : List WriterOp)
    (w : writer_base) (hL0 : L ≠ 0) (hL : L < SIZE_MOD)
    (hw : w = runWriter ops (openWriter writer_kind.memory_writer n size L fsync)) :
    w.result_buffer_.length ≤ L ∧
    (memory_writer.close w).result_buffer_.length ≤ L ∧
    sizeSub w.sizeLimit_ w.result_buffer_.length = L - w.result_buffer_.length ∧
    (L - w.result_buffer_.length < (w.buffers_.getD w.ready_pos_ []).length →
      (signal_capacity w).error_ = true ∧
      (signal_capacity w).result_buffer_ = w.result_buffer_) ∧
    ((w.buffers_.getD w.ready_pos_ []).length ≤ L - w.result_buffer_.length →
      (signal_capacity w).error_ = w.error_ ∧
      (signal_capacity w).result_buffer_ =
        w.result_buffer_ ++ w.buffers_.getD w.ready_pos_ []) := by
  have h0 : WithinLimit L (openWriter writer_kind.memory_writer n size L fsync) :=
    ⟨rfl, rfl, Nat.zero_le _⟩
  have h := runWriter_withinLimit L hL0 hL ops _ h0
  rw [← hw] at h
  obtain ⟨hk, hl, hlen⟩ := h
  have hs := sizeSub_of_le L w.result_buffer_.length hL hlen
  refine ⟨hlen, ?_, ?_, ?_, ?_⟩
  · unfold memory_writer.close
    split_ifs
    · simp
    · exact hlen
  · rw [hl]; exact hs
  · intro hbig
    rw [signal_capacity_memory w hk, hl, hs, if_pos ⟨hL0, hbig⟩]
    exact ⟨rfl, rfl⟩
  · intro hfit
    rw [signal_capacity_memory w hk, hl, hs, if_neg (by intro hc; omega)]
    exact ⟨rfl, rfl⟩

theorem c31_memory_size_limit_witness :
    (runWriter [WriterOp.get_write_buffer [], WriterOp.get_write_buffer [1, 2],
        WriterOp.get_write_buffer [3, 4]]
      (openWriter writer_kind.memory_writer 2 8 3 false)).result_buffer_ = [1, 2] ∧
    (runWriter [WriterOp.get_write_buffer [], WriterOp.get_write_buffer [1, 2],
        WriterOp.get_write_buffer [3, 4]]
      (openWriter writer_kind.memory_writer 2 8 3 false)).error_ = true ∧
    (runWriter [WriterOp.get_write_buffer [], WriterOp.get_write_buffer [1, 2],
        WriterOp.get_write_buffer [3, 4]]
      (openWriter writer_kind.memory_writer 2 8 3 false)).result_buffer_.length ≤ 3 :=
  ⟨by decide, by decide,
    (c31_memory_size_limit 2 8 3 false
      [WriterOp.get_write_buffer [], WriterOp.get_write_buffer [1, 2],
        WriterOp.get_write_buffer [3, 4]] _ (by decide) (by decide) rfl).1⟩

/-! ## The receiver of the wake-up event (C32) -/

theorem find?_append_of_none {α : Type} (p : α → Bool) (l1 l2 : List α)
    (h : ∀ x ∈ l1, p x = false) : (l1 ++ l2).find? p = l2.find? p := by
  induction l1 with
  | nil => rfl
  | cons a t ih =>
    simp only [List.cons_append, List.find?_cons, h a (List.mem_cons_self _ _)]
    exact ih (fun x hx => h x (List.mem_cons_of_mem _ hx))

/-- Claim C32 (amended). Let the connected socket `self` own the record `own` of the list
`pre ++ own :: post`, let its current operation hold the lock flag, and let the record be
erased by `UnlockCache` (it is waiting, or it is a holder with `lockcount = 1`). Then the
list becomes `pre ++ post` and at most one `CObtainLockEvent` is posted: to the owner of the
first record of the remaining list, before or behind the erased position and waiting or not,
that matches the erased record in server, directory and reason. When the erased record was
a holder and the list satisfies invariant (iv), that record is the first matching record
behind the erased one, and it is waiting. -/
theorem c32_unlock_event_target (self : SocketId) (w : World) (cur : COpData)
    (rest : List COpData) (pre post : List t_lockInfo) (own : t_lockInfo)
    (hcur : (w.sockets self).m_pCurOpData = cur :: rest) (hholds : cur.holdsLock_ = true)
    (hown : GetLockStatus self w.m_lockInfoList = some (pre, own, post))
    (herase : own.waiting = true ∨ own.lockcount = 1)
    (hsrv : (w.serverOf self).isSome = true) :
    (UnlockCache self w).m_lockInfoList = pre ++ post ∧
    (UnlockCache self w).obtainLockEvents = w.obtainLockEvents ++
      (match (pre ++ post).find?
          (lockMatches w (w.serverOf self) own.directory own.reason) with
        | some r => [r.pControlSocket]
        | none => []) ∧
    (own.waiting = false → HoldersExclusive w →
      (pre ++ post).find? (lockMatches w (w.serverOf self) own.directory own.reason) =
        post.find? (fun r =>
          r.waiting && lockMatches w (w.serverOf self) own.directory own.reason r)) := by
  obtain ⟨hl, hself, _⟩ := GetLockStatus_some hown
  have hsrv2 : ((w.setHoldsLock self false).serverOf self).isNone = false := by
    rw [setHoldsLock_serverOf]
    cases hs : w.serverOf self with
    | none => simp [hs] at hsrv
    | some v => rfl
  have hfun : ∀ own1 : t_lockInfo, own1.directory = own.directory → own1.reason = own.reason →
      (eraseAndNotify self pre own1 post (w.setHoldsLock self false)).m_lockInfoList =
        pre ++ post ∧
      (eraseAndNotify self pre own1 post (w.setHoldsLock self false)).obtainLockEvents =
        w.obtainLockEvents ++
        (match (pre ++ post).find?
            (lockMatches w (w.serverOf self) own.directory own.reason) with
          | some r => [r.pControlSocket]
          | none => []) := by
    intro own1 hd hr
    have hfind : (pre ++ post).find?
        (unlockWakeTest (w.setHoldsLock self false)
          ((w.setHoldsLock self false).serverOf self) own1.directory own1.reason) =
        (pre ++ post).find? (lockMatches w (w.serverOf self) own.directory own.reason) := by
      apply find?_congr_on
      intro r _
      rw [setHoldsLock_serverOf, hd, hr]
      exact unlockWakeTest_eq_lockMatches w _ _ _ _ r
        (fun t => setHoldsLock_serverOf w self t false) hsrv
    unfold eraseAndNotify
    simp only [hsrv2, Bool.false_eq_true, if_false, hfind]
    generalize (pre ++ post).find?
      (lockMatches w (w.serverOf self) own.directory own.reason) = o
    cases o <;> simp
  have hU : ∃ own1 : t_lockInfo, own1.directory = own.directory ∧ own1.reason = own.reason ∧
      UnlockCache self w = eraseAndNotify self pre own1 post (w.setHoldsLock self false) := by
    cases hwt : own.waiting with
    | true =>
      refine ⟨own, rfl, rfl, ?_⟩
      unfold UnlockCache
      simp [hcur, hholds, hown, hwt]
    | false =>
      have hc : own.lockcount = 1 := by
        rcases herase with h1 | h1
        · rw [hwt] at h1; simp at h1
        · exact h1
      refine ⟨{ own with lockcount := own.lockcount - 1 }, rfl, rfl, ?_⟩
      unfold UnlockCache
      simp [hcur, hholds, hown, hwt, hc]
  obtain ⟨own1, hd, hr, hU⟩ := hU
  rw [hU]
  refine ⟨(hfun own1 hd hr).1, (hfun own1 hd hr).2, ?_⟩
  intro hw hinv
  unfold HoldersExclusive at hinv
  rw [hl, List.pairwise_append] at hinv
  obtain ⟨_, hpost, hcross⟩ := hinv
  have hpre : ∀ r ∈ pre,
      lockMatches w (w.serverOf self) own.directory own.reason r = false := by
    intro r hr
    have := hcross r hr own (List.mem_cons_self _ _) hw
    rw [hself] at this
    exact this
  rw [find?_append_of_none _ pre post hpre]
  apply find?_congr_on
  intro r hr
  cases hm : lockMatches w (w.serverOf self) own.directory own.reason r with
  | false => simp
  | true =>
    cases hrw : r.waiting with
    | true => rfl
    | false =>
      exfalso
      have := (List.pairwise_cons.mp hpost).1 r hr hrw
      unfold lockMatches at this hm
      simp only [Bool.and_eq_true, decide_eq_true_eq] at hm
      obtain ⟨⟨m1, m2⟩, m3⟩ := hm
      rw [hself] at this
      simp [m1, m2, m3] at this

theorem c32_unlock_event_target_witness :
    (UnlockCache 2 demoLocked).m_lockInfoList =
      [t_lockInfo.mk 1 (some ["x"]) locking_reason.lock_list false 1] ++
        [t_lockInfo.mk 3 (some ["x"]) locking_reason.lock_list true 0] ∧
    (UnlockCache 2 demoLocked).obtainLockEvents = demoLocked.obtainLockEvents ++
      (match ([t_lockInfo.mk 1 (some ["x"]) locking_reason.lock_list false 1] ++
          [t_lockInfo.mk 3 (some ["x"]) locking_reason.lock_list true 0]).find?
          (lockMatches demoLocked (demoLocked.serverOf 2)
            (t_lockInfo.mk 2 (some ["x"]) locking_reason.lock_list true 0).directory
            (t_lockInfo.mk 2 (some ["x"]) locking_reason.lock_list true 0).reason) with
        | some r => [r.pControlSocket]
        | none => []) :=
  ⟨(c32_unlock_event_target 2 demoLocked
      { addr := 2, opId := Command.list, holdsLock_ := true } []
      [t_lockInfo.mk 1 (some ["x"]) locking_reason.lock_list false 1]
      [t_lockInfo.mk 3 (some ["x"]) locking_reason.lock_list true 0]
      (t_lockInfo.mk 2 (some ["x"]) locking_reason.lock_list true 0)
      rfl rfl rfl (Or.inl rfl) rfl).1,
    (c32_unlock_event_target 2 demoLocked
      { addr := 2, opId := Command.list, holdsLock_ := true } []
      [t_lockInfo.mk 1 (some ["x"]) locking_reason.lock_list false 1]
      [t_lockInfo.mk 3 (some ["x"]) locking_reason.lock_list true 0]
      (t_lockInfo.mk 2 (some ["x"]) locking_reason.lock_list true 0)
      rfl rfl rfl (Or.inl rfl) rfl).2.1⟩

/-- Claim C32, counterexample. In `demoLocked` socket 1 holds the lock on `/x` and sockets 2
and 3 wait for it. When the waiting socket 2 unlocks (its operation is reset), its record is
erased and the event is posted to socket 1: a socket that holds the lock, and whose record
stands before the erased one. The list satisfies invariant (iv). -/
theorem c32_counterexample :
    HoldersExclusive demoLocked ∧
    GetLockStatus 2 demoLocked.m_lockInfoList =
      some ([t_lockInfo.mk 1 (some ["x"]) locking_reason.lock_list false 1],
        t_lockInfo.mk 2 (some ["x"]) locking_reason.lock_list true 0,
        [t_lockInfo.mk 3 (some ["x"]) locking_reason.lock_list true 0]) ∧
    (UnlockCache 2 demoLocked).m_lockInfoList =
      [t_lockInfo.mk 1 (some ["x"]) locking_reason.lock_list false 1,
        t_lockInfo.mk 3 (some ["x"]) locking_reason.lock_list true 0] ∧
    demoLocked.obtainLockEvents = [] ∧
    (UnlockCache 2 demoLocked).obtainLockEvents = [1] ∧
    IsWaitingForLock 1 (UnlockCache 2 demoLocked) = false ∧
    IsWaitingForLock 3 (UnlockCache 2 demoLocked) = true := by
  refine ⟨by decide, by decide, by decide, by decide, by decide, by decide, by decide⟩

/-! ## Wake-up of the producer (C33) -/

theorem signal_capacity_events (w : writer_base) :
    (signal_capacity w).readyEvents = w.readyEvents ∧
    (signal_capacity w).handler_waiting_ = w.handler_waiting_ ∧
    (signal_capacity w).threadDone = w.threadDone ∧ (signal_capacity w).quit_ = w.quit_ ∧
    (signal_capacity w).kind = w.kind := by
  unfold signal_capacity
  cases w.kind with
  | file_writer => exact ⟨rfl, rfl, rfl, rfl, rfl⟩
  | memory_writer =>
    dsimp only
    split_ifs <;> exact ⟨rfl, rfl, rfl, rfl, rfl⟩

theorem signal_capacity_file_error (w : writer_base)
    (hk : w.kind = writer_kind.file_writer) : (signal_capacity w).error_ = w.error_ := by
  unfold signal_capacity
  rw [hk]

theorem commit_events (d : List Byte) (w : writer_base) :
    (commit d w).readyEvents = w.readyEvents ∧
    (commit d w).handler_waiting_ = w.handler_waiting_ ∧
    (commit d w).threadDone = w.threadDone ∧ (commit d w).quit_ = w.quit_ ∧
    (commit d w).kind = w.kind := by
  unfold commit
  dsimp only
  split_ifs
  · exact signal_capacity_events _
  · exact ⟨rfl, rfl, rfl, rfl, rfl⟩

theorem commit_file_error (d : List Byte) (w : writer_base)
    (hk : w.kind = writer_kind.file_writer) : (commit d w).error_ = w.error_ := by
  unfold commit
  dsimp only
  split_ifs
  · exact signal_capacity_file_error _ hk
  · rfl

/-- A producer call that returns `wait` has set `handler_waiting_`; one that returns
something else leaves the flag alone; no producer call sends an event, stops the worker or
sets `quit_`. -/
theorem apply_producer (op : WriterOp) (w : writer_base) (r : aio_result)
    (hr : op.result w = some r) :
    (op.apply w).readyEvents = w.readyEvents ∧ (op.apply w).threadDone = w.threadDone ∧
    (op.apply w).quit_ = w.quit_ ∧ (op.apply w).kind = w.kind ∧
    (r = aio_result.wait → (op.apply w).handler_waiting_ = true) ∧
    (r ≠ aio_result.wait → (op.apply w).handler_waiting_ = w.handler_waiting_) := by
  cases op with
  | get_write_buffer l =>
    simp only [WriterOp.result, Option.some.injEq] at hr
    subst hr
    have hc := commit_events l w
    simp only [WriterOp.apply]
    unfold get_write_buffer
    dsimp only
    split_ifs <;> simp [hc.1, hc.2.1, hc.2.2.1, hc.2.2.2.1, hc.2.2.2.2]
  | retire l =>
    simp only [WriterOp.result, Option.some.injEq] at hr
    subst hr
    have hc := commit_events l { w with processing_ := false }
    simp only [WriterOp.apply]
    unfold retire
    dsimp only
    split_ifs <;> simp [hc.1, hc.2.1, hc.2.2.1, hc.2.2.2.1, hc.2.2.2.2]
  | write d =>
    simp only [WriterOp.result, Option.some.injEq] at hr
    subst hr
    simp only [WriterOp.apply]
    unfold write
    dsimp only
    split_ifs <;> simp [(signal_capacity_events _).1, (signal_capacity_events _).2.1,
      (signal_capacity_events _).2.2.1, (signal_capacity_events _).2.2.2.1,
      (signal_capacity_events _).2.2.2.2]
  | finalize f l =>
    simp only [WriterOp.result, Option.some.injEq] at hr
    subst hr
    have hc := commit_events l { w with processing_ := false }
    simp only [WriterOp.apply]
    unfold finalize continue_finalize
    dsimp only
    cases hk : w.kind <;>
      split_ifs <;> simp_all
  | entry_step k => simp [WriterOp.result] at hr

theorem apply_wait_error (op : WriterOp) (w : writer_base)
    (hk : w.kind = writer_kind.file_writer) (hr : op.result w = some aio_result.wait) :
    (op.apply w).error_ = false := by
  cases op with
  | get_write_buffer l =>
    simp only [WriterOp.result, Option.some.injEq] at hr
    simp only [WriterOp.apply]
    have hc := commit_file_error l w hk
    unfold get_write_buffer at hr ⊢
    dsimp only at hr ⊢
    split_ifs at hr ⊢ <;> simp_all
  | retire l =>
    simp only [WriterOp.result, Option.some.injEq] at hr
    unfold retire at hr
    dsimp only at hr
    split_ifs at hr
  | write d =>
    simp only [WriterOp.result, Option.some.injEq] at hr
    simp only [WriterOp.apply]
    unfold write at hr ⊢
    dsimp only at hr ⊢
    split_ifs at hr ⊢
    simp_all
  | finalize f l =>
    simp only [WriterOp.result, Option.some.injEq] at hr
    simp only [WriterOp.apply]
    have hc := commit_file_error l { w with processing_ := false } hk
    unfold finalize at hr ⊢
    by_cases he : w.error_ = true
    · rw [if_pos he] at hr
      simp at hr
    · rw [if_neg he] at hr ⊢
      dsimp only at hr ⊢
      have hef : w.error_ = false := by simpa using he
      have hw1e : (if (w.processing_ && !l.isEmpty) = true then
          commit l { w with processing_ := false } else w).error_ = false := by
        split_ifs
        · rw [hc]; exact hef
        · exact hef
      generalize (if (w.processing_ && !l.isEmpty) = true then
          commit l { w with processing_ := false } else w) = w1 at hr hw1e ⊢
      by_cases hrc : w1.ready_count_ ≠ 0
      · rw [if_pos hrc]
        exact hw1e
      · rw [if_neg hrc] at hr
        exfalso
        have hcf : (continue_finalize f w1).1 ≠ aio_result.wait := by
          unfold continue_finalize
          cases w1.kind <;> dsimp only <;> (try split_ifs) <;> simp
        split_ifs at hr with h1
        · exact hcf hr
        · exact hcf hr
  | entry_step k => simp [WriterOp.result] at hr

/-- A pass of the running worker with `handler_waiting_` set sends one event and clears the
flag, whether it consumes a slot (also when the write fails) or finds the ring empty. -/
theorem entry_step_wakes (k : Option Nat) (w : writer_base) (hw : w.handler_waiting_ = true)
    (ht : w.threadDone = false) (hq : w.quit_ = false) (he : w.error_ = false) :
    (entry_step k w).readyEvents = w.readyEvents + 1 ∧
    (entry_step k w).handler_waiting_ = false := by
  unfold entry_step
  rw [if_neg (by simp [ht]), if_neg (by simp [hq, he])]
  by_cases hrc : w.ready_count_ = 0
  · rw [if_pos hrc, if_pos hw]
    exact ⟨rfl, rfl⟩
  · rw [if_neg hrc]
    cases k with
    | none =>
      dsimp only
      rw [if_pos hw]
      exact ⟨rfl, rfl⟩
    | some k =>
      dsimp only
      split_ifs <;> exact ⟨rfl, rfl⟩

/-- A pass of the worker with `handler_waiting_` clear sends no event. -/
theorem entry_step_quiet (k : Option Nat) (w : writer_base) (hw : w.handler_waiting_ = false) :
    (entry_step k w).readyEvents = w.readyEvents ∧
    (entry_step k w).handler_waiting_ = false := by
  unfold entry_step
  cases k with
  | none =>
    dsimp only
    split_ifs <;> simp_all
  | some k =>
    dsimp only
    split_ifs <;> simp_all

theorem runWriter_quiet (ops : List WriterOp) :
    ∀ w : writer_base, w.handler_waiting_ = false → waitFree ops w = true →
      (runWriter ops w).readyEvents = w.readyEvents ∧
      (runWriter ops w).handler_waiting_ = false := by
  induction ops with
  | nil => intro w hw _; exact ⟨rfl, hw⟩
  | cons op rest ih =>
    intro w hw hf
    simp only [waitFree, Bool.and_eq_true, decide_eq_true_eq] at hf
    have hstep : (op.apply w).readyEvents = w.readyEvents ∧
        (op.apply w).handler_waiting_ = false := by
      cases hr : op.result w with
      | none =>
        cases op with
        | entry_step k => exact entry_step_quiet k w hw
        | get_write_buffer l => simp [WriterOp.result] at hr
        | retire l => simp [WriterOp.result] at hr
        | write d => simp [WriterOp.result] at hr
        | finalize f l => simp [WriterOp.result] at hr
      | some r =>
        have hp := apply_producer op w r hr
        have hne : r ≠ aio_result.wait := by
          intro he
          rw [hr, he] at hf
          exact hf.1 rfl
        exact ⟨hp.1, by rw [hp.2.2.2.2.2 hne]; exact hw⟩
    have h2 := ih (op.apply w) hstep.2 hf.2
    change (runWriter rest (op.apply w)).readyEvents = w.readyEvents ∧
      (runWriter rest (op.apply w)).handler_waiting_ = false
    exact ⟨by rw [h2.1, hstep.1], h2.2⟩

/-- Claim C33. Let the worker of a file writer be running, and let the producer call `op`
(`get_write_buffer`, `write` or `finalize`) return `wait`. Then `handler_waiting_` is set and
no event has been sent by the call; the next pass of the worker, which consumes a slot or
finds the ring empty, sends exactly one `write_ready_event` and clears the flag; and
throughout any further steps `ops` (worker passes and producer calls) in which no call
returns `wait`, no further event is sent and the flag stays clear. -/
theorem c33_one_ready_event (op : WriterOp) (k : Option Nat) (ops : List WriterOp)
    (w : writer_base) (hk : w.kind = writer_kind.file_writer) (ht : w.threadDone = false)
    (hq : w.quit_ = false) (hr : op.result w = some aio_result.wait)
    (hfree : waitFree ops (entry_step k (op.apply w)) = true) :
    (op.apply w).handler_waiting_ = true ∧ (op.apply w).readyEvents = w.readyEvents ∧
    (entry_step k (op.apply w)).readyEvents = w.readyEvents + 1 ∧
    (entry_step k (op.apply w)).handler_waiting_ = false ∧
    (runWriter ops (entry_step k (op.apply w))).readyEvents = w.readyEvents + 1 ∧
    (runWriter ops (entry_step k (op.apply w))).handler_waiting_ = false := by
  have hp := apply_producer op w aio_result.wait hr
  have he := apply_wait_error op w hk hr
  have hwk := entry_step_wakes k (op.apply w) (hp.2.2.2.2.1 rfl) (by rw [hp.2.1]; exact ht)
    (by rw [hp.2.2.1]; exact hq) he
  have hrun := runWriter_quiet ops _ hwk.2 hfree
  refine ⟨hp.2.2.2.2.1 rfl, hp.1, ?_, hwk.2, ?_, hrun.2⟩
  · rw [hwk.1, hp.1]
  · rw [hrun.1, hwk.1, hp.1]

theorem c33_one_ready_event_witness :
    ((WriterOp.get_write_buffer []).apply demoFullRing).handler_waiting_ = true ∧
    (entry_step none ((WriterOp.get_write_buffer []).apply demoFullRing)).readyEvents = 1 ∧
    (runWriter [WriterOp.entry_step none, WriterOp.get_write_buffer [], WriterOp.entry_step none]
      (entry_step none ((WriterOp.get_write_buffer []).apply demoFullRing))).file_ = [1, 2] ∧
    (runWriter [WriterOp.entry_step none, WriterOp.get_write_buffer [], WriterOp.entry_step none]
      (entry_step none ((WriterOp.get_write_buffer []).apply demoFullRing))).readyEvents =
      demoFullRing.readyEvents + 1 :=
  ⟨by decide, by decide, by decide,
    (c33_one_ready_event (WriterOp.get_write_buffer []) none
      [WriterOp.entry_step none, WriterOp.get_write_buffer [], WriterOp.entry_step none]
      demoFullRing rfl rfl rfl (by decide) (by decide)).2.2.2.2.1⟩

/-! ## The overwrite check (C34) -/

theorem checkOverwriteFile_request_eq (h : Hooks) (s : SocketId) (w : World)
    (pData : COpData) (rest : List COpData) (found matched : Bool) (entry : CDirentry)
    (hops : (w.sockets s).m_pCurOpData = pData :: rest)
    (hlk : h.LookupFile (w.sockets s).currentServer_
        (if pData.tryAbsolutePath_ || (w.sockets s).m_CurrentPath.isNone then pData.remotePath_
          else (w.sockets s).m_CurrentPath) pData.remoteFile_ = (found, matched, entry))
    (hreq : (pData.download_ = true ∧ h.localIsFile pData.localFile_ = true) ∨
      (pData.download_ = false ∧
        ((found && matched) = true ∨ 0 ≤ pData.remoteFileSize_ ∨
          pData.fileTime_.isSome = true))) :
    ∃ (p1 : COpData) (n1 : CFileExistsNotification),
      CheckOverwriteFile h s w = (FZ_REPLY_WOULDBLOCK,
        SendAsyncRequest s n1
          (w.setSocket s { w.sockets s with m_pCurOpData := p1 :: rest })) ∧
      p1.addr = pData.addr ∧ n1.download = pData.download_ ∧
      n1.remoteFile = pData.remoteFile_ ∧ n1.remoteSize = pData.remoteFileSize_ ∧
      n1.canResume = spec_resume_size_known pData := by
  have hres : ((pData.download_ && decide (pData.localFileSize_ ≥ 0)) ||
      (!pData.download_ && decide (pData.remoteFileSize_ ≥ 0))) =
      spec_resume_size_known pData := by
    unfold spec_resume_size_known
    cases pData.download_ <;> simp
  unfold CheckOverwriteFile
  rw [hops]
  dsimp only
  rw [hlk]
  dsimp only
  have h1 : ¬ ((pData.download_ && !h.localIsFile pData.localFile_) = true) := by
    rcases hreq with ⟨_, hf⟩ | ⟨hd, _⟩
    · simp [hf]
    · simp [hd]
  have h2 : ¬ ((!pData.download_ && (!(found && matched) &&
      decide (pData.remoteFileSize_ < 0) && pData.fileTime_.isNone)) = true) := by
    rcases hreq with ⟨hd, _⟩ | ⟨_, hf | hf | hf⟩
    · simp [hd]
    · simp [hf]
    · have : ¬ pData.remoteFileSize_ < 0 := by omega
      simp [this]
    · cases ht : pData.fileTime_ with
      | none => rw [ht] at hf; simp at hf
      | some t => simp
  rw [if_neg h1, if_neg h2]
  refine ⟨_, _, rfl, ?_, ?_, ?_, ?_, ?_⟩ <;> (split_ifs <;> first | rfl | exact hres)

/-- Claim C34. `CheckOverwriteFile` returns `FZ_REPLY_INTERNALERROR` without any effect when
there is no current operation. With the current operation `pData` and the directory cache
answering the lookup with `(found, matched, entry)`: a download whose local target is not a
regular file, and an upload whose target is not found with matching case while remote size
and remote time are unknown, return `FZ_REPLY_OK` without any effect; in every other case
the call returns `FZ_REPLY_WOULDBLOCK`, queues exactly one file-exists request (with the next
request number, and `canResume` true iff the local size is known for a download, the remote
size for an upload) and marks the current operation as waiting for the reply. -/
theorem c34_check_overwrite (h : Hooks) (s : SocketId) (w : World)
    (pData : COpData) (rest : List COpData) (found matched : Bool) (entry : CDirentry)
    (hlk : h.LookupFile (w.sockets s).currentServer_
        (if pData.tryAbsolutePath_ || (w.sockets s).m_CurrentPath.isNone then pData.remotePath_
          else (w.sockets s).m_CurrentPath) pData.remoteFile_ = (found, matched, entry)) :
    ((w.sockets s).m_pCurOpData = [] →
      CheckOverwriteFile h s w = (FZ_REPLY_INTERNALERROR, w)) ∧
    ((w.sockets s).m_pCurOpData = pData :: rest →
      (pData.download_ = true → h.localIsFile pData.localFile_ = false →
        CheckOverwriteFile h s w = (FZ_REPLY_OK, w)) ∧
      (pData.download_ = false → (found && matched) = false → pData.remoteFileSize_ < 0 →
        pData.fileTime_ = none → CheckOverwriteFile h s w = (FZ_REPLY_OK, w)) ∧
      ((pData.download_ = true ∧ h.localIsFile pData.localFile_ = true) ∨
        (pData.download_ = false ∧
          ((found && matched) = true ∨ 0 ≤ pData.remoteFileSize_ ∨
            pData.fileTime_.isSome = true)) →
        (CheckOverwriteFile h s w).1 = FZ_REPLY_WOULDBLOCK ∧
        (CheckOverwriteFile h s w).2.notifications.dropLast = w.notifications ∧
        (CheckOverwriteFile h s w).2.notifications.getLast?.bind fileExistsSummary =
          some (pData.download_, pData.remoteFile_, pData.remoteFileSize_,
            w.nextAsyncRequestNumber + 1) ∧
        (CheckOverwriteFile h s w).2.notifications.getLast?.bind fileExistsCanResume =
          some (spec_resume_size_known pData) ∧
        (opsOf (CheckOverwriteFile h s w).2 s).map (fun op => op.waitForAsyncRequest) =
          true :: rest.map (fun op => op.waitForAsyncRequest) ∧
        addrsOf (CheckOverwriteFile h s w).2 s = addrsOf w s)) := by
  refine ⟨?_, ?_⟩
  · intro hops
    unfold CheckOverwriteFile
    rw [hops]
  · intro hops
    refine ⟨?_, ?_, ?_⟩
    · intro hd hf
      unfold CheckOverwriteFile
      rw [hops]
      dsimp only
      rw [if_pos (by simp [hd, hf])]
    · intro hd hnf hsz ht
      unfold CheckOverwriteFile
      rw [hops]
      dsimp only
      rw [hlk]
      dsimp only
      rw [if_neg (by simp [hd]), if_pos (by simp [hd, hnf, hsz, ht])]
    · intro hreq
      obtain ⟨p1, n1, he, k1, k2, k3, k4, k5⟩ :=
        checkOverwriteFile_request_eq h s w pData rest found matched entry hops hlk hreq
      rw [he]
      dsimp only
      have hn := SendAsyncRequest_notifications s n1
        (w.setSocket s { w.sockets s with m_pCurOpData := p1 :: rest })
      have ho := SendAsyncRequest_ops s n1
        (w.setSocket s { w.sockets s with m_pCurOpData := p1 :: rest }) p1 rest (by simp)
      have hn2 : (w.setSocket s { w.sockets s with m_pCurOpData := p1 :: rest }).notifications =
          w.notifications := rfl
      have hn3 : (w.setSocket s
          { w.sockets s with m_pCurOpData := p1 :: rest }).nextAsyncRequestNumber =
          w.nextAsyncRequestNumber := rfl
      rw [hn2, hn3] at hn
      refine ⟨rfl, ?_, ?_, ?_, ?_, ?_⟩
      · rw [hn]; simp
      · rw [hn]
        simp [fileExistsSummary, k2, k3, k4]
      · rw [hn]
        simp [fileExistsCanResume, k5]
      · rw [ho]; simp
      · unfold addrsOf
        rw [ho]
        unfold opsOf
        rw [hops]
        simp [k1]

theorem c34_check_overwrite_witness :
    CheckOverwriteFile idleHooks 0 demoCwd = (FZ_REPLY_OK, demoCwd) ∧
    spec_resume_size_known demoS3Frame = true ∧
    (CheckOverwriteFile idleHooks 0 demoS3World).1 = FZ_REPLY_WOULDBLOCK ∧
    (CheckOverwriteFile idleHooks 0 demoS3World).2.notifications.dropLast =
      demoS3World.notifications ∧
    (CheckOverwriteFile idleHooks 0 demoS3World).2.notifications.getLast?.bind
      fileExistsSummary = some (false, "old.txt", 5, 2) ∧
    (CheckOverwriteFile idleHooks 0 demoS3World).2.notifications.getLast?.bind
      fileExistsCanResume = some (spec_resume_size_known demoS3Frame) :=
  ⟨((c34_check_overwrite idleHooks 0 demoCwd { addr := 1, opId := Command.other 0 }
      [{ addr := 2, opId := Command.transfer }] false false {} rfl).2 rfl).2.1
      rfl rfl (by decide) rfl,
    by decide,
    (((c34_check_overwrite idleHooks 0 demoS3World demoS3Frame [] false false {} rfl).2
      rfl).2.2 (Or.inr ⟨rfl, Or.inr (Or.inl (by decide))⟩)).1,
    by decide, by decide, by decide⟩

/-! ## Deferred invalidation of the working directory (C35) -/

theorem setSocket_path (w : World) (s : SocketId) (x : CControlSocket)
    (hx : pathOf x = pathOf (w.sockets s)) :
    pathOf ((w.setSocket s x).sockets s) = pathOf (w.sockets s) := by
  simp [hx]

theorem LogMessage_path (s : SocketId) (t : MessageType) (m : String) (w : World) :
    pathOf ((LogMessage s t m w).sockets s) = pathOf (w.sockets s) :=
  setSocket_path _ _ _ rfl

theorem SendDirectoryListingNotification_path (s : SocketId) (p : CServerPath)
    (a b : Bool) (w : World) :
    pathOf ((SendDirectoryListingNotification s p a b w).sockets s) = pathOf (w.sockets s) := by
  unfold SendDirectoryListingNotification
  split_ifs <;> rfl

theorem LogTransferResultMessage_path (h : Hooks) (s : SocketId) (code : Nat)
    (op : COpData) (w : World) :
    pathOf ((LogTransferResultMessage h s code op w).sockets s) = pathOf (w.sockets s) := by
  unfold LogTransferResultMessage
  split_ifs <;> exact LogMessage_path _ _ _ _

theorem resetRootMessages_path (h : Hooks) (s : SocketId) (code : Nat) (pfx : String)
    (cur : COpData) (w : World) :
    pathOf ((resetRootMessages h s code pfx cur w).sockets s) = pathOf (w.sockets s) := by
  unfold resetRootMessages
  cases cur.opId with
  | none =>
    dsimp only
    split_ifs <;> first | exact LogMessage_path _ _ _ _ | rfl
  | connect =>
    dsimp only
    split_ifs <;> first | exact LogMessage_path _ _ _ _ | rfl
  | list =>
    dsimp only
    split_ifs <;> exact LogMessage_path _ _ _ _
  | transfer =>
    dsimp only
    rw [LogTransferResultMessage_path]
    split_ifs <;> first | rfl | exact SendDirectoryListingNotification_path _ _ _ _ _
  | other n =>
    dsimp only
    split_ifs <;> first | exact LogMessage_path _ _ _ _ | rfl

/-- The root part of a reset applies the deferred invalidation: the flag is clear afterwards,
and the working directory is empty if the flag was set and untouched otherwise. -/
theorem resetRoot_path (h : Hooks) (s : SocketId) (code : Nat) (w : World) :
    pathOf ((resetRoot h s code w).2.sockets s) =
      (if (w.sockets s).m_invalidateCurrentPath then none else (w.sockets s).m_CurrentPath,
        false) := by
  have key : ∀ w1 : World, pathOf (w1.sockets s) = pathOf (w.sockets s) →
      pathOf ((let w2 := SetWait s false w1
        if ((w2.sockets s).m_invalidateCurrentPath) = true then
          w2.setSocket s
            { w2.sockets s with m_CurrentPath := none, m_invalidateCurrentPath := false }
        else w2).sockets s) =
      (if (w.sockets s).m_invalidateCurrentPath then none else (w.sockets s).m_CurrentPath,
        false) := by
    intro w1 h1
    have hs : pathOf ((SetWait s false w1).sockets s) = pathOf (w.sockets s) := by
      rw [← h1]
      unfold SetWait
      exact setSocket_path _ _ _ rfl
    have hs1 : ((SetWait s false w1).sockets s).m_invalidateCurrentPath =
        (w.sockets s).m_invalidateCurrentPath := congrArg Prod.snd hs
    have hs2 : ((SetWait s false w1).sockets s).m_CurrentPath = (w.sockets s).m_CurrentPath :=
      congrArg Prod.fst hs
    dsimp only
    rw [hs1]
    cases hf : (w.sockets s).m_invalidateCurrentPath with
    | true => simp [pathOf]
    | false => simp [pathOf, hs1, hs2, hf]
  unfold resetRoot
  dsimp only
  cases hops : (w.sockets s).m_pCurOpData with
  | nil => exact key w rfl
  | cons cur rest =>
    dsimp only
    apply key
    refine Eq.trans (setSocket_path _ _ _ rfl) ?_
    unfold deleteOpData
    refine Eq.trans (setSocket_path _ _ _ rfl) ?_
    exact resetRootMessages_path _ _ _ _ _ _

theorem unlockIfHolds_path (s : SocketId) (w : World) :
    pathOf ((unlockIfHolds s w).sockets s) = pathOf (w.sockets s) := by
  rw [unlockIfHolds_socket_self]
  rfl

/-- A reset that reaches the root applies the deferred invalidation. -/
theorem exec_reset_propagating_path (h : Hooks) (s : SocketId) (code : Nat)
    (hcode : isSubcommandCode code = false) :
    ∀ (fuel : Nat) (w : World) (r : Nat) (w1 : World),
      exec h s fuel (Call.ResetOperation code) w = some (r, w1) →
      pathOf (w1.sockets s) =
        (if (w.sockets s).m_invalidateCurrentPath then none else (w.sockets s).m_CurrentPath,
          false) := by
  intro fuel
  induction fuel with
  | zero => intro w r w1 he; simp [exec] at he
  | succ f ih =>
    intro w r w1 he
    have hu := unlockIfHolds_path s w
    have hu1 : ((unlockIfHolds s w).sockets s).m_invalidateCurrentPath =
        (w.sockets s).m_invalidateCurrentPath := congrArg Prod.snd hu
    have hu2 : ((unlockIfHolds s w).sockets s).m_CurrentPath = (w.sockets s).m_CurrentPath :=
      congrArg Prod.fst hu
    have hroot : (opsOf (unlockIfHolds s w) s).length ≤ 1 →
        pathOf (w1.sockets s) =
          (if (w.sockets s).m_invalidateCurrentPath then none
            else (w.sockets s).m_CurrentPath, false) := by
      intro hlen
      rw [exec_reset_root h s f code w hlen] at he
      simp only [Option.some.injEq] at he
      have hr := resetRoot_path h s code (unlockIfHolds s w)
      rw [he, hu1, hu2] at hr
      exact hr
    cases hops : opsOf (unlockIfHolds s w) s with
    | nil => exact hroot (by rw [hops]; simp)
    | cons old rest =>
      cases rest with
      | nil => exact hroot (by rw [hops]; simp)
      | cons parent rest =>
        rw [exec_reset_pop h s f code w old parent rest hops, if_neg (by simp [hcode])] at he
        cases he2 : exec h s f (Call.ResetOperation code)
            ((unlockIfHolds s w).setSocket s
              { (unlockIfHolds s w).sockets s with m_pCurOpData := parent :: rest }) with
        | none => rw [he2] at he; simp at he
        | some p =>
          obtain ⟨ret, w3⟩ := p
          rw [he2] at he
          simp only [Option.some.injEq, Prod.mk.injEq] at he
          have k := ih _ _ _ he2
          rw [← he.2]
          unfold deleteOpData
          refine Eq.trans (setSocket_path _ _ _ rfl) ?_
          rw [k]
          simp [hu1, hu2]

/-- The reset of a sub-operation whose parent carries on: the frame is popped and deleted,
the parent's `SubcommandResult` answers `FZ_REPLY_WOULDBLOCK`, and the working directory and
its flag stay as they were. -/
theorem exec_reset_sub_parked (h : Hooks) (s : SocketId) (fuel code : Nat) (w : World)
    (old parent : COpData) (rest : List COpData)
    (hops : opsOf w s = old :: parent :: rest) (hcode : isSubcommandCode code = true)
    (hkeep : HooksKeepPath h s)
    (hpark : ∀ (prev : Nat) (op : COpData) (w1 : World),
      (h.SubcommandResult s prev op w1).1 = FZ_REPLY_WOULDBLOCK) :
    (exec h s (fuel + 2) (Call.ResetOperation code) w).map
        (fun r => (r.1, pathOf (r.2.sockets s))) =
      some (FZ_REPLY_WOULDBLOCK, pathOf (w.sockets s)) := by
  have hu : opsOf (unlockIfHolds s w) s =
      { old with holdsLock_ := false } :: parent :: rest := by
    rw [unlockIfHolds_ops, hops]
    rfl
  rw [exec_reset_pop h s (fuel + 1) code w _ parent rest hu, if_pos hcode]
  have hp : exec h s (fuel + 1)
      (Call.ParseSubcommandResult code { old with holdsLock_ := false })
      ((unlockIfHolds s w).setSocket s
        { (unlockIfHolds s w).sockets s with m_pCurOpData := parent :: rest }) =
      some (FZ_REPLY_WOULDBLOCK,
        (h.SubcommandResult s code { old with holdsLock_ := false }
          (countSubcommandResult s ((unlockIfHolds s w).setSocket s
            { (unlockIfHolds s w).sockets s with m_pCurOpData := parent :: rest }))).2) := by
    rw [exec]
    simp only [setSocket_sockets_self]
    rw [if_pos (hpark _ _ _)]
  rw [hp]
  simp only [Option.map_some', Option.some.injEq, Prod.mk.injEq, true_and]
  unfold deleteOpData
  refine Eq.trans (setSocket_path _ _ _ rfl) ?_
  rw [hkeep]
  unfold countSubcommandResult
  refine Eq.trans (setSocket_path _ _ _ rfl) ?_
  refine Eq.trans (setSocket_path _ _ _ rfl) ?_
  exact unlockIfHolds_path s w

/-- Claim C35. `InvalidateCurrentWorkingDir(path)` changes nothing when the current path is
empty or neither equals `path` nor lies beneath it. Otherwise: with no operation in flight
it clears the current path at once; with an operation in flight it only sets
`m_invalidateCurrentPath`, and afterwards the reset of a sub-operation whose parent carries
on leaves path and flag as they are, while a `ResetOperation` that reaches the root (a
single frame, or a propagated code through the whole stack) clears the path and resets the
flag. -/
theorem c35_invalidate_current_working_dir (h : Hooks) (s : SocketId) (path : CServerPath)
    (w : World) :
    (((w.sockets s).m_CurrentPath = none ∨
        ((w.sockets s).m_CurrentPath ≠ path ∧
          IsParentOf path (w.sockets s).m_CurrentPath = false)) →
      InvalidateCurrentWorkingDir s path w = w) ∧
    (((w.sockets s).m_CurrentPath ≠ none ∧
        ((w.sockets s).m_CurrentPath = path ∨
          IsParentOf path (w.sockets s).m_CurrentPath = true)) →
      (opsOf w s = [] →
        InvalidateCurrentWorkingDir s path w =
          w.setSocket s { w.sockets s with m_CurrentPath := none }) ∧
      (opsOf w s ≠ [] →
        InvalidateCurrentWorkingDir s path w =
          w.setSocket s { w.sockets s with m_invalidateCurrentPath := true } ∧
        (∀ (fuel code : Nat) (old parent : COpData) (rest : List COpData),
          opsOf w s = old :: parent :: rest → isSubcommandCode code = true →
          HooksKeepPath h s →
          (∀ (prev : Nat) (op : COpData) (w1 : World),
            (h.SubcommandResult s prev op w1).1 = FZ_REPLY_WOULDBLOCK) →
          (ResetOperation h s (fuel + 2) code (InvalidateCurrentWorkingDir s path w)).map
              (fun r => (r.1, pathOf (r.2.sockets s))) =
            some (FZ_REPLY_WOULDBLOCK, ((w.sockets s).m_CurrentPath, true))) ∧
        (∀ (fuel code : Nat), (opsOf w s).length = 1 →
          (ResetOperation h s (fuel + 1) code (InvalidateCurrentWorkingDir s path w)).map
              (fun r => pathOf (r.2.sockets s)) = some (none, false)) ∧
        (∀ (fuel code : Nat), isSubcommandCode code = false → (opsOf w s).length < fuel →
          (ResetOperation h s fuel code (InvalidateCurrentWorkingDir s path w)).map
              (fun r => pathOf (r.2.sockets s)) = some (none, false)))) := by
  refine ⟨?_, ?_⟩
  · intro hno
    unfold InvalidateCurrentWorkingDir
    rcases hno with h0 | ⟨h1, h2⟩
    · rw [if_pos (by rw [h0]; rfl)]
    · by_cases h0 : (w.sockets s).m_CurrentPath.isNone = true
      · rw [if_pos h0]
      · rw [if_neg h0, if_neg (by simp [h1, h2])]
  · intro hyes
    obtain ⟨hne, hm⟩ := hyes
    have h0 : ¬ ((w.sockets s).m_CurrentPath.isNone = true) := by
      cases hp : (w.sockets s).m_CurrentPath with
      | none => exact absurd hp hne
      | some c => simp
    have hcond : (decide ((w.sockets s).m_CurrentPath = path) ||
        IsParentOf path (w.sockets s).m_CurrentPath) = true := by
      rcases hm with h1 | h1
      · simp [h1]
      · simp [h1]
    refine ⟨?_, ?_⟩
    · intro hops
      unfold opsOf at hops
      unfold InvalidateCurrentWorkingDir
      rw [if_neg h0, if_pos hcond, hops]
    · intro hops
      have hI : InvalidateCurrentWorkingDir s path w =
          w.setSocket s { w.sockets s with m_invalidateCurrentPath := true } := by
        unfold opsOf at hops
        unfold InvalidateCurrentWorkingDir
        rw [if_neg h0, if_pos hcond]
        cases hl : (w.sockets s).m_pCurOpData with
        | nil => exact absurd hl hops
        | cons a t => rfl
      have hIops : opsOf (InvalidateCurrentWorkingDir s path w) s = opsOf w s := by
        rw [hI]
        simp [opsOf]
      have hIpath : pathOf ((InvalidateCurrentWorkingDir s path w).sockets s) =
          ((w.sockets s).m_CurrentPath, true) := by
        rw [hI]
        simp [pathOf]
      have hIflag : ((InvalidateCurrentWorkingDir s path w).sockets s).m_invalidateCurrentPath
          = true := congrArg Prod.snd hIpath
      refine ⟨hI, ?_, ?_, ?_⟩
      · intro fuel code old parent rest hst hcode hkeep hpark
        have := exec_reset_sub_parked h s fuel code (InvalidateCurrentWorkingDir s path w)
          old parent rest (by rw [hIops]; exact hst) hcode hkeep hpark
        rw [hIpath] at this
        exact this
      · intro fuel code hlen
        unfold ResetOperation
        rw [exec_reset_root h s fuel code _
          (by rw [unlockIfHolds_ops, clearTop_length, hIops, hlen])]
        simp only [Option.map_some', Option.some.injEq]
        rw [resetRoot_path]
        have hu := unlockIfHolds_path s (InvalidateCurrentWorkingDir s path w)
        have hu1 : ((unlockIfHolds s (InvalidateCurrentWorkingDir s path w)).sockets
            s).m_invalidateCurrentPath = true := by
          rw [← hIflag]
          exact congrArg Prod.snd hu
        rw [hu1]
        rfl
      · intro fuel code hcode hlen
        obtain ⟨w1, he, _, _⟩ := exec_reset_propagating h s code hcode (opsOf w s).length
          (InvalidateCurrentWorkingDir s path w) fuel (by rw [hIops]) hlen
        unfold ResetOperation
        have hp := exec_reset_propagating_path h s code hcode fuel _ _ _ he
        rw [he]
        simp only [Option.map_some', Option.some.injEq]
        rw [hp, hIflag]
        rfl

theorem c35_invalidate_current_working_dir_witness :
    InvalidateCurrentWorkingDir 0 (some ["etc"]) demoCwd = demoCwd ∧
    pathOf ((InvalidateCurrentWorkingDir 0 (some ["home"]) demoCwdIdle).sockets 0) =
      (none, false) ∧
    pathOf ((InvalidateCurrentWorkingDir 0 (some ["home"]) demoCwd).sockets 0) =
      (some ["home", "user"], true) ∧
    (ResetOperation parkingHooks 0 2 FZ_REPLY_OK
        (InvalidateCurrentWorkingDir 0 (some ["home"]) demoCwd)).map
      (fun r => (r.1, pathOf (r.2.sockets 0))) =
      some (FZ_REPLY_WOULDBLOCK, ((demoCwd.sockets 0).m_CurrentPath, true)) ∧
    (ResetOperation parkingHooks 0 3 FZ_REPLY_CANCELED
        (InvalidateCurrentWorkingDir 0 (some ["home"]) demoCwd)).map
      (fun r => pathOf (r.2.sockets 0)) = some (none, false) :=
  ⟨(c35_invalidate_current_working_dir parkingHooks 0 (some ["etc"]) demoCwd).1
      (Or.inr ⟨by decide, by decide⟩),
    by decide, by decide,
    (((c35_invalidate_current_working_dir parkingHooks 0 (some ["home"]) demoCwd).2
      ⟨by decide, Or.inr (by decide)⟩).2 (by decide)).2.1 0 FZ_REPLY_OK
      { addr := 1, opId := Command.other 0 } { addr := 2, opId := Command.transfer } []
      rfl (by decide) (fun _ _ _ => rfl) (fun _ _ _ => rfl),
    (((c35_invalidate_current_working_dir parkingHooks 0 (some ["home"]) demoCwd).2
      ⟨by decide, Or.inr (by decide)⟩).2 (by decide)).2.2.2 3 FZ_REPLY_CANCELED
      (by decide) (by decide)⟩

/-! ## The path of a PWD reply (C36) -/

theorem wfind_none (c : Char) (l : List Char) (h : c ∉ l) : wstring.find c l = none := by
  induction l with
  | nil => rfl
  | cons x xs ih =>
    have hx : ¬ x = c := fun e => h (by rw [e]; exact List.mem_cons_self _ _)
    have hxs : c ∉ xs := fun m => h (List.mem_cons_of_mem _ m)
    simp [wstring.find, hx, ih hxs]

theorem wfind_split (c : Char) (a t : List Char) (h : c ∉ a) :
    wstring.find c (a ++ c :: t) = some a.length := by
  induction a with
  | nil => simp [wstring.find]
  | cons x xs ih =>
    have hx : ¬ x = c := fun e => h (by rw [e]; exact List.mem_cons_self _ _)
    have hxs : c ∉ xs := fun m => h (List.mem_cons_of_mem _ m)
    simp [wstring.find, hx, ih hxs]

theorem wrfind_none (c : Char) (l : List Char) (h : c ∉ l) : wstring.rfind c l = none := by
  induction l with
  | nil => rfl
  | cons x xs ih =>
    have hx : ¬ x = c := fun e => h (by rw [e]; exact List.mem_cons_self _ _)
    have hxs : c ∉ xs := fun m => h (List.mem_cons_of_mem _ m)
    simp [wstring.rfind, hx, ih hxs]

theorem wrfind_split (c : Char) (a b : List Char) (h : c ∉ b) :
    wstring.rfind c (a ++ c :: b) = some a.length := by
  induction a with
  | nil => simp [wstring.rfind, wrfind_none c b h]
  | cons x xs ih => simp [wstring.rfind, ih]

theorem split_first (c : Char) (l : List Char) (h : c ∈ l) :
    ∃ a t, l = a ++ c :: t ∧ c ∉ a := by
  induction l with
  | nil => simp at h
  | cons x xs ih =>
    by_cases hx : x = c
    · exact ⟨[], xs, by simp [hx], by simp⟩
    · have hm : c ∈ xs := by
        rcases List.mem_cons.mp h with e | m
        · exact absurd e.symm hx
        · exact m
      obtain ⟨a, t, hl, ha⟩ := ih hm
      refine ⟨x :: a, t, by simp [hl], ?_⟩
      intro hc
      rcases List.mem_cons.mp hc with e | m
      · exact hx e.symm
      · exact ha m

theorem split_last (c : Char) (l : List Char) (h : c ∈ l) :
    ∃ a b, l = a ++ c :: b ∧ c ∉ b := by
  induction l with
  | nil => simp at h
  | cons x xs ih =>
    by_cases hm : c ∈ xs
    · obtain ⟨a, b, hl, hb⟩ := ih hm
      exact ⟨x :: a, b, by simp [hl], hb⟩
    · have hx : x = c := by
        rcases List.mem_cons.mp h with e | m
        · exact e.symm
        · exact absurd m hm
      exact ⟨[], xs, by simp [hx], hm⟩

theorem dropWhile_ne_split (c : Char) (a t : List Char) (h : c ∉ a) :
    (a ++ c :: t).dropWhile (fun x => x != c) = c :: t := by
  induction a with
  | nil => simp [List.dropWhile]
  | cons x xs ih =>
    have hx : ¬ x = c := fun e => h (by rw [e]; exact List.mem_cons_self _ _)
    have hxs : c ∉ xs := fun m => h (List.mem_cons_of_mem _ m)
    have hb : (x != c) = true := by simp [hx]
    simp only [List.cons_append, List.dropWhile_cons, hb, if_true]
    simpa using ih hxs

theorem dropWhile_ne_none (c : Char) (l : List Char) (h : c ∉ l) :
    l.dropWhile (fun x => x != c) = [] := by
  induction l with
  | nil => rfl
  | cons x xs ih =>
    have hx : ¬ x = c := fun e => h (by rw [e]; exact List.mem_cons_self _ _)
    have hxs : c ∉ xs := fun m => h (List.mem_cons_of_mem _ m)
    have hb : (x != c) = true := by simp [hx]
    simp only [List.cons_append, List.dropWhile_cons, hb, if_true]
    simpa using ih hxs

theorem takeWhile_ne_split (c : Char) (a t : List Char) (h : c ∉ a) :
    (a ++ c :: t).takeWhile (fun x => x != c) = a := by
  induction a with
  | nil => simp [List.takeWhile]
  | cons x xs ih =>
    have hx : ¬ x = c := fun e => h (by rw [e]; exact List.mem_cons_self _ _)
    have hxs : c ∉ xs := fun m => h (List.mem_cons_of_mem _ m)
    have hb : (x != c) = true := by simp [hx]
    simp only [List.cons_append, List.takeWhile_cons, hb, if_true]
    simpa using ih hxs

theorem takeWhile_ne_none (c : Char) (l : List Char) (h : c ∉ l) :
    l.takeWhile (fun x => x != c) = l := by
  induction l with
  | nil => rfl
  | cons x xs ih =>
    have hx : ¬ x = c := fun e => h (by rw [e]; exact List.mem_cons_self _ _)
    have hxs : c ∉ xs := fun m => h (List.mem_cons_of_mem _ m)
    have hb : (x != c) = true := by simp [hx]
    simp only [List.cons_append, List.takeWhile_cons, hb, if_true]
    simpa using ih hxs

theorem after_first_split (c : Char) (a t : List Char) (h : c ∉ a) :
    spec_after_first c (a ++ c :: t) = t := by
  unfold spec_after_first
  rw [dropWhile_ne_split c a t h]
  rfl

theorem after_first_none (c : Char) (l : List Char) (h : c ∉ l) :
    spec_after_first c l = [] := by
  unfold spec_after_first
  rw [dropWhile_ne_none c l h]
  rfl

theorem before_last_split (c : Char) (a b : List Char) (h : c ∉ b) :
    spec_before_last c (a ++ c :: b) = a := by
  unfold spec_before_last
  have hr : (a ++ c :: b).reverse = b.reverse ++ c :: a.reverse := by simp
  rw [hr, dropWhile_ne_split c b.reverse a.reverse (by simpa using h)]
  simp

theorem count_of_not_mem (c : Char) (l : List Char) (h : c ∉ l) : l.count c = 0 :=
  List.count_eq_zero_of_not_mem h

theorem quote_cases (c : Char) (l : List Char) :
    (noQuotePair (wstring.find c l) (wstring.rfind c l) = true ∧ l.count c < 2) ∨
    (noQuotePair (wstring.find c l) (wstring.rfind c l) = false ∧ 2 ≤ l.count c ∧
      wstring.substr l ((wstring.find c l).getD 0 + 1)
        ((wstring.rfind c l).getD 0 - (wstring.find c l).getD 0 - 1) = spec_between c l) := by
  by_cases hm : c ∈ l
  · obtain ⟨a, t, hl, ha⟩ := split_first c l hm
    by_cases hm2 : c ∈ t
    · obtain ⟨m, b, ht, hb⟩ := split_last c t hm2
      right
      subst ht
      subst hl
      have hf := wfind_split c a (m ++ c :: b) ha
      have hr : wstring.rfind c (a ++ c :: (m ++ c :: b)) = some (a.length + 1 + m.length) := by
        have e : a ++ c :: (m ++ c :: b) = (a ++ c :: m) ++ c :: b := by simp
        rw [e, wrfind_split c (a ++ c :: m) b hb]
        simp only [List.length_append, List.length_cons, Option.some.injEq]
        omega
      rw [hf, hr]
      refine ⟨?_, ?_, ?_⟩
      · simp only [noQuotePair, decide_eq_false_iff_not]
        omega
      · simp only [List.count_append, List.count_cons_self]
        omega
      · unfold wstring.substr spec_between
        rw [after_first_split c a _ ha, before_last_split c m b hb]
        have hd : (a ++ c :: (m ++ c :: b)).drop (a.length + 1) = m ++ c :: b := by
          have e : a ++ c :: (m ++ c :: b) = (a ++ [c]) ++ (m ++ c :: b) := by simp
          rw [e]
          exact List.drop_left' (by simp)
        simp only [Option.getD_some]
        rw [hd]
        have hn : a.length + 1 + m.length - a.length - 1 = m.length := by omega
        rw [hn]
        exact List.take_left' rfl
    · left
      subst hl
      rw [wfind_split c a t ha, wrfind_split c a t hm2]
      refine ⟨by simp [noQuotePair], ?_⟩
      simp only [List.count_append, List.count_cons_self, count_of_not_mem c a ha,
        count_of_not_mem c t hm2]
      omega
  · left
    rw [wfind_none c l hm, wrfind_none c l hm, count_of_not_mem c l hm]
    exact ⟨rfl, by omega⟩

theorem replace_noop (c : Char) (l : List Char) (h : l.count c < 2) :
    replace_substrings l [c, c] [c] = l := by
  unfold replace_substrings
  induction l with
  | nil => rfl
  | cons x xs ih =>
    have hxs : xs.count c < 2 := by
      have := List.count_le_count_cons c x xs
      omega
    have hno : ¬ (([c, c] : List Char) ≠ [] ∧ ([c, c] : List Char).isPrefixOf (x :: xs) = true) := by
      rintro ⟨_, hp⟩
      cases xs with
      | nil => simp [List.isPrefixOf] at hp
      | cons y ys =>
        simp only [List.isPrefixOf, Bool.and_eq_true, beq_iff_eq, Bool.and_true] at hp
        obtain ⟨h1, h2⟩ := hp
        rw [← h1, ← h2] at h
        simp only [List.count_cons_self] at h
        omega
    rw [replace_substrings.go, if_neg hno, ih hxs]

theorem count_substr_le (c : Char) (l : List Char) (i n : Nat) :
    (wstring.substr l i n).count c ≤ l.count c := by
  unfold wstring.substr
  exact (((List.take_sublist n _).trans (List.drop_sublist i l)).count_le c)

/-- The text that the code takes from a reply is the text that the spec describes. -/
theorem extract_eq_spec (reply : List Char) :
    ParsePwdReply.extract reply = spec_pwd_path reply := by
  unfold ParsePwdReply.extract spec_pwd_path
  dsimp only
  rcases quote_cases DQUOTE reply with ⟨hd, hcd⟩ | ⟨hd, hcd, hsub⟩
  · rw [if_pos hd]
    dsimp only
    rw [if_neg (show ¬ 2 ≤ reply.count DQUOTE by omega)]
    rcases quote_cases SQUOTE reply with ⟨hs, hcs⟩ | ⟨hs, hcs, hsub⟩
    · rw [if_pos hs, if_neg (show ¬ 2 ≤ reply.count SQUOTE by omega)]
      by_cases hm : SPACE ∈ reply
      · obtain ⟨a, t, hl, ha⟩ := split_first SPACE reply hm
        subst hl
        rw [wfind_split SPACE a t ha, after_first_split SPACE a t ha]
        dsimp only
        have hdrop : (a ++ SPACE :: t).drop (a.length + 1) = t := by
          have e : a ++ SPACE :: t = (a ++ [SPACE]) ++ t := by simp
          rw [e]
          exact List.drop_left' (by simp)
        rw [hdrop]
        by_cases hm2 : SPACE ∈ t
        · obtain ⟨a2, t2, hl2, ha2⟩ := split_first SPACE t hm2
          subst hl2
          rw [wfind_split SPACE a2 t2 ha2, takeWhile_ne_split SPACE a2 t2 ha2]
          unfold wstring.substr
          simp only [List.drop_zero]
          exact List.take_left' rfl
        · rw [wfind_none SPACE t hm2, takeWhile_ne_none SPACE t hm2]
      · rw [wfind_none SPACE reply hm, after_first_none SPACE reply hm]
        rfl
    · have hs1 : ¬ (noQuotePair (wstring.find SQUOTE reply) (wstring.rfind SQUOTE reply) = true) := by
        rw [hs]; simp
      rw [if_neg hs1, if_pos hcs, hsub]
      apply replace_noop
      have := count_substr_le DQUOTE reply ((wstring.find SQUOTE reply).getD 0 + 1)
        ((wstring.rfind SQUOTE reply).getD 0 - (wstring.find SQUOTE reply).getD 0 - 1)
      rw [hsub] at this
      omega
  · have hd1 : ¬ (noQuotePair (wstring.find DQUOTE reply) (wstring.rfind DQUOTE reply) = true) := by
      rw [hd]; simp
    rw [if_neg hd1]
    dsimp only
    rw [if_neg hd1, if_pos hcd, hsub]

theorem LogMessage_currentPath (s : SocketId) (t : MessageType) (m : String) (w : World) :
    ((LogMessage s t m w).sockets s).m_CurrentPath = (w.sockets s).m_CurrentPath := by
  unfold LogMessage
  simp

/-- The function `ParsePwdReply` on a quoted reply, in terms of the text it takes from the
reply: the three outcomes. -/
theorem parsePwdReply_cases (SetPath : CServer → List Char → Bool × CServerPath)
    (s : SocketId) (reply : List Char) (defaultPath : CServerPath) (w : World) :
    ((ParsePwdReply.extract reply = [] ∨
        (SetPath (w.sockets s).currentServer_ (ParsePwdReply.extract reply)).1 = false) →
      (defaultPath = none →
        (ParsePwdReply SetPath s reply false defaultPath w).1 = false) ∧
      (defaultPath ≠ none →
        (ParsePwdReply SetPath s reply false defaultPath w).1 = true ∧
        ((ParsePwdReply SetPath s reply false defaultPath w).2.sockets s).m_CurrentPath =
          defaultPath)) ∧
    (ParsePwdReply.extract reply ≠ [] →
      (SetPath (w.sockets s).currentServer_ (ParsePwdReply.extract reply)).1 = true →
      (ParsePwdReply SetPath s reply false defaultPath w).1 = true ∧
      ((ParsePwdReply SetPath s reply false defaultPath w).2.sockets s).m_CurrentPath =
        (SetPath (w.sockets s).currentServer_ (ParsePwdReply.extract reply)).2) := by
  unfold ParsePwdReply
  simp only [Bool.not_false, if_true]
  generalize ParsePwdReply.extract reply = t
  have hfail : ∀ (p : Bool × World), p.1 = false →
      (defaultPath = none →
        (if (!p.1) = true then
          if defaultPath.isSome = true then
            (true, (if t.isEmpty = true then
                LogMessage s MessageType.Error "Server returned empty path." p.2
              else LogMessage s MessageType.Error "Failed to parse returned path." p.2).setSocket s
              { (if t.isEmpty = true then
                  LogMessage s MessageType.Error "Server returned empty path." p.2
                else LogMessage s MessageType.Error "Failed to parse returned path."
                  p.2).sockets s with m_CurrentPath := defaultPath })
          else (false, if t.isEmpty = true then
              LogMessage s MessageType.Error "Server returned empty path." p.2
            else LogMessage s MessageType.Error "Failed to parse returned path." p.2)
        else (true, p.2)).1 = false) ∧
      (defaultPath ≠ none →
        (if (!p.1) = true then
          if defaultPath.isSome = true then
            (true, (if t.isEmpty = true then
                LogMessage s MessageType.Error "Server returned empty path." p.2
              else LogMessage s MessageType.Error "Failed to parse returned path." p.2).setSocket s
              { (if t.isEmpty = true then
                  LogMessage s MessageType.Error "Server returned empty path." p.2
                else LogMessage s MessageType.Error "Failed to parse returned path."
                  p.2).sockets s with m_CurrentPath := defaultPath })
          else (false, if t.isEmpty = true then
              LogMessage s MessageType.Error "Server returned empty path." p.2
            else LogMessage s MessageType.Error "Failed to parse returned path." p.2)
        else (true, p.2)).1 = true ∧
        ((if (!p.1) = true then
          if defaultPath.isSome = true then
            (true, (if t.isEmpty = true then
                LogMessage s MessageType.Error "Server returned empty path." p.2
              else LogMessage s MessageType.Error "Failed to parse returned path." p.2).setSocket s
              { (if t.isEmpty = true then
                  LogMessage s MessageType.Error "Server returned empty path." p.2
                else LogMessage s MessageType.Error "Failed to parse returned path."
                  p.2).sockets s with m_CurrentPath := defaultPath })
          else (false, if t.isEmpty = true then
              LogMessage s MessageType.Error "Server returned empty path." p.2
            else LogMessage s MessageType.Error "Failed to parse returned path." p.2)
        else (true, p.2)).2.sockets s).m_CurrentPath = defaultPath) := by
    intro p hp
    rw [if_pos (by simp [hp])]
    refine ⟨?_, ?_⟩
    · intro hd
      rw [if_neg (by simp [hd])]
    · intro hd
      have hs : defaultPath.isSome = true := by
        cases defaultPath with
        | none => exact absurd rfl hd
        | some v => rfl
      rw [if_pos hs]
      exact ⟨rfl, by simp⟩
  refine ⟨?_, ?_⟩
  · intro hf
    apply hfail
    cases t with
    | nil => rfl
    | cons x xs =>
      rcases hf with h0 | h0
      · simp at h0
      · simpa using h0
  · intro hne hok
    cases t with
    | nil => exact absurd rfl hne
    | cons x xs =>
      simp [hok]

/-- Claim C36. For a reply parsed with `unquoted = false`, the text that `ParsePwdReply`
takes from it is the text between the first and the last double quote when the reply has
two of them, doubled quotes collapsed; else the text between the first and the last single
quote when it has two of them; else the text from behind the first space up to the second
space (up to the end when there is none), empty when the reply has no space. When this text
is empty or `SetPath` rejects it, the function returns false if the default path is empty,
and otherwise makes the default path the current path and returns true; when `SetPath`
accepts the text, the function returns true with the parsed path as current path. -/
theorem c36_parse_pwd_reply (SetPath : CServer → List Char → Bool × CServerPath)
    (s : SocketId) (reply : List Char) (defaultPath : CServerPath) (w : World) :
    ParsePwdReply.extract reply = spec_pwd_path reply ∧
    ((spec_pwd_path reply = [] ∨
        (SetPath (w.sockets s).currentServer_ (spec_pwd_path reply)).1 = false) →
      (defaultPath = none →
        (ParsePwdReply SetPath s reply false defaultPath w).1 = false) ∧
      (defaultPath ≠ none →
        (ParsePwdReply SetPath s reply false defaultPath w).1 = true ∧
        ((ParsePwdReply SetPath s reply false defaultPath w).2.sockets s).m_CurrentPath =
          defaultPath)) ∧
    (spec_pwd_path reply ≠ [] →
      (SetPath (w.sockets s).currentServer_ (spec_pwd_path reply)).1 = true →
      (ParsePwdReply SetPath s reply false defaultPath w).1 = true ∧
      ((ParsePwdReply SetPath s reply false defaultPath w).2.sockets s).m_CurrentPath =
        (SetPath (w.sockets s).currentServer_ (spec_pwd_path reply)).2) := by
  have h := parsePwdReply_cases SetPath s reply defaultPath w
  rw [extract_eq_spec] at h
  exact ⟨extract_eq_spec reply, h⟩

theorem c36_parse_pwd_reply_witness :
    spec_pwd_path demoPwdReply = "/home/user".toList ∧
    spec_pwd_path "257 \"/a\"\"b\" ok".toList = "/a\"b".toList ∧
    spec_pwd_path "257 /srv/ftp is cwd".toList = "/srv/ftp".toList ∧
    ((ParsePwdReply demoSetPath 0 demoPwdReply false none demoCwdIdle).1 = true ∧
      ((ParsePwdReply demoSetPath 0 demoPwdReply false none demoCwdIdle).2.sockets
          0).m_CurrentPath =
        (demoSetPath (demoCwdIdle.sockets 0).currentServer_ (spec_pwd_path demoPwdReply)).2) ∧
    ((ParsePwdReply demoSetPath 0 demoPwdBare false (some ["x"]) demoCwdIdle).1 = true ∧
      ((ParsePwdReply demoSetPath 0 demoPwdBare false (some ["x"]) demoCwdIdle).2.sockets
          0).m_CurrentPath = some ["x"]) ∧
    (ParsePwdReply demoSetPath 0 demoPwdBare false none demoCwdIdle).1 = false :=
  ⟨by decide, by decide, by decide,
    (c36_parse_pwd_reply demoSetPath 0 demoPwdReply none demoCwdIdle).2.2
      (by decide) (by decide),
    ((c36_parse_pwd_reply demoSetPath 0 demoPwdBare (some ["x"]) demoCwdIdle).2.1
      (Or.inl (by decide))).2 (by decide),
    ((c36_parse_pwd_reply demoSetPath 0 demoPwdBare none demoCwdIdle).2.1
      (Or.inl (by decide))).1 rfl⟩

/-! ## Assignment of factory holders (C37) -/

theorem copyAssign_of_empty (this op : Nat) (m : HolderHeap) (hop : m.impl_ op = none) :
    writer_factory_holder.copyAssign this op m = m := by
  unfold writer_factory_holder.copyAssign
  rw [hop]

theorem copyAssign_of_factory (this op : Nat) (m : HolderHeap) (f : writer_factory)
    (hne : this ≠ op) (hop : m.impl_ op = some f) :
    (writer_factory_holder.copyAssign this op m).impl_ this =
      some { f with addr := m.nextAddr } ∧
    (writer_factory_holder.copyAssign this op m).impl_ op = some f := by
  unfold writer_factory_holder.copyAssign
  rw [hop]
  dsimp only
  rw [if_pos hne]
  unfold HolderHeap.setImpl writer_factory.clone
  have hne2 : ¬ op = this := fun h => hne h.symm
  simp [hne2, hop]

theorem moveAssign_of_ne (this op : Nat) (m : HolderHeap) (hne : this ≠ op) :
    (writer_factory_holder.moveAssign this op m).impl_ this = m.impl_ op ∧
    (writer_factory_holder.moveAssign this op m).impl_ op = none := by
  unfold writer_factory_holder.moveAssign
  rw [if_pos hne]
  unfold HolderHeap.setImpl
  simp [hne]

/-- Claim C37, the failing input evaluated. The holder at address 1 owns a factory and the
holder at address 2 is empty. After the copy assignment of holder 2 to holder 1 the
destination still owns its old factory, so it is not empty although the source is; nothing
has been destroyed. The move assignment on the same input empties the destination, and the
copy assignment from the non-empty holder 1 to holder 2 stores a clone. -/
theorem c37_copy_assign_from_empty_holder :
    demoHolders.impl_ 2 = none ∧
    (writer_factory_holder.copyAssign 1 2 demoHolders).impl_ 1 =
      some { addr := 10, kind := writer_kind.file_writer, name_ := "a.txt", fsync_ := true } ∧
    (writer_factory_holder.copyAssign 1 2 demoHolders).impl_ 2 = none ∧
    (writer_factory_holder.copyAssign 1 2 demoHolders).freed = [] ∧
    (writer_factory_holder.moveAssign 1 2 demoHolders).impl_ 1 = none ∧
    (writer_factory_holder.moveAssign 1 2 demoHolders).freed = [10] ∧
    (writer_factory_holder.copyAssign 2 1 demoHolders).impl_ 2 =
      some { addr := 11, kind := writer_kind.file_writer, name_ := "a.txt", fsync_ := true } := by
  refine ⟨by decide, by decide, by decide, by decide, by decide, by decide, by decide⟩

end FZ
